import Mathlib

/-!
ADSREcho: module slots, chain engine and fractional delay line.

A shallow embedding of the parts of the ADSREcho plug-in that its specification
makes claims about:

* `ModuleSlot` (`Source/Modular Classes/ModuleSlot.h`), the hot-swap holder of one
  effect module;
* the chain engine of `ADSREchoAudioProcessor` (`Source/PluginProcessor.cpp`);
* `DelayLineWithSampleAccess` and `Allpass` (`Source/Reverb Algorithms/CustomDelays.cpp`);
* the reverb engines `DatorroHall` and `HybridPlate` (`Source/Reverb Algorithms`);
* the tempo-synced delay time of `DelayModule`
  (`Source/Modular Classes/Effect Modules/DelayModule.cpp`) and the delay effect
  `BasicDelay` (`Source/Reverb Algorithms/Delay/BasicDelay.cpp`).

Conventions of the embedding.

* `std::unique_ptr<T>` is `Option T` (`none` is the null pointer); a move leaves
  `none` behind, and assigning over a non-null `unique_ptr` runs the destructor
  of the object it held.
* A raw pointer is the address (`Nat`) of the object it points to.
* `float` and `double` samples are rationals: arithmetic on them is exact, so
  rounding, infinities and NaN are outside the model.  The delay length of
  `BasicDelay` is the exception: its `float` operations round to binary32
  (`roundF32`, round to nearest, ties to even).
* C++ `int` is `Int`; `%` is the truncating remainder `Int.tmod`.
-/

namespace ADSREcho

/-! ## Effect modules and module slots -/

/-- The stream description `juce::dsp::ProcessSpec`. -/
structure ProcessSpec where
  sampleRate : ℚ
  maximumBlockSize : Nat
  numChannels : Nat
deriving DecidableEq

/-- The value-initialised spec `ProcessSpec{}` a slot starts with. -/
def ProcessSpec.zero : ProcessSpec := ⟨0, 0, 0⟩

/-- Modelled from the spec: the declaration of `enum class ModuleType` is not among
the sources; the spec lists the variants Delay, Reverb and Convolution, which are
also the three cases of every `switch (moduleType)` in `PluginProcessor.cpp`. -/
inductive ModuleType where
  | Delay
  | Reverb
  | Convolution
deriving DecidableEq

/-- An object of a subclass of `EffectModule`.  `addr` is the identity of the object
(what a raw `EffectModule*` holds), `kind` is the subclass, `moduleID` is the member
written by `setID`, `hasIRBank` records `ConvolutionModule::setIRBank`, and
`prepared` lists the arguments of the `prepare` calls the object has received,
oldest first. -/
structure EffectModule where
  addr : Nat
  kind : ModuleType
  moduleID : String
  hasIRBank : Bool
  prepared : List ProcessSpec
deriving DecidableEq

/-- The virtual call `m->prepare(spec)`. -/
def EffectModule.prepare (m : EffectModule) (spec : ProcessSpec) : EffectModule :=
  { m with prepared := m.prepared ++ [spec] }

/-- The virtual call `m->setID(id)`. -/
def EffectModule.setID (m : EffectModule) (id : String) : EffectModule :=
  { m with moduleID := id }

/-- The string `getType()` returns in `DelayModule`, `ReverbModule` and
`ConvolutionModule`. -/
def ModuleType.typeName : ModuleType → String
  | .Delay => "Delay"
  | .Reverb => "Reverb"
  | .Convolution => "Convolution"

/-- The virtual call `m->getType()`. -/
def EffectModule.getType (m : EffectModule) : String := m.kind.typeName

/-- The class `ModuleSlot`.  `destroyed` is not a C++ member: it logs, in order, the
addresses of the modules whose destructor the slot's `unique_ptr` members have
run. -/
structure ModuleSlot where
  slotID : String
  bypassed : Bool
  currentSpec : ProcessSpec
  ownedModule : Option EffectModule
  pendingDeletion : Option EffectModule
  activeModule : Option Nat
  destroyed : List Nat
deriving DecidableEq

/-- The constructor `ModuleSlot(id)`. -/
def ModuleSlot.new (id : String) : ModuleSlot :=
  { slotID := id, bypassed := false, currentSpec := ProcessSpec.zero,
    ownedModule := none, pendingDeletion := none, activeModule := none,
    destroyed := [] }

/-- Embeds `get()`: the raw pointer of `ownedModule`, as the object it points to. -/
def ModuleSlot.get (s : ModuleSlot) : Option EffectModule := s.ownedModule

/-- The live object a raw pointer `p` refers to: the slot keeps alive exactly the
objects held by `ownedModule` and `pendingDeletion`. -/
def ModuleSlot.deref (s : ModuleSlot) (p : Nat) : Option EffectModule :=
  match s.ownedModule with
  | some m => if m.addr = p then some m else
      match s.pendingDeletion with
      | some q => if q.addr = p then some q else none
      | none => none
  | none =>
      match s.pendingDeletion with
      | some q => if q.addr = p then some q else none
      | none => none

/-- The call `m->prepare(spec)` through the raw pointer `p`: it updates the live
object at that address. -/
def ModuleSlot.prepareAt (s : ModuleSlot) (p : Nat) (spec : ProcessSpec) : ModuleSlot :=
  match s.ownedModule with
  | some m =>
      if m.addr = p then { s with ownedModule := some (m.prepare spec) } else
        match s.pendingDeletion with
        | some q =>
            if q.addr = p then { s with pendingDeletion := some (q.prepare spec) } else s
        | none => s
  | none =>
      match s.pendingDeletion with
      | some q =>
          if q.addr = p then { s with pendingDeletion := some (q.prepare spec) } else s
      | none => s

/-- Embeds `ModuleSlot::prepare`. -/
def ModuleSlot.prepare (s : ModuleSlot) (spec : ProcessSpec) : ModuleSlot :=
  let s1 := { s with currentSpec := spec }
  match s1.activeModule with
  | some p => s1.prepareAt p spec
  | none => s1

/-- The first block of `ModuleSlot::setModule`: a non-null new module is prepared
with the stored spec when that spec has a positive sample rate, and is given the
slot's ID. -/
def ModuleSlot.initModule (s : ModuleSlot) (newModule : Option EffectModule) :
    Option EffectModule :=
  match newModule with
  | some m =>
      let m1 := if 0 < s.currentSpec.sampleRate then m.prepare s.currentSpec else m
      some (m1.setID s.slotID)
  | none => none

/-- The addresses destroyed when a `unique_ptr` holding `old` is assigned over or
reset. -/
def destroyedBy (old : Option EffectModule) : List Nat :=
  match old with
  | some m => [m.addr]
  | none => []

/-- Embeds `ModuleSlot::setModule`. -/
def ModuleSlot.setModule (s : ModuleSlot) (newModule : Option EffectModule) : ModuleSlot :=
  let newModule1 := s.initModule newModule
  -- pendingDeletion = std::move(ownedModule);
  let s1 := { s with pendingDeletion := s.ownedModule, ownedModule := none,
                     destroyed := s.destroyed ++ destroyedBy s.pendingDeletion }
  -- ownedModule = std::move(newModule);
  let s2 := { s1 with ownedModule := newModule1,
                      destroyed := s1.destroyed ++ destroyedBy s1.ownedModule }
  -- activeModule.store(ownedModule.get())
  { s2 with activeModule := s2.ownedModule.map EffectModule.addr }

/-- Embeds `ModuleSlot::clearModule`. -/
def ModuleSlot.clearModule (s : ModuleSlot) : ModuleSlot :=
  let s1 := { s with pendingDeletion := s.ownedModule, ownedModule := none,
                     destroyed := s.destroyed ++ destroyedBy s.pendingDeletion }
  { s1 with activeModule := none }

/-- Embeds `ModuleSlot::destroyPending`. -/
def ModuleSlot.destroyPending (s : ModuleSlot) : ModuleSlot :=
  { s with pendingDeletion := none,
           destroyed := s.destroyed ++ destroyedBy s.pendingDeletion }

/-- The calls a client can make on a slot. -/
inductive SlotOp where
  | prepare (spec : ProcessSpec)
  | setModule (newModule : Option EffectModule)
  | clearModule
  | destroyPending

/-- One call on a slot. -/
def ModuleSlot.step (s : ModuleSlot) : SlotOp → ModuleSlot
  | .prepare spec => s.prepare spec
  | .setModule m => s.setModule m
  | .clearModule => s.clearModule
  | .destroyPending => s.destroyPending

/-- A sequence of calls on a slot, first call first. -/
def ModuleSlot.run (s : ModuleSlot) (ops : List SlotOp) : ModuleSlot :=
  ops.foldl ModuleSlot.step s

/-- The audio thread's view: the observer pointer is null, or it points to a live
module that has received at least one `prepare` call. -/
def ModuleSlot.ActiveNullOrPrepared (s : ModuleSlot) : Prop :=
  match s.activeModule with
  | none => True
  | some p => ∃ m, s.deref p = some m ∧ m.prepared ≠ []

/-- A newly constructed module (`std::make_unique<...>("null", apvts)`) at address
`a`. -/
def EffectModule.fresh (a : Nat) (k : ModuleType) : EffectModule :=
  { addr := a, kind := k, moduleID := "null", hasIRBank := false, prepared := [] }

/-- Structural invariant of a slot: the observer pointer is the address of the owned
module, and once the stored spec has a positive sample rate the owned module has
been prepared. -/
def ModuleSlot.Inv (s : ModuleSlot) : Prop :=
  s.activeModule = s.ownedModule.map EffectModule.addr ∧
  (0 < s.currentSpec.sampleRate → ∀ m, s.ownedModule = some m → m.prepared ≠ [])

/-! ## The processor: two chains of eight slots -/

/-- Embeds `ADSREchoAudioProcessor::MAX_SLOTS`. -/
def MAX_SLOTS : Nat := 8

/-- Embeds `ADSREchoAudioProcessor::NUM_CHAINS`. -/
def NUM_CHAINS : Nat := 2

/-- Element access `v[i]` of a `std::vector` with a C++ `int` index.  An index
outside the vector is undefined behaviour in C++; here it yields `none`. -/
def vecGet? {α : Type} (v : List α) (i : Int) : Option α :=
  if 0 ≤ i then v[i.toNat]? else none

/-- In-place update `v[i] = f (v[i])`; no effect for an index outside the vector. -/
def vecModify {α : Type} (v : List α) (i : Int) (f : α → α) : List α :=
  if 0 ≤ i then v.modify f i.toNat else v

/-- Embeds `juce::isPositiveAndBelow (v, upper)`. -/
def isPositiveAndBelow (v : Int) (upper : Nat) : Bool :=
  decide (0 ≤ v) && decide (v < (upper : Int))

/-- The struct `PendingMove`. -/
structure PendingMove where
  chainIndex : Int
  from_ : Int
  to_ : Int
deriving DecidableEq

/-- A `juce::AudioBuffer<float>`: one list of samples per channel. -/
abbrev AudioBuffer := List (List ℚ)

/-- The parameter store `apvts`: the raw value and the default value of every
parameter ID. -/
structure ParameterState where
  value : String → ℚ
  defaultValue : String → ℚ

/-- The members of `ADSREchoAudioProcessor`.  A chain is a
`std::vector<std::unique_ptr<ModuleSlot>>`.  `nextAddr` is not a C++ member: it is
the address the next `std::make_unique` will return. -/
structure ADSREchoAudioProcessor where
  apvts : ParameterState
  slots : List (List (Option ModuleSlot))
  uiNeedsRebuild : Bool
  spec : ProcessSpec
  masterDryBuffer : AudioBuffer
  chainTempBuffer : AudioBuffer
  moveRequested : Bool
  pendingMove : PendingMove
  numModules : List Int
  nextAddr : Nat

/-- The constructor: `NUM_CHAINS` chains of `MAX_SLOTS` empty slots named
`chain_j.slot_i`. -/
def ADSREchoAudioProcessor.new (params : ParameterState) : ADSREchoAudioProcessor :=
  { apvts := params
    slots := (List.range NUM_CHAINS).map fun j =>
      (List.range MAX_SLOTS).map fun i =>
        some (ModuleSlot.new ("chain_" ++ toString j ++ ".slot_" ++ toString i))
    uiNeedsRebuild := false
    spec := ProcessSpec.zero
    masterDryBuffer := []
    chainTempBuffer := []
    moveRequested := false
    pendingMove := ⟨-1, -1, -1⟩
    numModules := List.replicate NUM_CHAINS 0
    nextAddr := 0 }

/-- The slot object `*slots[chainIndex][slotIndex]`, when both indices are inside
their vectors and the pointer is not null. -/
def ADSREchoAudioProcessor.slotRef (p : ADSREchoAudioProcessor) (chainIndex slotIndex : Int) :
    Option ModuleSlot :=
  match vecGet? p.slots chainIndex with
  | some chain =>
      match vecGet? chain slotIndex with
      | some (some s) => some s
      | _ => none
  | none => none

/-- A member call `slots[chainIndex][slotIndex]->f()` that changes the slot object. -/
def ADSREchoAudioProcessor.updateSlot (p : ADSREchoAudioProcessor) (chainIndex slotIndex : Int)
    (f : ModuleSlot → ModuleSlot) : ADSREchoAudioProcessor :=
  { p with slots := vecModify p.slots chainIndex fun chain =>
      vecModify chain slotIndex (Option.map f) }

/-- Embeds `slotIsEmpty`. -/
def ADSREchoAudioProcessor.slotIsEmpty (p : ADSREchoAudioProcessor)
    (chainIndex slotIndex : Int) : Bool :=
  match p.slotRef chainIndex slotIndex with
  | some s => s.get.isNone
  | none => true

/-- The module a `switch (moduleType)` constructs: `std::make_unique` of the subclass
with ID "null"; a `ConvolutionModule` is also handed the IR bank. -/
def makeModule (a : Nat) (moduleType : ModuleType) : EffectModule :=
  match moduleType with
  | .Delay => EffectModule.fresh a .Delay
  | .Reverb => EffectModule.fresh a .Reverb
  | .Convolution => { EffectModule.fresh a .Convolution with hasIRBank := true }

/-- The statement pair `auto module = std::make_unique<...>(...);
slot->setModule (std::move (module));` on `slots[chainIndex][slotIndex]`. -/
def ADSREchoAudioProcessor.installModule (p : ADSREchoAudioProcessor)
    (chainIndex slotIndex : Int) (moduleType : ModuleType) : ADSREchoAudioProcessor :=
  let m := makeModule p.nextAddr moduleType
  { p.updateSlot chainIndex slotIndex (fun s => s.setModule (some m)) with
    nextAddr := p.nextAddr + 1 }

/-- Embeds `prepareToPlay`; `totalNumOutputChannels` is `getTotalNumOutputChannels()`. -/
def ADSREchoAudioProcessor.prepareToPlay (p : ADSREchoAudioProcessor) (sampleRate : ℚ)
    (samplesPerBlock totalNumOutputChannels : Nat) : ADSREchoAudioProcessor :=
  let spec : ProcessSpec := ⟨sampleRate, samplesPerBlock, totalNumOutputChannels⟩
  { p with
    spec := spec
    masterDryBuffer := List.replicate spec.numChannels (List.replicate samplesPerBlock 0)
    chainTempBuffer := List.replicate spec.numChannels (List.replicate samplesPerBlock 0)
    slots := p.slots.map fun chain => chain.map (Option.map fun s => s.prepare spec) }

/-- Embeds `releaseResources`. -/
def ADSREchoAudioProcessor.releaseResources (p : ADSREchoAudioProcessor) :
    ADSREchoAudioProcessor :=
  { p with slots := p.slots.map fun chain => chain.map (Option.map ModuleSlot.destroyPending) }

/-- Embeds `requestSlotMove`. -/
def ADSREchoAudioProcessor.requestSlotMove (p : ADSREchoAudioProcessor)
    (chainIndex from_ to_ : Int) : ADSREchoAudioProcessor :=
  { p with pendingMove := ⟨chainIndex, from_, to_⟩, moveRequested := true }

/-- The move assignment `chain[dst] = std::move (chain[src])` of two `unique_ptr`
elements: `dst` receives the pointer and `src` is left null. -/
def moveAssign (chain : List (Option ModuleSlot)) (dst src : Nat) : List (Option ModuleSlot) :=
  (chain.set dst (chain.getD src none)).set src none

/-- The loop `for (int i = from; i < to; ++i) chain[i] = std::move (chain[i + 1]);`
started at `i` with `n` iterations left. -/
def shiftLeft (chain : List (Option ModuleSlot)) (i : Nat) : Nat → List (Option ModuleSlot)
  | 0 => chain
  | n + 1 => shiftLeft (moveAssign chain i (i + 1)) (i + 1) n

/-- The loop `for (int i = from; i > to; --i) chain[i] = std::move (chain[i - 1]);`
started at `i` with `n` iterations left. -/
def shiftRight (chain : List (Option ModuleSlot)) (i : Nat) : Nat → List (Option ModuleSlot)
  | 0 => chain
  | n + 1 => shiftRight (moveAssign chain i (i - 1)) (i - 1) n

/-- The guarded block of `executeSlotMove`, on the chain it refers to. -/
def moveChain (chain : List (Option ModuleSlot)) (from_ to_ : Int) : List (Option ModuleSlot) :=
  if isPositiveAndBelow from_ MAX_SLOTS && isPositiveAndBelow to_ MAX_SLOTS
      && decide (from_ ≠ to_) then
    -- auto moved = std::move (chain[from]);
    let moved := chain.getD from_.toNat none
    let chain1 := chain.set from_.toNat none
    let chain2 :=
      if from_ < to_ then shiftLeft chain1 from_.toNat (to_ - from_).toNat
      else shiftRight chain1 from_.toNat (from_ - to_).toNat
    -- chain[to] = std::move (moved);
    chain2.set to_.toNat moved
  else chain

/-- Embeds `executeSlotMove`. -/
def ADSREchoAudioProcessor.executeSlotMove (p : ADSREchoAudioProcessor) :
    ADSREchoAudioProcessor :=
  { p with
    slots := vecModify p.slots p.pendingMove.chainIndex fun chain =>
      moveChain chain p.pendingMove.from_ p.pendingMove.to_
    uiNeedsRebuild := true
    moveRequested := false }

/-- Embeds `setSlotDefaults`: every parameter whose ID starts with the slot ID followed by a
dot is set to its default value. -/
def ADSREchoAudioProcessor.setSlotDefaults (p : ADSREchoAudioProcessor) (slotID : String) :
    ADSREchoAudioProcessor :=
  { p with apvts :=
      { p.apvts with value := fun id =>
          if (slotID ++ ".").isPrefixOf id then p.apvts.defaultValue id else p.apvts.value id } }

/-- The search of the loop in `addModule`: the index of the first slot of the chain,
counted from `i`, whose `get()` is null. -/
def findEmptySlot : List (Option ModuleSlot) → Nat → Option (Nat × ModuleSlot)
  | [], _ => none
  | some s :: rest, i => if s.get.isNone then some (i, s) else findEmptySlot rest (i + 1)
  | none :: rest, i => findEmptySlot rest (i + 1)

/-- Embeds `addModule`. -/
def ADSREchoAudioProcessor.addModule (p : ADSREchoAudioProcessor) (chainIndex : Int)
    (moduleType : ModuleType) : ADSREchoAudioProcessor :=
  if vecGet? p.numModules chainIndex = some (MAX_SLOTS : Int) then p
  else
    match findEmptySlot ((vecGet? p.slots chainIndex).getD []) 0 with
    | some (i, slot) =>
        let p1 := p.setSlotDefaults slot.slotID
        let p2 := p1.installModule chainIndex i moduleType
        { p2 with
          numModules := vecModify p2.numModules chainIndex (· + 1)
          uiNeedsRebuild := true }
    | none => p

/-- Embeds `removeModule`. -/
def ADSREchoAudioProcessor.removeModule (p : ADSREchoAudioProcessor)
    (chainIndex slotIndex : Int) : ADSREchoAudioProcessor :=
  match p.slotRef chainIndex slotIndex with
  | some toRemove =>
      if toRemove.get.isNone then p
      else
        let p1 := p.updateSlot chainIndex slotIndex ModuleSlot.clearModule
        let p2 : ADSREchoAudioProcessor := { p1 with numModules := vecModify p1.numModules chainIndex (· - 1) }
        p2.requestSlotMove chainIndex slotIndex ((MAX_SLOTS : Int) - 1)
  | none => p

/-- Embeds `changeModuleType`. -/
def ADSREchoAudioProcessor.changeModuleType (p : ADSREchoAudioProcessor)
    (chainIndex slotIndex : Int) (moduleType : ModuleType) : ADSREchoAudioProcessor :=
  match p.slotRef chainIndex slotIndex with
  | some toChange =>
      if toChange.get.isNone then p
      else { p.installModule chainIndex slotIndex moduleType with uiNeedsRebuild := true }
  | none => p

/-! ## Audio buffers and block processing -/

/-- Embeds `getNumChannels()`. -/
def AudioBuffer.getNumChannels (b : AudioBuffer) : Nat := b.length

/-- Embeds `getNumSamples()`: the common length of the channels. -/
def AudioBuffer.getNumSamples (b : AudioBuffer) : Nat := (b.headD []).length

/-- Embeds `setSize (numChannels, numSamples, false, false, true)`: the buffer takes the new
shape; samples that existed keep their value and new ones are zero (JUCE leaves the
content unspecified, and every caller clears the buffer afterwards). -/
def AudioBuffer.setSize (b : AudioBuffer) (numChannels numSamples : Nat) : AudioBuffer :=
  (List.range numChannels).map fun ch =>
    (List.range numSamples).map fun i => (b.getD ch []).getD i 0

/-- Embeds `clear()`. -/
def AudioBuffer.clear (b : AudioBuffer) : AudioBuffer :=
  b.map fun c => c.map fun _ => 0

/-- Embeds `clear (channel, 0, getNumSamples())`. -/
def AudioBuffer.clearChannel (b : AudioBuffer) (channel : Nat) : AudioBuffer :=
  b.modify (fun c => c.map fun _ => 0) channel

/-- Embeds `copyFrom (destChannel, 0, source, sourceChannel, 0, numSamples)`. -/
def AudioBuffer.copyFrom (dest : AudioBuffer) (destChannel : Nat) (source : AudioBuffer)
    (sourceChannel numSamples : Nat) : AudioBuffer :=
  dest.modify (fun d => (source.getD sourceChannel []).take numSamples ++ d.drop numSamples)
    destChannel

/-- Embeds `addFrom (destChannel, 0, source, sourceChannel, 0, numSamples, gain)`. -/
def AudioBuffer.addFrom (dest : AudioBuffer) (destChannel : Nat) (source : AudioBuffer)
    (sourceChannel numSamples : Nat) (gain : ℚ) : AudioBuffer :=
  dest.modify (fun d => d.mapIdx fun i x =>
      if i < numSamples then x + (source.getD sourceChannel []).getD i 0 * gain else x)
    destChannel

/-- Embeds `applyGain (gain)`. -/
def AudioBuffer.applyGain (b : AudioBuffer) (gain : ℚ) : AudioBuffer :=
  b.map fun c => c.map fun x => x * gain

/-- The loop `for (i = lo; i < hi; ++i) s = f (i, s)`. -/
def forRange {σ : Type} (lo hi : Nat) (f : Nat → σ → σ) (s : σ) : σ :=
  ((List.range (hi - lo)).map fun k => lo + k).foldl (fun acc i => f i acc) s

/-- Embeds `ModuleSlot::process`: the module behind the observer pointer, if any, processes
the buffer in place.  `process m` is the block transfer function of module `m` in
its current internal state (the virtual `EffectModule::process`). -/
def ModuleSlot.process (process : EffectModule → AudioBuffer → AudioBuffer) (s : ModuleSlot)
    (buffer : AudioBuffer) : AudioBuffer :=
  match s.activeModule with
  | some p =>
      match s.deref p with
      | some m => process m buffer
      | none => buffer
  | none => buffer

/-- The loop `for (auto& slot : slots[chainIndex]) slot->process (chainTempBuffer, ...)`. -/
def processSlots (process : EffectModule → AudioBuffer → AudioBuffer)
    (chain : List (Option ModuleSlot)) (buffer : AudioBuffer) : AudioBuffer :=
  chain.foldl (fun buf slot =>
    match slot with
    | some s => s.process process buf
    | none => buf) buffer

/-- The chain-mix loop: `wetData[i] = dryData[i] * dry + wetData[i] * wet` on the
first `totalNumInputChannels` channels. -/
def chainMix (chainTempBuffer masterDryBuffer : AudioBuffer)
    (totalNumInputChannels numSamples : Nat) (wet : ℚ) : AudioBuffer :=
  let dry := 1 - wet
  forRange 0 totalNumInputChannels (fun ch buf =>
    buf.modify (fun wetData => wetData.mapIdx fun i w =>
      if i < numSamples then (masterDryBuffer.getD ch []).getD i 0 * dry + w * wet else w) ch)
    chainTempBuffer

/-- The body of the chain loop of `processBlock` for one `chainIndex`, on the pair
(processor, output buffer). -/
def ADSREchoAudioProcessor.processChain (process : EffectModule → AudioBuffer → AudioBuffer)
    (decibelsToGain : ℚ → ℚ) (totalNumInputChannels numSamples : Nat) (chainIndex : Nat)
    (st : ADSREchoAudioProcessor × AudioBuffer) : ADSREchoAudioProcessor × AudioBuffer :=
  let p := st.1
  let temp0 := p.chainTempBuffer.clear
  let temp1 := forRange 0 totalNumInputChannels
    (fun ch t => t.copyFrom ch p.masterDryBuffer ch numSamples) temp0
  let temp2 := processSlots process (p.slots.getD chainIndex []) temp1
  let wet := p.apvts.value ("chain_" ++ toString chainIndex ++ ".masterMix")
  let temp3 := chainMix temp2 p.masterDryBuffer totalNumInputChannels numSamples wet
  let gainValue := p.apvts.value ("chain_" ++ toString chainIndex ++ ".gain")
  let temp4 := temp3.applyGain (decibelsToGain gainValue)
  let buffer1 := forRange 0 totalNumInputChannels
    (fun ch b => b.addFrom ch temp4 ch numSamples 1) st.2
  ({ p with chainTempBuffer := temp4 }, buffer1)

/-- Embeds `processBlock`.  `process` is the virtual `EffectModule::process`,
`decibelsToGain` is `juce::Decibels::decibelsToGain`, and the two channel counts are
`getTotalNumInputChannels()` and `getTotalNumOutputChannels()`.  The result is the
processor afterwards and the content of `buffer` afterwards. -/
def ADSREchoAudioProcessor.processBlock (process : EffectModule → AudioBuffer → AudioBuffer)
    (decibelsToGain : ℚ → ℚ) (totalNumInputChannels totalNumOutputChannels : Nat)
    (p : ADSREchoAudioProcessor) (buffer : AudioBuffer) :
    ADSREchoAudioProcessor × AudioBuffer :=
  let p1 : ADSREchoAudioProcessor := if p.moveRequested then p.executeSlotMove else p
  let numSamples := buffer.getNumSamples
  let p2 : ADSREchoAudioProcessor := { p1 with
    chainTempBuffer := p1.chainTempBuffer.setSize p1.chainTempBuffer.getNumChannels numSamples
    masterDryBuffer := p1.masterDryBuffer.setSize p1.masterDryBuffer.getNumChannels numSamples }
  let buffer1 := forRange totalNumInputChannels totalNumOutputChannels
    (fun i b => b.clearChannel i) buffer
  let p3 : ADSREchoAudioProcessor := { p2 with
    masterDryBuffer := p2.masterDryBuffer.clear
    chainTempBuffer := p2.chainTempBuffer.clear }
  let p4 : ADSREchoAudioProcessor := { p3 with
    masterDryBuffer := forRange 0 totalNumInputChannels
      (fun ch d => d.copyFrom ch buffer1 ch numSamples) p3.masterDryBuffer }
  let buffer2 := buffer1.clear
  let parallelEnabled : Bool := decide (p4.apvts.value "parallelEnabled" ≠ 0)
  forRange 0 (NUM_CHAINS - (if parallelEnabled then 0 else 1))
    (fun chainIndex st =>
      ADSREchoAudioProcessor.processChain process decibelsToGain totalNumInputChannels
        numSamples chainIndex st)
    (p4, buffer2)

/-- The type tag of the module in each slot of a chain (`none` for an empty slot). -/
def chainTypes (chain : List (Option ModuleSlot)) : List (Option ModuleType) :=
  chain.map fun slot =>
    match slot with
    | some s => s.get.map EffectModule.kind
    | none => none

/-- The topology of the processor: the type tags of all chains. -/
def ADSREchoAudioProcessor.topology (p : ADSREchoAudioProcessor) :
    List (List (Option ModuleType)) :=
  p.slots.map chainTypes

/-! ## Persisted state -/

/-- A "Slot" child of the persisted tree: the properties "index" and "type". -/
structure SlotState where
  index : Int
  type : String
deriving DecidableEq

/-- A "Chain" child of the persisted tree: the property "index" and the "Slot"
children in order. -/
structure ChainState where
  index : Int
  children : List SlotState
deriving DecidableEq

/-- The tree produced by `getStateInformation`: the parameter values of `apvts` and
the children of the "Modules" child (none when that child is absent).  The XML and
binary encoding of the tree belongs to JUCE and is taken to be lossless. -/
structure PluginState where
  parameters : String → ℚ
  modules : List ChainState

/-- The "Slot" children `getStateInformation` writes for chain `j`: one for each slot
index `i < MAX_SLOTS` whose `slots[j][i]->get()` is not null. -/
def ADSREchoAudioProcessor.chainState (p : ADSREchoAudioProcessor) (j : Nat) : ChainState :=
  { index := (j : Int)
    children := (List.range MAX_SLOTS).filterMap fun (i : Nat) =>
      match p.slotRef (j : Int) (i : Int) with
      | some slot =>
          match slot.get with
          | some mod => some { index := (i : Int), type := mod.getType }
          | none => none
      | none => none }

/-- Embeds `getStateInformation`. -/
def ADSREchoAudioProcessor.getStateInformation (p : ADSREchoAudioProcessor) : PluginState :=
  { parameters := p.apvts.value
    modules := (List.range NUM_CHAINS).map fun (j : Nat) => p.chainState j }

/-- The body of the inner loop of `setStateInformation` for one "Slot" child. -/
def ADSREchoAudioProcessor.restoreSlot (p : ADSREchoAudioProcessor) (chainIndex : Int)
    (slotState : SlotState) : ADSREchoAudioProcessor :=
  let slotIndex := slotState.index
  let type := slotState.type
  let p1 : ADSREchoAudioProcessor :=
    if type = "Delay" then p.installModule chainIndex slotIndex ModuleType.Delay
    else if type = "Reverb" then p.installModule chainIndex slotIndex ModuleType.Reverb
    else if type = "Convolution" then p.installModule chainIndex slotIndex ModuleType.Convolution
    else p
  { p1 with numModules := vecModify p1.numModules chainIndex (· + 1) }

/-- The body of the outer loop of `setStateInformation` for one "Chain" child. -/
def ADSREchoAudioProcessor.restoreChain (p : ADSREchoAudioProcessor)
    (chainState : ChainState) : ADSREchoAudioProcessor :=
  chainState.children.foldl (fun q slotState => q.restoreSlot chainState.index slotState) p

/-- Embeds `setStateInformation`; `data` is `none` when the binary block holds no XML. -/
def ADSREchoAudioProcessor.setStateInformation (p : ADSREchoAudioProcessor)
    (data : Option PluginState) : ADSREchoAudioProcessor :=
  match data with
  | none => p
  | some state =>
      let p1 : ADSREchoAudioProcessor := { p with
        slots := p.slots.map fun chain => chain.map (Option.map ModuleSlot.clearModule)
        numModules := List.replicate NUM_CHAINS 0 }
      let p2 := state.modules.foldl ADSREchoAudioProcessor.restoreChain p1
      { p2 with
        apvts := { p2.apvts with value := state.parameters }
        uiNeedsRebuild := true }

/-- The number of occupied slots of a chain. -/
def occupiedCount (chain : List (Option ModuleSlot)) : Nat :=
  (chainTypes chain).countP Option.isSome

/-- Well-formed slot table, as the constructor builds it: `NUM_CHAINS` chains of
`MAX_SLOTS` non-null slot pointers. -/
def ADSREchoAudioProcessor.WellFormed (p : ADSREchoAudioProcessor) : Prop :=
  p.slots.length = NUM_CHAINS ∧
  ∀ chain ∈ p.slots, chain.length = MAX_SLOTS ∧ ∀ slot ∈ chain, slot ≠ none

instance (p : ADSREchoAudioProcessor) : Decidable p.WellFormed := by
  unfold ADSREchoAudioProcessor.WellFormed
  infer_instance

/-- The type tag the topology query reports for a slot (`getSlotInfo (...).moduleType`,
that is `slots[chainIndex][slotIndex]->get()->getType()`); `none` for an empty
slot. -/
def ADSREchoAudioProcessor.slotTypeTag (p : ADSREchoAudioProcessor)
    (chainIndex slotIndex : Int) : Option String :=
  match p.slotRef chainIndex slotIndex with
  | some s => s.get.map EffectModule.getType
  | none => none

/-! ## The signal flow the specification describes -/

/-- Embeds `getSample (channel, index)`; 0 outside the buffer. -/
def AudioBuffer.getSample (b : AudioBuffer) (channel index : Nat) : ℚ :=
  (b.getD channel []).getD index 0

/-- The buffer has `numChannels` channels of `numSamples` samples each. -/
def AudioBuffer.HasShape (b : AudioBuffer) (numChannels numSamples : Nat) : Prop :=
  b.length = numChannels ∧ ∀ c ∈ b, c.length = numSamples

/-- The modules of the occupied slots of a chain, in slot order. -/
def occupiedModules (chain : List (Option ModuleSlot)) : List EffectModule :=
  chain.filterMap fun slot =>
    match slot with
    | some s => s.get
    | none => none

/-- The specification's `P_c`: the serial composition of the process functions of
the occupied slots of a chain, applied to the chain's copy of the dry signal. -/
def chainTransfer (process : EffectModule → AudioBuffer → AudioBuffer)
    (chain : List (Option ModuleSlot)) (dry : AudioBuffer) : AudioBuffer :=
  (occupiedModules chain).foldl (fun buf m => process m buf) dry

/-- The specification's contribution of chain `c` to one output sample:
`gain_c * (dry * (1 - masterMix_c) + masterMix_c * P_c (dry))`. -/
def chainContribution (process : EffectModule → AudioBuffer → AudioBuffer)
    (decibelsToGain : ℚ → ℚ) (p : ADSREchoAudioProcessor) (dry : AudioBuffer)
    (c channel index : Nat) : ℚ :=
  decibelsToGain (p.apvts.value ("chain_" ++ toString c ++ ".gain")) *
    (dry.getSample channel index * (1 - p.apvts.value ("chain_" ++ toString c ++ ".masterMix"))
      + p.apvts.value ("chain_" ++ toString c ++ ".masterMix") *
          (chainTransfer process (p.slots.getD c []) dry).getSample channel index)

/-- The observer pointer of a slot is the address of the module the slot owns (the
relation `setModule` and `clearModule` establish); a null slot pointer has nothing
to satisfy. -/
def slotInSync : Option ModuleSlot → Prop
  | some s => s.activeModule = s.ownedModule.map EffectModule.addr
  | none => True

instance (slot : Option ModuleSlot) : Decidable (slotInSync slot) := by
  cases slot with
  | some s => exact inferInstanceAs (Decidable (s.activeModule = s.ownedModule.map EffectModule.addr))
  | none => exact inferInstanceAs (Decidable True)

/-- Every slot of the processor is in sync. -/
def ADSREchoAudioProcessor.ObserversInSync (p : ADSREchoAudioProcessor) : Prop :=
  ∀ chain ∈ p.slots, ∀ slot ∈ chain, slotInSync slot

instance (p : ADSREchoAudioProcessor) : Decidable p.ObserversInSync := by
  unfold ADSREchoAudioProcessor.ObserversInSync
  infer_instance

instance (b : AudioBuffer) (numChannels numSamples : Nat) :
    Decidable (b.HasShape numChannels numSamples) := by
  unfold AudioBuffer.HasShape
  infer_instance

/-! ## The delay line `DelayLineWithSampleAccess` -/

/-- Embeds `juce::jlimit (lowerLimit, upperLimit, valueToConstrain)`. -/
def jlimit (lowerLimit upperLimit valueToConstrain : ℚ) : ℚ :=
  if valueToConstrain < lowerLimit then lowerLimit
  else if upperLimit < valueToConstrain then upperLimit
  else valueToConstrain

/-- Embeds `getSample (channel, index)` with a C++ `int` index; `none` when the channel or
the index is outside the buffer (an out-of-bounds read in C++). -/
def AudioBuffer.getSample? (b : AudioBuffer) (channel : Nat) (index : Int) : Option ℚ :=
  match b[channel]? with
  | some chan => vecGet? chan index
  | none => none

/-- Embeds `setSample (channel, index, newValue)`; no effect outside the buffer. -/
def AudioBuffer.setSample (b : AudioBuffer) (channel : Nat) (index : Int) (newValue : ℚ) :
    AudioBuffer :=
  b.modify (fun chan => vecModify chan index fun _ => newValue) channel

/-- The members of `DelayLineWithSampleAccess<SampleType>` that the modelled functions
use. -/
structure DelayLineWithSampleAccess where
  delayBuffer : AudioBuffer
  numSamples : Int
  writePosition : List Int
  readPosition : List Int
  delayInSamples : Int
  totalSize : Int
  fractionalDelay : ℚ
  sampleRate : ℚ

/-- The constructor `DelayLineWithSampleAccess (maximumDelayInSamples)`. -/
def DelayLineWithSampleAccess.new (maximumDelayInSamples : Int) : DelayLineWithSampleAccess :=
  let totalSize : Int := max (maximumDelayInSamples + 1) 4
  let delayBuffer : AudioBuffer := (AudioBuffer.setSize [] 1 totalSize.toNat).clear
  { delayBuffer := delayBuffer
    numSamples := (delayBuffer.getNumSamples : Int)
    writePosition := []
    readPosition := []
    delayInSamples := 0
    totalSize := totalSize
    fractionalDelay := 0
    sampleRate := 44100 }

/-- Embeds `reset`. -/
def DelayLineWithSampleAccess.reset (dl : DelayLineWithSampleAccess) :
    DelayLineWithSampleAccess :=
  { dl with
    writePosition := dl.writePosition.map fun _ => 0
    readPosition := dl.readPosition.map fun _ => 0
    delayBuffer := dl.delayBuffer.clear }

/-- Embeds `std::vector<int>::resize (n)`: existing elements are kept, new ones are 0. -/
def resizeInts (v : List Int) (n : Nat) : List Int :=
  (List.range n).map fun i => v.getD i 0

/-- Embeds `prepare`. -/
def DelayLineWithSampleAccess.prepare (dl : DelayLineWithSampleAccess) (spec : ProcessSpec) :
    DelayLineWithSampleAccess :=
  DelayLineWithSampleAccess.reset
    { dl with
      delayBuffer := dl.delayBuffer.setSize spec.numChannels dl.totalSize.toNat
      writePosition := resizeInts dl.writePosition spec.numChannels
      readPosition := resizeInts dl.readPosition spec.numChannels
      sampleRate := spec.sampleRate }

/-- Embeds `pushSample`. -/
def DelayLineWithSampleAccess.pushSample (dl : DelayLineWithSampleAccess) (channel : Nat)
    (newValue : ℚ) : DelayLineWithSampleAccess :=
  match dl.writePosition[channel]? with
  | some writePos =>
      { dl with
        delayBuffer := dl.delayBuffer.setSample channel writePos newValue
        writePosition := dl.writePosition.set channel (Int.tmod (writePos + 1) dl.numSamples) }
  | none => dl

/-- The buffer index `readPos` computed by `popSample`. -/
def DelayLineWithSampleAccess.popIndex (dl : DelayLineWithSampleAccess) (channel : Nat) :
    Option Int :=
  match dl.writePosition[channel]? with
  | some writePos => some (Int.tmod (writePos - dl.delayInSamples + dl.numSamples) dl.numSamples)
  | none => none

/-- Embeds `popSample`: the line afterwards and the sample read (`none` for an out-of-bounds
read). -/
def DelayLineWithSampleAccess.popSample (dl : DelayLineWithSampleAccess) (channel : Nat) :
    DelayLineWithSampleAccess × Option ℚ :=
  match dl.popIndex channel with
  | some readPos =>
      ({ dl with readPosition := dl.readPosition.set channel readPos },
        dl.delayBuffer.getSample? channel readPos)
  | none => (dl, none)

/-- Embeds `setDelay (int newLength)`. -/
def DelayLineWithSampleAccess.setDelayInt (dl : DelayLineWithSampleAccess) (newLength : Int) :
    DelayLineWithSampleAccess :=
  let newLength1 := if newLength < 1 then 1 else newLength
  { dl with delayInSamples := newLength1, fractionalDelay := 0 }

/-- Embeds `setDelay (float newDelayInSamples)`. -/
def DelayLineWithSampleAccess.setDelayFloat (dl : DelayLineWithSampleAccess)
    (newDelayInSamples : ℚ) : DelayLineWithSampleAccess :=
  let d1 := if newDelayInSamples < 1 then 1 else newDelayInSamples
  let d2 := if d1 > ((dl.numSamples - 1 : Int) : ℚ) then ((dl.numSamples - 1 : Int) : ℚ) else d1
  let delayInSamples : Int := ⌊d2⌋
  { dl with delayInSamples := delayInSamples, fractionalDelay := d2 - (delayInSamples : ℚ) }

/-- The two buffer indices `idx1`, `idx2` and the weight `frac` that `readFractional`
computes from the write position `writePos`. -/
def DelayLineWithSampleAccess.readFractionalIndices (dl : DelayLineWithSampleAccess)
    (writePos : Int) (delaySamples : ℚ) : Int × Int × ℚ :=
  let delaySamples1 := jlimit 1 ((dl.numSamples - 1 : Int) : ℚ) delaySamples
  let delayInt : Int := ⌊delaySamples1⌋
  let frac := delaySamples1 - (delayInt : ℚ)
  let idx1 := Int.tmod (writePos - delayInt + dl.numSamples) dl.numSamples
  let idx2 := Int.tmod (writePos - delayInt - 1 + dl.numSamples) dl.numSamples
  (idx1, idx2, frac)

/-- Embeds `readFractional`; `none` when a read falls outside the buffer. -/
def DelayLineWithSampleAccess.readFractional (dl : DelayLineWithSampleAccess) (channel : Nat)
    (delaySamples : ℚ) : Option ℚ :=
  match dl.writePosition[channel]? with
  | some writePos =>
      let r := dl.readFractionalIndices writePos delaySamples
      match dl.delayBuffer.getSample? channel r.1, dl.delayBuffer.getSample? channel r.2.1 with
      | some s1, some s2 => some (s1 + r.2.2 * (s2 - s1))
      | _, _ => none
  | none => none

/-- A sequence of `pushSample` calls on one channel, first sample first. -/
def DelayLineWithSampleAccess.pushAll (dl : DelayLineWithSampleAccess) (channel : Nat)
    (xs : List ℚ) : DelayLineWithSampleAccess :=
  xs.foldl (fun d x => d.pushSample channel x) dl

/-- The specification's `h (j)`: the `j`-th most recent of the pushed samples `xs`
(`h (1)` is the last one pushed), and 0 when fewer than `j` samples were pushed. -/
def history (xs : List ℚ) (j : Nat) : ℚ :=
  if j = 0 then 0 else xs.reverse.getD (j - 1) 0

/-- A delay line as `prepare` leaves it and `pushSample` keeps it: capacity at least
4, a buffer of `numChannels` channels of `numSamples` samples, and one write
position per channel, each inside the buffer. -/
def DelayLineWithSampleAccess.WellFormed (dl : DelayLineWithSampleAccess)
    (numChannels : Nat) : Prop :=
  4 ≤ dl.numSamples ∧
  dl.delayBuffer.HasShape numChannels dl.numSamples.toNat ∧
  dl.writePosition.length = numChannels ∧
  ∀ w ∈ dl.writePosition, 0 ≤ w ∧ w < dl.numSamples

instance (dl : DelayLineWithSampleAccess) (numChannels : Nat) :
    Decidable (dl.WellFormed numChannels) := by
  unfold DelayLineWithSampleAccess.WellFormed
  infer_instance

/-- Channel `channel` of a line of capacity `N` holds the pushed samples `xs`: the
write position is `xs.length` modulo `N`, and for `1 ≤ j ≤ N` the cell `j` places
behind the write position holds the `j`-th most recent sample. -/
def DelayLineWithSampleAccess.ChannelHolds (dl : DelayLineWithSampleAccess)
    (channel N : Nat) (xs : List ℚ) : Prop :=
  dl.numSamples = (N : Int) ∧
  ∃ chan, dl.delayBuffer[channel]? = some chan ∧ chan.length = N ∧
    dl.writePosition[channel]? = some ((xs.length % N : Nat) : Int) ∧
    ∀ j, 1 ≤ j → j ≤ N → chan[(xs.length + N - j) % N]? = some (history xs j)

/-- The specification's `d' = clamp (d, 1, N - 1)` for a line of capacity
`N = numSamples`. -/
def DelayLineWithSampleAccess.clampedDelay (dl : DelayLineWithSampleAccess) (d : ℚ) : ℚ :=
  jlimit 1 ((dl.numSamples - 1 : Int) : ℚ) d

/-- An example state: the constructed processor, prepared for 44.1 kHz stereo blocks
of 4 samples, after a Delay and a Reverb have been added to chain 0. -/
def exampleProcessor : ADSREchoAudioProcessor :=
  ((((ADSREchoAudioProcessor.new ⟨fun _ => 0, fun _ => 0⟩).prepareToPlay 44100 4 2).addModule
    0 ModuleType.Delay).addModule 0 ModuleType.Reverb)


/-! ## Interpolation between stored samples -/

/-- The stored sample `j` places behind the write position of a channel: the cell
`(writePosition - j) mod numSamples` of the circular buffer (0 when the channel does
not exist).  For `1 ≤ j ≤ numSamples` it is the `j`-th most recent stored sample. -/
def DelayLineWithSampleAccess.cellBehind (dl : DelayLineWithSampleAccess) (channel : Nat)
    (j : Int) : ℚ :=
  match dl.writePosition[channel]? with
  | some writePos =>
      (dl.delayBuffer.getSample? channel ((writePos - j) % dl.numSamples)).getD 0
  | none => 0

/-- The specification's `S`: the largest absolute difference between two consecutive
stored samples of a channel, that is between the `j`-th and the `(j + 1)`-th most
recent sample for `1 ≤ j ≤ numSamples - 1`. -/
def DelayLineWithSampleAccess.maxSlope (dl : DelayLineWithSampleAccess) (channel : Nat) : ℚ :=
  ((List.range (dl.numSamples.toNat - 1)).map fun (i : Nat) =>
    |dl.cellBehind channel ((i : Int) + 2) - dl.cellBehind channel ((i : Int) + 1)|).foldl max 0

/-! ## The allpass diffuser `Allpass` -/

/-- The C++ conversion `(int) x` of a floating-point value: truncation towards zero. -/
def truncToInt (x : ℚ) : Int :=
  if 0 ≤ x then ⌊x⌋ else ⌈x⌉

/-- Embeds `pushSample` with the vector accesses checked: `none` when
`writePosition[channel]` or the buffer cell written lies outside its container (an
out-of-range access in C++), otherwise the line `pushSample` leaves. -/
def DelayLineWithSampleAccess.pushSampleChecked (dl : DelayLineWithSampleAccess)
    (channel : Nat) (newValue : ℚ) : Option DelayLineWithSampleAccess :=
  match dl.writePosition[channel]? with
  | some writePos =>
      match dl.delayBuffer.getSample? channel writePos with
      | some _ => some (dl.pushSample channel newValue)
      | none => none
  | none => none

/-- The members of `Allpass<SampleType>`. -/
structure Allpass where
  delayLine : DelayLineWithSampleAccess
  delayInSamples : Int
  gain : ℚ
  drySample : List ℚ
  delayOutput : List ℚ
  feedforward : List ℚ
  feedback : List ℚ
  sampleRate : ℚ

/-- The defaulted constructor: the member initialisers of the class. -/
def Allpass.new : Allpass :=
  { delayLine := DelayLineWithSampleAccess.new 4
    delayInSamples := 4
    gain := 1 / 2
    drySample := []
    delayOutput := []
    feedforward := []
    feedback := []
    sampleRate := 44100 }

/-- Embeds `setMaximumDelayInSamples`. -/
def Allpass.setMaximumDelayInSamples (ap : Allpass) (maxDelayInSamples : Int) : Allpass :=
  { ap with delayLine := DelayLineWithSampleAccess.new maxDelayInSamples }

/-- Embeds `setDelay`. -/
def Allpass.setDelay (ap : Allpass) (newDelayInSamples : ℚ) : Allpass :=
  { ap with
    delayInSamples := truncToInt newDelayInSamples
    delayLine := ap.delayLine.setDelayFloat newDelayInSamples }

/-- Embeds `reset`: only the delay line is reset. -/
def Allpass.reset (ap : Allpass) : Allpass :=
  { ap with delayLine := ap.delayLine.reset }

/-- Embeds `prepare`. -/
def Allpass.prepare (ap : Allpass) (spec : ProcessSpec) : Allpass :=
  Allpass.reset
    { ap with
      sampleRate := spec.sampleRate
      delayLine := ap.delayLine.prepare spec
      drySample := List.replicate spec.numChannels 0
      delayOutput := List.replicate spec.numChannels 0
      feedforward := List.replicate spec.numChannels 0
      feedback := List.replicate spec.numChannels 0 }

/-- Embeds `setGain`. -/
def Allpass.setGain (ap : Allpass) (newGain : ℚ) : Allpass :=
  { ap with gain := jlimit 0 1 newGain }

/-- Embeds `pushSample`; `none` when `channel` is outside one of the vectors. -/
def Allpass.pushSample (ap : Allpass) (channel : Nat) (sample : ℚ) : Option Allpass :=
  if channel < ap.drySample.length then
    match ap.feedback[channel]? with
    | some fb =>
        match ap.delayLine.pushSampleChecked channel (sample + fb) with
        | some line => some { ap with drySample := ap.drySample.set channel sample
                                      delayLine := line }
        | none => none
    | none => none
  else none

/-- Embeds `popSample (channel, overrideDelay)`: the allpass afterwards and the value
returned; `none` when an access falls outside a vector or the buffer. -/
def Allpass.popSample (ap : Allpass) (channel : Nat) (overrideDelay : ℚ) :
    Option (Allpass × ℚ) :=
  let delayToUse : ℚ := if overrideDelay ≥ 0 then overrideDelay else (ap.delayInSamples : ℚ)
  if channel < ap.delayOutput.length ∧ channel < ap.feedback.length
      ∧ channel < ap.feedforward.length then
    match ap.delayLine.readFractional channel delayToUse, ap.drySample[channel]? with
    | some out, some dry =>
        some ({ ap with
                delayOutput := ap.delayOutput.set channel out
                feedback := ap.feedback.set channel (out * ap.gain)
                feedforward := ap.feedforward.set channel (-dry - out * ap.gain) },
              out + (-dry - out * ap.gain))
    | _, _ => none
  else none

/-- An allpass as `prepare` leaves it and `pushSample`, `popSample` keep it: a
well-formed delay line and four per-channel vectors of `numChannels` entries. -/
def Allpass.WellFormed (ap : Allpass) (numChannels : Nat) : Prop :=
  ap.delayLine.WellFormed numChannels ∧ ap.drySample.length = numChannels ∧
  ap.delayOutput.length = numChannels ∧ ap.feedforward.length = numChannels ∧
  ap.feedback.length = numChannels

instance (ap : Allpass) (numChannels : Nat) : Decidable (ap.WellFormed numChannels) := by
  unfold Allpass.WellFormed
  infer_instance

/-- One sample through the diffuser as the engines drive it: `pushSample (channel, x)`
followed by `popSample (channel)` at the configured delay. -/
def Allpass.processSample (ap : Allpass) (channel : Nat) (x : ℚ) : Option (Allpass × ℚ) :=
  match ap.pushSample channel x with
  | some ap1 => ap1.popSample channel (-1)
  | none => none

/-- A run of `processSample` over the input samples `xs`, first sample first: the
allpass afterwards and the output samples. -/
def Allpass.processAll (ap : Allpass) (channel : Nat) (xs : List ℚ) :
    Option (Allpass × List ℚ) :=
  xs.foldl
    (fun st x =>
      match st with
      | some (a, ys) =>
          match a.processSample channel x with
          | some (a1, y) => some (a1, ys ++ [y])
          | none => none
      | none => none)
    (some (ap, []))

/-- The set-up sequence of `prepareAllpass` in the engines: maximum delay, delay, gain,
`prepare`, `reset`. -/
def Allpass.configured (maxSamples : Int) (delaySamples gain : ℚ) (spec : ProcessSpec) :
    Allpass :=
  ((((Allpass.new.setMaximumDelayInSamples maxSamples).setDelay delaySamples).setGain
    gain).prepare spec).reset

/-- The total energy of a finite signal: the sum of its squared samples. -/
def energy (ys : List ℚ) : ℚ :=
  (ys.map fun y => y * y).sum

/-- A unit impulse followed by `n` zeros. -/
def unitImpulse (n : Nat) : List ℚ :=
  1 :: List.replicate n 0

/-! ## The reverb engines `DatorroHall` and `HybridPlate`: scattering and gains -/

/-- Embeds `DatorroHall::applyFDNScattering`: `out[i] = in[i] - 0.5f * sum`. -/
def DatorroHall.applyFDNScattering (inp : Fin 4 → ℚ) : Fin 4 → ℚ :=
  let sum := inp 0 + inp 1 + inp 2 + inp 3
  let scaled := (1 / 2 : ℚ) * sum
  fun i => inp i - scaled

/-- The constant `HybridPlate::feedbackMatrix`, row `i`, column `j`. -/
def HybridPlate.feedbackMatrix (i j : Fin 4) : ℚ :=
  match i, j with
  | 0, 0 => 1 / 2 | 0, 1 => 1 / 2 | 0, 2 => 1 / 2 | 0, 3 => 1 / 2
  | 1, 0 => 1 / 2 | 1, 1 => -1 / 2 | 1, 2 => 1 / 2 | 1, 3 => -1 / 2
  | 2, 0 => 1 / 2 | 2, 1 => 1 / 2 | 2, 2 => -1 / 2 | 2, 3 => -1 / 2
  | 3, 0 => 1 / 2 | 3, 1 => -1 / 2 | 3, 2 => -1 / 2 | 3, 3 => 1 / 2

/-- The constant `HybridPlate::feedbackMatrixScale`. -/
def HybridPlate.feedbackMatrixScale : ℚ := 1

/-- Embeds `HybridPlate::applyFDNFeedbackMatrix`. -/
def HybridPlate.applyFDNFeedbackMatrix (inp : Fin 4 → ℚ) : Fin 4 → ℚ :=
  fun i => HybridPlate.feedbackMatrixScale * ∑ j : Fin 4, HybridPlate.feedbackMatrix i j * inp j

/-- The value `fb` of `DatorroHall::processBlock` before the clamp:
`std::exp (-3.0f * estimatedLoopTimeSeconds / decaySec)`, over any field with an
exponential `exp`. -/
def DatorroHall.feedbackRaw {α : Type} [Field α] (exp : α → α)
    (estimatedLoopTimeSeconds decaySec : α) : α :=
  exp (-3 * estimatedLoopTimeSeconds / decaySec)

/-- The loop-time estimate of `DatorroHall::prepare`:
`totalDelaySamps / sampleRate + apDelayMs * 0.001f` with the eight allpass delays
`apDelayMs = 8 + 12 + 15 + 22 + 35 + 55 + 78 + 92`. -/
def DatorroHall.loopTimeEstimate {α : Type} [Field α] (totalDelaySamps sampleRate : α) : α :=
  totalDelaySamps / sampleRate + (8 + 12 + 15 + 22 + 35 + 55 + 78 + 92) * (1 / 1000)

/-- The per-block `feedbackGain` of `DatorroHall::processBlock`, from the stored loop
time and the user's decay time; `exp` stands for `std::exp`. -/
def DatorroHall.feedbackGain (exp : ℚ → ℚ) (estimatedLoopTimeSeconds decayTime : ℚ) : ℚ :=
  let decaySec := jlimit (1 / 10) 20 decayTime
  let fb := DatorroHall.feedbackRaw exp estimatedLoopTimeSeconds decaySec
  jlimit 0 (9999 / 10000) fb

/-- The per-block `feedbackGain` of `HybridPlate::processBlock`. -/
def HybridPlate.feedbackGain (exp : ℚ → ℚ) (estimatedLoopTimeSeconds decayTime roomSize : ℚ) :
    ℚ :=
  let decaySec := jlimit (1 / 10) 20 decayTime
  let roomSize1 := jlimit (1 / 4) (7 / 4) roomSize
  let effectiveLoopTime := estimatedLoopTimeSeconds * roomSize1
  let fbRaw := exp (-3 * effectiveLoopTime / decaySec)
  let feedbackSafety : ℚ := 95 / 100
  let feedbackGain := fbRaw * feedbackSafety
  jlimit 0 (9 / 10) feedbackGain

/-! ## The reverb engines: parameters and library types -/

/-- Modelled from the spec: the struct `ReverbProcessorParameters` of `Utilities.h`,
which is not among the sources; the fields are the ones `ReverbModule` fills and the
engines read (`mix`, `roomSize`, `decayTime`, `damping`, `modRate`, `modDepth`,
`preDelay`). -/
structure ReverbProcessorParameters where
  mix : ℚ
  roomSize : ℚ
  decayTime : ℚ
  damping : ℚ
  modRate : ℚ
  modDepth : ℚ
  preDelay : ℚ
deriving DecidableEq

/-- The enum `generatorWaveform` of `LFO.h`. -/
inductive generatorWaveform where
  | triangle
  | sin
  | saw
deriving DecidableEq

/-- The struct `OscillatorParameters` of `LFO.h`. -/
structure OscillatorParameters where
  waveform : generatorWaveform
  frequency_Hz : ℚ
  depth : ℚ
deriving DecidableEq

/-- The struct `SignalGenData` of `LFO.h`. -/
structure SignalGenData where
  normalOutput : ℚ
  invertedOutput : ℚ
  quadPhaseOutput_pos : ℚ
  quadPhaseOutput_neg : ℚ
deriving DecidableEq

/-- The data members of the class `LFO` of `LFO.h`. -/
structure LFO where
  lfoParameters : OscillatorParameters
  sampleRate : ℚ
  modCounter : ℚ
  phaseInc : ℚ
  modCounterQP : ℚ
deriving DecidableEq

/-- The part of a `juce::dsp::FirstOrderTPTFilter<float>` the engines touch: the
cut-off frequency last set, the sample rate, and the filter state of channel 0. -/
structure FirstOrderTPTFilter where
  cutoffFrequency : ℚ
  sampleRate : ℚ
  s1 : ℚ
deriving DecidableEq

/-- Embeds `FirstOrderTPTFilter::setCutoffFrequency`. -/
def FirstOrderTPTFilter.setCutoffFrequency (f : FirstOrderTPTFilter) (newValue : ℚ) :
    FirstOrderTPTFilter :=
  { f with cutoffFrequency := newValue }

/-- Embeds `FirstOrderTPTFilter::reset`. -/
def FirstOrderTPTFilter.reset (f : FirstOrderTPTFilter) : FirstOrderTPTFilter :=
  { f with s1 := 0 }

/-- Embeds `FirstOrderTPTFilter::prepare`. -/
def FirstOrderTPTFilter.prepare (f : FirstOrderTPTFilter) (spec : ProcessSpec) :
    FirstOrderTPTFilter :=
  { f with sampleRate := spec.sampleRate, s1 := 0 }

/-- The part of a `juce::dsp::IIR::Filter<float>` the Plate engine touches: its
coefficients and its state. -/
structure IIRFilter where
  coefficients : List ℚ
  state : List ℚ
deriving DecidableEq

/-- The functions the engines call whose code is outside the sources: `std::exp`,
`std::tanh` and `std::pow`, the per-sample steps of the JUCE filters and the
coefficient maker of the high shelf, and the member functions of `LFO` defined in
`LFO.cpp`.  The engines are modelled for every choice of these functions. -/
structure DspLibrary where
  exp : ℚ → ℚ
  tanh : ℚ → ℚ
  pow : ℚ → ℚ → ℚ
  tptProcessSample : FirstOrderTPTFilter → ℚ → FirstOrderTPTFilter × ℚ
  iirProcessSample : IIRFilter → ℚ → IIRFilter × ℚ
  makeHighShelf : ℚ → ℚ → ℚ → ℚ → List ℚ
  lfoSetParameters : LFO → OscillatorParameters → LFO
  lfoReset : LFO → ℚ → LFO
  lfoRenderAudioOutput : LFO → LFO × SignalGenData

/-- Embeds `PsychoDamping::mapPsychoDamping (userDamping, minHz, maxHz)`. -/
def mapPsychoDamping (lib : DspLibrary) (userDamping minHz maxHz : ℚ) : ℚ :=
  let userDamping1 := jlimit 0 1 userDamping
  let perceptual := lib.pow userDamping1 (35 / 100)
  minHz * lib.pow (maxHz / minHz) (1 - perceptual)

/-- The class `PsychoDamping::OnePole`. -/
structure OnePole where
  z : ℚ
  g : ℚ
  cutoffHz : ℚ
deriving DecidableEq

/-- The member initialisers of `PsychoDamping::OnePole`. -/
def OnePole.new : OnePole := ⟨0, 0, 8000⟩

/-- Embeds `OnePole::prepare (sampleRate, userDamping)`. -/
def OnePole.prepare (lib : DspLibrary) (f : OnePole) (sampleRate userDamping : ℚ) : OnePole :=
  let cutoffHz := mapPsychoDamping lib userDamping 400 16000
  let pi : ℚ := 314159265358979323846 / 100000000000000000000
  { f with cutoffHz := cutoffHz, g := lib.exp (-2 * pi * cutoffHz / sampleRate) }

/-- Embeds `OnePole::process`: the filter afterwards and the value returned. -/
def OnePole.process (f : OnePole) (x : ℚ) : OnePole × ℚ :=
  let z := f.g * f.z + (1 - f.g) * x
  ({ f with z := z }, z)

/-- The class `PsychoOnePole`. -/
structure PsychoOnePole where
  sr : ℚ
  g : ℚ
  z : ℚ
deriving DecidableEq

/-- The member initialisers of `PsychoOnePole`. -/
def PsychoOnePole.new : PsychoOnePole := ⟨44100, 99 / 100, 0⟩

/-- Embeds `PsychoOnePole::setDamping`. -/
def PsychoOnePole.setDamping (lib : DspLibrary) (f : PsychoOnePole) (userDamping : ℚ) :
    PsychoOnePole :=
  let cutoffHz := mapPsychoDamping lib userDamping 400 16000
  let pi : ℚ := 314159265359 / 100000000000
  { f with g := lib.exp (-2 * pi * cutoffHz / f.sr) }

/-- Embeds `PsychoOnePole::prepare (sampleRate, userDamping)`. -/
def PsychoOnePole.prepare (lib : DspLibrary) (f : PsychoOnePole) (sampleRate userDamping : ℚ) :
    PsychoOnePole :=
  { PsychoOnePole.setDamping lib { f with sr := sampleRate } userDamping with z := 0 }

/-- Embeds `PsychoOnePole::process`: the filter afterwards and the value returned. -/
def PsychoOnePole.process (f : PsychoOnePole) (x : ℚ) : PsychoOnePole × ℚ :=
  let z := f.g * f.z + (1 - f.g) * x
  ({ f with z := z }, z)

/-- The C++ `std::round`: to the nearest integer, halves away from zero. -/
def roundToInt (x : ℚ) : Int :=
  if 0 ≤ x then ⌊x + 1 / 2⌋ else ⌈x - 1 / 2⌉

/-- Four values as an array indexed by `Fin 4`. -/
def vec4 {α : Type} (a b c d : α) : Fin 4 → α :=
  fun i => match i with
    | 0 => a
    | 1 => b
    | 2 => c
    | 3 => d

/-- Four fallible computations in index order: all four results, or `none` when one of
them fails. -/
def sequence4 {α : Type} (f : Fin 4 → Option α) : Option (Fin 4 → α) :=
  match f 0, f 1, f 2, f 3 with
  | some a, some b, some c, some d => some (vec4 a b c d)
  | _, _, _, _ => none

/-- A cascade of four allpass diffusers on channel 0: `pushSample (0, e)` then
`e = popSample (0)` for each in turn. -/
def diffuse (aps : Fin 4 → Allpass) (x : ℚ) : Option ((Fin 4 → Allpass) × ℚ) :=
  match (aps 0).processSample 0 x with
  | some (a0, e0) =>
    match (aps 1).processSample 0 e0 with
    | some (a1, e1) =>
      match (aps 2).processSample 0 e1 with
      | some (a2, e2) =>
        match (aps 3).processSample 0 e2 with
        | some (a3, e3) => some (vec4 a0 a1 a2 a3, e3)
        | none => none
      | none => none
    | none => none
  | none => none

/-- Embeds `prepareAllpass (ap, spec, delayMs, gain)` of both engines. -/
def prepareAllpass (ap : Allpass) (spec : ProcessSpec) (delayMs gain : ℚ) : Allpass :=
  let desiredSamples : Int := roundToInt ((delayMs * (1 / 1000)) * spec.sampleRate)
  let maxSamples : Int := max (desiredSamples + 32) 4
  (((((ap.setMaximumDelayInSamples maxSamples).setDelay (desiredSamples : ℚ)).setGain
    gain).prepare spec).reset)

/-! ## The Hall engine `DatorroHall` -/

/-- The data members of `DatorroHall`.  The numbered members (`tankDelayL1` …
`tankDelayL4`, `earlyL1` … `earlyL4`, `tankLAP1` … `tankLAP4` and their right-channel
twins) and the arrays of four are indexed by `Fin 4`, member `…1` at index 0; the arrays
of the six early-reflection taps are lists. -/
structure DatorroHall where
  parameters : ReverbProcessorParameters
  loopDamping : FirstOrderTPTFilter
  dampingFiltersL : Fin 4 → FirstOrderTPTFilter
  dampingFiltersR : Fin 4 → FirstOrderTPTFilter
  preDelayL : DelayLineWithSampleAccess
  preDelayR : DelayLineWithSampleAccess
  preDelaySamples : ℚ
  tankDelayL : Fin 4 → DelayLineWithSampleAccess
  tankDelayR : Fin 4 → DelayLineWithSampleAccess
  erL : DelayLineWithSampleAccess
  erR : DelayLineWithSampleAccess
  currentDelayL_samps : Fin 4 → ℚ
  currentDelayR_samps : Fin 4 → ℚ
  baseDelaySamplesL : Fin 4 → ℚ
  baseDelaySamplesR : Fin 4 → ℚ
  maxDelaySamplesL : Fin 4 → ℚ
  maxDelaySamplesR : Fin 4 → ℚ
  estimatedLoopTimeSeconds : ℚ
  earlyL : Fin 4 → Allpass
  earlyR : Fin 4 → Allpass
  tankLAP : Fin 4 → Allpass
  tankRAP : Fin 4 → Allpass
  extraDampingL : Fin 4 → OnePole
  extraDampingR : Fin 4 → OnePole
  lfoParameters : OscillatorParameters
  lfoOutput : SignalGenData
  lfo : LFO
  channelInput : List ℚ
  channelOutput : List ℚ
  feedbackL : Fin 4 → ℚ
  feedbackR : Fin 4 → ℚ
  ER_tapSamplesLeft : List ℚ
  ER_tapSamplesRight : List ℚ
  sampleRate : Int

/-- The member `ER_gains`. -/
def DatorroHall.ER_gains : List ℚ :=
  [60 / 100, 45 / 100, 32 / 100, 28 / 100, 22 / 100, 18 / 100]

/-- The member `ER_tapTimesMsLeft`. -/
def DatorroHall.ER_tapTimesMsLeft : List ℚ :=
  [52 / 10, 128 / 10, 215 / 10, 322 / 10, 45, 60]

/-- The member `ER_tapTimesMsRight`. -/
def DatorroHall.ER_tapTimesMsRight : List ℚ :=
  [79 / 10, 173 / 10, 258 / 10, 371 / 10, 486 / 10, 64]

/-- The engine as constructed: the member initialisers of `DatorroHall.h`.  The parameter
struct, the JUCE filters and the `LFO` are constructed by code outside the sources and
the two arrays of tap positions are left uninitialised, so these are arguments. -/
def DatorroHall.new (parameters : ReverbProcessorParameters) (filter : FirstOrderTPTFilter)
    (lfo : LFO) (tapsLeft tapsRight : List ℚ) : DatorroHall :=
  { parameters := parameters
    loopDamping := filter
    dampingFiltersL := fun _ => filter
    dampingFiltersR := fun _ => filter
    preDelayL := DelayLineWithSampleAccess.new 44100
    preDelayR := DelayLineWithSampleAccess.new 44100
    preDelaySamples := 0
    tankDelayL := fun _ => DelayLineWithSampleAccess.new 44100
    tankDelayR := fun _ => DelayLineWithSampleAccess.new 44100
    erL := DelayLineWithSampleAccess.new 44100
    erR := DelayLineWithSampleAccess.new 44100
    currentDelayL_samps := fun _ => 0
    currentDelayR_samps := fun _ => 0
    baseDelaySamplesL := fun _ => 0
    baseDelaySamplesR := fun _ => 0
    maxDelaySamplesL := fun _ => 0
    maxDelaySamplesR := fun _ => 0
    estimatedLoopTimeSeconds := 2 / 10
    earlyL := fun _ => Allpass.new
    earlyR := fun _ => Allpass.new
    tankLAP := fun _ => Allpass.new
    tankRAP := fun _ => Allpass.new
    extraDampingL := fun _ => OnePole.new
    extraDampingR := fun _ => OnePole.new
    lfoParameters := ⟨generatorWaveform.triangle, 0, 1⟩
    lfoOutput := ⟨0, 0, 0, 0⟩
    lfo := lfo
    channelInput := [0, 0]
    channelOutput := [0, 0]
    feedbackL := fun _ => 0
    feedbackR := fun _ => 0
    ER_tapSamplesLeft := tapsLeft
    ER_tapSamplesRight := tapsRight
    sampleRate := 44100 }

/-- Embeds `DatorroHall::updateInternalParamsFromUserParams`. -/
def DatorroHall.updateInternalParamsFromUserParams (lib : DspLibrary) (s : DatorroHall) :
    DatorroHall :=
  let parameters : ReverbProcessorParameters :=
    { s.parameters with
      roomSize := jlimit (1 / 4) (7 / 4) s.parameters.roomSize
      decayTime := jlimit (1 / 10) 20 s.parameters.decayTime
      mix := jlimit 0 1 s.parameters.mix }
  let lfoParameters : OscillatorParameters :=
    { s.lfoParameters with frequency_Hz := parameters.modRate, depth := parameters.modDepth }
  let pdMs := jlimit 0 200 parameters.preDelay
  { s with
    parameters := parameters
    loopDamping := s.loopDamping.setCutoffFrequency parameters.damping
    dampingFiltersL := fun i => (s.dampingFiltersL i).setCutoffFrequency parameters.damping
    dampingFiltersR := fun i => (s.dampingFiltersR i).setCutoffFrequency parameters.damping
    lfoParameters := lfoParameters
    lfo := lib.lfoSetParameters s.lfo lfoParameters
    preDelaySamples := pdMs * (1 / 1000) * (s.sampleRate : ℚ) }

/-- Embeds `DatorroHall::setParameters`. -/
def DatorroHall.setParameters (lib : DspLibrary) (s : DatorroHall)
    (params : ReverbProcessorParameters) : DatorroHall :=
  DatorroHall.updateInternalParamsFromUserParams lib { s with parameters := params }

/-- Embeds `DatorroHall::reset`. -/
def DatorroHall.reset (lib : DspLibrary) (s : DatorroHall) : DatorroHall :=
  { s with
    loopDamping := s.loopDamping.reset
    earlyL := fun i => (s.earlyL i).reset
    earlyR := fun i => (s.earlyR i).reset
    tankLAP := fun i => (s.tankLAP i).reset
    tankRAP := fun i => (s.tankRAP i).reset
    tankDelayL := fun i => (s.tankDelayL i).reset
    tankDelayR := fun i => (s.tankDelayR i).reset
    feedbackL := fun _ => 0
    feedbackR := fun _ => 0
    channelInput := s.channelInput.map fun _ => 0
    channelOutput := s.channelOutput.map fun _ => 0
    currentDelayL_samps := s.baseDelaySamplesL
    currentDelayR_samps := s.baseDelaySamplesR
    lfo := lib.lfoReset s.lfo (s.sampleRate : ℚ) }

/-- Embeds `DatorroHall::prepare`. -/
def DatorroHall.prepare (lib : DspLibrary) (s : DatorroHall) (spec : ProcessSpec) :
    DatorroHall :=
  let sampleRate : Int := truncToInt spec.sampleRate
  let prepDL := fun (d : DelayLineWithSampleAccess) => (d.prepare spec).reset
  let tankDelayL := fun i => prepDL (s.tankDelayL i)
  let tankDelayR := fun i => prepDL (s.tankDelayR i)
  let baseMs : Fin 4 → ℚ := vec4 130 155 177 199
  let maxDelaySamplesL : Fin 4 → ℚ :=
    fun i => ((((tankDelayL i).delayBuffer.getNumSamples : Int) - 2 : Int) : ℚ)
  let maxDelaySamplesR : Fin 4 → ℚ :=
    fun i => ((((tankDelayR i).delayBuffer.getNumSamples : Int) - 2 : Int) : ℚ)
  let baseDelaySamplesL : Fin 4 → ℚ :=
    fun i => jlimit 1 (maxDelaySamplesL i) (baseMs i * (1 / 1000) * (sampleRate : ℚ))
  let baseDelaySamplesR : Fin 4 → ℚ :=
    fun i => jlimit 1 (maxDelaySamplesR i) (baseMs i * (1 / 1000) * (sampleRate : ℚ))
  let lfoParameters : OscillatorParameters :=
    ⟨generatorWaveform.sin, s.parameters.modRate, s.parameters.modDepth⟩
  let totalDelaySamps : ℚ :=
    (((0 + baseDelaySamplesL 0) + baseDelaySamplesL 1) + baseDelaySamplesL 2)
      + baseDelaySamplesL 3
  let s1 : DatorroHall :=
    { s with
      sampleRate := sampleRate
      channelInput := [0, 0]
      channelOutput := [0, 0]
      feedbackL := fun _ => 0
      feedbackR := fun _ => 0
      loopDamping :=
        ((s.loopDamping.prepare spec).setCutoffFrequency s.parameters.damping).reset
      preDelayL := (s.preDelayL.prepare spec).reset
      preDelayR := (s.preDelayR.prepare spec).reset
      erL := (s.erL.prepare spec).reset
      erR := (s.erR.prepare spec).reset
      tankDelayL := tankDelayL
      tankDelayR := tankDelayR
      dampingFiltersL := fun i => ((s.dampingFiltersL i).prepare spec).reset
      dampingFiltersR := fun i => ((s.dampingFiltersR i).prepare spec).reset
      extraDampingL := fun i => OnePole.prepare lib (s.extraDampingL i) (sampleRate : ℚ) (1 / 4)
      extraDampingR := fun i => OnePole.prepare lib (s.extraDampingR i) (sampleRate : ℚ) (1 / 4)
      maxDelaySamplesL := maxDelaySamplesL
      maxDelaySamplesR := maxDelaySamplesR
      baseDelaySamplesL := baseDelaySamplesL
      baseDelaySamplesR := baseDelaySamplesR
      currentDelayL_samps := baseDelaySamplesL
      currentDelayR_samps := baseDelaySamplesR
      ER_tapSamplesLeft :=
        DatorroHall.ER_tapTimesMsLeft.map fun t => t * (1 / 1000) * (sampleRate : ℚ)
      ER_tapSamplesRight :=
        DatorroHall.ER_tapTimesMsRight.map fun t => t * (1 / 1000) * (sampleRate : ℚ)
      earlyL := fun i => prepareAllpass (s.earlyL i) spec (vec4 8 12 15 22 i)
        (vec4 (70 / 100) (72 / 100) (68 / 100) (70 / 100) i)
      earlyR := fun i => prepareAllpass (s.earlyR i) spec (vec4 (88 / 10) (105 / 10) 16 21 i)
        (vec4 (70 / 100) (72 / 100) (68 / 100) (70 / 100) i)
      tankLAP := fun i => prepareAllpass (s.tankLAP i) spec (vec4 35 55 78 92 i)
        (vec4 (72 / 100) (70 / 100) (72 / 100) (70 / 100) i)
      tankRAP := fun i => prepareAllpass (s.tankRAP i) spec (vec4 35 55 78 92 i)
        (vec4 (72 / 100) (70 / 100) (72 / 100) (70 / 100) i)
      lfoParameters := lfoParameters
      lfo := lib.lfoReset (lib.lfoReset (lib.lfoSetParameters s.lfo lfoParameters)
        spec.sampleRate) (sampleRate : ℚ)
      estimatedLoopTimeSeconds :=
        DatorroHall.loopTimeEstimate totalDelaySamps (sampleRate : ℚ) }
  DatorroHall.reset lib (DatorroHall.updateInternalParamsFromUserParams lib s1)

/-- The early-reflection sum of one channel: the loop
`erOut += ER_gains[i] * er.readFractional (0, ER_tapSamples[i])` from `erOut = 0`. -/
def earlyReflectionSum (er : DelayLineWithSampleAccess) (gainsAndTaps : List (ℚ × ℚ)) :
    Option ℚ :=
  gainsAndTaps.foldl
    (fun acc gt =>
      match acc, er.readFractional 0 gt.2 with
      | some erOut, some tap => some (erOut + gt.1 * tap)
      | _, _ => none)
    (some 0)

/-- Embeds `v[i] = x` on a `std::vector<float>`; `none` for an index outside the
vector. -/
def vecSet? (v : List ℚ) (i : Nat) (x : ℚ) : Option (List ℚ) :=
  if i < v.length then some (v.set i x) else none

/-- The first part of one pass of the sample loop of `DatorroHall::processBlock`, from
`PRE-DELAY` to the end of `EARLY DIFFUSION`: the engine afterwards and the diffused
signals `eL`, `eR`. -/
def DatorroHall.earlyStage (s : DatorroHall) (dryL dryR : ℚ) :
    Option (DatorroHall × ℚ × ℚ) :=
  match s.preDelayL.pushSampleChecked 0 dryL, s.preDelayR.pushSampleChecked 0 dryR with
  | some preDelayL, some preDelayR =>
    match preDelayL.readFractional 0 s.preDelaySamples,
        preDelayR.readFractional 0 s.preDelaySamples with
    | some inL, some inR =>
      match vecSet? s.channelInput 0 inL with
      | some channelInput0 =>
        match vecSet? channelInput0 1 inR with
        | some channelInput1 =>
          match s.erL.pushSampleChecked 0 dryL, s.erR.pushSampleChecked 0 dryR with
          | some erL, some erR =>
            match earlyReflectionSum erL (DatorroHall.ER_gains.zip s.ER_tapSamplesLeft),
                earlyReflectionSum erR (DatorroHall.ER_gains.zip s.ER_tapSamplesRight) with
            | some erOutL, some erOutR =>
              match diffuse s.earlyL erOutL, diffuse s.earlyR erOutR with
              | some (earlyL, eL), some (earlyR, eR) =>
                some ({ s with
                        preDelayL := preDelayL
                        preDelayR := preDelayR
                        channelInput := channelInput1
                        erL := erL
                        erR := erR
                        earlyL := earlyL
                        earlyR := earlyR }, eL, eR)
              | _, _ => none
            | _, _ => none
          | _, _ => none
        | none => none
      | none => none
    | _, _ => none
  | _, _ => none

/-- The sections `LFO per-sample` and `PER-LINE MODULATION` of the sample loop: the LFO
is advanced and the eight smoothed delay times move towards their targets. -/
def DatorroHall.modulate (lib : DspLibrary) (s : DatorroHall)
    (decaySec roomSize modDepth : ℚ) : DatorroHall :=
  let rendered := lib.lfoRenderAudioOutput s.lfo
  let lfoOutput := rendered.2
  let lfo0 := lfoOutput.normalOutput
  let lfo90 := lfoOutput.quadPhaseOutput_pos
  let lfoVals : Fin 4 → ℚ :=
    vec4 lfo0 lfo90 (lib.tanh (lfo0 + (1 / 2) * lfo90)) (lib.tanh (lfo90 - (1 / 2) * lfo0))
  let normDecay := jlimit 0 1 (decaySec / 20)
  let densityScale := 1 + (20 / 100) * normDecay
  let slew : ℚ := 1 / 1000
  let modRatio : ℚ := 1 / 100
  let baseL : Fin 4 → ℚ := fun i =>
    jlimit 1 (s.maxDelaySamplesL i) (s.baseDelaySamplesL i * roomSize * densityScale)
  let baseR : Fin 4 → ℚ := fun i =>
    jlimit 1 (s.maxDelaySamplesR i) (s.baseDelaySamplesR i * roomSize * densityScale)
  let targetL : Fin 4 → ℚ := fun i =>
    jlimit 1 (s.maxDelaySamplesL i) (baseL i + baseL i * modRatio * modDepth * lfoVals i)
  let targetR : Fin 4 → ℚ := fun i =>
    jlimit 1 (s.maxDelaySamplesR i) (baseR i + baseR i * modRatio * modDepth * lfoVals i)
  { s with
    lfo := rendered.1
    lfoOutput := lfoOutput
    currentDelayL_samps := fun i =>
      s.currentDelayL_samps i + slew * (targetL i - s.currentDelayL_samps i)
    currentDelayR_samps := fun i =>
      s.currentDelayR_samps i + slew * (targetR i - s.currentDelayR_samps i) }

/-- The rest of one pass of the sample loop, from `PUSH INPUT + FEEDBACK` to the stereo
decode: the engine afterwards and the wet pair `outL`, `outR` stored in
`channelOutput`. -/
def DatorroHall.tankStage (lib : DspLibrary) (s : DatorroHall) (eL eR feedbackGain : ℚ) :
    Option (DatorroHall × ℚ × ℚ) :=
  let stereoCross : ℚ := 15 / 100
  let tankInputL : Fin 4 → ℚ := fun i => (8 / 10) * (eL + s.feedbackL i)
  let tankInputR : Fin 4 → ℚ := fun i => (8 / 10) * (eR + s.feedbackR i)
  match sequence4 (fun i => (s.tankDelayL i).pushSampleChecked 0 (tankInputL i)),
      sequence4 (fun i => (s.tankDelayR i).pushSampleChecked 0 (tankInputR i)) with
  | some tankDelayL, some tankDelayR =>
    match sequence4 (fun i => (tankDelayL i).readFractional 0 (s.currentDelayL_samps i)),
        sequence4 (fun i => (tankDelayR i).readFractional 0 (s.currentDelayR_samps i)) with
    | some rawL0, some rawR0 =>
      let dampL := fun i => (s.extraDampingL i).process (rawL0 i)
      let dampR := fun i => (s.extraDampingR i).process (rawR0 i)
      match sequence4 (fun i => (s.tankLAP i).processSample 0 (dampL i).2),
          sequence4 (fun i => (s.tankRAP i).processSample 0 (dampR i).2) with
      | some apL, some apR =>
        let scatterL := DatorroHall.applyFDNScattering fun i => (apL i).2
        let scatterR := DatorroHall.applyFDNScattering fun i => (apR i).2
        let filtL := fun i =>
          lib.tptProcessSample (s.dampingFiltersL i) (scatterL i + stereoCross * scatterR i)
        let filtR := fun i =>
          lib.tptProcessSample (s.dampingFiltersR i) (scatterR i + stereoCross * scatterL i)
        let outL := (35 / 100) * (scatterL 0 + scatterL 2)
          + (25 / 100) * (scatterL 1 + scatterL 3)
        let outR := (35 / 100) * (scatterR 0 + scatterR 2)
          + (25 / 100) * (scatterR 1 + scatterR 3)
        match vecSet? s.channelOutput 0 outL with
        | some channelOutput0 =>
          match vecSet? channelOutput0 1 outR with
          | some channelOutput1 =>
            some ({ s with
                    tankDelayL := tankDelayL
                    tankDelayR := tankDelayR
                    extraDampingL := fun i => (dampL i).1
                    extraDampingR := fun i => (dampR i).1
                    tankLAP := fun i => (apL i).1
                    tankRAP := fun i => (apR i).1
                    dampingFiltersL := fun i => (filtL i).1
                    dampingFiltersR := fun i => (filtR i).1
                    feedbackL := fun i => (filtL i).2 * feedbackGain
                    feedbackR := fun i => (filtR i).2 * feedbackGain
                    channelOutput := channelOutput1 }, outL, outR)
          | none => none
        | none => none
      | _, _ => none
    | _, _ => none
  | _, _ => none

/-- One pass of the sample loop of `DatorroHall::processBlock` up to the stereo decode:
the engine afterwards and the wet pair `outL`, `outR`. -/
def DatorroHall.processSample (lib : DspLibrary) (s : DatorroHall)
    (decaySec roomSize modDepth feedbackGain dryL dryR : ℚ) : Option (DatorroHall × ℚ × ℚ) :=
  match s.earlyStage dryL dryR with
  | some (s1, eL, eR) =>
      (s1.modulate lib decaySec roomSize modDepth).tankStage lib eL eR feedbackGain
  | none => none

/-- The sample loop of `DatorroHall::processBlock` over the dry pairs
`(left[n], right ? right[n] : left[n])`: the engine afterwards and the pairs
`(dryMix * dryL + mix * outL, dryMix * dryR + mix * outR)`. -/
def DatorroHall.processSamples (lib : DspLibrary)
    (mix dryMix decaySec roomSize modDepth feedbackGain : ℚ) :
    DatorroHall → List (ℚ × ℚ) → Option (DatorroHall × List (ℚ × ℚ))
  | s, [] => some (s, [])
  | s, dry :: rest =>
    match s.processSample lib decaySec roomSize modDepth feedbackGain dry.1 dry.2 with
    | some (s1, outL, outR) =>
      match DatorroHall.processSamples lib mix dryMix decaySec roomSize modDepth feedbackGain
          s1 rest with
      | some (s2, outs) =>
          some (s2, (dryMix * dry.1 + mix * outL, dryMix * dry.2 + mix * outR) :: outs)
      | none => none
    | none => none

/-- The wet pairs `(outL, outR)` the sample loop computes for the dry pairs, in order. -/
def DatorroHall.wetSamples (lib : DspLibrary) (decaySec roomSize modDepth feedbackGain : ℚ) :
    DatorroHall → List (ℚ × ℚ) → Option (List (ℚ × ℚ))
  | _, [] => some []
  | s, dry :: rest =>
    match s.processSample lib decaySec roomSize modDepth feedbackGain dry.1 dry.2 with
    | some (s1, outL, outR) =>
      match DatorroHall.wetSamples lib decaySec roomSize modDepth feedbackGain s1 rest with
      | some outs => some ((outL, outR) :: outs)
      | none => none
    | none => none

/-- The dry pairs of a buffer: `(left[n], right[n])` for a buffer with a second channel,
`(left[n], left[n])` for a mono buffer (the channels of a `juce::AudioBuffer` have one
length); `none` for a buffer without channels, whose `getWritePointer (0)` is out of
range. -/
def dryPairs (buffer : AudioBuffer) : Option (List (ℚ × ℚ)) :=
  match buffer with
  | [] => none
  | [left] => some (left.map fun x => (x, x))
  | left :: right :: _ => some (left.zip right)

/-- The buffer after the sample loop has written `left[n]` and, when there is a second
channel, `right[n]`; further channels are not touched. -/
def writeBack (buffer : AudioBuffer) (outs : List (ℚ × ℚ)) : AudioBuffer :=
  match buffer with
  | [] => []
  | [_] => [outs.map Prod.fst]
  | _ :: _ :: rest => outs.map Prod.fst :: outs.map Prod.snd :: rest

/-- Embeds `DatorroHall::processBlock`: the engine and the buffer afterwards, `none` when
an access falls outside a vector or a buffer. -/
def DatorroHall.processBlock (lib : DspLibrary) (s : DatorroHall) (buffer : AudioBuffer) :
    Option (DatorroHall × AudioBuffer) :=
  let mix := s.parameters.mix
  let dryMix := 1 - mix
  let decaySec := jlimit (1 / 10) 20 s.parameters.decayTime
  let roomSize := jlimit (1 / 4) (7 / 4) s.parameters.roomSize
  let modDepth := s.parameters.modDepth
  let feedbackGain :=
    DatorroHall.feedbackGain lib.exp s.estimatedLoopTimeSeconds s.parameters.decayTime
  match dryPairs buffer with
  | some dry =>
    match DatorroHall.processSamples lib mix dryMix decaySec roomSize modDepth feedbackGain
        s dry with
    | some (s1, outs) => some (s1, writeBack buffer outs)
    | none => none
  | none => none

/-- A Hall engine as `prepare` leaves it and `processBlock` and `setParameters` keep it:
every delay line and every allpass is well formed for `numChannels ≥ 1` channels, the
two channel vectors have two entries, and the stored mix lies in [0, 1]. -/
def DatorroHall.Prepared (s : DatorroHall) (numChannels : Nat) : Prop :=
  0 < numChannels ∧
  (s.preDelayL.WellFormed numChannels ∧ s.preDelayR.WellFormed numChannels ∧
    s.erL.WellFormed numChannels ∧ s.erR.WellFormed numChannels) ∧
  ((∀ i, (s.tankDelayL i).WellFormed numChannels) ∧
    (∀ i, (s.tankDelayR i).WellFormed numChannels)) ∧
  ((∀ i, (s.earlyL i).WellFormed numChannels) ∧ (∀ i, (s.earlyR i).WellFormed numChannels) ∧
    (∀ i, (s.tankLAP i).WellFormed numChannels) ∧
    (∀ i, (s.tankRAP i).WellFormed numChannels)) ∧
  (s.channelInput.length = 2 ∧ s.channelOutput.length = 2) ∧
  (0 ≤ s.parameters.mix ∧ s.parameters.mix ≤ 1)

instance (s : DatorroHall) (numChannels : Nat) : Decidable (s.Prepared numChannels) := by
  unfold DatorroHall.Prepared
  infer_instance

/-- The engine `s` with another value of `preDelaySamples`, another content of
`channelInput` and another stored parameter struct, everything else as in `s`. -/
def DatorroHall.withPreDelay (s : DatorroHall) (preDelaySamples : ℚ) (channelInput : List ℚ)
    (parameters : ReverbProcessorParameters) : DatorroHall :=
  { s with
    preDelaySamples := preDelaySamples
    channelInput := channelInput
    parameters := parameters }

/-! ## The Plate engine `HybridPlate` -/

/-- Embeds `IIR::Filter::reset`: the filter state is cleared. -/
def IIRFilter.reset (f : IIRFilter) : IIRFilter :=
  { f with state := [] }

/-- The data members of `HybridPlate`; the arrays of four are indexed by `Fin 4`. -/
structure HybridPlate where
  parameters : ReverbProcessorParameters
  extraDampL : Fin 4 → PsychoOnePole
  extraDampR : Fin 4 → PsychoOnePole
  preDelayL : DelayLineWithSampleAccess
  preDelayR : DelayLineWithSampleAccess
  preDelaySamples : ℚ
  earlyL : Fin 4 → Allpass
  earlyR : Fin 4 → Allpass
  highShelfFilters : Fin 4 → IIRFilter
  fdnLines : Fin 4 → DelayLineWithSampleAccess
  baseDelaySamples : Fin 4 → ℚ
  maxDelaySamples : Fin 4 → ℚ
  currentDelaySamples : Fin 4 → ℚ
  dampingFilters : Fin 4 → FirstOrderTPTFilter
  estimatedLoopTimeSeconds : ℚ
  lfoParameters : OscillatorParameters
  lfoOutput : SignalGenData
  lfo : LFO
  channelInput : List ℚ
  channelOutput : List ℚ
  sampleRate : Int

/-- The engine as constructed: the member initialisers of `HybridPlate.h`; the parameter
struct, the JUCE filters and the `LFO` are constructed by code outside the sources. -/
def HybridPlate.new (parameters : ReverbProcessorParameters) (filter : FirstOrderTPTFilter)
    (shelf : IIRFilter) (lfo : LFO) : HybridPlate :=
  { parameters := parameters
    extraDampL := fun _ => PsychoOnePole.new
    extraDampR := fun _ => PsychoOnePole.new
    preDelayL := DelayLineWithSampleAccess.new 48000
    preDelayR := DelayLineWithSampleAccess.new 48000
    preDelaySamples := 0
    earlyL := fun _ => Allpass.new
    earlyR := fun _ => Allpass.new
    highShelfFilters := fun _ => shelf
    fdnLines := fun _ => DelayLineWithSampleAccess.new 44100
    baseDelaySamples := fun _ => 0
    maxDelaySamples := fun _ => 0
    currentDelaySamples := fun _ => 0
    dampingFilters := fun _ => filter
    estimatedLoopTimeSeconds := 2 / 10
    lfoParameters := ⟨generatorWaveform.triangle, 0, 1⟩
    lfoOutput := ⟨0, 0, 0, 0⟩
    lfo := lfo
    channelInput := [0, 0]
    channelOutput := [0, 0]
    sampleRate := 44100 }

/-- Embeds `HybridPlate::updateInternalParamsFromUserParams`. -/
def HybridPlate.updateInternalParamsFromUserParams (lib : DspLibrary) (s : HybridPlate) :
    HybridPlate :=
  let parameters : ReverbProcessorParameters :=
    { s.parameters with
      roomSize := jlimit (1 / 4) (7 / 4) s.parameters.roomSize
      decayTime := jlimit (1 / 10) 20 s.parameters.decayTime
      mix := jlimit 0 1 s.parameters.mix }
  let pdMs := jlimit 0 200 parameters.preDelay
  let lfoParameters : OscillatorParameters :=
    { s.lfoParameters with frequency_Hz := parameters.modRate, depth := parameters.modDepth }
  { s with
    parameters := parameters
    preDelaySamples := pdMs * (1 / 1000) * (s.sampleRate : ℚ)
    dampingFilters := fun i => (s.dampingFilters i).setCutoffFrequency parameters.damping
    extraDampL := fun i => PsychoOnePole.setDamping lib (s.extraDampL i) parameters.damping
    lfoParameters := lfoParameters
    lfo := lib.lfoSetParameters s.lfo lfoParameters }

/-- Embeds `HybridPlate::setParameters`: nothing happens when the new parameters equal
the stored ones. -/
def HybridPlate.setParameters (lib : DspLibrary) (s : HybridPlate)
    (params : ReverbProcessorParameters) : HybridPlate :=
  if ¬ (params = s.parameters) then
    HybridPlate.updateInternalParamsFromUserParams lib { s with parameters := params }
  else s

/-- Embeds `HybridPlate::reset`. -/
def HybridPlate.reset (lib : DspLibrary) (s : HybridPlate) : HybridPlate :=
  { s with
    preDelayL := s.preDelayL.reset
    preDelayR := s.preDelayR.reset
    earlyL := fun i => (s.earlyL i).reset
    earlyR := fun i => (s.earlyR i).reset
    fdnLines := fun i => (s.fdnLines i).reset
    dampingFilters := fun i => (s.dampingFilters i).reset
    currentDelaySamples := s.baseDelaySamples
    channelInput := s.channelInput.map fun _ => 0
    channelOutput := s.channelOutput.map fun _ => 0
    lfo := lib.lfoReset s.lfo (s.sampleRate : ℚ) }

/-- Embeds `HybridPlate::prepare`. -/
def HybridPlate.prepare (lib : DspLibrary) (s : HybridPlate) (spec : ProcessSpec) :
    HybridPlate :=
  let sampleRate : Int := truncToInt spec.sampleRate
  let earlyDelaysMs : Fin 4 → ℚ := vec4 (25 / 10) 4 6 (85 / 10)
  let earlyGain : ℚ := 72 / 100
  let fdnDelayMs : Fin 4 → ℚ := vec4 32 44 57 70
  let fdnLines := fun i => ((s.fdnLines i).prepare spec).reset
  let maxDelaySamples : Fin 4 → ℚ :=
    fun i => ((((fdnLines i).delayBuffer.getNumSamples : Int) - 2 : Int) : ℚ)
  let baseDelaySamples : Fin 4 → ℚ :=
    fun i => jlimit 1 (maxDelaySamples i) (fdnDelayMs i * (1 / 1000) * (sampleRate : ℚ))
  let coeff := lib.makeHighShelf (sampleRate : ℚ) 3000 (707 / 1000) (1 / 2)
  let lfoParameters : OscillatorParameters :=
    ⟨generatorWaveform.sin, s.parameters.modRate, s.parameters.modDepth⟩
  let meanFDNDelaySamps : ℚ :=
    ((((0 + baseDelaySamples 0) + baseDelaySamples 1) + baseDelaySamples 2)
      + baseDelaySamples 3) / 4
  let s1 : HybridPlate :=
    { s with
      sampleRate := sampleRate
      preDelayL := (s.preDelayL.prepare spec).reset
      preDelayR := (s.preDelayR.prepare spec).reset
      earlyL := fun i => prepareAllpass (s.earlyL i) spec (earlyDelaysMs i) earlyGain
      earlyR := fun i =>
        prepareAllpass (s.earlyR i) spec (earlyDelaysMs i * (111 / 100)) earlyGain
      fdnLines := fdnLines
      maxDelaySamples := maxDelaySamples
      baseDelaySamples := baseDelaySamples
      currentDelaySamples := baseDelaySamples
      dampingFilters := fun i => ((s.dampingFilters i).prepare spec).reset
      extraDampL := fun i =>
        PsychoOnePole.prepare lib (s.extraDampL i) (sampleRate : ℚ) s.parameters.damping
      highShelfFilters := fun i =>
        IIRFilter.reset { IIRFilter.reset (s.highShelfFilters i) with coefficients := coeff }
      lfoParameters := lfoParameters
      lfo := lib.lfoReset (lib.lfoReset (lib.lfoSetParameters s.lfo lfoParameters)
        spec.sampleRate) (sampleRate : ℚ)
      estimatedLoopTimeSeconds := meanFDNDelaySamps / (sampleRate : ℚ)
      channelInput := [0, 0]
      channelOutput := [0, 0] }
  HybridPlate.reset lib (HybridPlate.updateInternalParamsFromUserParams lib s1)

/-- The first part of one pass of the sample loop of `HybridPlate::processBlock`, from
`PRE-DELAY` to the end of `EARLY DIFFUSION`: the engine afterwards and `monoIn`. -/
def HybridPlate.earlyStage (s : HybridPlate) (dryL dryR : ℚ) : Option (HybridPlate × ℚ) :=
  match s.preDelayL.pushSampleChecked 0 dryL, s.preDelayR.pushSampleChecked 0 dryR with
  | some preDelayL, some preDelayR =>
    match preDelayL.readFractional 0 s.preDelaySamples,
        preDelayR.readFractional 0 s.preDelaySamples with
    | some inL, some inR =>
      match vecSet? s.channelInput 0 inL with
      | some channelInput0 =>
        match vecSet? channelInput0 1 inR with
        | some channelInput1 =>
          match channelInput1[0]?, channelInput1[1]? with
          | some eL0, some eR0 =>
            match diffuse s.earlyL eL0, diffuse s.earlyR eR0 with
            | some (earlyL, eL), some (earlyR, eR) =>
              some ({ s with
                      preDelayL := preDelayL
                      preDelayR := preDelayR
                      channelInput := channelInput1
                      earlyL := earlyL
                      earlyR := earlyR }, (1 / 2) * (eL + eR))
            | _, _ => none
          | _, _ => none
        | none => none
      | none => none
    | _, _ => none
  | _, _ => none

/-- The section `LFO – per-sample` and the delay smoothing of the FDN read loop. -/
def HybridPlate.modulate (lib : DspLibrary) (s : HybridPlate) (roomSize modDepth : ℚ) :
    HybridPlate :=
  let rendered := lib.lfoRenderAudioOutput s.lfo
  let lfoOutput := rendered.2
  let lfo0 := lfoOutput.normalOutput
  let lfo90 := lfoOutput.quadPhaseOutput_pos
  let lfoVals : Fin 4 → ℚ :=
    vec4 lfo0 lfo90 (lib.tanh (lfo0 + (1 / 2) * lfo90)) (lib.tanh (lfo90 - (1 / 2) * lfo0))
  let slew : ℚ := 1 / 1000
  let modRatio : ℚ := 3 / 1000
  let base : Fin 4 → ℚ := fun i =>
    jlimit 1 (s.maxDelaySamples i) (s.baseDelaySamples i * roomSize)
  let targetDelay : Fin 4 → ℚ := fun i =>
    jlimit 1 (s.maxDelaySamples i) (base i + base i * modRatio * modDepth * lfoVals i)
  { s with
    lfo := rendered.1
    lfoOutput := lfoOutput
    currentDelaySamples := fun i =>
      s.currentDelaySamples i + slew * (targetDelay i - s.currentDelaySamples i) }

/-- The rest of one pass of the sample loop: the FDN reads, the feedback matrix, the
filtered pushes and the stereo decode; the engine afterwards and the wet pair `outL`,
`outR`. -/
def HybridPlate.fdnStage (lib : DspLibrary) (s : HybridPlate) (monoIn feedbackGain : ℚ) :
    Option (HybridPlate × ℚ × ℚ) :=
  match sequence4 (fun i => (s.fdnLines i).readFractional 0 (s.currentDelaySamples i)) with
  | some fdnOut =>
    let mixed := HybridPlate.applyFDNFeedbackMatrix fdnOut
    let fb : Fin 4 → ℚ := fun i => mixed i * feedbackGain
    let damped := fun i => lib.tptProcessSample (s.dampingFilters i) (monoIn + fb i)
    let psycho := fun i => (s.extraDampL i).process (damped i).2
    let softened := fun i => lib.iirProcessSample (s.highShelfFilters i) (psycho i).2
    match sequence4 (fun i => (s.fdnLines i).pushSampleChecked 0 (softened i).2) with
    | some fdnLines =>
      let outL := (35 / 100) * (fdnOut 0 + fdnOut 2) + (15 / 100) * (fdnOut 1 - fdnOut 3)
      let outR := (35 / 100) * (fdnOut 1 + fdnOut 3) + (15 / 100) * (fdnOut 0 - fdnOut 2)
      match vecSet? s.channelOutput 0 outL with
      | some channelOutput0 =>
        match vecSet? channelOutput0 1 outR with
        | some channelOutput1 =>
          some ({ s with
                  fdnLines := fdnLines
                  dampingFilters := fun i => (damped i).1
                  extraDampL := fun i => (psycho i).1
                  highShelfFilters := fun i => (softened i).1
                  channelOutput := channelOutput1 }, outL, outR)
        | none => none
      | none => none
    | none => none
  | none => none

/-- One pass of the sample loop of `HybridPlate::processBlock` up to the stereo decode:
the engine afterwards and the wet pair `outL`, `outR`. -/
def HybridPlate.processSample (lib : DspLibrary) (s : HybridPlate)
    (roomSize modDepth feedbackGain dryL dryR : ℚ) : Option (HybridPlate × ℚ × ℚ) :=
  match s.earlyStage dryL dryR with
  | some (s1, monoIn) => (s1.modulate lib roomSize modDepth).fdnStage lib monoIn feedbackGain
  | none => none

/-- The sample loop of `HybridPlate::processBlock` over the dry pairs: the engine
afterwards and the pairs `(dryMix * dryL + mix * outL, dryMix * dryR + mix * outR)`. -/
def HybridPlate.processSamples (lib : DspLibrary)
    (mix dryMix roomSize modDepth feedbackGain : ℚ) :
    HybridPlate → List (ℚ × ℚ) → Option (HybridPlate × List (ℚ × ℚ))
  | s, [] => some (s, [])
  | s, dry :: rest =>
    match s.processSample lib roomSize modDepth feedbackGain dry.1 dry.2 with
    | some (s1, outL, outR) =>
      match HybridPlate.processSamples lib mix dryMix roomSize modDepth feedbackGain s1 rest with
      | some (s2, outs) =>
          some (s2, (dryMix * dry.1 + mix * outL, dryMix * dry.2 + mix * outR) :: outs)
      | none => none
    | none => none

/-- The wet pairs `(outL, outR)` the sample loop computes for the dry pairs, in order. -/
def HybridPlate.wetSamples (lib : DspLibrary) (roomSize modDepth feedbackGain : ℚ) :
    HybridPlate → List (ℚ × ℚ) → Option (List (ℚ × ℚ))
  | _, [] => some []
  | s, dry :: rest =>
    match s.processSample lib roomSize modDepth feedbackGain dry.1 dry.2 with
    | some (s1, outL, outR) =>
      match HybridPlate.wetSamples lib roomSize modDepth feedbackGain s1 rest with
      | some outs => some ((outL, outR) :: outs)
      | none => none
    | none => none

/-- Embeds `HybridPlate::processBlock`: the engine and the buffer afterwards, `none` when
an access falls outside a vector or a buffer. -/
def HybridPlate.processBlock (lib : DspLibrary) (s : HybridPlate) (buffer : AudioBuffer) :
    Option (HybridPlate × AudioBuffer) :=
  let mix := s.parameters.mix
  let dryMix := 1 - mix
  let roomSize := jlimit (1 / 4) (7 / 4) s.parameters.roomSize
  let modDepth := s.parameters.modDepth
  let feedbackGain := HybridPlate.feedbackGain lib.exp s.estimatedLoopTimeSeconds
    s.parameters.decayTime s.parameters.roomSize
  match dryPairs buffer with
  | some dry =>
    match HybridPlate.processSamples lib mix dryMix roomSize modDepth feedbackGain s dry with
    | some (s1, outs) => some (s1, writeBack buffer outs)
    | none => none
  | none => none

/-- A Plate engine as `prepare` leaves it and `processBlock` and `setParameters` keep
it. -/
def HybridPlate.Prepared (s : HybridPlate) (numChannels : Nat) : Prop :=
  0 < numChannels ∧
  (s.preDelayL.WellFormed numChannels ∧ s.preDelayR.WellFormed numChannels) ∧
  (∀ i, (s.fdnLines i).WellFormed numChannels) ∧
  ((∀ i, (s.earlyL i).WellFormed numChannels) ∧ (∀ i, (s.earlyR i).WellFormed numChannels)) ∧
  (s.channelInput.length = 2 ∧ s.channelOutput.length = 2) ∧
  (0 ≤ s.parameters.mix ∧ s.parameters.mix ≤ 1)

instance (s : HybridPlate) (numChannels : Nat) : Decidable (s.Prepared numChannels) := by
  unfold HybridPlate.Prepared
  infer_instance

/-- An example library: every function returns 0 or leaves the state unchanged. -/
def exampleLibrary : DspLibrary :=
  { exp := fun _ => 0
    tanh := fun _ => 0
    pow := fun _ _ => 0
    tptProcessSample := fun f x => (f, x)
    iirProcessSample := fun f x => (f, x)
    makeHighShelf := fun _ _ _ _ => []
    lfoSetParameters := fun l p => { l with lfoParameters := p }
    lfoReset := fun l sr => { l with sampleRate := sr, modCounter := 0 }
    lfoRenderAudioOutput := fun l => (l, ⟨0, 0, 0, 0⟩) }

/-- Example parameters: mix 0, room size 1, decay 2 s, damping 8 kHz, no modulation,
pre-delay 20 ms. -/
def exampleParameters : ReverbProcessorParameters :=
  ⟨0, 1, 2, 8000, 1 / 2, 0, 20⟩

/-- An example Hall engine: constructed, then prepared for stereo at 44.1 kHz. -/
def exampleHall : DatorroHall :=
  (DatorroHall.new exampleParameters ⟨1000, 44100, 0⟩
    ⟨⟨generatorWaveform.triangle, 0, 1⟩, 0, 0, 0, 0⟩ [] []).prepare exampleLibrary
    ⟨44100, 4, 2⟩

/-- An example Plate engine: constructed, then prepared for stereo at 44.1 kHz. -/
def examplePlate : HybridPlate :=
  (HybridPlate.new exampleParameters ⟨1000, 44100, 0⟩ ⟨[], []⟩
    ⟨⟨generatorWaveform.triangle, 0, 1⟩, 0, 0, 0, 0⟩).prepare exampleLibrary ⟨44100, 4, 2⟩

/-! ## Tempo sync of `DelayModule` and the assignment of `OscillatorParameters` -/

/-- The table `noteMultipliers` of `DelayModule::process`. -/
def DelayModule.noteMultipliers : List ℚ :=
  [4, 2, 1, 1 / 2, 1 / 4, 1 / 8,
   3, 3 / 2, 3 / 4, 3 / 8,
   4 / 3, 2 / 3, 1 / 3, 1 / 6]

/-- The value `syncedTime` that `DelayModule::process` computes when sync is enabled,
from the tempo `bpm` in use and the `int` read from the note-division parameter. -/
def DelayModule.syncedTime (bpm : ℚ) (noteDivision : Int) : ℚ :=
  let quarterNoteMs := 60000 / bpm
  let multiplier :=
    if noteDivision ≥ 0 ∧ noteDivision < 14
    then (vecGet? DelayModule.noteMultipliers noteDivision).getD 0 else 1
  jlimit 1 2000 (quarterNoteMs * multiplier)

/-- The argument `DelayModule::process` passes to `delay.setDelayTime`: the synced time
when `delaySyncEnabled` is above 0.5 (with the host tempo, when the play head reports
one, in place of the `delayBpm` parameter), otherwise the `delayTime` parameter. -/
def DelayModule.delayTimeArgument (delaySyncEnabled delayBpm delayNoteDiv delayTime : ℚ)
    (hostBpm : Option ℚ) : ℚ :=
  if delaySyncEnabled > 1 / 2 then
    let bpm := match hostBpm with
      | some b => b
      | none => delayBpm
    DelayModule.syncedTime bpm (truncToInt delayNoteDiv)
  else delayTime

/-- The specification's table of note multipliers by name: index 0 to 5 are the straight
notes 1/1 to 1/32 (4 quarter notes halved `i` times), 6 to 9 the dotted notes 1/2 to
1/16 (1.5 times the straight note of that name), 10 to 13 the triplets 1/2 to 1/16
(2/3 of the straight note of that name); any other index has multiplier 1. -/
def specNoteMultiplier (i : Nat) : ℚ :=
  if i < 6 then 4 / 2 ^ i
  else if i < 10 then (3 / 2) * (4 / 2 ^ (i - 5))
  else if i < 14 then (2 / 3) * (4 / 2 ^ (i - 9))
  else 1

/-- Embeds `OscillatorParameters::operator=`: the value of `*this` after
`*this = params`. -/
def OscillatorParameters.assign (this params : OscillatorParameters) : OscillatorParameters :=
  { this with waveform := params.waveform, frequency_Hz := params.frequency_Hz }

/-! ## The Plate gain and the psychoacoustic damping map over any ordered field -/

/-- Embeds `juce::jlimit` over any linearly ordered type. -/
def jlimitIn {α : Type} [LinearOrder α] (lowerLimit upperLimit valueToConstrain : α) : α :=
  if valueToConstrain < lowerLimit then lowerLimit
  else if upperLimit < valueToConstrain then upperLimit
  else valueToConstrain

/-- The per-block `feedbackGain` of `HybridPlate::processBlock` over any ordered field
with an exponential `exp` (the reals with the real exponential, or the rationals of the
engine model). -/
def HybridPlate.feedbackGainIn {α : Type} [LinearOrderedField α] (exp : α → α)
    (estimatedLoopTimeSeconds decayTime roomSize : α) : α :=
  let decaySec := jlimitIn (1 / 10) 20 decayTime
  let roomSize1 := jlimitIn (1 / 4) (7 / 4) roomSize
  let effectiveLoopTime := estimatedLoopTimeSeconds * roomSize1
  let fbRaw := exp (-3 * effectiveLoopTime / decaySec)
  let feedbackSafety : α := 95 / 100
  let feedbackGain := fbRaw * feedbackSafety
  jlimitIn 0 (9 / 10) feedbackGain

/-- Embeds `PsychoDamping::mapPsychoDamping (userDamping, minHz, maxHz)` over any ordered
field with a power function `pow`. -/
def mapPsychoDampingIn {α : Type} [LinearOrderedField α] (pow : α → α → α)
    (userDamping minHz maxHz : α) : α :=
  let userDamping1 := jlimitIn 0 1 userDamping
  let perceptual := pow userDamping1 (35 / 100)
  minHz * pow (maxHz / minHz) (1 - perceptual)

/-- An example library whose `pow` returns 1 for exponent 0 and its base otherwise. -/
def exampleLibraryPow : DspLibrary :=
  { exampleLibrary with pow := fun x y => if y = 0 then 1 else x }

/-! ## Two threads on one slot -/

/-- A step of one of the two threads that share a `ModuleSlot`.  The audio thread runs
`ModuleSlot::process` in two steps, the load of `activeModule` and the calls through the
loaded pointer; the control thread runs whole member calls. -/
inductive SlotEvent where
  | audioLoad
  | audioCall
  | control (op : SlotOp)

/-- A slot shared by the two threads: the slot object, the pointer `m` the audio thread
has loaded and not yet called through (`none` when it holds a null pointer or is
outside `process`), and the log of the calls the audio thread has made: the address
called through and the live module at that address, `none` when that module has been
destroyed. -/
structure SlotRun where
  slot : ModuleSlot
  loaded : Option Nat
  calls : List (Nat × Option EffectModule)

/-- One step of an interleaving. -/
def SlotRun.step (r : SlotRun) : SlotEvent → SlotRun
  | .audioLoad => { r with loaded := r.slot.activeModule }
  | .audioCall =>
      match r.loaded with
      | some p => { r with calls := r.calls ++ [(p, r.slot.deref p)], loaded := none }
      | none => r
  | .control op => { r with slot := r.slot.step op }

/-- An interleaving of the two threads, first step first. -/
def SlotRun.run (r : SlotRun) (events : List SlotEvent) : SlotRun :=
  events.foldl SlotRun.step r

/-! ## Parameter prefixes and packed chains -/

/-- The parameter-ID prefix of the module at each position of a chain: the `moduleID`
the module of an occupied slot carries (`none` for an empty slot). -/
def chainModuleIDs (chain : List (Option ModuleSlot)) : List (Option String) :=
  chain.map fun slot =>
    match slot with
    | some s => s.get.map EffectModule.moduleID
    | none => none

/-- The parameter-ID prefixes of the modules of all chains. -/
def ADSREchoAudioProcessor.moduleIDs (p : ADSREchoAudioProcessor) :
    List (List (Option String)) :=
  p.slots.map chainModuleIDs

/-- The member `slotID` of the slot at each position of each chain. -/
def ADSREchoAudioProcessor.slotIDs (p : ADSREchoAudioProcessor) :
    List (List (Option String)) :=
  p.slots.map fun chain => chain.map (Option.map ModuleSlot.slotID)

/-- The query `slotIsEmpty` on one chain: position `i` holds no module. -/
def chainSlotEmpty (chain : List (Option ModuleSlot)) (i : Nat) : Bool :=
  match chain[i]? with
  | some (some s) => s.get.isNone
  | _ => true

/-- The occupied slots of the chain form a prefix: no empty position precedes an
occupied one. -/
def chainPacked (chain : List (Option ModuleSlot)) : Prop :=
  ∀ j < chain.length, ∀ i < j, chainSlotEmpty chain i = true → chainSlotEmpty chain j = true

instance (chain : List (Option ModuleSlot)) : Decidable (chainPacked chain) := by
  unfold chainPacked
  infer_instance

/-- Every chain of the processor is packed. -/
def ADSREchoAudioProcessor.Packed (p : ADSREchoAudioProcessor) : Prop :=
  ∀ chain ∈ p.slots, chainPacked chain

instance (p : ADSREchoAudioProcessor) : Decidable p.Packed := by
  unfold ADSREchoAudioProcessor.Packed
  infer_instance

/-- The calls a host and an editor make on the processor. -/
inductive EditOp where
  | addModule (chainIndex : Int) (moduleType : ModuleType)
  | removeModule (chainIndex slotIndex : Int)
  | changeModuleType (chainIndex slotIndex : Int) (moduleType : ModuleType)
  | process (buffer : AudioBuffer)

/-- One call on the processor. -/
def ADSREchoAudioProcessor.edit (process : EffectModule → AudioBuffer → AudioBuffer)
    (decibelsToGain : ℚ → ℚ) (totalNumInputChannels totalNumOutputChannels : Nat)
    (p : ADSREchoAudioProcessor) : EditOp → ADSREchoAudioProcessor
  | .addModule chainIndex moduleType => p.addModule chainIndex moduleType
  | .removeModule chainIndex slotIndex => p.removeModule chainIndex slotIndex
  | .changeModuleType chainIndex slotIndex moduleType =>
      p.changeModuleType chainIndex slotIndex moduleType
  | .process buffer =>
      (ADSREchoAudioProcessor.processBlock process decibelsToGain totalNumInputChannels
        totalNumOutputChannels p buffer).1

/-- A sequence of calls on the processor, first call first. -/
def ADSREchoAudioProcessor.edits (process : EffectModule → AudioBuffer → AudioBuffer)
    (decibelsToGain : ℚ → ℚ) (totalNumInputChannels totalNumOutputChannels : Nat)
    (p : ADSREchoAudioProcessor) (ops : List EditOp) : ADSREchoAudioProcessor :=
  ops.foldl (ADSREchoAudioProcessor.edit process decibelsToGain totalNumInputChannels
    totalNumOutputChannels) p

/-- Every `removeModule` of the sequence is directly followed by a `process` call. -/
def processedAfterRemove : List EditOp → Bool
  | [] => true
  | .removeModule _ _ :: .process _ :: rest => processedAfterRemove rest
  | .removeModule _ _ :: _ => false
  | _ :: rest => processedAfterRemove rest

/-- An example of a reordered state: the Delay at position 0 of the example state is
removed and the next `processBlock` applies the pending move, which brings the
Reverb to position 0. -/
def exampleReordered (process : EffectModule → AudioBuffer → AudioBuffer)
    (decibelsToGain : ℚ → ℚ) (buffer : AudioBuffer) : ADSREchoAudioProcessor :=
  (ADSREchoAudioProcessor.processBlock process decibelsToGain 2 2
    (exampleProcessor.removeModule 0 0) buffer).1

/-- A chain as the constructor builds it (`MAX_SLOTS` non-null slot pointers) whose
occupied slots form a prefix. -/
def ChainSettled (chain : List (Option ModuleSlot)) : Prop :=
  chain.length = MAX_SLOTS ∧ (∀ slot ∈ chain, slot ≠ none) ∧ chainPacked chain

/-- A processor at rest: `NUM_CHAINS` settled chains and no move pending. -/
def ADSREchoAudioProcessor.Settled (p : ADSREchoAudioProcessor) : Prop :=
  p.slots.length = NUM_CHAINS ∧ (∀ chain ∈ p.slots, ChainSettled chain) ∧
    p.moveRequested = false

instance (p : ADSREchoAudioProcessor) : Decidable p.Settled := by
  unfold ADSREchoAudioProcessor.Settled ChainSettled
  infer_instance

/-- An example of a restore target with another topology than the example state:
chain 0 holds a Convolution, a Delay and a Reverb, chain 1 holds a Reverb. -/
def exampleTarget : ADSREchoAudioProcessor :=
  (((((ADSREchoAudioProcessor.new ⟨fun _ => 0, fun _ => 0⟩).prepareToPlay 44100 4 2).addModule
    0 ModuleType.Convolution).addModule 0 ModuleType.Delay).addModule
    0 ModuleType.Reverb).addModule 1 ModuleType.Reverb

/-- The module counter of every chain equals the number of occupied slots of the
chain. -/
def ADSREchoAudioProcessor.CountersInSync (p : ADSREchoAudioProcessor) : Prop :=
  ∀ c, c < NUM_CHAINS →
    p.numModules[c]? = some ((occupiedCount (p.slots.getD c []) : Nat) : Int)

instance (p : ADSREchoAudioProcessor) : Decidable p.CountersInSync := by
  unfold ADSREchoAudioProcessor.CountersInSync
  infer_instance

/-- The states the processor reaches from its constructor through its own member
functions, called with chain and slot indices inside the slot table: `prepareToPlay`,
`releaseResources`, the four structural requests, `processBlock` on a buffer of the
prepared channel count, and `setStateInformation` on a state that
`getStateInformation` wrote in a reachable state. -/
inductive ADSREchoAudioProcessor.Reachable
    (process : EffectModule → AudioBuffer → AudioBuffer) (decibelsToGain : ℚ → ℚ) :
    ADSREchoAudioProcessor → Prop where
  | new (params : ParameterState) : Reachable process decibelsToGain
      (ADSREchoAudioProcessor.new params)
  | prepareToPlay (p : ADSREchoAudioProcessor) (sampleRate : ℚ)
      (samplesPerBlock totalNumOutputChannels : Nat) :
      Reachable process decibelsToGain p →
      Reachable process decibelsToGain
        (p.prepareToPlay sampleRate samplesPerBlock totalNumOutputChannels)
  | releaseResources (p : ADSREchoAudioProcessor) :
      Reachable process decibelsToGain p →
      Reachable process decibelsToGain p.releaseResources
  | addModule (p : ADSREchoAudioProcessor) (c : Nat) (moduleType : ModuleType) :
      c < NUM_CHAINS → Reachable process decibelsToGain p →
      Reachable process decibelsToGain (p.addModule (c : Int) moduleType)
  | removeModule (p : ADSREchoAudioProcessor) (c i : Nat) :
      c < NUM_CHAINS → i < MAX_SLOTS → Reachable process decibelsToGain p →
      Reachable process decibelsToGain (p.removeModule (c : Int) (i : Int))
  | changeModuleType (p : ADSREchoAudioProcessor) (c i : Nat) (moduleType : ModuleType) :
      c < NUM_CHAINS → i < MAX_SLOTS → Reachable process decibelsToGain p →
      Reachable process decibelsToGain (p.changeModuleType (c : Int) (i : Int) moduleType)
  | requestSlotMove (p : ADSREchoAudioProcessor) (c : Nat) (from_ to_ : Int) :
      c < NUM_CHAINS → Reachable process decibelsToGain p →
      Reachable process decibelsToGain (p.requestSlotMove (c : Int) from_ to_)
  | processBlock (p : ADSREchoAudioProcessor) (numChannels numSamples : Nat)
      (buffer : AudioBuffer) :
      buffer.HasShape numChannels numSamples →
      p.masterDryBuffer.length = numChannels → p.chainTempBuffer.length = numChannels →
      Reachable process decibelsToGain p →
      Reachable process decibelsToGain
        (ADSREchoAudioProcessor.processBlock process decibelsToGain numChannels numChannels
          p buffer).1
  | setStateInformation (p q : ADSREchoAudioProcessor) :
      Reachable process decibelsToGain p → Reachable process decibelsToGain q →
      Reachable process decibelsToGain (p.setStateInformation (some q.getStateInformation))

/-- A persisted tree this program does not write: chain 0 lists eight "Slot" children
whose type is none of "Delay", "Reverb" and "Convolution". -/
def foreignState : PluginState :=
  { parameters := fun _ => 0
    modules := [{ index := 0, children := (List.range 8).map fun (i : Nat) =>
      { index := (i : Int), type := "Chorus" } }] }

/-- A call the plug-in makes with indices inside the slot table and, for `process`, a
buffer of `numChannels` channels of one length. -/
def EditOp.Supported (numChannels : Nat) : EditOp → Prop
  | .addModule chainIndex _ => 0 ≤ chainIndex ∧ chainIndex < (NUM_CHAINS : Int)
  | .removeModule chainIndex slotIndex =>
      0 ≤ chainIndex ∧ chainIndex < (NUM_CHAINS : Int) ∧
      0 ≤ slotIndex ∧ slotIndex < (MAX_SLOTS : Int)
  | .changeModuleType chainIndex slotIndex _ =>
      0 ≤ chainIndex ∧ chainIndex < (NUM_CHAINS : Int) ∧
      0 ≤ slotIndex ∧ slotIndex < (MAX_SLOTS : Int)
  | .process buffer => buffer.HasShape numChannels buffer.getNumSamples

instance (numChannels : Nat) (op : EditOp) : Decidable (op.Supported numChannels) := by
  cases op <;> unfold EditOp.Supported <;> infer_instance

/-! ## The delay effect `BasicDelay` (`Source/Reverb Algorithms/Delay/BasicDelay.cpp`) -/

/-- Rounding to the nearest integer, a tie going to the even neighbour. -/
def roundHalfEven (x : ℚ) : Int :=
  if x - (⌊x⌋ : ℚ) < 1 / 2 then ⌊x⌋
  else if 1 / 2 < x - (⌊x⌋ : ℚ) then ⌊x⌋ + 1
  else if ⌊x⌋ % 2 = 0 then ⌊x⌋ else ⌊x⌋ + 1

/-- The binary32 (`float`) value nearest to `x`, as `static_cast<float>` and every
`float` operation of IEEE 754 produce it in the default rounding mode: with
`e = max (floor (log2 |x|), -126)` one unit in the last place is `2 ^ (e - 23)`, and
`x` is rounded to the nearest multiple of it, a tie going to the even multiple.
Overflow to infinity (`|x|` of about `2 ^ 128` and more) is outside the model. -/
def roundF32 (x : ℚ) : ℚ :=
  if x = 0 then 0
  else (roundHalfEven (x / 2 ^ (max (Int.log 2 |x|) (-126) - 23)) : ℚ)
    * 2 ^ (max (Int.log 2 |x|) (-126) - 23)

/-- The `float` expression `(delayMs / 1000.0f) * sampleRate` of `BasicDelay`: a
binary32 division followed by a binary32 multiplication. -/
def delayTimeSamplesF32 (delayMs sampleRate : ℚ) : ℚ :=
  roundF32 (roundF32 (delayMs / 1000) * sampleRate)

/-- Embeds `BasicDelay::DelayMode`. -/
inductive DelayMode where
  | Normal
  | PingPong
  | Inverted
deriving DecidableEq

/-- Embeds `juce::dsp::FirstOrderTPTFilterType`. -/
inductive FirstOrderTPTFilterType where
  | lowpass
  | highpass
  | allpass
deriving DecidableEq

/-- A feedback-path filter of `BasicDelay`: a `juce::dsp::FirstOrderTPTFilter<float>`
together with the member `setType` writes. -/
structure FeedbackFilter where
  filter : FirstOrderTPTFilter
  type : FirstOrderTPTFilterType
deriving DecidableEq

/-- Embeds `prepare` of a feedback-path filter. -/
def FeedbackFilter.prepare (f : FeedbackFilter) (spec : ProcessSpec) : FeedbackFilter :=
  { f with filter := f.filter.prepare spec }

/-- Embeds `setType`. -/
def FeedbackFilter.setType (f : FeedbackFilter) (newType : FirstOrderTPTFilterType) :
    FeedbackFilter :=
  { f with type := newType }

/-- Embeds `setCutoffFrequency` of a feedback-path filter. -/
def FeedbackFilter.setCutoffFrequency (f : FeedbackFilter) (newValue : ℚ) : FeedbackFilter :=
  { f with filter := f.filter.setCutoffFrequency newValue }

/-- Embeds `reset` of a feedback-path filter. -/
def FeedbackFilter.reset (f : FeedbackFilter) : FeedbackFilter :=
  { f with filter := f.filter.reset }

/-- The call `processSample (0, x)` of a feedback-path filter; `tpt` is the per-sample
step of the JUCE filter for each filter type, whose code is outside the sources. -/
def FeedbackFilter.processSample
    (tpt : FirstOrderTPTFilterType → FirstOrderTPTFilter → ℚ → FirstOrderTPTFilter × ℚ)
    (f : FeedbackFilter) (x : ℚ) : FeedbackFilter × ℚ :=
  ({ f with filter := (tpt f.type f.filter x).1 }, (tpt f.type f.filter x).2)

/-- The members of `BasicDelay`. -/
structure BasicDelay where
  delayLineL : DelayLineWithSampleAccess
  delayLineR : DelayLineWithSampleAccess
  delayTimeMs : ℚ
  delayTimeSamples : ℚ
  feedbackAmount : ℚ
  mixAmount : ℚ
  delayMode : DelayMode
  panValue : ℚ
  lowpassFreqValue : ℚ
  highpassFreqValue : ℚ
  sampleRate : ℚ
  feedbackL : ℚ
  feedbackR : ℚ
  lowpassL : FeedbackFilter
  lowpassR : FeedbackFilter
  highpassL : FeedbackFilter
  highpassR : FeedbackFilter

/-- The constructor with the member initialisers of `BasicDelay.h`; `filter` is a
default-constructed `juce::dsp::FirstOrderTPTFilter<float>`, whose type is lowpass. -/
def BasicDelay.new (filter : FirstOrderTPTFilter) : BasicDelay :=
  { delayLineL := DelayLineWithSampleAccess.new 88200
    delayLineR := DelayLineWithSampleAccess.new 88200
    delayTimeMs := 250
    delayTimeSamples := 0
    feedbackAmount := 3 / 10
    mixAmount := 1 / 2
    delayMode := DelayMode.Normal
    panValue := 0
    lowpassFreqValue := 20000
    highpassFreqValue := 20
    sampleRate := 44100
    feedbackL := 0
    feedbackR := 0
    lowpassL := ⟨filter, FirstOrderTPTFilterType.lowpass⟩
    lowpassR := ⟨filter, FirstOrderTPTFilterType.lowpass⟩
    highpassL := ⟨filter, FirstOrderTPTFilterType.lowpass⟩
    highpassR := ⟨filter, FirstOrderTPTFilterType.lowpass⟩ }

/-- Embeds `BasicDelay::reset`. -/
def BasicDelay.reset (d : BasicDelay) : BasicDelay :=
  { d with
    delayLineL := d.delayLineL.reset
    delayLineR := d.delayLineR.reset
    feedbackL := 0
    feedbackR := 0
    lowpassL := d.lowpassL.reset
    lowpassR := d.lowpassR.reset
    highpassL := d.highpassL.reset
    highpassR := d.highpassR.reset }

/-- Embeds `BasicDelay::prepare`.  The sample rate is narrowed to `float`, and the
delay length in samples is computed in `float` arithmetic: its floor is taken by
`setDelay`, so the rounding decides the number of samples. -/
def BasicDelay.prepare (d : BasicDelay) (spec : ProcessSpec) : BasicDelay :=
  let sampleRate := roundF32 spec.sampleRate
  let monoSpec : ProcessSpec := { spec with numChannels := 1 }
  let delayTimeSamples := delayTimeSamplesF32 d.delayTimeMs sampleRate
  BasicDelay.reset
    { d with
      sampleRate := sampleRate
      delayTimeSamples := delayTimeSamples
      delayLineL := (d.delayLineL.prepare monoSpec).setDelayFloat delayTimeSamples
      delayLineR := (d.delayLineR.prepare monoSpec).setDelayFloat delayTimeSamples
      lowpassL := ((d.lowpassL.prepare monoSpec).setType
        FirstOrderTPTFilterType.lowpass).setCutoffFrequency d.lowpassFreqValue
      lowpassR := ((d.lowpassR.prepare monoSpec).setType
        FirstOrderTPTFilterType.lowpass).setCutoffFrequency d.lowpassFreqValue
      highpassL := ((d.highpassL.prepare monoSpec).setType
        FirstOrderTPTFilterType.highpass).setCutoffFrequency d.highpassFreqValue
      highpassR := ((d.highpassR.prepare monoSpec).setType
        FirstOrderTPTFilterType.highpass).setCutoffFrequency d.highpassFreqValue }

/-- Embeds `BasicDelay::setDelayTime`; the delay length in samples is computed in
`float` arithmetic. -/
def BasicDelay.setDelayTime (d : BasicDelay) (delayMs : ℚ) : BasicDelay :=
  if d.delayTimeMs = delayMs then d
  else
    let delayTimeSamples := delayTimeSamplesF32 delayMs d.sampleRate
    { d with
      delayTimeMs := delayMs
      delayTimeSamples := delayTimeSamples
      delayLineL := d.delayLineL.setDelayFloat delayTimeSamples
      delayLineR := d.delayLineR.setDelayFloat delayTimeSamples }

/-- Embeds `BasicDelay::setFeedback`. -/
def BasicDelay.setFeedback (d : BasicDelay) (feedback : ℚ) : BasicDelay :=
  { d with feedbackAmount := jlimit 0 (95 / 100) feedback }

/-- Embeds `BasicDelay::setMix`. -/
def BasicDelay.setMix (d : BasicDelay) (mix : ℚ) : BasicDelay :=
  { d with mixAmount := jlimit 0 1 mix }

/-- Embeds `BasicDelay::setMode`. -/
def BasicDelay.setMode (d : BasicDelay) (mode : DelayMode) : BasicDelay :=
  { d with delayMode := mode }

/-- Embeds `BasicDelay::setPan`. -/
def BasicDelay.setPan (d : BasicDelay) (pan : ℚ) : BasicDelay :=
  { d with panValue := jlimit (-1) 1 pan }

/-- The locals of one iteration of the sample loop for one channel: the sample
`popSample` returned, the sample handed to `pushSample`, and the sample written to the
buffer. -/
structure DelayTap where
  delayed : ℚ
  pushed : ℚ
  output : ℚ
deriving DecidableEq

/-- The per-block constants `processBlock` computes before its loop; `stereo` is
`rightChannel != nullptr`. -/
structure BlockConstants where
  wet : ℚ
  dry : ℚ
  fb : ℚ
  panGainL : ℚ
  panGainR : ℚ
  phaseSign : ℚ
  isPingPong : Bool
  stereo : Bool

/-- The per-block constants of `BasicDelay::processBlock`. -/
def BasicDelay.blockConstants (d : BasicDelay) (stereo : Bool) : BlockConstants :=
  { wet := d.mixAmount
    dry := 1 - d.mixAmount
    fb := d.feedbackAmount
    panGainL := 1 - max 0 d.panValue
    panGainR := 1 + min 0 d.panValue
    phaseSign := if d.delayMode = DelayMode.Inverted then -1 else 1
    isPingPong := decide (d.delayMode = DelayMode.PingPong) && stereo
    stereo := stereo }

/-- One iteration of the sample loop of `BasicDelay::processBlock`, on the members and
the locals `fbL`, `fbR`: the state afterwards and the taps of the left and, for a
buffer with a second channel, the right channel.  `none` when an access falls outside
a vector or a buffer. -/
def BasicDelay.processSample
    (tpt : FirstOrderTPTFilterType → FirstOrderTPTFilter → ℚ → FirstOrderTPTFilter × ℚ)
    (k : BlockConstants) (st : BasicDelay × ℚ × ℚ) (input : ℚ × ℚ) :
    Option ((BasicDelay × ℚ × ℚ) × DelayTap × Option DelayTap) :=
  let d := st.1
  let fbL := st.2.1
  let fbR := st.2.2
  let inputL := input.1
  match d.delayLineL.popSample 0 with
  | (lineL1, some delayedL) =>
      if k.stereo then
        let inputR := input.2
        match d.delayLineR.popSample 0 with
        | (lineR1, some delayedR) =>
            let pushedL := if k.isPingPong then inputL + fbR * k.fb else inputL + fbL * k.fb
            let pushedR := if k.isPingPong then inputR + fbL * k.fb else inputR + fbR * k.fb
            match lineL1.pushSampleChecked 0 pushedL with
            | some lineL2 =>
                match lineR1.pushSampleChecked 0 pushedR with
                | some lineR2 =>
                    let lpL := d.lowpassL.processSample tpt delayedL
                    let hpL := d.highpassL.processSample tpt lpL.2
                    let lpR := d.lowpassR.processSample tpt delayedR
                    let hpR := d.highpassR.processSample tpt lpR.2
                    some (({ d with delayLineL := lineL2, delayLineR := lineR2,
                                    lowpassL := lpL.1, highpassL := hpL.1,
                                    lowpassR := lpR.1, highpassR := hpR.1 }, hpL.2, hpR.2),
                      ⟨delayedL, pushedL,
                        inputL * k.dry + delayedL * k.phaseSign * k.wet * k.panGainL⟩,
                      some ⟨delayedR, pushedR,
                        inputR * k.dry + delayedR * k.phaseSign * k.wet * k.panGainR⟩)
                | none => none
            | none => none
        | (_, none) => none
      else
        let pushedL := inputL + fbL * k.fb
        match lineL1.pushSampleChecked 0 pushedL with
        | some lineL2 =>
            let lpL := d.lowpassL.processSample tpt delayedL
            let hpL := d.highpassL.processSample tpt lpL.2
            some (({ d with delayLineL := lineL2, lowpassL := lpL.1, highpassL := hpL.1 },
                hpL.2, fbR),
              ⟨delayedL, pushedL, inputL * k.dry + delayedL * k.phaseSign * k.wet⟩, none)
        | none => none
  | (_, none) => none

/-- The sample loop of `BasicDelay::processBlock` over the input pairs `(left[i],
right[i])`: the state afterwards and the taps of every iteration. -/
def BasicDelay.processSamples
    (tpt : FirstOrderTPTFilterType → FirstOrderTPTFilter → ℚ → FirstOrderTPTFilter × ℚ)
    (k : BlockConstants) :
    BasicDelay × ℚ × ℚ → List (ℚ × ℚ) →
      Option ((BasicDelay × ℚ × ℚ) × List (DelayTap × Option DelayTap))
  | st, [] => some (st, [])
  | st, input :: rest =>
      match BasicDelay.processSample tpt k st input with
      | some (st1, tap) =>
          match BasicDelay.processSamples tpt k st1 rest with
          | some (st2, taps) => some (st2, tap :: taps)
          | none => none
      | none => none

/-- The iterations of `BasicDelay::processBlock` on `buffer`: the delay afterwards
(with the feedback state stored back) and the taps of every iteration; `none` for a
buffer without channels or when an access falls outside a vector or a buffer. -/
def BasicDelay.blockTaps
    (tpt : FirstOrderTPTFilterType → FirstOrderTPTFilter → ℚ → FirstOrderTPTFilter × ℚ)
    (d : BasicDelay) (buffer : AudioBuffer) :
    Option (BasicDelay × List (DelayTap × Option DelayTap)) :=
  match dryPairs buffer with
  | some inputs =>
      match BasicDelay.processSamples tpt
          (d.blockConstants (decide (1 < buffer.getNumChannels)))
          (d, d.feedbackL, d.feedbackR) inputs with
      | some (st, taps) => some ({ st.1 with feedbackL := st.2.1, feedbackR := st.2.2 }, taps)
      | none => none
  | none => none

/-- The samples the sample loop writes to the buffer: the left output and, for a buffer
with a second channel, the right output of every iteration. -/
def tapOutputs (taps : List (DelayTap × Option DelayTap)) : List (ℚ × ℚ) :=
  taps.map fun t =>
    (t.1.output, match t.2 with
      | some r => r.output
      | none => 0)

/-- Embeds `BasicDelay::processBlock`: the delay and the buffer afterwards. -/
def BasicDelay.processBlock
    (tpt : FirstOrderTPTFilterType → FirstOrderTPTFilter → ℚ → FirstOrderTPTFilter × ℚ)
    (d : BasicDelay) (buffer : AudioBuffer) : Option (BasicDelay × AudioBuffer) :=
  match d.blockTaps tpt buffer with
  | some (d1, taps) => some (d1, writeBack buffer (tapOutputs taps))
  | none => none

/-- Successive `processBlock` calls on a list of buffers: the delay afterwards and the
taps of all iterations in order. -/
def BasicDelay.blocksTaps
    (tpt : FirstOrderTPTFilterType → FirstOrderTPTFilter → ℚ → FirstOrderTPTFilter × ℚ) :
    BasicDelay → List AudioBuffer → Option (BasicDelay × List (DelayTap × Option DelayTap))
  | d, [] => some (d, [])
  | d, buffer :: rest =>
      match d.blockTaps tpt buffer with
      | some (d1, taps) =>
          match BasicDelay.blocksTaps tpt d1 rest with
          | some (d2, taps2) => some (d2, taps ++ taps2)
          | none => none
      | none => none

/-- The specification's `D = floor (clamp (ms * sr / 1000, 1, 88200))`. -/
def specDelaySamples (sr ms : ℚ) : Nat :=
  ⌊jlimit 1 88200 (ms * sr / 1000)⌋.toNat

/-- The delay length the code sets for a delay time of `ms` milliseconds at the sample
rate `sr`: the floor of the clamped `float` product. -/
def floatDelaySamples (sr ms : ℚ) : Nat :=
  ⌊jlimit 1 88200 (delayTimeSamplesF32 ms (roundF32 sr))⌋.toNat

/-- The taps of one channel follow a delay of `D` samples: the sample read at
iteration `n` is the sample pushed at iteration `n - D`, and 0 when `n < D`. -/
def DelayedBy (D : Nat) (taps : List DelayTap) : Prop :=
  ∀ n, n < taps.length →
    (taps.map DelayTap.delayed).getD n 0 =
      if D ≤ n then (taps.map DelayTap.pushed).getD (n - D) 0 else 0

instance (D : Nat) (taps : List DelayTap) : Decidable (DelayedBy D taps) := by
  unfold DelayedBy
  infer_instance

/-- Channel 0 of a prepared mono line of capacity `N` holds the pushed samples `xs`,
and the line is set to a delay of `D` samples. -/
def DelayLineWithSampleAccess.HoldsAt (dl : DelayLineWithSampleAccess) (D N : Nat)
    (xs : List ℚ) : Prop :=
  dl.WellFormed 1 ∧ dl.ChannelHolds 0 N xs ∧ dl.delayInSamples = (D : Int)

/-- The taps of one channel continue the pushed samples `xs` with a delay of `D`
samples: the sample read at iteration `n` is the `D`-th most recent of `xs` followed
by the samples pushed at the iterations before `n`. -/
def DelayedFrom (D : Nat) (xs : List ℚ) (taps : List DelayTap) : Prop :=
  ∀ n, n < taps.length →
    (taps.map DelayTap.delayed).getD n 0 =
      history (xs ++ (taps.take n).map DelayTap.pushed) D

/-- The delay effect as the specification describes it, with the samples pushed since
the last reset kept as a list per channel in place of the circular buffers: the lists,
the feedback samples `fbL`, `fbR` and the four feedback-path filters. -/
structure DelayHistory where
  pushedL : List ℚ
  pushedR : List ℚ
  fbL : ℚ
  fbR : ℚ
  lowpassL : FeedbackFilter
  lowpassR : FeedbackFilter
  highpassL : FeedbackFilter
  highpassR : FeedbackFilter

/-- One sample of the delay effect as the specification describes it, for a delay of
`D` samples: the delayed sample of a channel is the `D`-th most recent sample pushed
on that channel (0 when fewer than `D` were pushed); the sample pushed is the input
plus the feedback sample times the feedback amount (the feedback sample of the other
channel in ping-pong mode); the new feedback sample is the delayed sample after the
lowpass and the highpass; the output is `input * dry + delayed * sign * wet * pan`
(no pan factor for a mono buffer). -/
def DelayHistory.processSample
    (tpt : FirstOrderTPTFilterType → FirstOrderTPTFilter → ℚ → FirstOrderTPTFilter × ℚ)
    (k : BlockConstants) (D : Nat) (s : DelayHistory) (input : ℚ × ℚ) :
    DelayHistory × DelayTap × Option DelayTap :=
  let delayedL := history s.pushedL D
  let delayedR := history s.pushedR D
  let lpL := s.lowpassL.processSample tpt delayedL
  let hpL := s.highpassL.processSample tpt lpL.2
  let lpR := s.lowpassR.processSample tpt delayedR
  let hpR := s.highpassR.processSample tpt lpR.2
  if k.stereo then
    let pushedL := if k.isPingPong then input.1 + s.fbR * k.fb else input.1 + s.fbL * k.fb
    let pushedR := if k.isPingPong then input.2 + s.fbL * k.fb else input.2 + s.fbR * k.fb
    ({ pushedL := s.pushedL ++ [pushedL], pushedR := s.pushedR ++ [pushedR],
       fbL := hpL.2, fbR := hpR.2,
       lowpassL := lpL.1, lowpassR := lpR.1, highpassL := hpL.1, highpassR := hpR.1 },
      ⟨delayedL, pushedL, input.1 * k.dry + delayedL * k.phaseSign * k.wet * k.panGainL⟩,
      some ⟨delayedR, pushedR, input.2 * k.dry + delayedR * k.phaseSign * k.wet * k.panGainR⟩)
  else
    ({ s with pushedL := s.pushedL ++ [input.1 + s.fbL * k.fb], fbL := hpL.2,
              lowpassL := lpL.1, highpassL := hpL.1 },
      ⟨delayedL, input.1 + s.fbL * k.fb, input.1 * k.dry + delayedL * k.phaseSign * k.wet⟩,
      none)

/-- The samples of one block, in order. -/
def DelayHistory.processSamples
    (tpt : FirstOrderTPTFilterType → FirstOrderTPTFilter → ℚ → FirstOrderTPTFilter × ℚ)
    (k : BlockConstants) (D : Nat) :
    DelayHistory → List (ℚ × ℚ) → DelayHistory × List (DelayTap × Option DelayTap)
  | s, [] => (s, [])
  | s, input :: rest =>
      let r := DelayHistory.processSample tpt k D s input
      let r2 := DelayHistory.processSamples tpt k D r.1 rest
      (r2.1, r.2 :: r2.2)

/-- A list of blocks, in order; `settings` carries the mix, feedback, mode and pan in
force; `none` for a buffer without channels. -/
def DelayHistory.processBlocks
    (tpt : FirstOrderTPTFilterType → FirstOrderTPTFilter → ℚ → FirstOrderTPTFilter × ℚ)
    (settings : BasicDelay) (D : Nat) :
    DelayHistory → List AudioBuffer → Option (DelayHistory × List (DelayTap × Option DelayTap))
  | s, [] => some (s, [])
  | s, buffer :: rest =>
      match dryPairs buffer with
      | some inputs =>
          let r := DelayHistory.processSamples tpt
            (settings.blockConstants (decide (1 < buffer.getNumChannels))) D s inputs
          match DelayHistory.processBlocks tpt settings D r.1 rest with
          | some r2 => some (r2.1, r.2 ++ r2.2)
          | none => none
      | none => none

/-- The state of the loop of `processBlock` (the members and the locals `fbL`, `fbR`)
holds what the history `s` holds: each line holds the samples pushed on its channel
and is set to `D` samples, and the feedback samples and filters agree. -/
def DelayHistory.Represents (s : DelayHistory) (D N : Nat) (st : BasicDelay × ℚ × ℚ) : Prop :=
  st.1.delayLineL.HoldsAt D N s.pushedL ∧ st.1.delayLineR.HoldsAt D N s.pushedR ∧
  st.2.1 = s.fbL ∧ st.2.2 = s.fbR ∧
  st.1.lowpassL = s.lowpassL ∧ st.1.lowpassR = s.lowpassR ∧
  st.1.highpassL = s.highpassL ∧ st.1.highpassR = s.highpassR

/-- The history a prepared delay starts from: nothing pushed, no feedback, and the
filters of the delay. -/
def BasicDelay.initialHistory (d : BasicDelay) : DelayHistory :=
  { pushedL := [], pushedR := [], fbL := d.feedbackL, fbR := d.feedbackR,
    lowpassL := d.lowpassL, lowpassR := d.lowpassR,
    highpassL := d.highpassL, highpassR := d.highpassR }

/-! # Theorems -/

/-! ## Module slot: publication and deferred destruction -/

theorem ModuleSlot.inv_new (id : String) : (ModuleSlot.new id).Inv := by
  constructor
  · rfl
  · intro _ m hm
    simp [ModuleSlot.new] at hm

theorem ModuleSlot.inv_prepare (s : ModuleSlot) (spec : ProcessSpec) (h : s.Inv) :
    (s.prepare spec).Inv := by
  obtain ⟨hact, _⟩ := h
  cases hown : s.ownedModule with
  | none =>
    rw [hown] at hact
    simp only [Option.map_none'] at hact
    simp [ModuleSlot.prepare, ModuleSlot.Inv, hact, hown]
  | some m =>
    rw [hown] at hact
    simp only [Option.map_some'] at hact
    simp [ModuleSlot.prepare, ModuleSlot.prepareAt, ModuleSlot.Inv, hact, hown,
      EffectModule.prepare]

theorem ModuleSlot.inv_setModule (s : ModuleSlot) (newModule : Option EffectModule) :
    (s.setModule newModule).Inv := by
  cases newModule with
  | none => simp [ModuleSlot.setModule, ModuleSlot.Inv, ModuleSlot.initModule]
  | some m =>
    by_cases hr : 0 < s.currentSpec.sampleRate
    · simp [ModuleSlot.setModule, ModuleSlot.Inv, ModuleSlot.initModule, hr,
        EffectModule.prepare, EffectModule.setID]
    · simp [ModuleSlot.setModule, ModuleSlot.Inv, ModuleSlot.initModule, hr,
        EffectModule.setID]

theorem ModuleSlot.inv_clearModule (s : ModuleSlot) : s.clearModule.Inv := by
  simp [ModuleSlot.clearModule, ModuleSlot.Inv]

theorem ModuleSlot.inv_destroyPending (s : ModuleSlot) (h : s.Inv) :
    s.destroyPending.Inv := h

theorem ModuleSlot.inv_step (s : ModuleSlot) (op : SlotOp) (h : s.Inv) :
    (s.step op).Inv := by
  cases op with
  | prepare spec => exact ModuleSlot.inv_prepare s spec h
  | setModule m => exact ModuleSlot.inv_setModule s m
  | clearModule => exact ModuleSlot.inv_clearModule s
  | destroyPending => exact ModuleSlot.inv_destroyPending s h

theorem ModuleSlot.inv_run (ops : List SlotOp) (s : ModuleSlot) (h : s.Inv) :
    (s.run ops).Inv := by
  induction ops generalizing s with
  | nil => exact h
  | cons op rest ih => exact ih (s.step op) (ModuleSlot.inv_step s op h)

theorem ModuleSlot.activeNullOrPrepared_of_inv (s : ModuleSlot) (h : s.Inv)
    (hr : 0 < s.currentSpec.sampleRate) : s.ActiveNullOrPrepared := by
  obtain ⟨hact, hprep⟩ := h
  unfold ModuleSlot.ActiveNullOrPrepared
  cases hown : s.ownedModule with
  | none =>
    rw [hown] at hact
    simp only [Option.map_none'] at hact
    simp [hact]
  | some m =>
    rw [hown] at hact
    simp only [Option.map_some'] at hact
    simp only [hact]
    exact ⟨m, by simp [ModuleSlot.deref, hown], hprep hr m hown⟩

/-- C1, as stated, fails: on a newly constructed slot (stored sample rate 0) a single
`setModule` with a newly made module publishes that module to the observer pointer
without any `prepare` call on it. -/
theorem C1_counterexample :
    ((ModuleSlot.new "chain_0.slot_0").run
        [SlotOp.setModule (some (EffectModule.fresh 1 ModuleType.Delay))]).activeModule
      = some 1 ∧
    ((ModuleSlot.new "chain_0.slot_0").run
        [SlotOp.setModule (some (EffectModule.fresh 1 ModuleType.Delay))]).deref 1
      = some { addr := 1, kind := ModuleType.Delay, moduleID := "chain_0.slot_0",
               hasIRBank := false, prepared := [] } ∧
    ¬ ((ModuleSlot.new "chain_0.slot_0").run
        [SlotOp.setModule (some (EffectModule.fresh 1 ModuleType.Delay))]).ActiveNullOrPrepared := by
  refine ⟨by decide, by decide, ?_⟩
  intro h
  have h2 : ((ModuleSlot.new "chain_0.slot_0").run
        [SlotOp.setModule (some (EffectModule.fresh 1 ModuleType.Delay))]).activeModule
      = some 1 := by decide
  unfold ModuleSlot.ActiveNullOrPrepared at h
  rw [h2] at h
  obtain ⟨m, hm, hp⟩ := h
  have h3 : ((ModuleSlot.new "chain_0.slot_0").run
        [SlotOp.setModule (some (EffectModule.fresh 1 ModuleType.Delay))]).deref 1
      = some { addr := 1, kind := ModuleType.Delay, moduleID := "chain_0.slot_0",
               hasIRBank := false, prepared := [] } := by decide
  rw [h3] at hm
  cases hm
  exact hp rfl

/-- C1, amended: in every state of a slot reachable from construction by any sequence
of prepare, setModule, clearModule and destroyPending calls in which the stored spec
has a positive sample rate, the observer pointer is null or points to a live module
on which prepare has been called. -/
theorem C1_active_prepared_when_spec_valid (id : String) (ops : List SlotOp)
    (hr : 0 < ((ModuleSlot.new id).run ops).currentSpec.sampleRate) :
    ((ModuleSlot.new id).run ops).ActiveNullOrPrepared :=
  ModuleSlot.activeNullOrPrepared_of_inv _
    (ModuleSlot.inv_run ops _ (ModuleSlot.inv_new id)) hr

/-- Witness for C1: prepare at 44.1 kHz, then install a newly made module. -/
theorem C1_active_prepared_witness :
    0 < ((ModuleSlot.new "chain_0.slot_0").run
        [SlotOp.prepare ⟨44100, 512, 2⟩,
         SlotOp.setModule (some (EffectModule.fresh 1 ModuleType.Delay))]).currentSpec.sampleRate ∧
    ((ModuleSlot.new "chain_0.slot_0").run
        [SlotOp.prepare ⟨44100, 512, 2⟩,
         SlotOp.setModule (some (EffectModule.fresh 1 ModuleType.Delay))]).ActiveNullOrPrepared :=
  ⟨by simp [ModuleSlot.run, ModuleSlot.step, ModuleSlot.new, ModuleSlot.prepare,
      ModuleSlot.setModule],
   C1_active_prepared_when_spec_valid "chain_0.slot_0" _
    (by simp [ModuleSlot.run, ModuleSlot.step, ModuleSlot.new, ModuleSlot.prepare,
      ModuleSlot.setModule])⟩

/-- C2, as stated, fails: after two swaps the pending holder keeps the first module
alive; a third `setModule`, or a `clearModule`, overwrites the holder and thereby
destroys that module although `destroyPending` was never called. -/
theorem C2_counterexample :
    ((ModuleSlot.new "chain_0.slot_0").run
        [SlotOp.setModule (some (EffectModule.fresh 1 ModuleType.Delay)),
         SlotOp.setModule (some (EffectModule.fresh 2 ModuleType.Reverb))]).destroyed = [] ∧
    (((ModuleSlot.new "chain_0.slot_0").run
        [SlotOp.setModule (some (EffectModule.fresh 1 ModuleType.Delay)),
         SlotOp.setModule (some (EffectModule.fresh 2 ModuleType.Reverb))]).pendingDeletion.map
          EffectModule.addr) = some 1 ∧
    ((ModuleSlot.new "chain_0.slot_0").run
        [SlotOp.setModule (some (EffectModule.fresh 1 ModuleType.Delay)),
         SlotOp.setModule (some (EffectModule.fresh 2 ModuleType.Reverb)),
         SlotOp.setModule (some (EffectModule.fresh 3 ModuleType.Delay))]).destroyed = [1] ∧
    ((ModuleSlot.new "chain_0.slot_0").run
        [SlotOp.setModule (some (EffectModule.fresh 1 ModuleType.Delay)),
         SlotOp.setModule (some (EffectModule.fresh 2 ModuleType.Reverb)),
         SlotOp.clearModule]).destroyed = [1] := by
  refine ⟨by decide, by decide, by decide, by decide⟩

/-- C2, amended: `setModule` and `clearModule` never destroy the module they displace:
the displaced module becomes the content of the pending-deletion holder, and the
only module such a call destroys is the one the holder contained before the call.
`prepare` destroys nothing, and `destroyPending` destroys exactly the content of the
holder and empties it. -/
theorem C2_displaced_module_deferred (s : ModuleSlot) (newModule : Option EffectModule)
    (spec : ProcessSpec) :
    ((s.setModule newModule).pendingDeletion = s.ownedModule ∧
     (s.setModule newModule).destroyed = s.destroyed ++ destroyedBy s.pendingDeletion) ∧
    (s.clearModule.pendingDeletion = s.ownedModule ∧
     s.clearModule.destroyed = s.destroyed ++ destroyedBy s.pendingDeletion) ∧
    (s.prepare spec).destroyed = s.destroyed ∧
    (s.destroyPending.pendingDeletion = none ∧
     s.destroyPending.ownedModule = s.ownedModule ∧
     s.destroyPending.destroyed = s.destroyed ++ destroyedBy s.pendingDeletion) := by
  refine ⟨⟨rfl, ?_⟩, ⟨rfl, rfl⟩, ?_, ⟨rfl, rfl, rfl⟩⟩
  · simp [ModuleSlot.setModule, destroyedBy]
  · unfold ModuleSlot.prepare ModuleSlot.prepareAt
    cases s.activeModule <;> cases s.ownedModule <;> cases s.pendingDeletion <;>
      simp <;> split_ifs <;> rfl


/-! ## Slot moves -/

theorem list_length_eight {α : Type} (l : List α) (h : l.length = 8) :
    ∃ a0 a1 a2 a3 a4 a5 a6 a7, l = [a0, a1, a2, a3, a4, a5, a6, a7] := by
  match l, h with
  | [a0, a1, a2, a3, a4, a5, a6, a7], _ => exact ⟨a0, a1, a2, a3, a4, a5, a6, a7, rfl⟩

theorem moveChain_eq_erase_insert (chain : List (Option ModuleSlot))
    (hlen : chain.length = MAX_SLOTS) (from_ to_ : Int)
    (hf0 : 0 ≤ from_) (hf8 : from_ < 8) (ht0 : 0 ≤ to_) (ht8 : to_ < 8) (hne : from_ ≠ to_) :
    moveChain chain from_ to_ =
      (chain.eraseIdx from_.toNat).insertIdx to_.toNat (chain.getD from_.toNat none) := by
  obtain ⟨a0, a1, a2, a3, a4, a5, a6, a7, rfl⟩ := list_length_eight chain hlen
  interval_cases from_ <;> interval_cases to_ <;>
    first
    | exact absurd rfl hne
    | simp [moveChain, isPositiveAndBelow, MAX_SLOTS, shiftLeft, shiftRight, moveAssign,
        List.insertIdx, List.eraseIdx]

theorem moveChain_unchanged (chain : List (Option ModuleSlot)) (from_ to_ : Int)
    (h : from_ = to_ ∨ from_ < 0 ∨ 8 ≤ from_ ∨ to_ < 0 ∨ 8 ≤ to_) :
    moveChain chain from_ to_ = chain := by
  unfold moveChain
  rw [if_neg]
  simp only [isPositiveAndBelow, MAX_SLOTS, Bool.and_eq_true, decide_eq_true_eq, ne_eq,
    not_and, not_not, Nat.cast_ofNat]
  omega

theorem perm_getD_cons_eraseIdx {α : Type} (d : α) (l : List α) (i : Nat) (h : i < l.length) :
    (l.getD i d :: l.eraseIdx i).Perm l := by
  induction l generalizing i with
  | nil => simp at h
  | cons a t ih =>
    cases i with
    | zero => simp
    | succ j =>
      have hj : j < t.length := by simpa using h
      have h1 : ((a :: t).getD (j + 1) d :: (a :: t).eraseIdx (j + 1)) =
          (t.getD j d :: a :: t.eraseIdx j) := by simp
      rw [h1]
      exact (List.Perm.swap a (t.getD j d) (t.eraseIdx j)).trans ((ih j hj).cons a)

theorem vecModify_getElem?_self {α : Type} (v : List α) (c : Nat) (f : α → α) :
    (vecModify v (c : Int) f)[c]? = (v[c]?).map f := by
  simp [vecModify, List.getElem?_modify]

theorem vecModify_getElem?_ne {α : Type} (v : List α) (c : Int) (f : α → α) (k : Nat)
    (h : (k : Int) ≠ c) : (vecModify v c f)[k]? = v[k]? := by
  unfold vecModify
  split_ifs with h0
  · have hk : c.toNat ≠ k := by omega
    simp [List.getElem?_modify, hk]
  · rfl

/-- C3: for a chain of 8 slots and a pending move (from, to) inside [0, 8) with
from ≠ to, `executeSlotMove` yields the chain with the slot at `from` removed and
re-inserted at `to`: a permutation of the original slots in which the moved slot is
at position `to` and the other slots keep their relative order.  When from = to or
an index is outside [0, 8) the chains are unchanged.  The other chain is never
touched and the move-requested flag is false afterwards. -/
theorem C3_executeSlotMove (p : ADSREchoAudioProcessor) (c : Nat)
    (chain : List (Option ModuleSlot)) (from_ to_ : Int)
    (hchain : p.slots[c]? = some chain) (hlen : chain.length = MAX_SLOTS)
    (hmove : p.pendingMove = ⟨(c : Int), from_, to_⟩) :
    (0 ≤ from_ ∧ from_ < 8 ∧ 0 ≤ to_ ∧ to_ < 8 ∧ from_ ≠ to_ →
      ∃ result, p.executeSlotMove.slots[c]? = some result ∧
        result = (chain.eraseIdx from_.toNat).insertIdx to_.toNat
                    (chain.getD from_.toNat none) ∧
        result.Perm chain ∧
        result[to_.toNat]? = chain[from_.toNat]? ∧
        result.eraseIdx to_.toNat = chain.eraseIdx from_.toNat) ∧
    (from_ = to_ ∨ from_ < 0 ∨ 8 ≤ from_ ∨ to_ < 0 ∨ 8 ≤ to_ →
      p.executeSlotMove.slots = p.slots) ∧
    (∀ k : Nat, k ≠ c → p.executeSlotMove.slots[k]? = p.slots[k]?) ∧
    p.executeSlotMove.moveRequested = false := by
  have hslots : p.executeSlotMove.slots =
      vecModify p.slots (c : Int) (fun ch => moveChain ch from_ to_) := by
    simp [ADSREchoAudioProcessor.executeSlotMove, hmove]
  have hlen8 : chain.length = 8 := hlen
  refine ⟨?_, ?_, ?_, rfl⟩
  · rintro ⟨hf0, hf8, ht0, ht8, hne⟩
    have hfn : from_.toNat < chain.length := by omega
    have htn : to_.toNat ≤ (chain.eraseIdx from_.toNat).length := by
      rw [List.length_eraseIdx, if_pos hfn]; omega
    refine ⟨_, ?_, rfl, ?_, ?_, ?_⟩
    · rw [hslots, vecModify_getElem?_self, hchain, Option.map_some',
        moveChain_eq_erase_insert chain hlen from_ to_ hf0 hf8 ht0 ht8 hne]
    · exact (List.perm_insertIdx _ _ htn).trans
        (perm_getD_cons_eraseIdx none chain from_.toNat hfn)
    · have h1 : to_.toNat < ((chain.eraseIdx from_.toNat).insertIdx to_.toNat
          (chain.getD from_.toNat none)).length := by
        rw [List.length_insertIdx _ _ htn]; omega
      rw [List.getElem?_eq_getElem h1, List.getElem_insertIdx_self _ _ _ htn,
        List.getD_eq_getElem?_getD, List.getElem?_eq_getElem hfn]
      rfl
    · exact List.eraseIdx_insertIdx _ _
  · intro h
    rw [hslots]
    apply List.ext_getElem?
    intro k
    by_cases hk : k = c
    · subst hk
      rw [vecModify_getElem?_self, hchain, Option.map_some', moveChain_unchanged chain _ _ h]
    · exact vecModify_getElem?_ne _ _ _ _ (by omega)
  · intro k hk
    rw [hslots]
    exact vecModify_getElem?_ne _ _ _ _ (by omega)

/-- Witness for C3: in the example state (chain 0 = Delay, Reverb, six empty slots)
the pending move 0 → 2 is executed as a removal at 0 and a re-insertion at 2. -/
theorem C3_executeSlotMove_witness :
    (exampleProcessor.requestSlotMove 0 0 2).slots[0]?
        = some (exampleProcessor.slots.getD 0 []) ∧
    (exampleProcessor.slots.getD 0 []).length = MAX_SLOTS ∧
    (exampleProcessor.requestSlotMove 0 0 2).pendingMove = ⟨((0 : Nat) : Int), 0, 2⟩ ∧
    ∃ result, (exampleProcessor.requestSlotMove 0 0 2).executeSlotMove.slots[0]? = some result ∧
      result = ((exampleProcessor.slots.getD 0 []).eraseIdx (0 : Int).toNat).insertIdx
                  (2 : Int).toNat ((exampleProcessor.slots.getD 0 []).getD (0 : Int).toNat none) ∧
      result.Perm (exampleProcessor.slots.getD 0 []) ∧
      result[(2 : Int).toNat]? = (exampleProcessor.slots.getD 0 [])[(0 : Int).toNat]? ∧
      result.eraseIdx (2 : Int).toNat = (exampleProcessor.slots.getD 0 []).eraseIdx (0 : Int).toNat :=
  ⟨by decide, by decide, rfl,
   (C3_executeSlotMove (exampleProcessor.requestSlotMove 0 0 2) 0
      (exampleProcessor.slots.getD 0 []) 0 2 (by decide) (by decide) rfl).1
      ⟨by decide, by decide, by decide, by decide, by decide⟩⟩


/-! ## Structural requests on an empty slot -/

theorem processBlock_slots (process : EffectModule → AudioBuffer → AudioBuffer)
    (decibelsToGain : ℚ → ℚ) (totalNumInputChannels totalNumOutputChannels : Nat)
    (p : ADSREchoAudioProcessor) (buffer : AudioBuffer) :
    (ADSREchoAudioProcessor.processBlock process decibelsToGain totalNumInputChannels
        totalNumOutputChannels p buffer).1.slots
      = (if p.moveRequested then p.executeSlotMove else p).slots ∧
    (ADSREchoAudioProcessor.processBlock process decibelsToGain totalNumInputChannels
        totalNumOutputChannels p buffer).1.numModules = p.numModules := by
  unfold ADSREchoAudioProcessor.processBlock
  simp only []
  split_ifs <;>
    simp [forRange, NUM_CHAINS, ADSREchoAudioProcessor.processChain, List.range_succ,
      ADSREchoAudioProcessor.executeSlotMove]

theorem processBlock_after_request (process : EffectModule → AudioBuffer → AudioBuffer)
    (decibelsToGain : ℚ → ℚ) (totalNumInputChannels totalNumOutputChannels : Nat)
    (p : ADSREchoAudioProcessor) (buffer : AudioBuffer) (c : Nat) (from_ to_ : Int) :
    (ADSREchoAudioProcessor.processBlock process decibelsToGain totalNumInputChannels
        totalNumOutputChannels (p.requestSlotMove c from_ to_) buffer).1.slots
      = vecModify p.slots (c : Int) (fun ch => moveChain ch from_ to_) := by
  rw [(processBlock_slots _ _ _ _ _ _).1]
  simp [ADSREchoAudioProcessor.requestSlotMove, ADSREchoAudioProcessor.executeSlotMove]

/-- C4, as stated, fails for moves: in the example state slot 2 of chain 0 is empty,
yet a move requested from it to position 0 is executed by the next `processBlock`
and shifts the Delay and the Reverb one position up. -/
theorem C4_counterexample :
    exampleProcessor.slotIsEmpty 0 2 = true ∧
    exampleProcessor.topology =
      [[some ModuleType.Delay, some ModuleType.Reverb, none, none, none, none, none, none],
       [none, none, none, none, none, none, none, none]] ∧
    (ADSREchoAudioProcessor.processBlock (fun _ b => b) (fun _ => 1) 2 2
        (exampleProcessor.requestSlotMove 0 2 0) [[0, 0, 0, 0], [0, 0, 0, 0]]).1.topology =
      [[none, some ModuleType.Delay, some ModuleType.Reverb, none, none, none, none, none],
       [none, none, none, none, none, none, none, none]] := by
  refine ⟨by decide, by decide, ?_⟩
  rw [ADSREchoAudioProcessor.topology, (processBlock_slots _ _ _ _ _ _).1]
  decide

/-- C4, amended: `removeModule` on an empty slot changes nothing.  A move requested
from an empty slot is executed by the next `processBlock` like any other move: no
module count changes, the other chain is untouched, and the chain becomes the one
with the empty slot removed from its position and re-inserted at the target, which
is a permutation of the slots it had; only a move with target equal to the source
or outside [0, 8) leaves the arrangement as it was. -/
theorem C4_empty_slot_requests (process : EffectModule → AudioBuffer → AudioBuffer)
    (decibelsToGain : ℚ → ℚ) (totalNumInputChannels totalNumOutputChannels : Nat)
    (buffer : AudioBuffer) (p : ADSREchoAudioProcessor) (c i : Nat)
    (chain : List (Option ModuleSlot)) (slot : ModuleSlot)
    (hchain : p.slots[c]? = some chain) (hlen : chain.length = MAX_SLOTS)
    (hslot : chain[i]? = some (some slot)) (hempty : slot.get = none) (to_ : Int) :
    p.removeModule c i = p ∧
    (ADSREchoAudioProcessor.processBlock process decibelsToGain totalNumInputChannels
        totalNumOutputChannels (p.requestSlotMove c i to_) buffer).1.numModules
      = p.numModules ∧
    (∀ k : Nat, k ≠ c →
      (ADSREchoAudioProcessor.processBlock process decibelsToGain totalNumInputChannels
        totalNumOutputChannels (p.requestSlotMove c i to_) buffer).1.slots[k]? = p.slots[k]?) ∧
    (0 ≤ to_ ∧ to_ < 8 ∧ to_ ≠ i →
      (ADSREchoAudioProcessor.processBlock process decibelsToGain totalNumInputChannels
        totalNumOutputChannels (p.requestSlotMove c i to_) buffer).1.slots[c]?
        = some ((chain.eraseIdx i).insertIdx to_.toNat (some slot)) ∧
      ((chain.eraseIdx i).insertIdx to_.toNat (some slot)).Perm chain) ∧
    (to_ = i ∨ to_ < 0 ∨ 8 ≤ to_ →
      (ADSREchoAudioProcessor.processBlock process decibelsToGain totalNumInputChannels
        totalNumOutputChannels (p.requestSlotMove c i to_) buffer).1.slots = p.slots) := by
  have hi : i < chain.length := by
    by_contra hcon
    rw [List.getElem?_eq_none (by omega)] at hslot
    cases hslot
  have hlen8 : chain.length = 8 := hlen
  have hgetD : chain.getD i none = some slot := by
    rw [List.getD_eq_getElem?_getD, hslot]; rfl
  refine ⟨?_, ?_, ?_, ?_, ?_⟩
  · simp [ADSREchoAudioProcessor.removeModule, ADSREchoAudioProcessor.slotRef, vecGet?,
      hchain, hslot, hempty]
  · rw [(processBlock_slots _ _ _ _ _ _).2]
    rfl
  · intro k hk
    rw [processBlock_after_request]
    exact vecModify_getElem?_ne _ _ _ _ (by omega)
  · rintro ⟨ht0, ht8, hne⟩
    have htn : to_.toNat ≤ (chain.eraseIdx i).length := by
      rw [List.length_eraseIdx, if_pos hi]; omega
    constructor
    · rw [processBlock_after_request, vecModify_getElem?_self, hchain, Option.map_some',
        moveChain_eq_erase_insert chain hlen (i : Int) to_ (by omega) (by omega) ht0 ht8
          (fun h => hne h.symm)]
      simp [hslot]
    · have h := (List.perm_insertIdx (chain.getD i none) _ htn).trans
        (perm_getD_cons_eraseIdx none chain i hi)
      rwa [hgetD] at h
  · intro h
    rw [processBlock_after_request]
    apply List.ext_getElem?
    intro k
    by_cases hk : k = c
    · subst hk
      rw [vecModify_getElem?_self, hchain, Option.map_some',
        moveChain_unchanged chain _ _ (by omega)]
    · exact vecModify_getElem?_ne _ _ _ _ (by omega)

/-- Witness for C4: slot 2 of chain 0 of the example state is empty; a move from it
to position 0 is requested. -/
theorem C4_empty_slot_requests_witness :
    exampleProcessor.slots[0]? = some (exampleProcessor.slots.getD 0 []) ∧
    (exampleProcessor.slots.getD 0 []).length = MAX_SLOTS ∧
    (exampleProcessor.slots.getD 0 [])[2]? = some (some (ModuleSlot.new "chain_0.slot_2" |>.prepare ⟨44100, 4, 2⟩)) ∧
    exampleProcessor.removeModule ((0 : Nat) : Int) ((2 : Nat) : Int) = exampleProcessor ∧
    (ADSREchoAudioProcessor.processBlock (fun _ b => b) (fun _ => 1) 2 2
        (exampleProcessor.requestSlotMove ((0 : Nat) : Int) ((2 : Nat) : Int) 0)
        [[0, 0, 0, 0], [0, 0, 0, 0]]).1.numModules = exampleProcessor.numModules :=
  ⟨by decide, by decide, by decide,
   (C4_empty_slot_requests (fun _ b => b) (fun _ => 1) 2 2 [[0, 0, 0, 0], [0, 0, 0, 0]]
      exampleProcessor 0 2 (exampleProcessor.slots.getD 0 [])
      (ModuleSlot.new "chain_0.slot_2" |>.prepare ⟨44100, 4, 2⟩)
      (by decide) (by decide) (by decide) (by decide) 0).1,
   (C4_empty_slot_requests (fun _ b => b) (fun _ => 1) 2 2 [[0, 0, 0, 0], [0, 0, 0, 0]]
      exampleProcessor 0 2 (exampleProcessor.slots.getD 0 [])
      (ModuleSlot.new "chain_0.slot_2" |>.prepare ⟨44100, 4, 2⟩)
      (by decide) (by decide) (by decide) (by decide) 0).2.1⟩

/-! ## Persisted topology -/

theorem restoreSlot_slots (q : ADSREchoAudioProcessor) (c : Int) (i : Int) (k : ModuleType) :
    (q.restoreSlot c ⟨i, k.typeName⟩).slots =
      vecModify q.slots c (fun chain =>
        vecModify chain i (Option.map fun s => s.setModule (some (makeModule q.nextAddr k)))) ∧
    (q.restoreSlot c ⟨i, k.typeName⟩).numModules = vecModify q.numModules c (· + 1) := by
  cases k <;>
    simp [ADSREchoAudioProcessor.restoreSlot, ModuleType.typeName,
      ADSREchoAudioProcessor.installModule, ADSREchoAudioProcessor.updateSlot]

theorem makeModule_kind (a : Nat) (k : ModuleType) : (makeModule a k).kind = k := by
  cases k <;> rfl

theorem setModule_kind (s : ModuleSlot) (m : EffectModule) :
    (s.setModule (some m)).get.map EffectModule.kind = some m.kind := by
  simp only [ModuleSlot.setModule, ModuleSlot.initModule, ModuleSlot.get, EffectModule.setID,
    EffectModule.prepare]
  split_ifs <;> rfl

theorem chainTypes_getElem? (chain : List (Option ModuleSlot)) (i : Nat) :
    (chainTypes chain)[i]? = (chain[i]?).map fun slot =>
      match slot with
      | some s => s.get.map EffectModule.kind
      | none => none := by
  simp [chainTypes]

theorem vecModify_natCast {α : Type} (v : List α) (c : Nat) (f : α → α) :
    vecModify v (c : Int) f = v.modify f c := by
  simp [vecModify]

theorem vecGet?_natCast {α : Type} (v : List α) (c : Nat) :
    vecGet? v (c : Int) = v[c]? := by
  simp [vecGet?]

theorem chainState_children (p : ADSREchoAudioProcessor) (j : Nat) :
    (p.chainState j).children =
      (List.range MAX_SLOTS).filterMap fun i =>
        ((chainTypes (p.slots.getD j [])).getD i none).map fun k =>
          ({ index := (i : Int), type := k.typeName } : SlotState) := by
  simp only [ADSREchoAudioProcessor.chainState]
  refine congrArg (fun f => (List.range MAX_SLOTS).filterMap f) ?_
  funext i
  simp only [ADSREchoAudioProcessor.slotRef, vecGet?_natCast, List.getD_eq_getElem?_getD,
    chainTypes_getElem?]
  cases hj : p.slots[j]? with
  | none => simp
  | some chain =>
    simp only [Option.getD_some]
    cases hi : chain[i]? with
    | none => simp
    | some slot =>
      cases slot with
      | none => simp
      | some s =>
        cases hg : s.get with
        | none => simp [hg]
        | some m => simp [hg, EffectModule.getType]

theorem entries_length (row : List (Option ModuleType)) (n : Nat) :
    (((List.range n).filterMap fun i =>
        (row.getD i none).map fun k =>
          ({ index := (i : Int), type := k.typeName } : SlotState)).length : Int)
      = (((row.take n).countP Option.isSome : Nat) : Int) := by
  induction n with
  | zero => simp
  | succ n ih =>
    rw [List.range_succ, List.filterMap_append, List.length_append, Nat.cast_add, ih,
      List.take_succ, List.countP_append, Nat.cast_add]
    congr 1
    cases h : row[n]? with
    | none => simp [List.getD_eq_getElem?_getD, h]
    | some a => cases a <;> simp [List.getD_eq_getElem?_getD, h]

theorem restore_fold (c : Nat) (g : Nat → Option ModuleType) (q0 : ADSREchoAudioProcessor)
    (chain0 : List (Option ModuleSlot)) (base : Int)
    (h0 : q0.slots[c]? = some chain0) (hlen : chain0.length = 8)
    (hnn : ∀ s ∈ chain0, s ≠ none)
    (hclr : ∀ i, i < 8 → (chainTypes chain0)[i]? = some none)
    (hnum : q0.numModules[c]? = some base) (n : Nat) (hn : n ≤ 8) :
    ∃ chain,
      (((List.range n).filterMap fun i =>
          (g i).map fun k =>
            ({ index := (i : Int), type := k.typeName } : SlotState)).foldl
        (fun q e => q.restoreSlot (c : Int) e) q0).slots[c]? = some chain ∧
      chain.length = 8 ∧ (∀ s ∈ chain, s ≠ none) ∧
      (∀ i, i < 8 →
        (chainTypes chain)[i]? = if i < n then some (g i) else some none) ∧
      (∀ k, k ≠ c →
        (((List.range n).filterMap fun i =>
            (g i).map fun k =>
              ({ index := (i : Int), type := k.typeName } : SlotState)).foldl
          (fun q e => q.restoreSlot (c : Int) e) q0).slots[k]? = q0.slots[k]?) ∧
      (((List.range n).filterMap fun i =>
          (g i).map fun k =>
            ({ index := (i : Int), type := k.typeName } : SlotState)).foldl
        (fun q e => q.restoreSlot (c : Int) e) q0).numModules[c]?
        = some (base + ((((List.range n).filterMap fun i =>
            (g i).map fun k =>
              ({ index := (i : Int), type := k.typeName } : SlotState)).length : Nat) : Int)) ∧
      (∀ k, k ≠ c →
        (((List.range n).filterMap fun i =>
            (g i).map fun k =>
              ({ index := (i : Int), type := k.typeName } : SlotState)).foldl
          (fun q e => q.restoreSlot (c : Int) e) q0).numModules[k]? = q0.numModules[k]?) := by
  induction n with
  | zero =>
    refine ⟨chain0, by simpa using h0, hlen, hnn, ?_, ?_, ?_, ?_⟩
    · intro i hi
      simpa using hclr i hi
    · intro k _; simp
    · simpa using hnum
    · intro k _; simp
  | succ n ih =>
    obtain ⟨chain, hc, hl, hnn', hty, hoth, hnm, hnoth⟩ := ih (by omega)
    rw [List.range_succ, List.filterMap_append, List.foldl_append]
    generalize ((List.range n).filterMap fun i =>
          (g i).map fun k =>
            ({ index := (i : Int), type := k.typeName } : SlotState)).foldl
        (fun q e => q.restoreSlot (c : Int) e) q0 = q at hc hoth hnm hnoth ⊢
    cases hrow : g n with
    | none =>
      refine ⟨chain, by simpa [hrow] using hc, hl, hnn', ?_, ?_, ?_, ?_⟩
      · intro i hi
        rw [hty i hi]
        by_cases h1 : i < n
        · simp [h1, Nat.lt_succ_of_lt h1]
        · by_cases h2 : i = n
          · subst h2; simp [hrow]
          · have h3 : ¬ i < n + 1 := by omega
            simp [h1, h3]
      · intro k hk; simpa [hrow] using hoth k hk
      · simpa [hrow] using hnm
      · intro k hk; simpa [hrow] using hnoth k hk
    | some kd =>
      have hfold : List.foldl (fun q e => q.restoreSlot (c : Int) e) q
          (List.filterMap (fun (i : Nat) => Option.map (fun k =>
            ({ index := (i : Int), type := k.typeName } : SlotState)) (g i)) [n])
          = q.restoreSlot (c : Int) ⟨(n : Int), kd.typeName⟩ := by
        simp [hrow]
      rw [hfold]
      obtain ⟨hs, hm⟩ := restoreSlot_slots q (c : Int) (n : Int) kd
      rw [hs, hm]
      have hnlt : n < chain.length := by omega
      refine ⟨chain.modify (Option.map fun s => s.setModule (some (makeModule q.nextAddr kd))) n,
        ?_, ?_, ?_, ?_, ?_, ?_, ?_⟩
      · rw [vecModify_getElem?_self, hc]
        simp [vecModify_natCast]
      · simp [hl]
      · intro s hs'
        obtain ⟨m, hm'⟩ := List.mem_iff_getElem?.mp hs'
        rw [List.getElem?_modify] at hm'
        cases ha : chain[m]? with
        | none => rw [ha] at hm'; simp at hm'
        | some a =>
          rw [ha] at hm'
          have hane : a ≠ none := hnn' a (List.mem_iff_getElem?.mpr ⟨m, ha⟩)
          simp only [Option.map_eq_map, Option.map_some', Option.some.injEq] at hm'
          subst hm'
          split_ifs
          · cases a with
            | none => exact absurd rfl hane
            | some x => simp
          · exact hane
      · intro i hi
        rw [chainTypes_getElem?, List.getElem?_modify]
        by_cases h2 : n = i
        · subst h2
          have hget : chain[n]? = some chain[n] := List.getElem?_eq_getElem hnlt
          have hane : chain[n] ≠ none := hnn' _ (List.getElem_mem _)
          rw [hget]
          cases hx : chain[n] with
          | none => exact absurd hx hane
          | some x =>
            simp [hx, setModule_kind, makeModule_kind, hrow]
        · have := hty i hi
          rw [chainTypes_getElem?] at this
          simp only [h2, if_false, Option.map_eq_map, Option.map_id', id_eq]
          by_cases h1 : i < n
          · have h3 : i < n + 1 := by omega
            simpa [h1, h3] using this
          · have h3 : ¬ i < n + 1 := by omega
            simpa [h1, h3] using this
      · intro k hk
        rw [vecModify_getElem?_ne _ _ _ _ (by omega)]
        exact hoth k hk
      · rw [vecModify_getElem?_self, hnm]
        simp [hrow]
        omega
      · intro k hk
        rw [vecModify_getElem?_ne _ _ _ _ (by omega)]
        exact hnoth k hk

theorem slot_queries_of_topology (p : ADSREchoAudioProcessor) (c i : Nat) :
    p.slotIsEmpty (c : Int) (i : Int) = ((p.topology.getD c []).getD i none).isNone ∧
    p.slotTypeTag (c : Int) (i : Int)
      = ((p.topology.getD c []).getD i none).map ModuleType.typeName := by
  simp only [ADSREchoAudioProcessor.slotIsEmpty, ADSREchoAudioProcessor.slotTypeTag,
    ADSREchoAudioProcessor.slotRef, vecGet?_natCast, ADSREchoAudioProcessor.topology,
    List.getD_eq_getElem?_getD, List.getElem?_map]
  cases hc : p.slots[c]? with
  | none => simp
  | some chain =>
    simp only [Option.map_some', Option.getD_some, chainTypes_getElem?]
    cases hi : chain[i]? with
    | none => simp
    | some slot =>
      cases slot with
      | none => simp
      | some s =>
        cases hg : s.get with
        | none => simp [hg]
        | some m => simp [hg, EffectModule.getType]

theorem cleared_chain (chain : List (Option ModuleSlot)) (hlen : chain.length = MAX_SLOTS)
    (hnn : ∀ s ∈ chain, s ≠ none) :
    (chain.map (Option.map ModuleSlot.clearModule)).length = 8 ∧
    (∀ s ∈ chain.map (Option.map ModuleSlot.clearModule), s ≠ none) ∧
    (∀ i, i < 8 →
      (chainTypes (chain.map (Option.map ModuleSlot.clearModule)))[i]? = some none) := by
  have hlen8 : chain.length = 8 := hlen
  refine ⟨by simp [hlen8], ?_, ?_⟩
  · intro s hs
    obtain ⟨a, ha, rfl⟩ := List.mem_map.mp hs
    have := hnn a ha
    cases a with
    | none => exact absurd rfl this
    | some x => simp
  · intro i hi
    have hlt : i < chain.length := by omega
    rw [chainTypes_getElem?, List.getElem?_map, List.getElem?_eq_getElem hlt]
    cases hx : chain[i] with
    | none => simp
    | some x => simp [ModuleSlot.clearModule, ModuleSlot.get]

theorem chainTypes_eq_of_pointwise (chain : List (Option ModuleSlot))
    (row : List (Option ModuleType)) (hl : chain.length = 8) (hr : row.length = 8)
    (h : ∀ i, i < 8 → (chainTypes chain)[i]? = if i < 8 then some (row.getD i none) else some none) :
    chainTypes chain = row := by
  apply List.ext_getElem?
  intro i
  by_cases hi : i < 8
  · rw [h i hi, if_pos hi, List.getD_eq_getElem?_getD, List.getElem?_eq_getElem (by omega)]
    rfl
  · rw [List.getElem?_eq_none (by simp [chainTypes, hl]; omega),
      List.getElem?_eq_none (by omega)]


theorem setStateInformation_round_trip (p q : ADSREchoAudioProcessor) (hwf : p.WellFormed)
    (hwq : q.WellFormed) :
    (q.setStateInformation (some p.getStateInformation)).topology = p.topology ∧
    (∀ c : Nat, c < NUM_CHAINS →
      (q.setStateInformation (some p.getStateInformation)).numModules[c]? =
        some ((occupiedCount
          ((q.setStateInformation (some p.getStateInformation)).slots.getD c []) : Nat) : Int)) ∧
    (q.setStateInformation (some p.getStateInformation)).WellFormed := by
  obtain ⟨hlen, hch⟩ := hwf
  obtain ⟨hqlen, hqch⟩ := hwq
  have hlen2 : p.slots.length = 2 := hlen
  have hqlen2 : q.slots.length = 2 := hqlen
  obtain ⟨ch0, ch1, hp⟩ : ∃ ch0 ch1, p.slots = [ch0, ch1] := by
    match hs : p.slots, hlen2 with
    | [a, b], _ => exact ⟨a, b, rfl⟩
  obtain ⟨qh0, qh1, hq⟩ : ∃ qh0 qh1, q.slots = [qh0, qh1] := by
    match hs : q.slots, hqlen2 with
    | [a, b], _ => exact ⟨a, b, rfl⟩
  obtain ⟨h0l, h0n⟩ := hch ch0 (by simp [hp])
  obtain ⟨h1l, h1n⟩ := hch ch1 (by simp [hp])
  obtain ⟨g0l, g0n⟩ := hqch qh0 (by simp [hq])
  obtain ⟨g1l, g1n⟩ := hqch qh1 (by simp [hq])
  obtain ⟨c0l, c0n, c0t⟩ := cleared_chain qh0 g0l g0n
  obtain ⟨c1l, c1n, c1t⟩ := cleared_chain qh1 g1l g1n
  have hr0 : (chainTypes ch0).length = 8 := by simp [chainTypes]; exact h0l
  have hr1 : (chainTypes ch1).length = 8 := by simp [chainTypes]; exact h1l
  -- the state after the clearing loop
  set p1 : ADSREchoAudioProcessor := { q with
    slots := q.slots.map fun chain => chain.map (Option.map ModuleSlot.clearModule)
    numModules := List.replicate NUM_CHAINS 0 } with hp1
  have hp1s : p1.slots = [qh0.map (Option.map ModuleSlot.clearModule),
      qh1.map (Option.map ModuleSlot.clearModule)] := by simp [hp1, hq]
  have hp1n : p1.numModules = [0, 0] := by simp [hp1, NUM_CHAINS, List.replicate]
  -- chain 0
  obtain ⟨d0, hd0, d0l, d0n, d0t, d0o, d0m, d0mo⟩ :=
    restore_fold 0 (fun i => (chainTypes ch0).getD i none) p1 _ 0
      (by rw [hp1s]; rfl) c0l c0n c0t (by rw [hp1n]; rfl) 8 (le_refl 8)
  set q1 := ((List.range 8).filterMap fun i =>
      ((fun i => (chainTypes ch0).getD i none) i).map fun k =>
        ({ index := (i : Int), type := k.typeName } : SlotState)).foldl
    (fun q e => q.restoreSlot ((0 : Nat) : Int) e) p1 with hq1
  -- chain 1
  obtain ⟨d1, hd1, d1l, d1n, d1t, d1o, d1m, d1mo⟩ :=
    restore_fold 1 (fun i => (chainTypes ch1).getD i none) q1 _ 0
      (by rw [d0o 1 (by omega), hp1s]; rfl) c1l c1n c1t
      (by rw [d0mo 1 (by omega), hp1n]; rfl) 8 (le_refl 8)
  set q2 := ((List.range 8).filterMap fun i =>
      ((fun i => (chainTypes ch1).getD i none) i).map fun k =>
        ({ index := (i : Int), type := k.typeName } : SlotState)).foldl
    (fun q e => q.restoreSlot ((1 : Nat) : Int) e) q1 with hq2
  have hfinal : (q.setStateInformation (some p.getStateInformation)).slots = q2.slots ∧
      (q.setStateInformation (some p.getStateInformation)).numModules = q2.numModules := by
    simp only [ADSREchoAudioProcessor.setStateInformation,
      ADSREchoAudioProcessor.getStateInformation, NUM_CHAINS, List.range_succ, List.range_zero,
      List.nil_append, List.map_cons, List.map_nil, List.cons_append, List.foldl_cons,
      List.foldl_nil, ADSREchoAudioProcessor.restoreChain, chainState_children]
    simp only [ADSREchoAudioProcessor.chainState, hp, List.getD_cons_zero, List.getD_cons_succ,
      hq2, hq1, hp1, MAX_SLOTS, NUM_CHAINS]
    exact ⟨trivial, trivial⟩
  have hs0 : q2.slots[0]? = some d0 := by rw [d1o 0 (by omega), hd0]
  have ht0 : chainTypes d0 = chainTypes ch0 := chainTypes_eq_of_pointwise d0 _ d0l hr0 d0t
  have ht1 : chainTypes d1 = chainTypes ch1 := chainTypes_eq_of_pointwise d1 _ d1l hr1 d1t
  have hq2s : q2.slots = [d0, d1] := by
    apply List.ext_getElem?
    intro k
    match k with
    | 0 => rw [hs0]; rfl
    | 1 => rw [hd1]; rfl
    | k + 2 =>
      rw [d1o (k + 2) (by omega), d0o (k + 2) (by omega), hp1s]
      rfl
  refine ⟨?_, ?_, ?_⟩
  rotate_left 2
  · refine ⟨by rw [hfinal.1, hq2s]; rfl, ?_⟩
    intro chain hchain
    rw [hfinal.1, hq2s] at hchain
    simp only [List.mem_cons, List.mem_singleton, List.not_mem_nil, or_false] at hchain
    rcases hchain with h | h
    · rw [h]; exact ⟨d0l, d0n⟩
    · rw [h]; exact ⟨d1l, d1n⟩
  · rw [ADSREchoAudioProcessor.topology, hfinal.1, hq2s, ADSREchoAudioProcessor.topology, hp]
    simp [ht0, ht1]
  · intro c hc
    rw [hfinal.1, hfinal.2, hq2s]
    have hc2 : c < 2 := hc
    have e0 := entries_length (chainTypes ch0) 8
    have e1 := entries_length (chainTypes ch1) 8
    rw [List.take_of_length_le (by omega)] at e0 e1
    interval_cases c
    · rw [d1mo 0 (by omega), d0m]
      simp only [List.getD_cons_zero, occupiedCount, ht0, zero_add]
      rw [← e0]
    · rw [d1m]
      simp only [List.getD_cons_succ, List.getD_cons_zero, occupiedCount, ht1, zero_add]
      rw [← e1]

/-- C5: for every processor `p` whose slot table is well formed (2 chains of 8 slots)
and every well-formed target processor `q`, whatever modules `q` holds, restoring
into `q` with `setStateInformation` the state written by `p.getStateInformation`
yields the topology of `p`: every (chain, slot) position is empty exactly when it was
empty in `p` and otherwise reports the same type tag, and the module count of each
chain equals its number of occupied slots.  The target may be `p` itself or a newly
constructed processor. -/
theorem C5_topology_round_trip (p q : ADSREchoAudioProcessor) (hwf : p.WellFormed)
    (hwq : q.WellFormed) :
    (q.setStateInformation (some p.getStateInformation)).topology = p.topology ∧
    (∀ c i : Nat,
      (q.setStateInformation (some p.getStateInformation)).slotIsEmpty (c : Int) (i : Int)
        = p.slotIsEmpty (c : Int) (i : Int) ∧
      (q.setStateInformation (some p.getStateInformation)).slotTypeTag (c : Int) (i : Int)
        = p.slotTypeTag (c : Int) (i : Int)) ∧
    (∀ c : Nat, c < NUM_CHAINS →
      (q.setStateInformation (some p.getStateInformation)).numModules[c]? =
        some ((occupiedCount
          ((q.setStateInformation (some p.getStateInformation)).slots.getD c []) : Nat) : Int)) := by
  obtain ⟨htop, hnum, _⟩ := setStateInformation_round_trip p q hwf hwq
  refine ⟨htop, ?_, hnum⟩
  intro c i
  rw [(slot_queries_of_topology _ c i).1, (slot_queries_of_topology _ c i).2,
    (slot_queries_of_topology p c i).1, (slot_queries_of_topology p c i).2, htop]
  exact ⟨rfl, rfl⟩

/-- Witness for C5: the topology chain0 = [Delay, Reverb], chain1 = [] is restored
into a processor that holds a Convolution, a Delay and a Reverb in chain 0 and a
Reverb in chain 1; the clearing loop empties the first slot of chain 1 and the third
of chain 0. -/
theorem C5_topology_round_trip_witness :
    exampleProcessor.WellFormed ∧ exampleTarget.WellFormed ∧
    exampleTarget.topology
      = [[some ModuleType.Convolution, some ModuleType.Delay, some ModuleType.Reverb, none,
          none, none, none, none],
         [some ModuleType.Reverb, none, none, none, none, none, none, none]] ∧
    (exampleTarget.setStateInformation (some exampleProcessor.getStateInformation)).topology
      = [[some ModuleType.Delay, some ModuleType.Reverb, none, none, none, none, none, none],
         [none, none, none, none, none, none, none, none]] :=
  ⟨by decide, by decide, by decide,
   (C5_topology_round_trip exampleProcessor exampleTarget (by decide) (by decide)).1.trans
     (by decide)⟩

/-! ## Adding a module -/

theorem occupiedCount_cons_some (s : ModuleSlot) (rest : List (Option ModuleSlot)) :
    occupiedCount (some s :: rest) =
      occupiedCount rest + (if s.get.isSome then 1 else 0) := by
  simp only [occupiedCount, chainTypes, List.map_cons, List.countP_cons]
  cases s.get <;> simp

theorem occupiedCount_le_length (chain : List (Option ModuleSlot)) :
    occupiedCount chain ≤ chain.length := by
  have h := List.countP_le_length Option.isSome (l := chainTypes chain)
  simpa [occupiedCount, chainTypes] using h

theorem findEmptySlot_spec (chain : List (Option ModuleSlot)) (n0 : Nat)
    (hnn : ∀ s ∈ chain, s ≠ none) (hlt : occupiedCount chain < chain.length) :
    ∃ i slot, findEmptySlot chain n0 = some (n0 + i, slot) ∧
      chain[i]? = some (some slot) ∧ slot.get = none ∧
      ∀ j, j < i → ∃ s, chain[j]? = some (some s) ∧ s.get ≠ none := by
  induction chain generalizing n0 with
  | nil => simp [occupiedCount, chainTypes] at hlt
  | cons a rest ih =>
    cases a with
    | none => exact absurd rfl (hnn none (by simp))
    | some s =>
      cases hg : s.get with
      | none =>
        refine ⟨0, s, ?_, by simp, hg, ?_⟩
        · simp [findEmptySlot, hg]
        · intro j hj; omega
      | some m =>
        have hcount : occupiedCount rest < rest.length := by
          rw [occupiedCount_cons_some, hg] at hlt
          simp at hlt
          omega
        obtain ⟨i, slot, hf, hi, hs, hlow⟩ :=
          ih (n0 + 1) (fun x hx => hnn x (List.mem_cons_of_mem _ hx)) hcount
        refine ⟨i + 1, slot, ?_, by simpa using hi, hs, ?_⟩
        · simp only [findEmptySlot, hg, Option.isNone_some, Bool.false_eq_true, if_false]
          rw [hf]
          congr 2
          omega
        · intro j hj
          cases j with
          | zero => exact ⟨s, by simp, by simp [hg]⟩
          | succ j =>
            obtain ⟨t, ht, htg⟩ := hlow j (by omega)
            exact ⟨t, by simpa using ht, htg⟩


theorem addModule_spec (p : ADSREchoAudioProcessor) (c : Nat)
    (chain : List (Option ModuleSlot)) (moduleType : ModuleType)
    (hchain : p.slots[c]? = some chain) (hlen : chain.length = MAX_SLOTS)
    (hnn : ∀ s ∈ chain, s ≠ none)
    (hnum : p.numModules[c]? = some ((occupiedCount chain : Nat) : Int)) :
    (occupiedCount chain = MAX_SLOTS → p.addModule (c : Int) moduleType = p) ∧
    (occupiedCount chain < MAX_SLOTS →
      ∃ i slot,
        chain[i]? = some (some slot) ∧ slot.get = none ∧
        (∀ j, j < i → ∃ s, chain[j]? = some (some s) ∧ s.get ≠ none) ∧
        (p.addModule (c : Int) moduleType).slots[c]? =
          some (chain.set i (some (slot.setModule (some (makeModule p.nextAddr moduleType))))) ∧
        (slot.setModule (some (makeModule p.nextAddr moduleType))).get.map EffectModule.kind
          = some moduleType ∧
        (∀ k : Nat, k ≠ c → (p.addModule (c : Int) moduleType).slots[k]? = p.slots[k]?) ∧
        (p.addModule (c : Int) moduleType).numModules[c]?
          = some (((occupiedCount chain : Nat) : Int) + 1) ∧
        (∀ k : Nat, k ≠ c →
          (p.addModule (c : Int) moduleType).numModules[k]? = p.numModules[k]?) ∧
        occupiedCount (chain.set i
            (some (slot.setModule (some (makeModule p.nextAddr moduleType)))))
          = occupiedCount chain + 1 ∧
        occupiedCount (chain.set i
            (some (slot.setModule (some (makeModule p.nextAddr moduleType))))) ≤ MAX_SLOTS) := by
  have hlen8 : chain.length = 8 := hlen
  constructor
  · intro hfull
    have : vecGet? p.numModules (c : Int) = some ((MAX_SLOTS : Nat) : Int) := by
      rw [vecGet?_natCast, hnum, hfull]
    simp [ADSREchoAudioProcessor.addModule, this]
  · intro hlt
    have hlt8 : occupiedCount chain < 8 := hlt
    obtain ⟨i, slot, hfind, hi, hempty, hlow⟩ :=
      findEmptySlot_spec chain 0 hnn (by omega)
    have hilt : i < chain.length := by
      by_contra hcon
      rw [List.getElem?_eq_none (by omega)] at hi
      cases hi
    have hne : ¬ p.numModules[c]? = some ((MAX_SLOTS : Nat) : Int) := by
      rw [hnum]
      simp only [MAX_SLOTS, Option.some.injEq]
      omega
    have hslots : (p.addModule (c : Int) moduleType).slots =
        vecModify p.slots (c : Int) (fun ch => vecModify ch (i : Int)
          (Option.map fun s => s.setModule (some (makeModule p.nextAddr moduleType)))) := by
      simp [ADSREchoAudioProcessor.addModule, hne, vecGet?_natCast, hchain, hfind,
        ADSREchoAudioProcessor.installModule, ADSREchoAudioProcessor.updateSlot,
        ADSREchoAudioProcessor.setSlotDefaults]
    have hnums : (p.addModule (c : Int) moduleType).numModules =
        vecModify p.numModules (c : Int) (· + 1) := by
      simp [ADSREchoAudioProcessor.addModule, hne, vecGet?_natCast, hchain, hfind,
        ADSREchoAudioProcessor.installModule, ADSREchoAudioProcessor.updateSlot,
        ADSREchoAudioProcessor.setSlotDefaults]
    have hkind := setModule_kind slot (makeModule p.nextAddr moduleType)
    rw [makeModule_kind] at hkind
    have hcount : occupiedCount (chain.set i
            (some (slot.setModule (some (makeModule p.nextAddr moduleType)))))
          = occupiedCount chain + 1 := by
      have hb : i < (chainTypes chain).length := by simpa [chainTypes] using hilt
      have hty : (chainTypes chain)[i] = none := by
        have := chainTypes_getElem? chain i
        rw [hi, List.getElem?_eq_getElem hb] at this
        simpa [hempty] using this
      have hset : chainTypes (chain.set i
            (some (slot.setModule (some (makeModule p.nextAddr moduleType)))))
          = (chainTypes chain).set i (some moduleType) := by
        simp only [chainTypes, List.map_set, hkind]
      rw [occupiedCount, hset, List.countP_set _ _ _ _ hb, hty]
      simp [occupiedCount]
    refine ⟨i, slot, hi, hempty, hlow, ?_, hkind, ?_, ?_, ?_, hcount, ?_⟩
    · rw [hslots, vecModify_getElem?_self, hchain, Option.map_some', vecModify_natCast,
        List.modify_eq_set, hi]
      rfl
    · intro k hk
      rw [hslots]
      exact vecModify_getElem?_ne _ _ _ _ (by omega)
    · rw [hnums, vecModify_getElem?_self, hnum]
      rfl
    · intro k hk
      rw [hnums]
      exact vecModify_getElem?_ne _ _ _ _ (by omega)
    · have := occupiedCount_le_length (chain.set i
            (some (slot.setModule (some (makeModule p.nextAddr moduleType)))))
      simpa [hlen8, MAX_SLOTS] using this


/-! ## Block processing -/

theorem forRange_zero {σ : Type} (k : Nat) (f : Nat → σ → σ) (s : σ) :
    forRange 0 k f s = (List.range k).foldl (fun acc i => f i acc) s := by
  simp [forRange]

theorem forRange_self {σ : Type} (k : Nat) (f : Nat → σ → σ) (s : σ) :
    forRange k k f s = s := by
  simp [forRange]

theorem foldl_modify_eq_mapIdx {α : Type} (F : Nat → α → α) (b : List α) (k : Nat) :
    (List.range k).foldl (fun acc ch => acc.modify (F ch) ch) b
      = b.mapIdx (fun ch c => if ch < k then F ch c else c) := by
  induction k with
  | zero =>
    apply List.ext_getElem?
    intro m
    simp [List.getElem?_mapIdx]
  | succ k ih =>
    rw [List.range_succ, List.foldl_append, ih]
    apply List.ext_getElem?
    intro m
    simp only [List.foldl_cons, List.foldl_nil, List.getElem?_modify, List.getElem?_mapIdx]
    cases b[m]? with
    | none => rfl
    | some a =>
      simp only [Option.map_some', Option.map_eq_map]
      by_cases h1 : k = m
      · subst h1; simp
      · by_cases h2 : m < k
        · have h3 : m < k + 1 := by omega
          simp [h1, h2, h3]
        · have h3 : ¬ m < k + 1 := by omega
          simp [h1, h2, h3]

theorem copy_all (t src : AudioBuffer) (numChannels numSamples : Nat)
    (ht : t.HasShape numChannels numSamples) (hs : src.HasShape numChannels numSamples) :
    forRange 0 numChannels (fun ch d => d.copyFrom ch src ch numSamples) t = src := by
  rw [forRange_zero]
  simp only [AudioBuffer.copyFrom]
  rw [foldl_modify_eq_mapIdx]
  apply List.ext_getElem?
  intro m
  rw [List.getElem?_mapIdx]
  by_cases hm : m < numChannels
  · have h1 : m < t.length := by rw [ht.1]; exact hm
    have h2 : m < src.length := by rw [hs.1]; exact hm
    rw [List.getElem?_eq_getElem h1, List.getElem?_eq_getElem h2]
    have h3 : t[m].length = numSamples := ht.2 _ (List.getElem_mem _)
    have h4 : src[m].length = numSamples := hs.2 _ (List.getElem_mem _)
    simp [hm, List.getD_eq_getElem?_getD, List.getElem?_eq_getElem h2,
      List.take_of_length_le (le_of_eq h4), List.drop_of_length_le (le_of_eq h3)]
  · rw [List.getElem?_eq_none (by rw [ht.1]; omega), List.getElem?_eq_none (by rw [hs.1]; omega)]
    rfl

theorem slot_process_of_sync (process : EffectModule → AudioBuffer → AudioBuffer)
    (s : ModuleSlot) (h : s.activeModule = s.ownedModule.map EffectModule.addr)
    (buf : AudioBuffer) :
    s.process process buf =
      match s.get with
      | some m => process m buf
      | none => buf := by
  unfold ModuleSlot.process ModuleSlot.get
  rw [h]
  cases hown : s.ownedModule with
  | none => rfl
  | some m => simp [ModuleSlot.deref, hown]

theorem processSlots_eq_chainTransfer (process : EffectModule → AudioBuffer → AudioBuffer)
    (chain : List (Option ModuleSlot))
    (h : ∀ s, some s ∈ chain → s.activeModule = s.ownedModule.map EffectModule.addr)
    (buf : AudioBuffer) :
    processSlots process chain buf = chainTransfer process chain buf := by
  unfold processSlots chainTransfer occupiedModules
  induction chain generalizing buf with
  | nil => rfl
  | cons a rest ih =>
    have hrest : ∀ s, some s ∈ rest → s.activeModule = s.ownedModule.map EffectModule.addr :=
      fun s hs => h s (List.mem_cons_of_mem _ hs)
    cases a with
    | none => simpa using ih hrest buf
    | some s =>
      have hs := slot_process_of_sync process s (h s (by simp)) buf
      cases hg : s.get with
      | none =>
        rw [hg] at hs
        simpa [hg, hs] using ih hrest buf
      | some m =>
        rw [hg] at hs
        simpa [hg, hs] using ih hrest (process m buf)

theorem hasShape_setSize (b : AudioBuffer) (k n : Nat) : (b.setSize k n).HasShape k n := by
  constructor
  · simp [AudioBuffer.setSize]
  · intro c hc
    simp only [AudioBuffer.setSize, List.mem_map] at hc
    obtain ⟨_, _, rfl⟩ := hc
    simp

theorem hasShape_clear (b : AudioBuffer) (k n : Nat) (h : b.HasShape k n) :
    b.clear.HasShape k n := by
  constructor
  · simpa [AudioBuffer.clear] using h.1
  · intro c hc
    simp only [AudioBuffer.clear, List.mem_map] at hc
    obtain ⟨d, hd, rfl⟩ := hc
    simpa using h.2 d hd

theorem getSample_clear (b : AudioBuffer) (ch i : Nat) : b.clear.getSample ch i = 0 := by
  simp only [AudioBuffer.getSample, AudioBuffer.clear, List.getD_eq_getElem?_getD,
    List.getElem?_map]
  cases b[ch]? with
  | none => rfl
  | some chan =>
    simp only [Option.map_some', Option.getD_some, List.getElem?_map]
    generalize chan[i]? = o
    cases o <;> rfl

theorem hasShape_applyGain (b : AudioBuffer) (g : ℚ) (k n : Nat) (h : b.HasShape k n) :
    (b.applyGain g).HasShape k n := by
  constructor
  · simpa [AudioBuffer.applyGain] using h.1
  · intro c hc
    simp only [AudioBuffer.applyGain, List.mem_map] at hc
    obtain ⟨d, hd, rfl⟩ := hc
    simpa using h.2 d hd

theorem getSample_applyGain (b : AudioBuffer) (g : ℚ) (ch i : Nat) :
    (b.applyGain g).getSample ch i = b.getSample ch i * g := by
  simp only [AudioBuffer.getSample, AudioBuffer.applyGain, List.getD_eq_getElem?_getD,
    List.getElem?_map]
  cases b[ch]? with
  | none => simp
  | some chan =>
    simp only [Option.map_some', Option.getD_some, List.getElem?_map]
    generalize chan[i]? = o
    cases o <;> simp

theorem hasShape_mapIdx (b : AudioBuffer) (k n m : Nat) (G : Nat → Nat → ℚ → ℚ)
    (h : b.HasShape k n) :
    AudioBuffer.HasShape (b.mapIdx fun ch c =>
      if ch < m then c.mapIdx (fun i x => G ch i x) else c) k n := by
  constructor
  · simpa using h.1
  · intro c hc
    obtain ⟨j, hj⟩ := List.mem_iff_getElem?.mp hc
    rw [List.getElem?_mapIdx] at hj
    cases hb : b[j]? with
    | none => rw [hb] at hj; cases hj
    | some d =>
      rw [hb] at hj
      simp only [Option.map_some', Option.some.injEq] at hj
      have hd : d.length = n := h.2 d (List.mem_iff_getElem?.mpr ⟨j, hb⟩)
      subst hj
      split_ifs
      · simpa using hd
      · exact hd

theorem getSample_mapIdx (b : AudioBuffer) (k n m : Nat) (G : Nat → Nat → ℚ → ℚ)
    (h : b.HasShape k n) (ch i : Nat) (hch : ch < k) (hm : ch < m) (hi : i < n) :
    AudioBuffer.getSample (b.mapIdx fun ch c =>
      if ch < m then c.mapIdx (fun i x => G ch i x) else c) ch i
      = G ch i (b.getSample ch i) := by
  have h1 : ch < b.length := by rw [h.1]; exact hch
  have h2 : b[ch].length = n := h.2 _ (List.getElem_mem _)
  have h3 : i < b[ch].length := by rw [h2]; exact hi
  simp [AudioBuffer.getSample, List.getD_eq_getElem?_getD, List.getElem?_mapIdx,
    List.getElem?_eq_getElem h1, hm, List.getElem?_eq_getElem h3]

theorem hasShape_chainTransfer (process : EffectModule → AudioBuffer → AudioBuffer)
    (k n : Nat) (hshape : ∀ m b, b.HasShape k n → (process m b).HasShape k n)
    (chain : List (Option ModuleSlot)) (b : AudioBuffer) (h : b.HasShape k n) :
    (chainTransfer process chain b).HasShape k n := by
  unfold chainTransfer
  generalize occupiedModules chain = mods
  induction mods generalizing b with
  | nil => exact h
  | cons m rest ih => exact ih (process m b) (hshape m b h)

theorem processChain_spec (process : EffectModule → AudioBuffer → AudioBuffer)
    (decibelsToGain : ℚ → ℚ) (k n c : Nat) (q : ADSREchoAudioProcessor)
    (acc dry : AudioBuffer)
    (hshape : ∀ m b, b.HasShape k n → (process m b).HasShape k n)
    (hdry : q.masterDryBuffer = dry) (hd : dry.HasShape k n)
    (ht : q.chainTempBuffer.HasShape k n) (ha : acc.HasShape k n)
    (hsync : ∀ s, some s ∈ q.slots.getD c [] →
      s.activeModule = s.ownedModule.map EffectModule.addr) :
    (ADSREchoAudioProcessor.processChain process decibelsToGain k n c (q, acc)).1.slots
      = q.slots ∧
    (ADSREchoAudioProcessor.processChain process decibelsToGain k n c (q, acc)).1.apvts
      = q.apvts ∧
    (ADSREchoAudioProcessor.processChain process decibelsToGain k n c (q, acc)).1.masterDryBuffer
      = dry ∧
    (ADSREchoAudioProcessor.processChain process decibelsToGain k n c
      (q, acc)).1.chainTempBuffer.HasShape k n ∧
    (ADSREchoAudioProcessor.processChain process decibelsToGain k n c (q, acc)).2.HasShape k n ∧
    ∀ ch i, ch < k → i < n →
      (ADSREchoAudioProcessor.processChain process decibelsToGain k n c (q, acc)).2.getSample ch i
        = acc.getSample ch i + chainContribution process decibelsToGain q dry c ch i := by
  unfold ADSREchoAudioProcessor.processChain
  simp only [hdry]
  rw [copy_all _ dry k n (hasShape_clear _ k n ht) hd,
    processSlots_eq_chainTransfer process _ hsync]
  have hT := hasShape_chainTransfer process k n hshape (q.slots.getD c []) dry hd
  simp only [chainMix, AudioBuffer.addFrom, forRange_zero, foldl_modify_eq_mapIdx]
  have hM := hasShape_mapIdx (chainTransfer process (q.slots.getD c []) dry) k n k
    (fun ch i w => if i < n then (dry.getD ch []).getD i 0 *
      (1 - q.apvts.value ("chain_" ++ toString c ++ ".masterMix")) +
      w * q.apvts.value ("chain_" ++ toString c ++ ".masterMix") else w) hT
  refine ⟨trivial, trivial, trivial, hasShape_applyGain _ _ k n hM, hasShape_mapIdx acc k n k _ ha, ?_⟩
  intro ch i hch hi
  rw [getSample_mapIdx acc k n k _ ha ch i hch hch hi]
  simp only [hi, if_true]
  have e1 : ∀ b : AudioBuffer, (b.getD ch []).getD i 0 = b.getSample ch i := fun _ => rfl
  rw [e1, getSample_applyGain, getSample_mapIdx _ k n k _ hT ch i hch hch hi]
  simp only [hi, if_true, e1, chainContribution]
  ring

theorem mem_moveAssign (chain : List (Option ModuleSlot)) (d s : Nat) (a : Option ModuleSlot)
    (h : a ∈ moveAssign chain d s) : a ∈ chain ∨ a = none := by
  unfold moveAssign at h
  rcases List.mem_or_eq_of_mem_set h with h1 | h1
  · rcases List.mem_or_eq_of_mem_set h1 with h2 | h2
    · exact Or.inl h2
    · rw [List.getD_eq_getElem?_getD] at h2
      cases hs : chain[s]? with
      | none => rw [hs] at h2; exact Or.inr h2
      | some x =>
        rw [hs] at h2
        exact Or.inl (h2 ▸ List.mem_iff_getElem?.mpr ⟨s, hs⟩)
  · exact Or.inr h1

theorem mem_shiftLeft (n : Nat) (chain : List (Option ModuleSlot)) (i : Nat)
    (a : Option ModuleSlot) (h : a ∈ shiftLeft chain i n) : a ∈ chain ∨ a = none := by
  induction n generalizing chain i with
  | zero => exact Or.inl h
  | succ n ih =>
    rcases ih _ _ h with h1 | h1
    · exact mem_moveAssign chain _ _ a h1
    · exact Or.inr h1

theorem mem_shiftRight (n : Nat) (chain : List (Option ModuleSlot)) (i : Nat)
    (a : Option ModuleSlot) (h : a ∈ shiftRight chain i n) : a ∈ chain ∨ a = none := by
  induction n generalizing chain i with
  | zero => exact Or.inl h
  | succ n ih =>
    rcases ih _ _ h with h1 | h1
    · exact mem_moveAssign chain _ _ a h1
    · exact Or.inr h1

theorem mem_moveChain (chain : List (Option ModuleSlot)) (from_ to_ : Int) (s : ModuleSlot)
    (h : some s ∈ moveChain chain from_ to_) : some s ∈ chain := by
  unfold moveChain at h
  split_ifs at h with hc hlt
  · rcases List.mem_or_eq_of_mem_set h with h1 | h1
    · rcases mem_shiftLeft _ _ _ _ h1 with h2 | h2
      · rcases List.mem_or_eq_of_mem_set h2 with h3 | h3
        · exact h3
        · cases h3
      · cases h2
    · rw [List.getD_eq_getElem?_getD] at h1
      cases hs : chain[from_.toNat]? with
      | none => rw [hs] at h1; cases h1
      | some x =>
        rw [hs] at h1
        exact h1 ▸ List.mem_iff_getElem?.mpr ⟨_, hs⟩
  · rcases List.mem_or_eq_of_mem_set h with h1 | h1
    · rcases mem_shiftRight _ _ _ _ h1 with h2 | h2
      · rcases List.mem_or_eq_of_mem_set h2 with h3 | h3
        · exact h3
        · cases h3
      · cases h2
    · rw [List.getD_eq_getElem?_getD] at h1
      cases hs : chain[from_.toNat]? with
      | none => rw [hs] at h1; cases h1
      | some x =>
        rw [hs] at h1
        exact h1 ▸ List.mem_iff_getElem?.mpr ⟨_, hs⟩
  · exact h

theorem observersInSync_executeSlotMove (p : ADSREchoAudioProcessor) (h : p.ObserversInSync) :
    p.executeSlotMove.ObserversInSync := by
  intro chain hchain slot hs
  cases slot with
  | none => trivial
  | some s =>
  simp only [ADSREchoAudioProcessor.executeSlotMove, vecModify] at hchain
  split_ifs at hchain with h0
  · obtain ⟨j, hj⟩ := List.mem_iff_getElem?.mp hchain
    rw [List.getElem?_modify] at hj
    cases hb : p.slots[j]? with
    | none => rw [hb] at hj; cases hj
    | some orig =>
      rw [hb] at hj
      simp only [Option.map_eq_map, Option.map_some', Option.some.injEq] at hj
      have horig : orig ∈ p.slots := List.mem_iff_getElem?.mpr ⟨j, hb⟩
      split_ifs at hj
      · subst hj
        exact h orig horig (some s) (mem_moveChain _ _ _ s hs)
      · subst hj
        exact h _ horig (some s) hs
  · exact h chain hchain (some s) hs

theorem sync_of_getD (q : ADSREchoAudioProcessor) (h : q.ObserversInSync) (c : Nat) :
    ∀ s, some s ∈ q.slots.getD c [] →
      s.activeModule = s.ownedModule.map EffectModule.addr := by
  intro s hs
  rw [List.getD_eq_getElem?_getD] at hs
  cases hc : q.slots[c]? with
  | none => rw [hc] at hs; simp at hs
  | some chain =>
    rw [hc] at hs
    exact h chain (List.mem_iff_getElem?.mpr ⟨c, hc⟩) (some s) hs

/-- C7: for every input block, `processBlock` writes to each output sample the sum
over the contributing chains of `gain_c * (dry * (1 - masterMix_c) + masterMix_c *
P_c (dry))`, where `dry` is the input block, `P_c` is the serial composition of the
process functions of the occupied slots of chain `c` (after a pending move has been
applied) run on its own copy of `dry`, and the contributing chains are 0 and 1 when
the parallel flag is set and chain 0 alone when it is not. -/
theorem C7_processBlock_output (process : EffectModule → AudioBuffer → AudioBuffer)
    (decibelsToGain : ℚ → ℚ) (p : ADSREchoAudioProcessor) (buffer : AudioBuffer)
    (numChannels numSamples : Nat)
    (hshape : ∀ m b, b.HasShape numChannels numSamples →
      (process m b).HasShape numChannels numSamples)
    (hbuf : buffer.HasShape numChannels numSamples)
    (hmaster : p.masterDryBuffer.length = numChannels)
    (htemp : p.chainTempBuffer.length = numChannels)
    (hsync : p.ObserversInSync) (ch i : Nat) (hch : ch < numChannels) (hi : i < numSamples) :
    (ADSREchoAudioProcessor.processBlock process decibelsToGain numChannels numChannels
        p buffer).2.getSample ch i =
      if p.apvts.value "parallelEnabled" ≠ 0 then
        chainContribution process decibelsToGain
            (if p.moveRequested then p.executeSlotMove else p) buffer 0 ch i
          + chainContribution process decibelsToGain
            (if p.moveRequested then p.executeSlotMove else p) buffer 1 ch i
      else
        chainContribution process decibelsToGain
          (if p.moveRequested then p.executeSlotMove else p) buffer 0 ch i := by
  have hn : buffer.getNumSamples = numSamples := by
    have h1 : 0 < buffer.length := by rw [hbuf.1]; omega
    cases hb : buffer with
    | nil => rw [hb] at h1; simp at h1
    | cons a rest =>
      simp only [AudioBuffer.getNumSamples, List.headD_cons]
      exact hbuf.2 a (by rw [hb]; simp)
  -- the processor after the pending move, if any
  obtain ⟨p1, hp1, hp1m, hp1t, hp1s⟩ : ∃ p1 : ADSREchoAudioProcessor,
      p1 = (if p.moveRequested then p.executeSlotMove else p) ∧
      p1.masterDryBuffer = p.masterDryBuffer ∧ p1.chainTempBuffer = p.chainTempBuffer ∧
      p1.ObserversInSync := by
    refine ⟨_, rfl, ?_, ?_, ?_⟩
    · split_ifs <;> rfl
    · split_ifs <;> rfl
    · split_ifs
      · exact observersInSync_executeSlotMove p hsync
      · exact hsync
  unfold ADSREchoAudioProcessor.processBlock
  simp only [← hp1, hn, forRange_self, hp1m, hp1t, AudioBuffer.getNumChannels, hmaster, htemp]
  rw [copy_all _ buffer numChannels numSamples
    (hasShape_clear _ _ _ (hasShape_setSize _ _ _)) hbuf]
  have hacc0 := hasShape_clear buffer _ _ hbuf
  have htmp0 : AudioBuffer.HasShape
      (AudioBuffer.clear (AudioBuffer.setSize p.chainTempBuffer numChannels numSamples))
      numChannels numSamples := hasShape_clear _ _ _ (hasShape_setSize _ _ _)
  obtain ⟨a1, a2, a3, a4, a5, a6⟩ := processChain_spec process decibelsToGain numChannels
    numSamples 0 { p1 with
      chainTempBuffer :=
        AudioBuffer.clear (AudioBuffer.setSize p.chainTempBuffer numChannels numSamples)
      masterDryBuffer := buffer } buffer.clear buffer hshape rfl hbuf htmp0 hacc0
    (sync_of_getD p1 hp1s 0)
  by_cases hpar : p.apvts.value "parallelEnabled" = 0
  · have hp1a : p1.apvts.value "parallelEnabled" = 0 := by
      rw [hp1]; split_ifs <;> exact hpar
    simp only [hp1a, hpar, ne_eq, not_true_eq_false, decide_False, Bool.false_eq_true,
      if_false, NUM_CHAINS, forRange_zero, List.range_succ, List.range_zero, List.nil_append,
      List.foldl_cons, List.foldl_nil]
    rw [a6 ch i hch hi, getSample_clear, zero_add]
    rfl
  · have hp1a : ¬ p1.apvts.value "parallelEnabled" = 0 := by
      rw [hp1]; split_ifs <;> exact hpar
    simp only [hp1a, hpar, ne_eq, not_false_eq_true, decide_True, if_true, NUM_CHAINS,
      forRange_zero, List.range_succ, List.range_zero, List.nil_append, List.cons_append,
      List.foldl_cons, List.foldl_nil, Nat.sub_zero]
    obtain ⟨b1, b2, b3, b4, b5, b6⟩ := processChain_spec process decibelsToGain numChannels
      numSamples 1
      (ADSREchoAudioProcessor.processChain process decibelsToGain numChannels numSamples 0
        ({ p1 with
            chainTempBuffer :=
              AudioBuffer.clear (AudioBuffer.setSize p.chainTempBuffer numChannels numSamples)
            masterDryBuffer := buffer }, buffer.clear)).1
      (ADSREchoAudioProcessor.processChain process decibelsToGain numChannels numSamples 0
        ({ p1 with
            chainTempBuffer :=
              AudioBuffer.clear (AudioBuffer.setSize p.chainTempBuffer numChannels numSamples)
            masterDryBuffer := buffer }, buffer.clear)).2
      buffer hshape a3 hbuf a4 a5
      (by rw [a1]; exact sync_of_getD p1 hp1s 1)
    rw [b6 ch i hch hi, a6 ch i hch hi, getSample_clear, zero_add]
    simp only [chainContribution, a1, a2]

/-- Witness for C7: the example state (Delay and Reverb in chain 0) processes a
stereo block of four samples with modules that double the signal. -/
theorem C7_processBlock_output_witness :
    (∀ (m : EffectModule) (b : AudioBuffer), b.HasShape 2 4 →
      ((fun (_ : EffectModule) (x : AudioBuffer) => x.applyGain 2) m b).HasShape 2 4) ∧
    AudioBuffer.HasShape [[1, 2, 3, 4], [5, 6, 7, 8]] 2 4 ∧
    exampleProcessor.masterDryBuffer.length = 2 ∧
    exampleProcessor.chainTempBuffer.length = 2 ∧
    exampleProcessor.ObserversInSync ∧
    (ADSREchoAudioProcessor.processBlock (fun _ x => x.applyGain 2) (fun _ => 1) 2 2
        exampleProcessor [[1, 2, 3, 4], [5, 6, 7, 8]]).2.getSample 1 2 =
      if exampleProcessor.apvts.value "parallelEnabled" ≠ 0 then
        chainContribution (fun _ x => x.applyGain 2) (fun _ => 1)
            (if exampleProcessor.moveRequested then exampleProcessor.executeSlotMove
              else exampleProcessor) [[1, 2, 3, 4], [5, 6, 7, 8]] 0 1 2
          + chainContribution (fun _ x => x.applyGain 2) (fun _ => 1)
            (if exampleProcessor.moveRequested then exampleProcessor.executeSlotMove
              else exampleProcessor) [[1, 2, 3, 4], [5, 6, 7, 8]] 1 1 2
      else
        chainContribution (fun _ x => x.applyGain 2) (fun _ => 1)
          (if exampleProcessor.moveRequested then exampleProcessor.executeSlotMove
            else exampleProcessor) [[1, 2, 3, 4], [5, 6, 7, 8]] 0 1 2 :=
  ⟨fun _ b hb => hasShape_applyGain b 2 2 4 hb, by decide, by decide, by decide, by decide,
   C7_processBlock_output (fun _ x => x.applyGain 2) (fun _ => 1) exampleProcessor
     [[1, 2, 3, 4], [5, 6, 7, 8]] 2 4 (fun _ b hb => hasShape_applyGain b 2 2 4 hb)
     (by decide) (by decide) (by decide) (by decide) 1 2 (by decide) (by decide)⟩

/-! ## Delay line: stored delay and read indices -/

theorem jlimit_mem (hi d : ℚ) (h : 1 ≤ hi) : 1 ≤ jlimit 1 hi d ∧ jlimit 1 hi d ≤ hi := by
  unfold jlimit
  split_ifs with h1 h2
  · exact ⟨le_refl 1, h⟩
  · exact ⟨h, le_refl hi⟩
  · exact ⟨le_of_not_lt h1, le_of_not_lt h2⟩

theorem floor_mem (N : Int) (x : ℚ) (h1 : 1 ≤ x) (h2 : x ≤ ((N - 1 : Int) : ℚ)) :
    1 ≤ ⌊x⌋ ∧ ⌊x⌋ ≤ N - 1 ∧ 0 ≤ x - (⌊x⌋ : ℚ) ∧ x - (⌊x⌋ : ℚ) < 1 := by
  refine ⟨Int.le_floor.mpr (by exact_mod_cast h1), ?_, ?_, ?_⟩
  · have := Int.floor_le_floor h2
    rwa [Int.floor_intCast] at this
  · linarith [Int.floor_le x]
  · linarith [Int.lt_floor_add_one x]

theorem tmod_mem (a N : Int) (ha : 0 ≤ a) (hN : 0 < N) :
    0 ≤ Int.tmod a N ∧ Int.tmod a N < N := by
  rw [Int.tmod_eq_emod ha (le_of_lt hN)]
  exact ⟨Int.emod_nonneg _ (ne_of_gt hN), Int.emod_lt_of_pos _ hN⟩

theorem setDelayFloat_in_range (dl : DelayLineWithSampleAccess) (h : 2 ≤ dl.numSamples)
    (d : ℚ) :
    (dl.setDelayFloat d).numSamples = dl.numSamples ∧
    1 ≤ (dl.setDelayFloat d).delayInSamples ∧
    (dl.setDelayFloat d).delayInSamples ≤ dl.numSamples - 1 ∧
    0 ≤ (dl.setDelayFloat d).fractionalDelay ∧ (dl.setDelayFloat d).fractionalDelay < 1 := by
  have hN : (1 : ℚ) ≤ ((dl.numSamples - 1 : Int) : ℚ) := by
    have : (1 : Int) ≤ dl.numSamples - 1 := by omega
    exact_mod_cast this
  have key : ∀ x : ℚ, 1 ≤ x → x ≤ ((dl.numSamples - 1 : Int) : ℚ) →
      1 ≤ ⌊x⌋ ∧ ⌊x⌋ ≤ dl.numSamples - 1 ∧ 0 ≤ x - (⌊x⌋ : ℚ) ∧ x - (⌊x⌋ : ℚ) < 1 :=
    fun x => floor_mem dl.numSamples x
  simp only [DelayLineWithSampleAccess.setDelayFloat]
  refine ⟨trivial, ?_⟩
  split_ifs with h1 h2 h3
  · exact key _ hN (le_refl _)
  · exact key _ (le_refl 1) hN
  · exact key _ hN (le_refl _)
  · exact key _ (le_of_not_lt h1) (le_of_not_lt h3)

/-- C8, the failing input: on a prepared mono line of capacity 4 the integer overload
`setDelay (10)` stores the delay 10, outside [1, 3], and the following `popSample`
computes the buffer index (0 - 10 + 4) % 4 = -2, an out-of-bounds read. -/
theorem C8_setDelay_int_exceeds_capacity :
    ((DelayLineWithSampleAccess.new 3).prepare ⟨44100, 4, 1⟩).numSamples = 4 ∧
    (((DelayLineWithSampleAccess.new 3).prepare ⟨44100, 4, 1⟩).setDelayInt 10).delayInSamples
      = 10 ∧
    (((DelayLineWithSampleAccess.new 3).prepare ⟨44100, 4, 1⟩).setDelayInt 10).popIndex 0
      = some (-2) ∧
    ((((DelayLineWithSampleAccess.new 3).prepare ⟨44100, 4, 1⟩).setDelayInt 10).popSample 0).2
      = none := by
  refine ⟨by decide, by decide, by decide, by decide⟩

theorem readFractionalIndices_mem (dl : DelayLineWithSampleAccess) (h : 2 ≤ dl.numSamples)
    (writePos : Int) (hw0 : 0 ≤ writePos) (d : ℚ) :
    (0 ≤ (dl.readFractionalIndices writePos d).1 ∧
      (dl.readFractionalIndices writePos d).1 < dl.numSamples) ∧
    (0 ≤ (dl.readFractionalIndices writePos d).2.1 ∧
      (dl.readFractionalIndices writePos d).2.1 < dl.numSamples) := by
  have hN : (1 : ℚ) ≤ ((dl.numSamples - 1 : Int) : ℚ) := by
    have : (1 : Int) ≤ dl.numSamples - 1 := by omega
    exact_mod_cast this
  obtain ⟨j1, j2⟩ := jlimit_mem _ d hN
  obtain ⟨f1, f2, _, _⟩ := floor_mem dl.numSamples _ j1 j2
  simp only [DelayLineWithSampleAccess.readFractionalIndices]
  exact ⟨tmod_mem _ _ (by omega) (by omega), tmod_mem _ _ (by omega) (by omega)⟩

theorem getSample?_of_mem (b : AudioBuffer) (numChannels N : Nat) (hb : b.HasShape numChannels N)
    (ch : Nat) (hch : ch < numChannels) (idx : Int) (h0 : 0 ≤ idx) (h1 : idx < (N : Int)) :
    ∃ chan, b[ch]? = some chan ∧ chan.length = N ∧
      b.getSample? ch idx = some (chan.getD idx.toNat 0) ∧ idx.toNat < N := by
  have hlt : ch < b.length := by rw [hb.1]; exact hch
  have hlen : b[ch].length = N := hb.2 _ (List.getElem_mem _)
  have hi : idx.toNat < b[ch].length := by omega
  refine ⟨b[ch], List.getElem?_eq_getElem hlt, hlen, ?_, by omega⟩
  simp [AudioBuffer.getSample?, List.getElem?_eq_getElem hlt, vecGet?, h0,
    List.getD_eq_getElem?_getD, List.getElem?_eq_getElem hi]

theorem wellFormed_reset (dl : DelayLineWithSampleAccess) (numChannels : Nat)
    (h : dl.WellFormed numChannels) : dl.reset.WellFormed numChannels := by
  obtain ⟨h4, hs, hl, _⟩ := h
  refine ⟨h4, hasShape_clear _ _ _ hs, by simpa [DelayLineWithSampleAccess.reset] using hl, ?_⟩
  intro w hw
  simp only [DelayLineWithSampleAccess.reset, List.mem_map] at hw
  obtain ⟨_, _, rfl⟩ := hw
  have : 4 ≤ dl.reset.numSamples := h4
  exact ⟨le_refl 0, by omega⟩

theorem wellFormed_prepare (maximumDelayInSamples : Int) (spec : ProcessSpec) :
    ((DelayLineWithSampleAccess.new maximumDelayInSamples).prepare spec).WellFormed
      spec.numChannels := by
  have hN : ((DelayLineWithSampleAccess.new maximumDelayInSamples).prepare spec).numSamples
      = max (maximumDelayInSamples + 1) 4 := by
    simp [DelayLineWithSampleAccess.prepare, DelayLineWithSampleAccess.reset,
      DelayLineWithSampleAccess.new, AudioBuffer.setSize, AudioBuffer.clear,
      AudioBuffer.getNumSamples]
  refine ⟨by rw [hN]; exact le_max_right _ _, ?_, ?_, ?_⟩
  · rw [hN]
    exact hasShape_clear _ _ _ (hasShape_setSize _ _ _)
  · simp [DelayLineWithSampleAccess.prepare, DelayLineWithSampleAccess.reset, resizeInts]
  · intro w hw
    simp only [DelayLineWithSampleAccess.prepare, DelayLineWithSampleAccess.reset,
      List.mem_map] at hw
    obtain ⟨_, _, rfl⟩ := hw
    rw [hN]
    exact ⟨le_refl 0, lt_of_lt_of_le (by norm_num) (le_max_right _ _)⟩

theorem getSample?_clear (b : AudioBuffer) (ch : Nat) (idx : Int) (v : ℚ)
    (h : b.clear.getSample? ch idx = some v) : v = 0 := by
  simp only [AudioBuffer.getSample?, AudioBuffer.clear, List.getElem?_map] at h
  cases hb : b[ch]? with
  | none => rw [hb] at h; cases h
  | some chan =>
    rw [hb] at h
    simp only [Option.map_some', vecGet?] at h
    split_ifs at h
    rw [List.getElem?_map] at h
    generalize chan[idx.toNat]? = o at h
    cases o with
    | none => cases h
    | some x => simpa using h.symm

theorem readFractional_defined (dl : DelayLineWithSampleAccess) (numChannels : Nat)
    (h : dl.WellFormed numChannels) (ch : Nat) (hch : ch < numChannels) (d : ℚ) :
    ∃ w s1 s2, dl.writePosition[ch]? = some w ∧
      dl.delayBuffer.getSample? ch (dl.readFractionalIndices w d).1 = some s1 ∧
      dl.delayBuffer.getSample? ch (dl.readFractionalIndices w d).2.1 = some s2 ∧
      dl.readFractional ch d = some (s1 + (dl.readFractionalIndices w d).2.2 * (s2 - s1)) := by
  obtain ⟨h4, hs, hl, hw⟩ := h
  have hlt : ch < dl.writePosition.length := by rw [hl]; exact hch
  have hwp : dl.writePosition[ch]? = some dl.writePosition[ch] := List.getElem?_eq_getElem hlt
  obtain ⟨w0, w1⟩ := hw _ (List.getElem_mem hlt)
  obtain ⟨⟨a0, a1⟩, ⟨b0, b1⟩⟩ :=
    readFractionalIndices_mem dl (by omega) dl.writePosition[ch] w0 d
  have hcast : ((dl.numSamples.toNat : Nat) : Int) = dl.numSamples :=
    Int.toNat_of_nonneg (by omega)
  obtain ⟨c1, _, _, g1, _⟩ := getSample?_of_mem dl.delayBuffer numChannels _ hs ch hch
    (dl.readFractionalIndices dl.writePosition[ch] d).1 a0 (by rw [hcast]; exact a1)
  obtain ⟨c2, _, _, g2, _⟩ := getSample?_of_mem dl.delayBuffer numChannels _ hs ch hch
    (dl.readFractionalIndices dl.writePosition[ch] d).2.1 b0 (by rw [hcast]; exact b1)
  refine ⟨_, _, _, hwp, g1, g2, ?_⟩
  simp only [DelayLineWithSampleAccess.readFractional, hwp, g1, g2]

/-- C10: for a prepared delay line (capacity N at least 4, every write position in
[0, N)) both buffer indices that `readFractional` computes lie in [0, N) for every
write position in [0, N) and every requested delay, so the read is defined on every
channel; and immediately after `reset` it returns 0 for every channel and delay. -/
theorem C10_readFractional_defined (dl : DelayLineWithSampleAccess) (numChannels : Nat)
    (h : dl.WellFormed numChannels) (d : ℚ) :
    (∀ writePos : Int, 0 ≤ writePos → writePos < dl.numSamples →
      (0 ≤ (dl.readFractionalIndices writePos d).1 ∧
        (dl.readFractionalIndices writePos d).1 < dl.numSamples) ∧
      (0 ≤ (dl.readFractionalIndices writePos d).2.1 ∧
        (dl.readFractionalIndices writePos d).2.1 < dl.numSamples)) ∧
    (∀ ch, ch < numChannels → ∃ v, dl.readFractional ch d = some v) ∧
    (∀ ch, ch < numChannels → dl.reset.readFractional ch d = some 0) := by
  refine ⟨?_, ?_, ?_⟩
  · intro writePos h0 _
    exact readFractionalIndices_mem dl (by have := h.1; omega) writePos h0 d
  · intro ch hch
    obtain ⟨_, _, _, _, _, _, hr⟩ := readFractional_defined dl numChannels h ch hch d
    exact ⟨_, hr⟩
  · intro ch hch
    obtain ⟨w, s1, s2, _, g1, g2, hr⟩ :=
      readFractional_defined dl.reset numChannels (wellFormed_reset dl numChannels h) ch hch d
    have e1 : s1 = 0 := getSample?_clear dl.delayBuffer ch _ s1 g1
    have e2 : s2 = 0 := getSample?_clear dl.delayBuffer ch _ s2 g2
    rw [hr, e1, e2]
    norm_num

/-- Witness for C10: a stereo line built for a maximum delay of 3 samples (capacity
4) and prepared. -/
theorem C10_readFractional_defined_witness :
    ((DelayLineWithSampleAccess.new 3).prepare ⟨44100, 4, 2⟩).WellFormed 2 ∧
    (∀ ch, ch < 2 →
      ((DelayLineWithSampleAccess.new 3).prepare ⟨44100, 4, 2⟩).reset.readFractional ch (5 / 2)
        = some 0) :=
  ⟨wellFormed_prepare 3 ⟨44100, 4, 2⟩,
   (C10_readFractional_defined ((DelayLineWithSampleAccess.new 3).prepare ⟨44100, 4, 2⟩) 2
      (wellFormed_prepare 3 ⟨44100, 4, 2⟩) (5 / 2)).2.2⟩

/-! ## Delay line: what a fractional read returns -/

theorem history_nil (j : Nat) : history [] j = 0 := by
  unfold history
  split_ifs <;> simp

theorem history_snoc_one (xs : List ℚ) (x : ℚ) : history (xs ++ [x]) 1 = x := by
  simp [history]

theorem history_snoc_succ (xs : List ℚ) (x : ℚ) (j : Nat) (hj : 1 ≤ j) :
    history (xs ++ [x]) (j + 1) = history xs j := by
  obtain ⟨i, rfl⟩ : ∃ i, j = i + 1 := ⟨j - 1, by omega⟩
  simp [history]

theorem mod_sub_ne (m N i : Nat) (h1 : 1 ≤ i) (h2 : i < N) :
    (m + N - i) % N ≠ m % N := by
  intro h
  have h3 : (m + N) % N = (m + N - i) % N := by rw [Nat.add_mod_right, h]
  have h4 := Nat.sub_mod_eq_zero_of_mod_eq h3
  have h5 : m + N - (m + N - i) = i := by omega
  rw [h5, Nat.mod_eq_of_lt h2] at h4
  omega

theorem tmod_natCast (a N : Nat) : Int.tmod (a : Int) (N : Int) = ((a % N : Nat) : Int) := by
  rw [Int.tmod_eq_emod (Int.natCast_nonneg a) (Int.natCast_nonneg N), Int.natCast_mod]

theorem channelHolds_push (dl : DelayLineWithSampleAccess) (ch N : Nat) (xs : List ℚ)
    (x : ℚ) (hN : 0 < N) (h : dl.ChannelHolds ch N xs) :
    (dl.pushSample ch x).ChannelHolds ch N (xs ++ [x]) := by
  obtain ⟨hn, chan, hb, hl, hw, hcell⟩ := h
  have hchw : ch < dl.writePosition.length := by
    by_contra hcon
    rw [List.getElem?_eq_none (by omega)] at hw
    cases hw
  have hwlt : xs.length % N < chan.length := by rw [hl]; exact Nat.mod_lt _ hN
  refine ⟨by simp only [DelayLineWithSampleAccess.pushSample, hw]; exact hn,
    chan.set (xs.length % N) x, ?_, by simp [hl], ?_, ?_⟩
  · simp only [DelayLineWithSampleAccess.pushSample, hw, AudioBuffer.setSample,
      List.getElem?_modify, hb, vecModify_natCast, Option.map_eq_map, Option.map_some',
      if_true]
    rw [List.modify_eq_set]
  · simp only [DelayLineWithSampleAccess.pushSample, hw, hn]
    rw [List.getElem?_set, if_pos rfl, if_pos hchw]
    have e : ((xs.length % N : Nat) : Int) + 1 = ((xs.length % N + 1 : Nat) : Int) := by
      push_cast; rfl
    rw [e, tmod_natCast, Nat.mod_add_mod, List.length_append, List.length_singleton]
  · intro j hj1 hjN
    rw [List.length_append, List.length_singleton]
    by_cases hj : j = 1
    · subst hj
      have e : (xs.length + 1 + N - 1) % N = xs.length % N := by
        have : xs.length + 1 + N - 1 = xs.length + N := by omega
        rw [this, Nat.add_mod_right]
      rw [e, List.getElem?_set, if_pos rfl, if_pos hwlt, history_snoc_one]
    · obtain ⟨i, rfl⟩ : ∃ i, j = i + 1 := ⟨j - 1, by omega⟩
      have hi1 : 1 ≤ i := by omega
      have e : xs.length + 1 + N - (i + 1) = xs.length + N - i := by omega
      rw [e, List.getElem?_set, if_neg (Ne.symm (mod_sub_ne _ _ _ hi1 (by omega))),
        history_snoc_succ _ _ _ hi1]
      exact hcell i hi1 (by omega)

theorem channelHolds_pushAll (dl : DelayLineWithSampleAccess) (ch N : Nat) (hN : 0 < N)
    (h : dl.ChannelHolds ch N []) (xs : List ℚ) :
    (dl.pushAll ch xs).ChannelHolds ch N xs := by
  induction xs using List.reverseRecOn with
  | nil => exact h
  | append_singleton ys y ih =>
    have e : dl.pushAll ch (ys ++ [y]) = (dl.pushAll ch ys).pushSample ch y := by
      simp [DelayLineWithSampleAccess.pushAll, List.foldl_append]
    rw [e]
    exact channelHolds_push _ ch N ys y hN ih

theorem clear_getElem (b : AudioBuffer) (ch : Nat) (chan : List ℚ)
    (h : b.clear[ch]? = some chan) (i : Nat) (v : ℚ) (hv : chan[i]? = some v) : v = 0 := by
  simp only [AudioBuffer.clear, List.getElem?_map] at h
  cases hb : b[ch]? with
  | none => rw [hb] at h; cases h
  | some orig =>
    rw [hb] at h
    simp only [Option.map_some', Option.some.injEq] at h
    rw [← h, List.getElem?_map] at hv
    generalize orig[i]? = o at hv
    cases o with
    | none => cases hv
    | some y => simpa using hv.symm

theorem channelHolds_prepare (maximumDelayInSamples : Int) (spec : ProcessSpec) (ch : Nat)
    (hch : ch < spec.numChannels) :
    ((DelayLineWithSampleAccess.new maximumDelayInSamples).prepare spec).ChannelHolds ch
      ((DelayLineWithSampleAccess.new maximumDelayInSamples).prepare spec).numSamples.toNat
      [] := by
  obtain ⟨h4, hs, hl, hw⟩ := wellFormed_prepare maximumDelayInSamples spec
  have hcast := Int.toNat_of_nonneg (a :=
    ((DelayLineWithSampleAccess.new maximumDelayInSamples).prepare spec).numSamples) (by omega)
  have hlt : ch < ((DelayLineWithSampleAccess.new maximumDelayInSamples).prepare
      spec).delayBuffer.length := by rw [hs.1]; exact hch
  refine ⟨hcast.symm, _, List.getElem?_eq_getElem hlt, hs.2 _ (List.getElem_mem _), ?_, ?_⟩
  · have hwl : ch < ((DelayLineWithSampleAccess.new maximumDelayInSamples).prepare
        spec).writePosition.length := by rw [hl]; exact hch
    rw [List.getElem?_eq_getElem hwl]
    have hz : ((DelayLineWithSampleAccess.new maximumDelayInSamples).prepare
        spec).writePosition[ch] = 0 := by
      have hm := List.getElem_mem hwl
      simp only [DelayLineWithSampleAccess.prepare, DelayLineWithSampleAccess.reset,
        List.mem_map] at hm
      obtain ⟨_, _, hm⟩ := hm
      exact hm.symm
    rw [hz]
    simp
  · intro j _ _
    rw [history_nil]
    have hlen := hs.2 _ (List.getElem_mem hlt)
    have hidx : (([] : List ℚ).length + ((DelayLineWithSampleAccess.new
        maximumDelayInSamples).prepare spec).numSamples.toNat - j) %
        ((DelayLineWithSampleAccess.new maximumDelayInSamples).prepare spec).numSamples.toNat
        < (((DelayLineWithSampleAccess.new maximumDelayInSamples).prepare
          spec).delayBuffer[ch]).length := by
      rw [hlen]
      exact Nat.mod_lt _ (by omega)
    have hclr : (AudioBuffer.clear (AudioBuffer.setSize
          (DelayLineWithSampleAccess.new maximumDelayInSamples).delayBuffer spec.numChannels
          (DelayLineWithSampleAccess.new maximumDelayInSamples).totalSize.toNat))[ch]?
        = some ((DelayLineWithSampleAccess.new maximumDelayInSamples).prepare
            spec).delayBuffer[ch] := List.getElem?_eq_getElem hlt
    rw [List.getElem?_eq_getElem hidx]
    exact congrArg some (clear_getElem _ ch _ hclr _ _ (List.getElem?_eq_getElem hidx))

theorem readFractional_of_channelHolds (dl : DelayLineWithSampleAccess) (ch N : Nat)
    (xs : List ℚ) (hN : 2 ≤ N) (h : dl.ChannelHolds ch N xs) (d : ℚ) :
    dl.readFractional ch d =
      some ((1 - (dl.clampedDelay d - (⌊dl.clampedDelay d⌋ : ℚ)))
              * history xs ⌊dl.clampedDelay d⌋.toNat
            + (dl.clampedDelay d - (⌊dl.clampedDelay d⌋ : ℚ))
              * history xs (⌊dl.clampedDelay d⌋.toNat + 1)) := by
  obtain ⟨hn, chan, hb, hl, hw, hcell⟩ := h
  have hNq : (1 : ℚ) ≤ ((dl.numSamples - 1 : Int) : ℚ) := by
    have : (1 : Int) ≤ dl.numSamples - 1 := by omega
    exact_mod_cast this
  obtain ⟨j1, j2⟩ := jlimit_mem _ d hNq
  obtain ⟨f1, f2, _, _⟩ := floor_mem dl.numSamples _ j1 j2
  -- the integer part of the clamped delay, as a natural number
  obtain ⟨k, hk⟩ : ∃ k : Nat, ⌊dl.clampedDelay d⌋ = (k : Int) :=
    ⟨⌊dl.clampedDelay d⌋.toNat, (Int.toNat_of_nonneg (by
      have : 1 ≤ ⌊dl.clampedDelay d⌋ := f1
      omega)).symm⟩
  have hk1 : 1 ≤ k := by
    have : 1 ≤ ⌊dl.clampedDelay d⌋ := f1
    omega
  have hkN : k + 1 ≤ N := by
    have : ⌊dl.clampedDelay d⌋ ≤ dl.numSamples - 1 := f2
    omega
  have hfl : ⌊jlimit 1 ((dl.numSamples - 1 : Int) : ℚ) d⌋ = (k : Int) := hk
  have hfl2 : ⌊jlimit 1 ((((N : Int) - 1 : Int)) : ℚ) d⌋ = (k : Int) := by rw [← hn]; exact hk
  have e1 : ((xs.length % N : Nat) : Int) - (k : Int) + (N : Int)
      = ((xs.length % N + (N - k) : Nat) : Int) := by omega
  have e2 : ((xs.length % N : Nat) : Int) - (k : Int) - 1 + (N : Int)
      = ((xs.length % N + (N - (k + 1)) : Nat) : Int) := by omega
  have i1 : (xs.length % N + (N - k)) % N = (xs.length + N - k) % N := by
    rw [Nat.mod_add_mod]
    congr 1
    omega
  have i2 : (xs.length % N + (N - (k + 1))) % N = (xs.length + N - (k + 1)) % N := by
    rw [Nat.mod_add_mod]
    congr 1
    omega
  have g1 : dl.delayBuffer.getSample? ch
      (dl.readFractionalIndices ((xs.length % N : Nat) : Int) d).1 = some (history xs k) := by
    simp only [DelayLineWithSampleAccess.readFractionalIndices, hfl, hfl2, hn, e1, tmod_natCast,
      AudioBuffer.getSample?, hb, vecGet?_natCast, i1]
    exact hcell k hk1 (by omega)
  have g2 : dl.delayBuffer.getSample? ch
      (dl.readFractionalIndices ((xs.length % N : Nat) : Int) d).2.1
        = some (history xs (k + 1)) := by
    simp only [DelayLineWithSampleAccess.readFractionalIndices, hfl, hfl2, hn, e2, tmod_natCast,
      AudioBuffer.getSample?, hb, vecGet?_natCast, i2]
    exact hcell (k + 1) (by omega) hkN
  simp only [DelayLineWithSampleAccess.readFractional, hw, g1, g2]
  simp only [DelayLineWithSampleAccess.readFractionalIndices,
    DelayLineWithSampleAccess.clampedDelay, hfl, Int.toNat_natCast, Option.some.injEq]
  ring

/-- C9: on a prepared delay line of capacity N, after any sequence of pushes
`x_1 .. x_m` on a channel, `readFractional (channel, d)` returns for every delay `d`
the value `(1 - f) * h (k) + f * h (k + 1)`, where `d'` is `d` clamped to
[1, N - 1], `k = floor d'`, `f = d' - k`, and `h (j)` is the `j`-th most recent
pushed sample (0 when fewer than `j` samples have been pushed). -/
theorem C9_readFractional_interpolates (maximumDelayInSamples : Int) (spec : ProcessSpec)
    (channel : Nat) (hch : channel < spec.numChannels) (xs : List ℚ) (d : ℚ) :
    (((DelayLineWithSampleAccess.new maximumDelayInSamples).prepare spec).pushAll channel
        xs).readFractional channel d =
      some ((1 - (((DelayLineWithSampleAccess.new maximumDelayInSamples).prepare
                    spec).clampedDelay d
                - (⌊((DelayLineWithSampleAccess.new maximumDelayInSamples).prepare
                    spec).clampedDelay d⌋ : ℚ)))
              * history xs ⌊((DelayLineWithSampleAccess.new maximumDelayInSamples).prepare
                    spec).clampedDelay d⌋.toNat
            + (((DelayLineWithSampleAccess.new maximumDelayInSamples).prepare
                    spec).clampedDelay d
                - (⌊((DelayLineWithSampleAccess.new maximumDelayInSamples).prepare
                    spec).clampedDelay d⌋ : ℚ))
              * history xs (⌊((DelayLineWithSampleAccess.new maximumDelayInSamples).prepare
                    spec).clampedDelay d⌋.toNat + 1)) := by
  have h4 := (wellFormed_prepare maximumDelayInSamples spec).1
  have hN : 2 ≤ ((DelayLineWithSampleAccess.new maximumDelayInSamples).prepare
      spec).numSamples.toNat := by omega
  have hholds := channelHolds_pushAll _ channel _ (by omega)
    (channelHolds_prepare maximumDelayInSamples spec channel hch) xs
  have hread := readFractional_of_channelHolds _ channel _ xs hN hholds d
  have hsame : (((DelayLineWithSampleAccess.new maximumDelayInSamples).prepare spec).pushAll
      channel xs).clampedDelay d
      = ((DelayLineWithSampleAccess.new maximumDelayInSamples).prepare spec).clampedDelay d := by
    unfold DelayLineWithSampleAccess.clampedDelay
    rw [hholds.1, Int.toNat_of_nonneg (by omega)]
  rw [hread, hsame]

/-- Witness for C9: six samples pushed into a mono line of capacity 4, read at the
delay 5/2. -/
theorem C9_readFractional_interpolates_witness :
    (0 : Nat) < (⟨44100, 4, 1⟩ : ProcessSpec).numChannels ∧
    (((DelayLineWithSampleAccess.new 3).prepare ⟨44100, 4, 1⟩).pushAll 0
        [1, 2, 3, 4, 5, 6]).readFractional 0 (5 / 2) =
      some ((1 - (((DelayLineWithSampleAccess.new 3).prepare ⟨44100, 4, 1⟩).clampedDelay (5 / 2)
                - (⌊((DelayLineWithSampleAccess.new 3).prepare
                      ⟨44100, 4, 1⟩).clampedDelay (5 / 2)⌋ : ℚ)))
              * history [1, 2, 3, 4, 5, 6]
                  ⌊((DelayLineWithSampleAccess.new 3).prepare
                      ⟨44100, 4, 1⟩).clampedDelay (5 / 2)⌋.toNat
            + (((DelayLineWithSampleAccess.new 3).prepare ⟨44100, 4, 1⟩).clampedDelay (5 / 2)
                - (⌊((DelayLineWithSampleAccess.new 3).prepare
                      ⟨44100, 4, 1⟩).clampedDelay (5 / 2)⌋ : ℚ))
              * history [1, 2, 3, 4, 5, 6]
                  (⌊((DelayLineWithSampleAccess.new 3).prepare
                      ⟨44100, 4, 1⟩).clampedDelay (5 / 2)⌋.toNat + 1)) :=
  ⟨by decide, C9_readFractional_interpolates 3 ⟨44100, 4, 1⟩ 0 (by decide) [1, 2, 3, 4, 5, 6]
    (5 / 2)⟩

/-! ## Delay line: continuity of the fractional read -/

theorem le_foldl_max (l : List ℚ) (a x : ℚ) (h : x ∈ l ∨ x ≤ a) : x ≤ l.foldl max a := by
  induction l generalizing a with
  | nil =>
    rcases h with h | h
    · simp at h
    · exact h
  | cons y t ih =>
    rw [List.foldl_cons]
    apply ih
    rcases h with h | h
    · rcases List.mem_cons.mp h with h1 | h1
      · exact Or.inr (h1 ▸ le_max_right a y)
      · exact Or.inl h1
    · exact Or.inr (le_trans h (le_max_left a y))

theorem maxSlope_nonneg (dl : DelayLineWithSampleAccess) (ch : Nat) : 0 ≤ dl.maxSlope ch :=
  le_foldl_max _ 0 0 (Or.inr (le_refl 0))

theorem slope_le_maxSlope (dl : DelayLineWithSampleAccess) (ch : Nat) (k : Int) (h1 : 1 ≤ k)
    (h2 : k ≤ dl.numSamples - 1) :
    |dl.cellBehind ch (k + 1) - dl.cellBehind ch k| ≤ dl.maxSlope ch := by
  apply le_foldl_max
  left
  rw [List.mem_map]
  refine ⟨(k - 1).toNat, ?_, ?_⟩
  · rw [List.mem_range]; omega
  · have e : (((k - 1).toNat : Nat) : Int) = k - 1 := Int.toNat_of_nonneg (by omega)
    rw [e]
    congr 3 <;> ring

/-- The value linear interpolation assigns at `d` between the members `⌊d⌋` and
`⌊d⌋ + 1` of a sequence. -/
theorem interp_same_floor (g : Int → ℚ) (S : ℚ) (k : Int) (d1 d2 : ℚ)
    (hS : |g (k + 1) - g k| ≤ S) (h12 : d1 ≤ d2) :
    |(g k + (d2 - (k : ℚ)) * (g (k + 1) - g k)) - (g k + (d1 - (k : ℚ)) * (g (k + 1) - g k))|
      ≤ (d2 - d1) * S := by
  have e : (g k + (d2 - (k : ℚ)) * (g (k + 1) - g k)) - (g k + (d1 - (k : ℚ)) * (g (k + 1) - g k))
      = (d2 - d1) * (g (k + 1) - g k) := by ring
  rw [e, abs_mul, abs_of_nonneg (sub_nonneg.mpr h12)]
  exact mul_le_mul_of_nonneg_left hS (sub_nonneg.mpr h12)

theorem interp_from_int (g : Int → ℚ) (S : ℚ) (M : Int)
    (hS : ∀ k, 1 ≤ k → k ≤ M → |g (k + 1) - g k| ≤ S) (n : Nat) :
    ∀ (k : Int) (d : ℚ), 1 ≤ k → (k : ℚ) ≤ d → d ≤ (M : ℚ) → (⌊d⌋ - k).toNat = n →
      |(g ⌊d⌋ + (d - (⌊d⌋ : ℚ)) * (g (⌊d⌋ + 1) - g ⌊d⌋)) - g k| ≤ (d - (k : ℚ)) * S := by
  induction n with
  | zero =>
    intro k d hk hkd hdM hn
    have hfl : k ≤ ⌊d⌋ := Int.le_floor.mpr hkd
    have hk' : ⌊d⌋ = k := by omega
    have hkM : k ≤ M := by
      have : ⌊d⌋ ≤ M := by
        have := Int.floor_le_floor hdM
        rwa [Int.floor_intCast] at this
      omega
    rw [hk']
    have e : g k + (d - (k : ℚ)) * (g (k + 1) - g k) - g k = (d - (k : ℚ)) * (g (k + 1) - g k) := by
      ring
    rw [e, abs_mul, abs_of_nonneg (sub_nonneg.mpr hkd)]
    exact mul_le_mul_of_nonneg_left (hS k hk hkM) (sub_nonneg.mpr hkd)
  | succ n ih =>
    intro k d hk hkd hdM hn
    have hfl : k + 1 ≤ ⌊d⌋ := by omega
    have hk1d : ((k + 1 : Int) : ℚ) ≤ d := Int.le_floor.mp hfl
    have hfM : ⌊d⌋ ≤ M := by
      have := Int.floor_le_floor hdM
      rwa [Int.floor_intCast] at this
    have h1 := ih (k + 1) d (by omega) hk1d hdM (by omega)
    have h2 := hS k hk (by omega)
    have e : (g ⌊d⌋ + (d - (⌊d⌋ : ℚ)) * (g (⌊d⌋ + 1) - g ⌊d⌋)) - g k
        = ((g ⌊d⌋ + (d - (⌊d⌋ : ℚ)) * (g (⌊d⌋ + 1) - g ⌊d⌋)) - g (k + 1))
          + (g (k + 1) - g k) := by ring
    rw [e]
    refine le_trans (abs_add _ _) ?_
    push_cast at h1
    linarith

theorem interp_to_next_int (g : Int → ℚ) (S : ℚ) (k : Int) (d : ℚ)
    (hS : |g (k + 1) - g k| ≤ S) (hd : d ≤ (k : ℚ) + 1) :
    |g (k + 1) - (g k + (d - (k : ℚ)) * (g (k + 1) - g k))| ≤ ((k : ℚ) + 1 - d) * S := by
  have e : g (k + 1) - (g k + (d - (k : ℚ)) * (g (k + 1) - g k))
      = ((k : ℚ) + 1 - d) * (g (k + 1) - g k) := by ring
  have hnn : (0 : ℚ) ≤ (k : ℚ) + 1 - d := by linarith
  rw [e, abs_mul, abs_of_nonneg hnn]
  exact mul_le_mul_of_nonneg_left hS hnn

theorem interp_lipschitz_le (g : Int → ℚ) (S : ℚ) (M : Int)
    (hS : ∀ k, 1 ≤ k → k ≤ M → |g (k + 1) - g k| ≤ S) (d1 d2 : ℚ)
    (h1 : 1 ≤ d1) (h12 : d1 ≤ d2) (h2 : d2 ≤ (M : ℚ)) :
    |(g ⌊d2⌋ + (d2 - (⌊d2⌋ : ℚ)) * (g (⌊d2⌋ + 1) - g ⌊d2⌋))
      - (g ⌊d1⌋ + (d1 - (⌊d1⌋ : ℚ)) * (g (⌊d1⌋ + 1) - g ⌊d1⌋))| ≤ (d2 - d1) * S := by
  have hf1 : 1 ≤ ⌊d1⌋ := Int.le_floor.mpr (by exact_mod_cast h1)
  have hf12 : ⌊d1⌋ ≤ ⌊d2⌋ := Int.floor_le_floor h12
  have hf2M : ⌊d2⌋ ≤ M := by
    have := Int.floor_le_floor h2
    rwa [Int.floor_intCast] at this
  by_cases heq : ⌊d1⌋ = ⌊d2⌋
  · rw [← heq]
    exact interp_same_floor g S ⌊d1⌋ d1 d2 (hS _ hf1 (by omega)) h12
  · have hlt : ⌊d1⌋ + 1 ≤ ⌊d2⌋ := by omega
    have hkd2 : ((⌊d1⌋ + 1 : Int) : ℚ) ≤ d2 := Int.le_floor.mp hlt
    have hA := interp_from_int g S M hS _ (⌊d1⌋ + 1) d2 (by omega) hkd2 h2 rfl
    have hB := interp_to_next_int g S ⌊d1⌋ d1 (hS _ hf1 (by omega))
      (le_of_lt (Int.lt_floor_add_one d1))
    have e : (g ⌊d2⌋ + (d2 - (⌊d2⌋ : ℚ)) * (g (⌊d2⌋ + 1) - g ⌊d2⌋))
        - (g ⌊d1⌋ + (d1 - (⌊d1⌋ : ℚ)) * (g (⌊d1⌋ + 1) - g ⌊d1⌋))
        = ((g ⌊d2⌋ + (d2 - (⌊d2⌋ : ℚ)) * (g (⌊d2⌋ + 1) - g ⌊d2⌋)) - g (⌊d1⌋ + 1))
          + (g (⌊d1⌋ + 1) - (g ⌊d1⌋ + (d1 - (⌊d1⌋ : ℚ)) * (g (⌊d1⌋ + 1) - g ⌊d1⌋))) := by ring
    rw [e]
    refine le_trans (abs_add _ _) ?_
    push_cast at hA
    linarith

theorem jlimit_of_mem (lo hi v : ℚ) (h1 : lo ≤ v) (h2 : v ≤ hi) : jlimit lo hi v = v := by
  unfold jlimit
  rw [if_neg (not_lt.mpr h1), if_neg (not_lt.mpr h2)]

theorem readFractionalIndices_of_mem (dl : DelayLineWithSampleAccess) (h : 2 ≤ dl.numSamples)
    (w : Int) (hw0 : 0 ≤ w) (d : ℚ) (h1 : 1 ≤ d) (h2 : d ≤ ((dl.numSamples - 1 : Int) : ℚ)) :
    dl.readFractionalIndices w d
      = ((w - ⌊d⌋) % dl.numSamples, (w - (⌊d⌋ + 1)) % dl.numSamples, d - (⌊d⌋ : ℚ)) := by
  obtain ⟨f1, f2, _, _⟩ := floor_mem dl.numSamples d h1 h2
  simp only [DelayLineWithSampleAccess.readFractionalIndices, jlimit_of_mem _ _ _ h1 h2]
  rw [Int.tmod_eq_emod (by omega) (by omega), Int.tmod_eq_emod (by omega) (by omega),
    Int.add_emod_self, Int.add_emod_self]
  have e : w - ⌊d⌋ - 1 = w - (⌊d⌋ + 1) := by ring
  rw [e]

theorem readFractional_eq_interp (dl : DelayLineWithSampleAccess) (numChannels : Nat)
    (h : dl.WellFormed numChannels) (ch : Nat) (hch : ch < numChannels) (d : ℚ)
    (h1 : 1 ≤ d) (h2 : d ≤ ((dl.numSamples - 1 : Int) : ℚ)) :
    dl.readFractional ch d
      = some (dl.cellBehind ch ⌊d⌋
          + (d - (⌊d⌋ : ℚ)) * (dl.cellBehind ch (⌊d⌋ + 1) - dl.cellBehind ch ⌊d⌋)) := by
  obtain ⟨w, s1, s2, hwp, g1, g2, hr⟩ := readFractional_defined dl numChannels h ch hch d
  have hw0 : 0 ≤ w := by
    have := h.2.2.2 w (List.mem_iff_getElem?.mpr ⟨ch, hwp⟩)
    exact this.1
  have hi := readFractionalIndices_of_mem dl (by have := h.1; omega) w hw0 d h1 h2
  rw [hi] at g1 g2 hr
  simp only at g1 g2 hr
  rw [hr]
  simp only [DelayLineWithSampleAccess.cellBehind, hwp, g1, g2, Option.getD_some]

/-- C11: on a prepared delay line of capacity N (at least 4, write positions in range)
the fractional read is defined for every delay and, for all delays d1 and d2 in
[1, N - 1], two reads of the same state differ by at most |d1 - d2| * S, where S
(`maxSlope`) is the largest absolute difference between two consecutive stored
samples of the channel. -/
theorem C11_readFractional_lipschitz (dl : DelayLineWithSampleAccess) (numChannels : Nat)
    (h : dl.WellFormed numChannels) (ch : Nat) (hch : ch < numChannels) (d1 d2 : ℚ)
    (h1 : 1 ≤ d1 ∧ d1 ≤ ((dl.numSamples - 1 : Int) : ℚ))
    (h2 : 1 ≤ d2 ∧ d2 ≤ ((dl.numSamples - 1 : Int) : ℚ)) :
    ∃ v1 v2, dl.readFractional ch d1 = some v1 ∧ dl.readFractional ch d2 = some v2 ∧
      |v1 - v2| ≤ |d1 - d2| * dl.maxSlope ch := by
  refine ⟨_, _, readFractional_eq_interp dl numChannels h ch hch d1 h1.1 h1.2,
    readFractional_eq_interp dl numChannels h ch hch d2 h2.1 h2.2, ?_⟩
  have hS : ∀ k : Int, 1 ≤ k → k ≤ dl.numSamples - 1 →
      |dl.cellBehind ch (k + 1) - dl.cellBehind ch k| ≤ dl.maxSlope ch :=
    fun k a b => slope_le_maxSlope dl ch k a b
  rcases le_total d1 d2 with h12 | h12
  · have := interp_lipschitz_le (dl.cellBehind ch) (dl.maxSlope ch) (dl.numSamples - 1) hS
      d1 d2 h1.1 h12 h2.2
    rw [abs_sub_comm, abs_sub_comm d1 d2, abs_of_nonneg (sub_nonneg.mpr h12)]
    exact this
  · have := interp_lipschitz_le (dl.cellBehind ch) (dl.maxSlope ch) (dl.numSamples - 1) hS
      d2 d1 h2.1 h12 h1.2
    rw [abs_of_nonneg (sub_nonneg.mpr h12)]
    exact this

/-- A line of capacity 4 holding 0, 1, 3, 6 with the write position at cell 0. -/
theorem C11_readFractional_lipschitz_witness :
    ∃ v1 v2,
      DelayLineWithSampleAccess.readFractional
        ⟨[[0, 1, 3, 6]], 4, [0], [0], 0, 4, 0, 44100⟩ 0 (3 / 2) = some v1 ∧
      DelayLineWithSampleAccess.readFractional
        ⟨[[0, 1, 3, 6]], 4, [0], [0], 0, 4, 0, 44100⟩ 0 (5 / 2) = some v2 ∧
      |v1 - v2| ≤ |(3 / 2 : ℚ) - 5 / 2| *
        DelayLineWithSampleAccess.maxSlope ⟨[[0, 1, 3, 6]], 4, [0], [0], 0, 4, 0, 44100⟩ 0 :=
  C11_readFractional_lipschitz ⟨[[0, 1, 3, 6]], 4, [0], [0], 0, 4, 0, 44100⟩
    1 (by decide) 0 (by decide) (3 / 2) (5 / 2)
    (by constructor <;> norm_num) (by constructor <;> norm_num)

/-! ## The allpass diffuser -/

theorem hasShape_setSample (b : AudioBuffer) (k n : Nat) (h : b.HasShape k n) (ch : Nat)
    (idx : Int) (v : ℚ) : (b.setSample ch idx v).HasShape k n := by
  obtain ⟨h1, h2⟩ := h
  refine ⟨by simp [AudioBuffer.setSample, h1], ?_⟩
  intro c hc
  simp only [AudioBuffer.setSample] at hc
  obtain ⟨i, hi⟩ := List.mem_iff_getElem?.mp hc
  rw [List.getElem?_modify] at hi
  cases hb : b[i]? with
  | none => rw [hb] at hi; simp at hi
  | some c0 =>
    rw [hb] at hi
    have hc0 : c0.length = n := h2 _ (List.mem_iff_getElem?.mpr ⟨i, hb⟩)
    by_cases e : ch = i
    · simp only [e, if_true, Option.map_eq_map, Option.map_some', Option.some.injEq] at hi
      rw [← hi]
      unfold vecModify
      split_ifs <;> simp [hc0]
    · simp only [e, if_false, Option.map_eq_map, Option.map_some', Option.some.injEq] at hi
      rw [← hi]; exact hc0

theorem wellFormed_pushSample (dl : DelayLineWithSampleAccess) (numChannels : Nat)
    (h : dl.WellFormed numChannels) (ch : Nat) (v : ℚ) :
    (dl.pushSample ch v).WellFormed numChannels := by
  obtain ⟨h4, hs, hl, hw⟩ := h
  unfold DelayLineWithSampleAccess.pushSample
  cases hwp : dl.writePosition[ch]? with
  | none => exact ⟨h4, hs, hl, hw⟩
  | some w =>
    have hw0 := hw w (List.mem_iff_getElem?.mpr ⟨ch, hwp⟩)
    refine ⟨h4, hasShape_setSample _ _ _ hs _ _ _, by simp [hl], ?_⟩
    intro w1 hw1
    rcases List.mem_or_eq_of_mem_set hw1 with hm | hm
    · exact hw w1 hm
    · rw [hm]
      exact tmod_mem _ _ (by omega) (by show 0 < dl.numSamples; omega)

theorem pushSampleChecked_of_wellFormed (dl : DelayLineWithSampleAccess) (numChannels : Nat)
    (h : dl.WellFormed numChannels) (ch : Nat) (hch : ch < numChannels) (v : ℚ) :
    dl.pushSampleChecked ch v = some (dl.pushSample ch v) := by
  obtain ⟨h4, hs, hl, hw⟩ := h
  have hlt : ch < dl.writePosition.length := by rw [hl]; exact hch
  have hwp : dl.writePosition[ch]? = some dl.writePosition[ch] := List.getElem?_eq_getElem hlt
  obtain ⟨w0, w1⟩ := hw _ (List.getElem_mem hlt)
  have hcast : ((dl.numSamples.toNat : Nat) : Int) = dl.numSamples :=
    Int.toNat_of_nonneg (by omega)
  obtain ⟨c1, _, _, g1, _⟩ := getSample?_of_mem dl.delayBuffer numChannels _ hs ch hch
    dl.writePosition[ch] w0 (by rw [hcast]; exact w1)
  simp only [DelayLineWithSampleAccess.pushSampleChecked, hwp, g1]

theorem allpass_wellFormed_prepare (ap : Allpass) (maxDelay : Int) (spec : ProcessSpec) :
    ((ap.setMaximumDelayInSamples maxDelay).prepare spec).WellFormed spec.numChannels := by
  refine ⟨?_, ?_, ?_, ?_, ?_⟩
  · exact wellFormed_reset _ _ (wellFormed_prepare maxDelay spec)
  all_goals simp [Allpass.prepare, Allpass.reset]

theorem allpass_pushSample_spec (ap : Allpass) (numChannels : Nat)
    (h : ap.WellFormed numChannels) (ch : Nat) (hch : ch < numChannels) (x : ℚ) :
    ∃ fb, ap.feedback[ch]? = some fb ∧
      ap.pushSample ch x =
        some { ap with drySample := ap.drySample.set ch x
                       delayLine := ap.delayLine.pushSample ch (x + fb) } ∧
      Allpass.WellFormed { ap with drySample := ap.drySample.set ch x
                                   delayLine := ap.delayLine.pushSample ch (x + fb) }
        numChannels := by
  obtain ⟨hd, h1, h2, h3, h4⟩ := h
  have hfb : ap.feedback[ch]? = some ap.feedback[ch] :=
    List.getElem?_eq_getElem (by rw [h4]; exact hch)
  refine ⟨_, hfb, ?_, ?_⟩
  · simp only [Allpass.pushSample, h1, hch, if_true, hfb,
      pushSampleChecked_of_wellFormed _ _ hd ch hch]
  · exact ⟨wellFormed_pushSample _ _ hd _ _, by simp [h1], h2, h3, h4⟩

theorem allpass_popSample_spec (ap : Allpass) (numChannels : Nat)
    (h : ap.WellFormed numChannels) (ch : Nat) (hch : ch < numChannels) (ov : ℚ) :
    ∃ d dry, ap.delayLine.readFractional ch
        (if ov ≥ 0 then ov else (ap.delayInSamples : ℚ)) = some d ∧
      ap.drySample[ch]? = some dry ∧
      ap.popSample ch ov =
        some ({ ap with delayOutput := ap.delayOutput.set ch d
                        feedback := ap.feedback.set ch (d * ap.gain)
                        feedforward := ap.feedforward.set ch (-dry - d * ap.gain) },
              d + (-dry - d * ap.gain)) ∧
      Allpass.WellFormed { ap with delayOutput := ap.delayOutput.set ch d
                                   feedback := ap.feedback.set ch (d * ap.gain)
                                   feedforward := ap.feedforward.set ch (-dry - d * ap.gain) }
        numChannels := by
  obtain ⟨hd, h1, h2, h3, h4⟩ := h
  obtain ⟨_, _, _, _, _, _, hr⟩ := readFractional_defined ap.delayLine numChannels hd ch hch
    (if ov ≥ 0 then ov else (ap.delayInSamples : ℚ))
  have hdry : ap.drySample[ch]? = some ap.drySample[ch] :=
    List.getElem?_eq_getElem (by rw [h1]; exact hch)
  refine ⟨_, _, hr, hdry, ?_, ?_⟩
  · simp only [Allpass.popSample, h2, h3, h4, hch, and_self, if_true, hr, hdry]
  · exact ⟨hd, h1, by simp [h2], by simp [h3], by simp [h4]⟩

/-- C12: `setGain` stores a gain in [0, 1]; `prepare` zeroes the stored feedback; and on
a prepared allpass `pushSample (x)` writes `x + feedback` into the delay line, where
`feedback` is the gain times the delayed output read by the previous `popSample`, and
the following `popSample` returns `d + (-x - g * d)` for the value `d` read from the
line at the configured delay and leaves `g * d` as the feedback of the next push. -/
theorem C12_allpass_push_pop (ap : Allpass) (numChannels : Nat)
    (h : ap.WellFormed numChannels) (ch : Nat) (hch : ch < numChannels) (x newGain : ℚ) :
    (0 ≤ (ap.setGain newGain).gain ∧ (ap.setGain newGain).gain ≤ 1) ∧
    (∀ spec : ProcessSpec, ch < spec.numChannels → (ap.prepare spec).feedback[ch]? = some 0) ∧
    ∃ fb ap1 d ap2,
      ap.feedback[ch]? = some fb ∧
      ap.pushSample ch x = some ap1 ∧
      ap1.delayLine = ap.delayLine.pushSample ch (x + fb) ∧
      ap1.feedback = ap.feedback ∧
      ap1.delayLine.readFractional ch (ap.delayInSamples : ℚ) = some d ∧
      ap1.popSample ch (-1) = some (ap2, d + (-x - ap.gain * d)) ∧
      ap2.feedback[ch]? = some (ap.gain * d) ∧
      ap2.delayLine = ap1.delayLine ∧ ap2.gain = ap.gain ∧
      ap2.delayInSamples = ap.delayInSamples ∧ ap2.WellFormed numChannels := by
  refine ⟨?_, ?_, ?_⟩
  · simp only [Allpass.setGain, jlimit]
    split_ifs <;> constructor <;> linarith
  · intro spec hs
    simp [Allpass.prepare, Allpass.reset, hs]
  · obtain ⟨fb, hfb, hpush, hwf1⟩ := allpass_pushSample_spec ap numChannels h ch hch x
    obtain ⟨d, dry, hr, hdry, hpop, hwf2⟩ := allpass_popSample_spec _ numChannels hwf1 ch hch (-1)
    have hneg : ¬ ((-1 : ℚ) ≥ 0) := by norm_num
    simp only [hneg, if_false] at hr
    have hlen : ch < ap.drySample.length := by rw [h.2.1]; exact hch
    have hlenf : ch < ap.feedback.length := by rw [h.2.2.2.2]; exact hch
    have hx : dry = x := by
      simp only [List.getElem?_set, hlen, if_true] at hdry
      simpa using hdry.symm
    subst hx
    have hpop2 := hpop
    simp only [mul_comm d ap.gain] at hpop2
    refine ⟨fb, _, d, _, hfb, hpush, rfl, rfl, hr, hpop2, ?_, rfl, rfl, rfl, ?_⟩
    · simp [List.getElem?_set, hlenf]
    · simpa only [mul_comm d ap.gain] using hwf2

/-- A mono allpass of maximum delay 8 prepared at 44.1 kHz, pushed the sample 3. -/
theorem C12_allpass_push_pop_witness :
    (0 ≤ (((Allpass.new.setMaximumDelayInSamples 8).prepare ⟨44100, 4, 1⟩).setGain 7).gain ∧
      (((Allpass.new.setMaximumDelayInSamples 8).prepare ⟨44100, 4, 1⟩).setGain 7).gain ≤ 1) ∧
    (∀ spec : ProcessSpec, 0 < spec.numChannels →
      (((Allpass.new.setMaximumDelayInSamples 8).prepare ⟨44100, 4, 1⟩).prepare
        spec).feedback[0]? = some 0) ∧
    ∃ fb ap1 d ap2,
      ((Allpass.new.setMaximumDelayInSamples 8).prepare ⟨44100, 4, 1⟩).feedback[0]? = some fb ∧
      ((Allpass.new.setMaximumDelayInSamples 8).prepare ⟨44100, 4, 1⟩).pushSample 0 3
        = some ap1 ∧
      ap1.delayLine = ((Allpass.new.setMaximumDelayInSamples 8).prepare
        ⟨44100, 4, 1⟩).delayLine.pushSample 0 (3 + fb) ∧
      ap1.feedback = ((Allpass.new.setMaximumDelayInSamples 8).prepare ⟨44100, 4, 1⟩).feedback ∧
      ap1.delayLine.readFractional 0
        (((Allpass.new.setMaximumDelayInSamples 8).prepare ⟨44100, 4, 1⟩).delayInSamples : ℚ)
          = some d ∧
      ap1.popSample 0 (-1) = some (ap2, d + (-3 -
        ((Allpass.new.setMaximumDelayInSamples 8).prepare ⟨44100, 4, 1⟩).gain * d)) ∧
      ap2.feedback[0]? = some
        (((Allpass.new.setMaximumDelayInSamples 8).prepare ⟨44100, 4, 1⟩).gain * d) ∧
      ap2.delayLine = ap1.delayLine ∧
      ap2.gain = ((Allpass.new.setMaximumDelayInSamples 8).prepare ⟨44100, 4, 1⟩).gain ∧
      ap2.delayInSamples
        = ((Allpass.new.setMaximumDelayInSamples 8).prepare ⟨44100, 4, 1⟩).delayInSamples ∧
      ap2.WellFormed 1 :=
  C12_allpass_push_pop ((Allpass.new.setMaximumDelayInSamples 8).prepare ⟨44100, 4, 1⟩) 1
    (by decide) 0 (by decide) 3 7

/-! ## The impulse response of the allpass diffuser -/

theorem readFractional_int_of_channelHolds (dl : DelayLineWithSampleAccess) (ch N : Nat)
    (xs : List ℚ) (hN : 2 ≤ N) (h : dl.ChannelHolds ch N xs) (D : Nat) (hD1 : 1 ≤ D)
    (hD2 : D + 1 ≤ N) :
    dl.readFractional ch ((D : Int) : ℚ) = some (history xs D) := by
  rw [readFractional_of_channelHolds dl ch N xs hN h]
  have hc : dl.clampedDelay ((D : Int) : ℚ) = ((D : Int) : ℚ) := by
    unfold DelayLineWithSampleAccess.clampedDelay
    apply jlimit_of_mem
    · have : (1 : Int) ≤ (D : Int) := by omega
      exact_mod_cast this
    · rw [h.1]
      have : (D : Int) ≤ (N : Int) - 1 := by omega
      exact_mod_cast this
  rw [hc, Int.floor_intCast, Int.toNat_natCast]
  simp

theorem allpass_processSample_spec (ap : Allpass) (numChannels ch N : Nat) (vs : List ℚ)
    (fb x : ℚ) (hch : ch < numChannels) (hwf : ap.WellFormed numChannels)
    (hh : ap.delayLine.ChannelHolds ch N vs) (hfb : ap.feedback[ch]? = some fb)
    (D : Nat) (hD : ap.delayInSamples = (D : Int)) (hD1 : 1 ≤ D) (hD2 : D + 1 ≤ N) :
    ∃ ap1, ap.processSample ch x
        = some (ap1, history (vs ++ [x + fb]) D
            + (-x - history (vs ++ [x + fb]) D * ap.gain)) ∧
      ap1.WellFormed numChannels ∧ ap1.delayLine.ChannelHolds ch N (vs ++ [x + fb]) ∧
      ap1.feedback[ch]? = some (history (vs ++ [x + fb]) D * ap.gain) ∧
      ap1.gain = ap.gain ∧ ap1.delayInSamples = ap.delayInSamples := by
  obtain ⟨fb1, hfb1, hpush, hwf1⟩ := allpass_pushSample_spec ap numChannels hwf ch hch x
  have e : fb1 = fb := by rw [hfb] at hfb1; exact (Option.some.inj hfb1).symm
  subst e
  obtain ⟨d, dry, hr, hdry, hpop, hwf2⟩ := allpass_popSample_spec _ numChannels hwf1 ch hch (-1)
  have hneg : ¬ ((-1 : ℚ) ≥ 0) := by norm_num
  simp only [hneg, if_false, hD] at hr
  have hh1 := channelHolds_push ap.delayLine ch N vs (x + fb1) (by omega) hh
  rw [readFractional_int_of_channelHolds _ ch N _ (by omega) hh1 D hD1 hD2] at hr
  have hd : d = history (vs ++ [x + fb1]) D := (Option.some.inj hr).symm
  subst hd
  have hlen : ch < ap.drySample.length := by rw [hwf.2.1]; exact hch
  have hlenf : ch < ap.feedback.length := by rw [hwf.2.2.2.2]; exact hch
  have hx : dry = x := by
    simp only [List.getElem?_set, hlen, if_true] at hdry
    simpa using hdry.symm
  subst hx
  refine ⟨_, ?_, hwf2, hh1, ?_, rfl, rfl⟩
  · simp only [Allpass.processSample, hpush, hpop]
  · simp [List.getElem?_set, hlenf]

theorem history_unitImpulse (k j : Nat) :
    history (unitImpulse k) j = if j = k + 1 then 1 else 0 := by
  induction k using Nat.rec generalizing j with
  | zero =>
    unfold unitImpulse history
    rcases j with _ | _ | j <;> simp
  | succ k ih =>
    have e : unitImpulse (k + 1) = unitImpulse k ++ [0] := by
      simp [unitImpulse, List.replicate_succ']
    rw [e]
    rcases j with _ | _ | j
    · simp [history]
    · rw [history_snoc_one]; simp
    · rw [history_snoc_succ _ _ _ (by omega), ih]
      simp

theorem processAll_snoc (ap : Allpass) (ch : Nat) (xs : List ℚ) (x : ℚ) :
    ap.processAll ch (xs ++ [x]) =
      match ap.processAll ch xs with
      | some (a, ys) =>
          match a.processSample ch x with
          | some (a1, y) => some (a1, ys ++ [y])
          | none => none
      | none => none := by
  simp only [Allpass.processAll, List.foldl_append, List.foldl_cons, List.foldl_nil]

theorem energy_snoc (ys : List ℚ) (y : ℚ) : energy (ys ++ [y]) = energy ys + y * y := by
  simp [energy]

theorem channelHolds_reset (dl : DelayLineWithSampleAccess) (numChannels : Nat)
    (h : dl.WellFormed numChannels) (ch : Nat) (hch : ch < numChannels) :
    dl.reset.ChannelHolds ch dl.numSamples.toNat [] := by
  obtain ⟨h4, hs, hl, hw⟩ := wellFormed_reset dl numChannels h
  have hn : dl.reset.numSamples = dl.numSamples := rfl
  rw [hn] at h4 hs
  have hcast := Int.toNat_of_nonneg (a := dl.numSamples) (by omega)
  have hlt : ch < dl.reset.delayBuffer.length := by rw [hs.1]; exact hch
  have hwl : ch < dl.reset.writePosition.length := by rw [hl]; exact hch
  refine ⟨hcast.symm, _, List.getElem?_eq_getElem hlt, hs.2 _ (List.getElem_mem _), ?_, ?_⟩
  · rw [List.getElem?_eq_getElem hwl]
    have hz : dl.reset.writePosition[ch] = 0 := by
      have hm := List.getElem_mem hwl
      simp only [DelayLineWithSampleAccess.reset, List.mem_map] at hm
      obtain ⟨_, _, hm⟩ := hm
      exact hm.symm
    rw [hz]
    simp
  · intro j _ _
    rw [history_nil]
    have hlen := hs.2 _ (List.getElem_mem hlt)
    have hidx : (([] : List ℚ).length + dl.numSamples.toNat - j) % dl.numSamples.toNat
        < (dl.reset.delayBuffer[ch]).length := by
      rw [hlen]
      exact Nat.mod_lt _ (by omega)
    have hclr : (AudioBuffer.clear dl.delayBuffer)[ch]? = some dl.reset.delayBuffer[ch] :=
      List.getElem?_eq_getElem hlt
    rw [List.getElem?_eq_getElem hidx]
    exact congrArg some (clear_getElem _ ch _ hclr _ _ (List.getElem?_eq_getElem hidx))

theorem truncToInt_natCast (D : Nat) : truncToInt ((D : Int) : ℚ) = (D : Int) := by
  unfold truncToInt
  have h : (0 : ℚ) ≤ ((D : Int) : ℚ) := by exact_mod_cast Int.natCast_nonneg D
  rw [if_pos h, Int.floor_intCast]

theorem configured_spec (M : Int) (d g : ℚ) (spec : ProcessSpec) :
    (Allpass.configured M d g spec).WellFormed spec.numChannels ∧
    (Allpass.configured M d g spec).delayLine.numSamples = max (M + 1) 4 ∧
    (Allpass.configured M d g spec).delayInSamples = truncToInt d ∧
    (Allpass.configured M d g spec).gain = jlimit 0 1 g ∧
    (Allpass.configured M d g spec).feedback = List.replicate spec.numChannels 0 ∧
    ∀ ch, ch < spec.numChannels →
      (Allpass.configured M d g spec).delayLine.ChannelHolds ch (max (M + 1) 4).toNat [] := by
  have hN : (Allpass.configured M d g spec).delayLine.numSamples = max (M + 1) 4 := by
    simp [Allpass.configured, Allpass.reset, Allpass.prepare, Allpass.setGain, Allpass.setDelay,
      Allpass.setMaximumDelayInSamples, DelayLineWithSampleAccess.prepare,
      DelayLineWithSampleAccess.reset, DelayLineWithSampleAccess.setDelayFloat,
      DelayLineWithSampleAccess.new, AudioBuffer.setSize, AudioBuffer.clear,
      AudioBuffer.getNumSamples]
  have hwf0 : (((DelayLineWithSampleAccess.new M).setDelayFloat d).prepare
      spec).WellFormed spec.numChannels := wellFormed_prepare M spec
  have hwf1 := wellFormed_reset _ _ hwf0
  have hwf2 := wellFormed_reset _ _ hwf1
  refine ⟨⟨hwf2, ?_, ?_, ?_, ?_⟩, hN, rfl, rfl, rfl, ?_⟩
  any_goals simp [Allpass.configured, Allpass.reset, Allpass.prepare]
  intro ch hch
  have := channelHolds_reset _ _ hwf1 ch hch
  have e : (((DelayLineWithSampleAccess.new M).setDelayFloat d).prepare
      spec).reset.numSamples = max (M + 1) 4 := hN
  rw [e] at this
  exact this

theorem allpass_impulse_head (ap : Allpass) (numChannels ch N D : Nat)
    (hch : ch < numChannels) (hwf : ap.WellFormed numChannels)
    (hh : ap.delayLine.ChannelHolds ch N []) (hfb : ap.feedback[ch]? = some 0)
    (hD : ap.delayInSamples = (D : Int)) (hD2 : D + 1 ≤ N) (k : Nat) (hk : k + 2 ≤ D) :
    ∃ a, ap.processAll ch (unitImpulse k) = some (a, -1 :: List.replicate k 0) ∧
      a.WellFormed numChannels ∧ a.delayLine.ChannelHolds ch N (unitImpulse k) ∧
      a.feedback[ch]? = some 0 ∧ a.gain = ap.gain ∧ a.delayInSamples = (D : Int) := by
  induction k using Nat.rec with
  | zero =>
    obtain ⟨a, h1, h2, h3, h4, h5, h6⟩ := allpass_processSample_spec ap numChannels ch N []
      0 1 hch hwf hh hfb D hD (by omega) hD2
    have e : ([] : List ℚ) ++ [1 + 0] = unitImpulse 0 := by simp [unitImpulse]
    rw [e, history_unitImpulse, if_neg (by omega)] at h1 h4
    rw [e] at h3
    refine ⟨a, ?_, h2, h3, by simpa using h4, h5, h6.trans hD⟩
    simp only [Allpass.processAll, unitImpulse, List.replicate_zero, List.foldl_cons,
      List.foldl_nil, h1]
    simp
  | succ k ih =>
    obtain ⟨a0, g1, g2, g3, g4, g5, g6⟩ := ih (by omega)
    obtain ⟨a, h1, h2, h3, h4, h5, h6⟩ := allpass_processSample_spec a0 numChannels ch N
      (unitImpulse k) 0 0 hch g2 g3 g4 D g6 (by omega) hD2
    have e : unitImpulse k ++ [(0 : ℚ) + 0] = unitImpulse (k + 1) := by
      simp [unitImpulse, List.replicate_succ']
    rw [e, history_unitImpulse, if_neg (by omega)] at h1 h4
    rw [e] at h3
    have e2 : unitImpulse (k + 1) = unitImpulse k ++ [0] := by
      simp [unitImpulse, List.replicate_succ']
    refine ⟨a, ?_, h2, h3, by simpa using h4, h5.trans g5, h6.trans g6⟩
    rw [e2, processAll_snoc, g1]
    simp only [h1]
    simp [List.replicate_succ']

theorem allpass_impulse_echo (ap : Allpass) (numChannels ch N D : Nat)
    (hch : ch < numChannels) (hwf : ap.WellFormed numChannels)
    (hh : ap.delayLine.ChannelHolds ch N []) (hfb : ap.feedback[ch]? = some 0)
    (hD : ap.delayInSamples = (D : Int)) (hD1 : 2 ≤ D) (hD2 : D + 1 ≤ N) :
    ∃ a, ap.processAll ch (unitImpulse (D - 1))
        = some (a, (-1 :: List.replicate (D - 2) 0) ++ [1 - ap.gain]) ∧
      a.WellFormed numChannels := by
  obtain ⟨a0, g1, g2, g3, g4, g5, g6⟩ := allpass_impulse_head ap numChannels ch N D hch hwf hh
    hfb hD hD2 (D - 2) (by omega)
  obtain ⟨a, h1, h2, h3, h4, h5, h6⟩ := allpass_processSample_spec a0 numChannels ch N
    (unitImpulse (D - 2)) 0 0 hch g2 g3 g4 D g6 (by omega) hD2
  have e : unitImpulse (D - 2) ++ [(0 : ℚ) + 0] = unitImpulse (D - 2 + 1) := by
    simp [unitImpulse, List.replicate_succ']
  rw [e, history_unitImpulse, if_pos (by omega)] at h1
  have e2 : unitImpulse (D - 1) = unitImpulse (D - 2) ++ [0] := by
    have : D - 1 = D - 2 + 1 := by omega
    rw [this]
    simp [unitImpulse, List.replicate_succ']
  refine ⟨a, ?_, h2⟩
  rw [e2, processAll_snoc, g1]
  simp only [h1, g5]
  have e3 : (1 : ℚ) + (-0 - 1 * ap.gain) = 1 - ap.gain := by ring
  rw [e3]

theorem allpass_processAll_extend (ap : Allpass) (numChannels ch : Nat)
    (hch : ch < numChannels) (pre : List ℚ) (a0 : Allpass) (ys0 : List ℚ)
    (h0 : ap.processAll ch pre = some (a0, ys0)) (hwf : a0.WellFormed numChannels)
    (xs : List ℚ) :
    ∃ a ys, ap.processAll ch (pre ++ xs) = some (a, ys) ∧ a.WellFormed numChannels ∧
      ys.length = ys0.length + xs.length ∧ energy ys0 ≤ energy ys := by
  induction xs using List.reverseRecOn with
  | nil => exact ⟨a0, ys0, by simpa using h0, hwf, by simp, le_refl _⟩
  | append_singleton zs z ih =>
    obtain ⟨a1, ys1, g1, g2, g3, g4⟩ := ih
    obtain ⟨fb, _, hpush, hwf1⟩ := allpass_pushSample_spec a1 numChannels g2 ch hch z
    obtain ⟨d, dry, _, _, hpop, hwf2⟩ := allpass_popSample_spec _ numChannels hwf1 ch hch (-1)
    refine ⟨_, ys1 ++ [d + (-dry - d * a1.gain)], ?_, hwf2, ?_, ?_⟩
    · rw [← List.append_assoc, processAll_snoc, g1]
      simp only [Allpass.processSample, hpush, hpop]
    · simp [g3]; omega
    · rw [energy_snoc]
      have := mul_self_nonneg (d + (-dry - d * a1.gain))
      linarith

/-- C13 (refuted): an allpass diffuser configured as the engines do (any maximum delay
M, integer delay D with 2 ≤ D ≤ M, gain g in [0, 1)) and fed a unit impulse followed
by n zeros, n ≥ D - 1, produces n + 1 output samples of total energy at least
1 + (1 - g)², never 1: the impulse leaves as -1 and comes back D - 1 samples later
as 1 - g. -/
theorem C13_allpass_energy_exceeds_one (M : Int) (D : Nat) (g : ℚ) (spec : ProcessSpec)
    (ch n : Nat) (hg0 : 0 ≤ g) (hg1 : g < 1) (hD : 2 ≤ D) (hM : (D : Int) ≤ M)
    (hch : ch < spec.numChannels) (hn : D - 1 ≤ n) :
    ∃ a ys, (Allpass.configured M ((D : Int) : ℚ) g spec).processAll ch (unitImpulse n)
        = some (a, ys) ∧
      ys.length = n + 1 ∧ 1 + (1 - g) * (1 - g) ≤ energy ys ∧ energy ys ≠ 1 := by
  obtain ⟨hwf, hN, hdel, hgain, hfb, hhold⟩ := configured_spec M ((D : Int) : ℚ) g spec
  rw [truncToInt_natCast] at hdel
  have hNge : D + 1 ≤ (max (M + 1) 4).toNat := by
    have : (D : Int) + 1 ≤ max (M + 1) 4 := le_trans (by omega) (le_max_left _ _)
    omega
  have hfb0 : (Allpass.configured M ((D : Int) : ℚ) g spec).feedback[ch]? = some 0 := by
    rw [hfb]; simp [hch]
  obtain ⟨a0, h1, h2⟩ := allpass_impulse_echo _ spec.numChannels ch _ D hch hwf (hhold ch hch)
    hfb0 hdel hD hNge
  have hg : jlimit 0 1 g = g := jlimit_of_mem 0 1 g hg0 (le_of_lt hg1)
  rw [hgain, hg] at h1
  have hsplit : unitImpulse n = unitImpulse (D - 1) ++ List.replicate (n - (D - 1)) 0 := by
    simp only [unitImpulse, List.cons_append, List.cons.injEq, true_and]
    rw [← List.replicate_add]
    congr 1
    omega
  obtain ⟨a, ys, k1, _, k3, k4⟩ := allpass_processAll_extend _ spec.numChannels ch hch _ a0 _
    h1 h2 (List.replicate (n - (D - 1)) 0)
  have hE : energy ((-1 :: List.replicate (D - 2) 0) ++ [1 - g]) = 1 + (1 - g) * (1 - g) := by
    rw [energy_snoc]
    simp [energy]
  rw [hE] at k4
  refine ⟨a, ys, by rw [hsplit]; exact k1, ?_, k4, ?_⟩
  · rw [k3]; simp; omega
  · have hpos : 0 < (1 - g) * (1 - g) := mul_pos (by linarith) (by linarith)
    intro hcon
    linarith

/-- Gain 1/2 and delay 2 on a mono line of maximum delay 8: the impulse followed by
three zeros. -/
theorem C13_allpass_energy_exceeds_one_witness :
    ∃ a ys, (Allpass.configured 8 ((2 : Int) : ℚ) (1 / 2) ⟨44100, 4, 1⟩).processAll 0
        (unitImpulse 3) = some (a, ys) ∧
      ys.length = 3 + 1 ∧ 1 + (1 - 1 / 2 : ℚ) * (1 - 1 / 2) ≤ energy ys ∧ energy ys ≠ 1 :=
  C13_allpass_energy_exceeds_one 8 2 (1 / 2) ⟨44100, 4, 1⟩ 0 3 (by norm_num) (by norm_num)
    (by decide) (by decide) (by decide) (by decide)

/-! ## Scattering matrices and feedback gains of the reverb engines -/

/-- C14: both scattering steps preserve the sum of squares of every 4-vector: the
Householder step of the Hall engine and the fixed matrix step of the Plate engine. -/
theorem C14_scattering_lossless (inp : Fin 4 → ℚ) :
    (∑ i : Fin 4, DatorroHall.applyFDNScattering inp i ^ 2 = ∑ i : Fin 4, inp i ^ 2) ∧
    (∑ i : Fin 4, HybridPlate.applyFDNFeedbackMatrix inp i ^ 2 = ∑ i : Fin 4, inp i ^ 2) := by
  constructor
  · simp only [DatorroHall.applyFDNScattering, Fin.sum_univ_four]
    ring
  · simp [HybridPlate.applyFDNFeedbackMatrix, HybridPlate.feedbackMatrix,
      HybridPlate.feedbackMatrixScale, Fin.sum_univ_four]
    ring

theorem jlimit_bounds (lo hi v : ℚ) (h : lo ≤ hi) : lo ≤ jlimit lo hi v ∧ jlimit lo hi v ≤ hi := by
  unfold jlimit
  split_ifs <;> constructor <;> linarith

/-- C15: whatever the decay time, room size, loop time and the values `std::exp`
returns, the feedback gain of the Hall engine lies in [0, 0.9999] and that of the
Plate engine in [0, 0.90]. -/
theorem C15_feedback_gain_bounds (exp : ℚ → ℚ) (estimatedLoopTimeSeconds decayTime roomSize : ℚ) :
    (0 ≤ DatorroHall.feedbackGain exp estimatedLoopTimeSeconds decayTime ∧
      DatorroHall.feedbackGain exp estimatedLoopTimeSeconds decayTime ≤ 9999 / 10000) ∧
    (0 ≤ HybridPlate.feedbackGain exp estimatedLoopTimeSeconds decayTime roomSize ∧
      HybridPlate.feedbackGain exp estimatedLoopTimeSeconds decayTime roomSize ≤ 9 / 10) :=
  ⟨jlimit_bounds _ _ _ (by norm_num), jlimit_bounds _ _ _ (by norm_num)⟩

theorem exp_neg_three_gt : (1 / 25 : ℝ) < Real.exp (-3) := by
  have h1 : Real.exp 1 < 2.7182818286 := Real.exp_one_lt_d9
  have h0 : 0 < Real.exp 1 := Real.exp_pos 1
  have h3 : Real.exp 3 = Real.exp 1 ^ 3 := by
    rw [← Real.exp_nat_mul]; norm_num
  have h4 : Real.exp 3 < 25 := by
    rw [h3]
    have : Real.exp 1 ^ 3 < (2.7182818286 : ℝ) ^ 3 := by
      exact pow_lt_pow_left₀ h1 (le_of_lt h0) (by norm_num)
    linarith [show (2.7182818286 : ℝ) ^ 3 < 25 by norm_num]
  rw [Real.exp_neg, lt_inv_comm₀ (by norm_num) (Real.exp_pos 3)]
  simpa using h4

/-- C16 (refuted): for every decay time T in [0.1, 20] s and every loop-time estimate L
that `prepare` can store (non-negative total tank delay, positive sample rate) the
feedback value `exp (-3 L / T)` passes the clamp to [0, 0.9999] unchanged, and the gain
accumulated over T seconds of loop traversals, its power T / L, is `exp (-3)`, which
exceeds 1/25: a drop of about 26 dB, forty times the factor 10⁻³ of a 60 dB drop. -/
theorem C16_decay_over_decayTime_is_exp_neg_three (totalDelaySamps sampleRate T : ℝ)
    (hd : 0 ≤ totalDelaySamps) (hs : 0 < sampleRate) (hT1 : 1 / 10 ≤ T) (hT2 : T ≤ 20) :
    (0 ≤ DatorroHall.feedbackRaw Real.exp
        (DatorroHall.loopTimeEstimate totalDelaySamps sampleRate) T ∧
      DatorroHall.feedbackRaw Real.exp
        (DatorroHall.loopTimeEstimate totalDelaySamps sampleRate) T ≤ 9999 / 10000) ∧
    DatorroHall.feedbackRaw Real.exp (DatorroHall.loopTimeEstimate totalDelaySamps sampleRate) T
        ^ (T / DatorroHall.loopTimeEstimate totalDelaySamps sampleRate) = Real.exp (-3) ∧
    (1 / 25 : ℝ) < Real.exp (-3) ∧
    DatorroHall.feedbackRaw Real.exp (DatorroHall.loopTimeEstimate totalDelaySamps sampleRate) T
        ^ (T / DatorroHall.loopTimeEstimate totalDelaySamps sampleRate) ≠ 1 / 1000 := by
  have hT : 0 < T := by linarith
  have hL : 317 / 1000 ≤ DatorroHall.loopTimeEstimate totalDelaySamps sampleRate := by
    unfold DatorroHall.loopTimeEstimate
    have : 0 ≤ totalDelaySamps / sampleRate := div_nonneg hd (le_of_lt hs)
    linarith
  generalize DatorroHall.loopTimeEstimate totalDelaySamps sampleRate = L at hL
  have hLpos : 0 < L := by linarith
  have hpow : DatorroHall.feedbackRaw Real.exp L T ^ (T / L) = Real.exp (-3) := by
    unfold DatorroHall.feedbackRaw
    rw [← Real.exp_mul]
    congr 1
    field_simp
    ring
  refine ⟨⟨le_of_lt (Real.exp_pos _), ?_⟩, hpow, exp_neg_three_gt, ?_⟩
  · unfold DatorroHall.feedbackRaw
    have hx : 3 * L / T ≥ 1 / 9999 := by
      rw [ge_iff_le, le_div_iff₀ hT]
      linarith
    have h1 : 1 + 3 * L / T ≤ Real.exp (3 * L / T) := by
      have := Real.add_one_le_exp (3 * L / T)
      linarith
    have e : -3 * L / T = -(3 * L / T) := by ring
    rw [e, Real.exp_neg]
    have hpos : (0 : ℝ) < 1 + 3 * L / T := by linarith
    calc (Real.exp (3 * L / T))⁻¹ ≤ (1 + 3 * L / T)⁻¹ := inv_anti₀ hpos h1
      _ ≤ 9999 / 10000 := by
        rw [inv_le_comm₀ hpos (by norm_num)]
        linarith
  · rw [hpow]
    have := exp_neg_three_gt
    intro hcon
    rw [hcon] at this
    norm_num at this

/-- A tank of 29 106 samples at 44.1 kHz (0.66 s) and a decay time of 2 s. -/
theorem C16_decay_over_decayTime_is_exp_neg_three_witness :
    (0 ≤ DatorroHall.feedbackRaw Real.exp (DatorroHall.loopTimeEstimate 29106 44100) 2 ∧
      DatorroHall.feedbackRaw Real.exp (DatorroHall.loopTimeEstimate 29106 44100) 2
        ≤ 9999 / 10000) ∧
    DatorroHall.feedbackRaw Real.exp (DatorroHall.loopTimeEstimate 29106 44100) 2
        ^ ((2 : ℝ) / DatorroHall.loopTimeEstimate 29106 44100) = Real.exp (-3) ∧
    (1 / 25 : ℝ) < Real.exp (-3) ∧
    DatorroHall.feedbackRaw Real.exp (DatorroHall.loopTimeEstimate 29106 44100) 2
        ^ ((2 : ℝ) / DatorroHall.loopTimeEstimate 29106 44100) ≠ 1 / 1000 :=
  C16_decay_over_decayTime_is_exp_neg_three 29106 44100 2 (by norm_num) (by norm_num)
    (by norm_num) (by norm_num)

/-! ## The reverb engines: every access of a prepared engine is in range -/

theorem sequence4_spec {α : Type} (f : Fin 4 → Option α) (P : Fin 4 → α → Prop)
    (h : ∀ i, ∃ t, f i = some t ∧ P i t) :
    ∃ g, sequence4 f = some g ∧ ∀ i, P i (g i) := by
  obtain ⟨a, ha, pa⟩ := h 0
  obtain ⟨b, hb, pb⟩ := h 1
  obtain ⟨c, hc, pc⟩ := h 2
  obtain ⟨d, hd, pd⟩ := h 3
  refine ⟨vec4 a b c d, by simp only [sequence4, ha, hb, hc, hd], ?_⟩
  intro i
  fin_cases i
  · exact pa
  · exact pb
  · exact pc
  · exact pd

theorem readFractional_total (dl : DelayLineWithSampleAccess) (k : Nat) (h : dl.WellFormed k)
    (hk : 0 < k) (d : ℚ) : ∃ v, dl.readFractional 0 d = some v := by
  obtain ⟨_, _, _, _, _, _, hr⟩ := readFractional_defined dl k h 0 hk d
  exact ⟨_, hr⟩

theorem pushSampleChecked_spec (dl : DelayLineWithSampleAccess) (k : Nat)
    (h : dl.WellFormed k) (hk : 0 < k) (x : ℚ) :
    ∃ t, dl.pushSampleChecked 0 x = some t ∧ t.WellFormed k :=
  ⟨_, pushSampleChecked_of_wellFormed dl k h 0 hk x, wellFormed_pushSample dl k h 0 x⟩

theorem earlyReflectionSum_total (er : DelayLineWithSampleAccess) (k : Nat)
    (h : er.WellFormed k) (hk : 0 < k) (l : List (ℚ × ℚ)) :
    ∃ v, earlyReflectionSum er l = some v := by
  unfold earlyReflectionSum
  generalize (0 : ℚ) = a
  induction l generalizing a with
  | nil => exact ⟨a, rfl⟩
  | cons gt rest ih =>
    obtain ⟨v, hv⟩ := readFractional_total er k h hk gt.2
    rw [List.foldl_cons]
    simp only [hv]
    exact ih _

theorem allpass_processSample_total (ap : Allpass) (k : Nat) (h : ap.WellFormed k)
    (hk : 0 < k) (x : ℚ) :
    ∃ t, ap.processSample 0 x = some t ∧ t.1.WellFormed k := by
  obtain ⟨fb, _, hpush, hwf1⟩ := allpass_pushSample_spec ap k h 0 hk x
  obtain ⟨d, dry, _, _, hpop, hwf2⟩ := allpass_popSample_spec _ k hwf1 0 hk (-1)
  have e := hpop
  rw [← show ap.processSample 0 x = Allpass.popSample _ 0 (-1) by
    simp only [Allpass.processSample, hpush]] at e
  exact ⟨_, e, hwf2⟩

theorem diffuse_spec (aps : Fin 4 → Allpass) (k : Nat) (h : ∀ i, (aps i).WellFormed k)
    (hk : 0 < k) (x : ℚ) :
    ∃ t, diffuse aps x = some t ∧ ∀ i, (t.1 i).WellFormed k := by
  obtain ⟨⟨a0, e0⟩, h0, w0⟩ := allpass_processSample_total (aps 0) k (h 0) hk x
  obtain ⟨⟨a1, e1⟩, h1, w1⟩ := allpass_processSample_total (aps 1) k (h 1) hk e0
  obtain ⟨⟨a2, e2⟩, h2, w2⟩ := allpass_processSample_total (aps 2) k (h 2) hk e1
  obtain ⟨⟨a3, e3⟩, h3, w3⟩ := allpass_processSample_total (aps 3) k (h 3) hk e2
  refine ⟨(vec4 a0 a1 a2 a3, e3), by simp only [diffuse, h0, h1, h2, h3], ?_⟩
  intro i
  fin_cases i
  · exact w0
  · exact w1
  · exact w2
  · exact w3

theorem vecSet?_spec (v : List ℚ) (i : Nat) (x : ℚ) (h : i < v.length) :
    vecSet? v i x = some (v.set i x) := by
  simp [vecSet?, h]

theorem hall_earlyStage_spec (s : DatorroHall) (k : Nat) (h : s.Prepared k) (dryL dryR : ℚ) :
    ∃ t, s.earlyStage dryL dryR = some t ∧ t.1.Prepared k ∧ t.1.parameters = s.parameters := by
  obtain ⟨hk, ⟨hpl, hpr, hel, her⟩, hT, ⟨heL, heR, hAL, hAR⟩, ⟨hci, hco⟩, hmix⟩ := h
  obtain ⟨pl, e1, wpl⟩ := pushSampleChecked_spec s.preDelayL k hpl hk dryL
  obtain ⟨pr, e2, wpr⟩ := pushSampleChecked_spec s.preDelayR k hpr hk dryR
  obtain ⟨inL, e3⟩ := readFractional_total pl k wpl hk s.preDelaySamples
  obtain ⟨inR, e4⟩ := readFractional_total pr k wpr hk s.preDelaySamples
  have e5 := vecSet?_spec s.channelInput 0 inL (by omega)
  have e6 := vecSet?_spec (s.channelInput.set 0 inL) 1 inR (by simp; omega)
  obtain ⟨el, e7, wel⟩ := pushSampleChecked_spec s.erL k hel hk dryL
  obtain ⟨er, e8, wer⟩ := pushSampleChecked_spec s.erR k her hk dryR
  obtain ⟨erOutL, e9⟩ := earlyReflectionSum_total el k wel hk
    (DatorroHall.ER_gains.zip s.ER_tapSamplesLeft)
  obtain ⟨erOutR, e10⟩ := earlyReflectionSum_total er k wer hk
    (DatorroHall.ER_gains.zip s.ER_tapSamplesRight)
  obtain ⟨⟨aL, eL⟩, e11, waL⟩ := diffuse_spec s.earlyL k heL hk erOutL
  obtain ⟨⟨aR, eR⟩, e12, waR⟩ := diffuse_spec s.earlyR k heR hk erOutR
  simp only [DatorroHall.earlyStage, e1, e2, e3, e4, e5, e6, e7, e8, e9, e10, e11, e12]
  refine ⟨_, rfl, ?_⟩
  exact ⟨⟨hk, ⟨wpl, wpr, wel, wer⟩, hT, ⟨waL, waR, hAL, hAR⟩, ⟨by simp [hci], hco⟩, hmix⟩, rfl⟩

theorem hall_modulate_prepared (lib : DspLibrary) (s : DatorroHall) (k : Nat)
    (h : s.Prepared k) (decaySec roomSize modDepth : ℚ) :
    (s.modulate lib decaySec roomSize modDepth).Prepared k := h

theorem hall_tankStage_spec (lib : DspLibrary) (s : DatorroHall) (k : Nat) (h : s.Prepared k)
    (eL eR feedbackGain : ℚ) :
    ∃ t, s.tankStage lib eL eR feedbackGain = some t ∧ t.1.Prepared k ∧
      t.1.parameters = s.parameters := by
  obtain ⟨hk, hD, ⟨hTL, hTR⟩, ⟨heL, heR, hAL, hAR⟩, ⟨hci, hco⟩, hmix⟩ := h
  obtain ⟨tl, e1, wtl⟩ := sequence4_spec
    (fun i => (s.tankDelayL i).pushSampleChecked 0 ((8 / 10) * (eL + s.feedbackL i)))
    (fun _ t => t.WellFormed k) (fun i => pushSampleChecked_spec _ k (hTL i) hk _)
  obtain ⟨tr, e2, wtr⟩ := sequence4_spec
    (fun i => (s.tankDelayR i).pushSampleChecked 0 ((8 / 10) * (eR + s.feedbackR i)))
    (fun _ t => t.WellFormed k) (fun i => pushSampleChecked_spec _ k (hTR i) hk _)
  obtain ⟨rawL, e3, _⟩ := sequence4_spec
    (fun i => (tl i).readFractional 0 (s.currentDelayL_samps i)) (fun _ _ => True)
    (fun i => (readFractional_total _ k (wtl i) hk _).imp fun _ hv => ⟨hv, trivial⟩)
  obtain ⟨rawR, e4, _⟩ := sequence4_spec
    (fun i => (tr i).readFractional 0 (s.currentDelayR_samps i)) (fun _ _ => True)
    (fun i => (readFractional_total _ k (wtr i) hk _).imp fun _ hv => ⟨hv, trivial⟩)
  obtain ⟨apL, e5, wapL⟩ := sequence4_spec
    (fun i => (s.tankLAP i).processSample 0 ((s.extraDampingL i).process (rawL i)).2)
    (fun _ t => t.1.WellFormed k) (fun i => allpass_processSample_total _ k (hAL i) hk _)
  obtain ⟨apR, e6, wapR⟩ := sequence4_spec
    (fun i => (s.tankRAP i).processSample 0 ((s.extraDampingR i).process (rawR i)).2)
    (fun _ t => t.1.WellFormed k) (fun i => allpass_processSample_total _ k (hAR i) hk _)
  have e7 : ∀ x, vecSet? s.channelOutput 0 x = some (s.channelOutput.set 0 x) :=
    fun x => vecSet?_spec _ _ _ (by omega)
  have e8 : ∀ x y, vecSet? (s.channelOutput.set 0 x) 1 y
      = some ((s.channelOutput.set 0 x).set 1 y) :=
    fun x y => vecSet?_spec _ _ _ (by simp; omega)
  simp only [DatorroHall.tankStage, e1, e2, e3, e4, e5, e6, e7, e8]
  refine ⟨_, rfl, ?_⟩
  exact ⟨⟨hk, hD, ⟨wtl, wtr⟩, ⟨heL, heR, wapL, wapR⟩, ⟨hci, by simp [hco]⟩, hmix⟩, rfl⟩

theorem hall_processSample_spec (lib : DspLibrary) (s : DatorroHall) (k : Nat)
    (h : s.Prepared k) (decaySec roomSize modDepth feedbackGain dryL dryR : ℚ) :
    ∃ t, s.processSample lib decaySec roomSize modDepth feedbackGain dryL dryR = some t ∧
      t.1.Prepared k ∧ t.1.parameters = s.parameters := by
  obtain ⟨⟨s1, eL, eR⟩, e1, w1, p1⟩ := hall_earlyStage_spec s k h dryL dryR
  obtain ⟨t, e2, w2, p2⟩ := hall_tankStage_spec lib _ k
    (hall_modulate_prepared lib s1 k w1 decaySec roomSize modDepth) eL eR feedbackGain
  simp only [DatorroHall.processSample, e1]
  exact ⟨t, e2, w2, p2.trans p1⟩

theorem hall_processSamples_spec (lib : DspLibrary)
    (mix dryMix decaySec roomSize modDepth feedbackGain : ℚ) (k : Nat) (dry : List (ℚ × ℚ)) :
    ∀ s : DatorroHall, s.Prepared k →
    ∃ s1 wet, DatorroHall.wetSamples lib decaySec roomSize modDepth feedbackGain s dry
        = some wet ∧ wet.length = dry.length ∧
      DatorroHall.processSamples lib mix dryMix decaySec roomSize modDepth feedbackGain s dry
        = some (s1, List.zipWith
            (fun d w => (dryMix * d.1 + mix * w.1, dryMix * d.2 + mix * w.2)) dry wet) ∧
      s1.Prepared k ∧ s1.parameters = s.parameters := by
  induction dry with
  | nil =>
    intro s h
    exact ⟨s, [], rfl, rfl, rfl, h, rfl⟩
  | cons d rest ih =>
    intro s h
    obtain ⟨⟨s1, outL, outR⟩, e1, w1, p1⟩ :=
      hall_processSample_spec lib s k h decaySec roomSize modDepth feedbackGain d.1 d.2
    obtain ⟨s2, wet, e2, l2, e3, w2, p2⟩ := ih s1 w1
    refine ⟨s2, (outL, outR) :: wet, ?_, by simp [l2], ?_, w2, p2.trans p1⟩
    · simp only [DatorroHall.wetSamples, e1, e2]
    · simp only [DatorroHall.processSamples, e1, e3, List.zipWith_cons_cons]

theorem allpass_wellFormed_reset (ap : Allpass) (k : Nat) (h : ap.WellFormed k) :
    ap.reset.WellFormed k :=
  ⟨wellFormed_reset _ _ h.1, h.2⟩

theorem prepareAllpass_wellFormed (ap : Allpass) (spec : ProcessSpec) (delayMs gain : ℚ) :
    (prepareAllpass ap spec delayMs gain).WellFormed spec.numChannels :=
  allpass_wellFormed_reset _ _
    (allpass_wellFormed_reset _ _
      ⟨wellFormed_prepare _ spec, by simp, by simp, by simp, by simp⟩)

theorem line_prepared (M : Int) (spec : ProcessSpec) :
    ((DelayLineWithSampleAccess.new M).prepare spec).reset.WellFormed spec.numChannels :=
  wellFormed_reset _ _ (wellFormed_prepare M spec)

theorem hall_prepared_prepare (lib : DspLibrary) (parameters : ReverbProcessorParameters)
    (filter : FirstOrderTPTFilter) (lfo : LFO) (tapsLeft tapsRight : List ℚ)
    (spec : ProcessSpec) (h : 0 < spec.numChannels) :
    ((DatorroHall.new parameters filter lfo tapsLeft tapsRight).prepare lib spec).Prepared
      spec.numChannels := by
  refine ⟨h, ⟨?_, ?_, ?_, ?_⟩, ⟨?_, ?_⟩, ⟨?_, ?_, ?_, ?_⟩, ⟨?_, ?_⟩, ?_⟩
  · exact line_prepared 44100 spec
  · exact line_prepared 44100 spec
  · exact line_prepared 44100 spec
  · exact line_prepared 44100 spec
  · exact fun _ => wellFormed_reset _ _ (line_prepared 44100 spec)
  · exact fun _ => wellFormed_reset _ _ (line_prepared 44100 spec)
  · exact fun _ => allpass_wellFormed_reset _ _ (prepareAllpass_wellFormed _ spec _ _)
  · exact fun _ => allpass_wellFormed_reset _ _ (prepareAllpass_wellFormed _ spec _ _)
  · exact fun _ => allpass_wellFormed_reset _ _ (prepareAllpass_wellFormed _ spec _ _)
  · exact fun _ => allpass_wellFormed_reset _ _ (prepareAllpass_wellFormed _ spec _ _)
  · rfl
  · rfl
  · exact jlimit_bounds 0 1 _ (by norm_num)

theorem hall_prepared_setParameters (lib : DspLibrary) (s : DatorroHall) (k : Nat)
    (h : s.Prepared k) (params : ReverbProcessorParameters) :
    (s.setParameters lib params).Prepared k := by
  obtain ⟨hk, hD, hT, hA, hC, _⟩ := h
  exact ⟨hk, hD, hT, hA, hC, jlimit_bounds 0 1 _ (by norm_num)⟩

theorem plate_earlyStage_spec (s : HybridPlate) (k : Nat) (h : s.Prepared k) (dryL dryR : ℚ) :
    ∃ t, s.earlyStage dryL dryR = some t ∧ t.1.Prepared k ∧ t.1.parameters = s.parameters := by
  obtain ⟨hk, ⟨hpl, hpr⟩, hF, ⟨heL, heR⟩, ⟨hci, hco⟩, hmix⟩ := h
  obtain ⟨pl, e1, wpl⟩ := pushSampleChecked_spec s.preDelayL k hpl hk dryL
  obtain ⟨pr, e2, wpr⟩ := pushSampleChecked_spec s.preDelayR k hpr hk dryR
  obtain ⟨inL, e3⟩ := readFractional_total pl k wpl hk s.preDelaySamples
  obtain ⟨inR, e4⟩ := readFractional_total pr k wpr hk s.preDelaySamples
  have e5 := vecSet?_spec s.channelInput 0 inL (by omega)
  have e6 := vecSet?_spec (s.channelInput.set 0 inL) 1 inR (by simp; omega)
  have hl : ((s.channelInput.set 0 inL).set 1 inR).length = 2 := by simp [hci]
  have e7 : ((s.channelInput.set 0 inL).set 1 inR)[0]?
      = some ((s.channelInput.set 0 inL).set 1 inR)[0] := List.getElem?_eq_getElem (by omega)
  have e8 : ((s.channelInput.set 0 inL).set 1 inR)[1]?
      = some ((s.channelInput.set 0 inL).set 1 inR)[1] := List.getElem?_eq_getElem (by omega)
  obtain ⟨⟨aL, eL⟩, e11, waL⟩ := diffuse_spec s.earlyL k heL hk
    ((s.channelInput.set 0 inL).set 1 inR)[0]
  obtain ⟨⟨aR, eR⟩, e12, waR⟩ := diffuse_spec s.earlyR k heR hk
    ((s.channelInput.set 0 inL).set 1 inR)[1]
  simp only [HybridPlate.earlyStage, e1, e2, e3, e4, e5, e6, e7, e8, e11, e12]
  refine ⟨_, rfl, ?_⟩
  exact ⟨⟨hk, ⟨wpl, wpr⟩, hF, ⟨waL, waR⟩, ⟨hl, hco⟩, hmix⟩, rfl⟩

theorem plate_fdnStage_spec (lib : DspLibrary) (s : HybridPlate) (k : Nat) (h : s.Prepared k)
    (monoIn feedbackGain : ℚ) :
    ∃ t, s.fdnStage lib monoIn feedbackGain = some t ∧ t.1.Prepared k ∧
      t.1.parameters = s.parameters := by
  obtain ⟨hk, hD, hF, hA, ⟨hci, hco⟩, hmix⟩ := h
  obtain ⟨fdnOut, e1, _⟩ := sequence4_spec
    (fun i => (s.fdnLines i).readFractional 0 (s.currentDelaySamples i)) (fun _ _ => True)
    (fun i => (readFractional_total _ k (hF i) hk _).imp fun _ hv => ⟨hv, trivial⟩)
  simp only [HybridPlate.fdnStage, e1]
  obtain ⟨lines, e2, wl⟩ := sequence4_spec
    (fun i => (s.fdnLines i).pushSampleChecked 0
      (lib.iirProcessSample (s.highShelfFilters i)
        ((s.extraDampL i).process
          (lib.tptProcessSample (s.dampingFilters i)
            (monoIn + HybridPlate.applyFDNFeedbackMatrix fdnOut i * feedbackGain)).2).2).2)
    (fun _ t => t.WellFormed k) (fun i => pushSampleChecked_spec _ k (hF i) hk _)
  have e7 : ∀ x, vecSet? s.channelOutput 0 x = some (s.channelOutput.set 0 x) :=
    fun x => vecSet?_spec _ _ _ (by omega)
  have e8 : ∀ x y, vecSet? (s.channelOutput.set 0 x) 1 y
      = some ((s.channelOutput.set 0 x).set 1 y) :=
    fun x y => vecSet?_spec _ _ _ (by simp; omega)
  simp only [e2, e7, e8]
  refine ⟨_, rfl, ?_⟩
  exact ⟨⟨hk, hD, wl, hA, ⟨hci, by simp [hco]⟩, hmix⟩, rfl⟩

theorem plate_processSample_spec (lib : DspLibrary) (s : HybridPlate) (k : Nat)
    (h : s.Prepared k) (roomSize modDepth feedbackGain dryL dryR : ℚ) :
    ∃ t, s.processSample lib roomSize modDepth feedbackGain dryL dryR = some t ∧
      t.1.Prepared k ∧ t.1.parameters = s.parameters := by
  obtain ⟨⟨s1, monoIn⟩, e1, w1, p1⟩ := plate_earlyStage_spec s k h dryL dryR
  have w1m : (s1.modulate lib roomSize modDepth).Prepared k := w1
  obtain ⟨t, e2, w2, p2⟩ := plate_fdnStage_spec lib _ k w1m monoIn feedbackGain
  simp only [HybridPlate.processSample, e1]
  exact ⟨t, e2, w2, p2.trans p1⟩

theorem plate_processSamples_spec (lib : DspLibrary)
    (mix dryMix roomSize modDepth feedbackGain : ℚ) (k : Nat) (dry : List (ℚ × ℚ)) :
    ∀ s : HybridPlate, s.Prepared k →
    ∃ s1 wet, HybridPlate.wetSamples lib roomSize modDepth feedbackGain s dry = some wet ∧
      wet.length = dry.length ∧
      HybridPlate.processSamples lib mix dryMix roomSize modDepth feedbackGain s dry
        = some (s1, List.zipWith
            (fun d w => (dryMix * d.1 + mix * w.1, dryMix * d.2 + mix * w.2)) dry wet) ∧
      s1.Prepared k ∧ s1.parameters = s.parameters := by
  induction dry with
  | nil =>
    intro s h
    exact ⟨s, [], rfl, rfl, rfl, h, rfl⟩
  | cons d rest ih =>
    intro s h
    obtain ⟨⟨s1, outL, outR⟩, e1, w1, p1⟩ :=
      plate_processSample_spec lib s k h roomSize modDepth feedbackGain d.1 d.2
    obtain ⟨s2, wet, e2, l2, e3, w2, p2⟩ := ih s1 w1
    refine ⟨s2, (outL, outR) :: wet, ?_, by simp [l2], ?_, w2, p2.trans p1⟩
    · simp only [HybridPlate.wetSamples, e1, e2]
    · simp only [HybridPlate.processSamples, e1, e3, List.zipWith_cons_cons]

theorem plate_prepared_prepare (lib : DspLibrary) (parameters : ReverbProcessorParameters)
    (filter : FirstOrderTPTFilter) (shelf : IIRFilter) (lfo : LFO)
    (spec : ProcessSpec) (h : 0 < spec.numChannels) :
    ((HybridPlate.new parameters filter shelf lfo).prepare lib spec).Prepared
      spec.numChannels := by
  refine ⟨h, ⟨?_, ?_⟩, ?_, ⟨?_, ?_⟩, ⟨?_, ?_⟩, ?_⟩
  · exact wellFormed_reset _ _ (line_prepared 48000 spec)
  · exact wellFormed_reset _ _ (line_prepared 48000 spec)
  · exact fun _ => wellFormed_reset _ _ (line_prepared 44100 spec)
  · exact fun _ => allpass_wellFormed_reset _ _ (prepareAllpass_wellFormed _ spec _ _)
  · exact fun _ => allpass_wellFormed_reset _ _ (prepareAllpass_wellFormed _ spec _ _)
  · rfl
  · rfl
  · exact jlimit_bounds 0 1 _ (by norm_num)

theorem dryPairs_spec (buffer : AudioBuffer) (c n : Nat) (hb : buffer.HasShape c n)
    (hc : 0 < c) :
    ∃ dry, dryPairs buffer = some dry ∧ dry.length = n ∧ writeBack buffer dry = buffer := by
  obtain ⟨h1, h2⟩ := hb
  match buffer, h1, h2 with
  | [], h1, _ => simp at h1; omega
  | [left], _, h2 =>
    refine ⟨_, rfl, ?_, ?_⟩
    · simp [h2 left (by simp)]
    · simp [writeBack, List.map_map, Function.comp_def]
  | left :: right :: rest, _, h2 =>
    have hl : left.length = n := h2 left (by simp)
    have hr : right.length = n := h2 right (by simp)
    refine ⟨_, rfl, ?_, ?_⟩
    · simp [hl, hr]
    · simp only [writeBack]
      rw [← List.unzip_fst, ← List.unzip_snd, List.unzip_zip (by omega)]

theorem zipWith_mix_zero (dry wet : List (ℚ × ℚ)) (h : wet.length = dry.length) :
    List.zipWith (fun d w => ((1 - 0) * d.1 + (0 : ℚ) * w.1, (1 - 0) * d.2 + (0 : ℚ) * w.2))
      dry wet = dry := by
  induction dry generalizing wet with
  | nil => simp
  | cons d rest ih =>
    cases wet with
    | nil => simp at h
    | cons w ws =>
      simp only [List.zipWith_cons_cons, List.cons.injEq]
      refine ⟨by simp, ih ws (by simpa using h)⟩

/-- C17: on a prepared Hall engine and a prepared Plate engine in any internal state, and
any block (at least one channel, channels of one length), `processBlock` completes and
writes, for every sample, `(1 - mix) * dry + mix * wet`, where `wet` is the pair the
stereo decode produced for that sample and `mix`, the stored mix, lies in [0, 1]; with
`mix = 0` the buffer comes back unchanged. -/
theorem C17_dry_wet_mix (lib : DspLibrary) (hall : DatorroHall) (plate : HybridPlate)
    (k c n : Nat) (hh : hall.Prepared k) (hp : plate.Prepared k) (buffer : AudioBuffer)
    (hb : buffer.HasShape c n) (hc : 0 < c) :
    (∃ dry wet hall1,
      dryPairs buffer = some dry ∧ dry.length = n ∧
      DatorroHall.wetSamples lib (jlimit (1 / 10) 20 hall.parameters.decayTime)
        (jlimit (1 / 4) (7 / 4) hall.parameters.roomSize) hall.parameters.modDepth
        (DatorroHall.feedbackGain lib.exp hall.estimatedLoopTimeSeconds
          hall.parameters.decayTime) hall dry = some wet ∧
      wet.length = n ∧
      hall.processBlock lib buffer = some (hall1, writeBack buffer
        (List.zipWith (fun d w => ((1 - hall.parameters.mix) * d.1 + hall.parameters.mix * w.1,
          (1 - hall.parameters.mix) * d.2 + hall.parameters.mix * w.2)) dry wet)) ∧
      hall1.Prepared k ∧
      (0 ≤ hall.parameters.mix ∧ hall.parameters.mix ≤ 1) ∧
      (hall.parameters.mix = 0 → hall.processBlock lib buffer = some (hall1, buffer))) ∧
    (∃ dry wet plate1,
      dryPairs buffer = some dry ∧ dry.length = n ∧
      HybridPlate.wetSamples lib (jlimit (1 / 4) (7 / 4) plate.parameters.roomSize)
        plate.parameters.modDepth
        (HybridPlate.feedbackGain lib.exp plate.estimatedLoopTimeSeconds
          plate.parameters.decayTime plate.parameters.roomSize) plate dry = some wet ∧
      wet.length = n ∧
      plate.processBlock lib buffer = some (plate1, writeBack buffer
        (List.zipWith
          (fun d w => ((1 - plate.parameters.mix) * d.1 + plate.parameters.mix * w.1,
            (1 - plate.parameters.mix) * d.2 + plate.parameters.mix * w.2)) dry wet)) ∧
      plate1.Prepared k ∧
      (0 ≤ plate.parameters.mix ∧ plate.parameters.mix ≤ 1) ∧
      (plate.parameters.mix = 0 → plate.processBlock lib buffer = some (plate1, buffer))) := by
  obtain ⟨dry, hd, hlen, hwb⟩ := dryPairs_spec buffer c n hb hc
  constructor
  · obtain ⟨s1, wet, e1, l1, e2, w1, _⟩ := hall_processSamples_spec lib hall.parameters.mix
      (1 - hall.parameters.mix) (jlimit (1 / 10) 20 hall.parameters.decayTime)
      (jlimit (1 / 4) (7 / 4) hall.parameters.roomSize) hall.parameters.modDepth
      (DatorroHall.feedbackGain lib.exp hall.estimatedLoopTimeSeconds
        hall.parameters.decayTime) k dry hall hh
    have hpb : hall.processBlock lib buffer = some (s1, writeBack buffer
        (List.zipWith (fun d w => ((1 - hall.parameters.mix) * d.1 + hall.parameters.mix * w.1,
          (1 - hall.parameters.mix) * d.2 + hall.parameters.mix * w.2)) dry wet)) := by
      simp only [DatorroHall.processBlock, hd, e2]
    refine ⟨dry, wet, s1, hd, hlen, e1, l1.trans hlen, hpb, w1, hh.2.2.2.2.2, ?_⟩
    intro hm
    rw [hpb, hm, zipWith_mix_zero dry wet l1, hwb]
  · obtain ⟨s1, wet, e1, l1, e2, w1, _⟩ := plate_processSamples_spec lib plate.parameters.mix
      (1 - plate.parameters.mix) (jlimit (1 / 4) (7 / 4) plate.parameters.roomSize)
      plate.parameters.modDepth
      (HybridPlate.feedbackGain lib.exp plate.estimatedLoopTimeSeconds
        plate.parameters.decayTime plate.parameters.roomSize) k dry plate hp
    have hpb : plate.processBlock lib buffer = some (s1, writeBack buffer
        (List.zipWith
          (fun d w => ((1 - plate.parameters.mix) * d.1 + plate.parameters.mix * w.1,
            (1 - plate.parameters.mix) * d.2 + plate.parameters.mix * w.2)) dry wet)) := by
      simp only [HybridPlate.processBlock, hd, e2]
    refine ⟨dry, wet, s1, hd, hlen, e1, l1.trans hlen, hpb, w1, hp.2.2.2.2.2, ?_⟩
    intro hm
    rw [hpb, hm, zipWith_mix_zero dry wet l1, hwb]

theorem exampleHall_prepared : exampleHall.Prepared 2 :=
  hall_prepared_prepare exampleLibrary exampleParameters ⟨1000, 44100, 0⟩
    ⟨⟨generatorWaveform.triangle, 0, 1⟩, 0, 0, 0, 0⟩ [] [] ⟨44100, 4, 2⟩ (by decide)

theorem examplePlate_prepared : examplePlate.Prepared 2 :=
  plate_prepared_prepare exampleLibrary exampleParameters ⟨1000, 44100, 0⟩ ⟨[], []⟩
    ⟨⟨generatorWaveform.triangle, 0, 1⟩, 0, 0, 0, 0⟩ ⟨44100, 4, 2⟩ (by decide)

theorem exampleHall_mix : exampleHall.parameters.mix = 0 := by
  simp [exampleHall, DatorroHall.prepare, DatorroHall.reset,
    DatorroHall.updateInternalParamsFromUserParams, DatorroHall.new, exampleParameters, jlimit]

theorem examplePlate_mix : examplePlate.parameters.mix = 0 := by
  simp [examplePlate, HybridPlate.prepare, HybridPlate.reset,
    HybridPlate.updateInternalParamsFromUserParams, HybridPlate.new, exampleParameters, jlimit]

/-- The example engines (mix 0) return the stereo block 1, 2 / 3, 4 unchanged. -/
theorem C17_dry_wet_mix_witness :
    (∃ hall1, exampleHall.processBlock exampleLibrary [[1, 2], [3, 4]]
      = some (hall1, [[1, 2], [3, 4]])) ∧
    (∃ plate1, examplePlate.processBlock exampleLibrary [[1, 2], [3, 4]]
      = some (plate1, [[1, 2], [3, 4]])) :=
  match C17_dry_wet_mix exampleLibrary exampleHall examplePlate 2 2 2 exampleHall_prepared
    examplePlate_prepared [[1, 2], [3, 4]] (by decide) (by decide) with
  | ⟨⟨_, _, h1, _, _, _, _, _, _, _, hz⟩, ⟨_, _, p1, _, _, _, _, _, _, _, pz⟩⟩ =>
    ⟨⟨h1, hz exampleHall_mix⟩, ⟨p1, pz examplePlate_mix⟩⟩

/-! ## The reverb engines: what `setParameters` clamps -/

/-- C18 (counterexample): parameters with damping 50 000 Hz, modulation rate 100 Hz and
modulation depth 7 passed to `setParameters` of the example Hall and Plate engines are
stored and handed to the damping filters and the LFO parameters unchanged, outside
[500, 10000], [0.05, 5] and [0, 1]. -/
theorem C18_counterexample :
    ((exampleHall.setParameters exampleLibrary ⟨1 / 2, 1, 2, 50000, 100, 7, 20⟩).parameters.damping
        = 50000 ∧
      (exampleHall.setParameters exampleLibrary
        ⟨1 / 2, 1, 2, 50000, 100, 7, 20⟩).loopDamping.cutoffFrequency = 50000 ∧
      ((exampleHall.setParameters exampleLibrary
        ⟨1 / 2, 1, 2, 50000, 100, 7, 20⟩).dampingFiltersL 0).cutoffFrequency = 50000 ∧
      (exampleHall.setParameters exampleLibrary
        ⟨1 / 2, 1, 2, 50000, 100, 7, 20⟩).parameters.modDepth = 7 ∧
      (exampleHall.setParameters exampleLibrary
        ⟨1 / 2, 1, 2, 50000, 100, 7, 20⟩).lfoParameters.frequency_Hz = 100) ∧
    ((examplePlate.setParameters exampleLibrary
        ⟨1 / 2, 1, 2, 50000, 100, 7, 20⟩).parameters.damping = 50000 ∧
      ((examplePlate.setParameters exampleLibrary
        ⟨1 / 2, 1, 2, 50000, 100, 7, 20⟩).dampingFilters 0).cutoffFrequency = 50000 ∧
      (examplePlate.setParameters exampleLibrary
        ⟨1 / 2, 1, 2, 50000, 100, 7, 20⟩).parameters.modDepth = 7 ∧
      (examplePlate.setParameters exampleLibrary
        ⟨1 / 2, 1, 2, 50000, 100, 7, 20⟩).lfoParameters.frequency_Hz = 100) ∧
    ¬ ((50000 : ℚ) ≤ 10000) ∧ ¬ ((7 : ℚ) ≤ 1) ∧ ¬ ((100 : ℚ) ≤ 5) := by
  have hne : ¬ ((⟨1 / 2, 1, 2, 50000, 100, 7, 20⟩ : ReverbProcessorParameters)
      = examplePlate.parameters) := by
    intro h
    have := congrArg ReverbProcessorParameters.mix h
    rw [examplePlate_mix] at this
    norm_num at this
  refine ⟨⟨rfl, rfl, rfl, rfl, rfl⟩, ?_, by norm_num, by norm_num, by norm_num⟩
  simp only [HybridPlate.setParameters, hne, not_false_eq_true, if_true]
  exact ⟨rfl, rfl, rfl, rfl⟩

/-- C18 (amended): for every parameter value passed to `setParameters` of a Hall engine,
and of a Plate engine unless it equals the stored value (then nothing happens), the
stored room size lies in [0.25, 1.75], the stored decay time in [0.1, 20], the stored mix
in [0, 1], and the pre-delay used is the passed one clamped to [0, 200] ms, in samples;
damping, modulation depth and modulation rate are not clamped: they are stored and
handed to the damping filters and the LFO parameters as passed. -/
theorem C18_engine_clamps (lib : DspLibrary) (hall : DatorroHall) (plate : HybridPlate)
    (params : ReverbProcessorParameters) :
    (((1 / 4 ≤ (hall.setParameters lib params).parameters.roomSize ∧
          (hall.setParameters lib params).parameters.roomSize ≤ 7 / 4) ∧
        (1 / 10 ≤ (hall.setParameters lib params).parameters.decayTime ∧
          (hall.setParameters lib params).parameters.decayTime ≤ 20) ∧
        (0 ≤ (hall.setParameters lib params).parameters.mix ∧
          (hall.setParameters lib params).parameters.mix ≤ 1) ∧
        (hall.setParameters lib params).preDelaySamples
          = jlimit 0 200 params.preDelay * (1 / 1000) * (hall.sampleRate : ℚ)) ∧
      ((hall.setParameters lib params).parameters.damping = params.damping ∧
        (hall.setParameters lib params).loopDamping.cutoffFrequency = params.damping ∧
        (∀ i, ((hall.setParameters lib params).dampingFiltersL i).cutoffFrequency
          = params.damping) ∧
        (∀ i, ((hall.setParameters lib params).dampingFiltersR i).cutoffFrequency
          = params.damping) ∧
        (hall.setParameters lib params).parameters.modDepth = params.modDepth ∧
        (hall.setParameters lib params).lfoParameters.depth = params.modDepth ∧
        (hall.setParameters lib params).lfoParameters.frequency_Hz = params.modRate)) ∧
    ((params = plate.parameters ∧ plate.setParameters lib params = plate) ∨
      (((1 / 4 ≤ (plate.setParameters lib params).parameters.roomSize ∧
          (plate.setParameters lib params).parameters.roomSize ≤ 7 / 4) ∧
        (1 / 10 ≤ (plate.setParameters lib params).parameters.decayTime ∧
          (plate.setParameters lib params).parameters.decayTime ≤ 20) ∧
        (0 ≤ (plate.setParameters lib params).parameters.mix ∧
          (plate.setParameters lib params).parameters.mix ≤ 1) ∧
        (plate.setParameters lib params).preDelaySamples
          = jlimit 0 200 params.preDelay * (1 / 1000) * (plate.sampleRate : ℚ)) ∧
      ((plate.setParameters lib params).parameters.damping = params.damping ∧
        (∀ i, ((plate.setParameters lib params).dampingFilters i).cutoffFrequency
          = params.damping) ∧
        (plate.setParameters lib params).parameters.modDepth = params.modDepth ∧
        (plate.setParameters lib params).lfoParameters.depth = params.modDepth ∧
        (plate.setParameters lib params).lfoParameters.frequency_Hz = params.modRate))) := by
  constructor
  · exact ⟨⟨jlimit_bounds _ _ _ (by norm_num), jlimit_bounds _ _ _ (by norm_num),
      jlimit_bounds _ _ _ (by norm_num), rfl⟩, rfl, rfl, fun _ => rfl, fun _ => rfl, rfl, rfl,
      rfl⟩
  · by_cases h : params = plate.parameters
    · left
      exact ⟨h, by simp [HybridPlate.setParameters, h]⟩
    · right
      simp only [HybridPlate.setParameters, h, not_false_eq_true, if_true]
      exact ⟨⟨jlimit_bounds _ _ _ (by norm_num), jlimit_bounds _ _ _ (by norm_num),
        jlimit_bounds _ _ _ (by norm_num), rfl⟩, rfl, fun _ => rfl, rfl, rfl, rfl⟩

/-! ## The reverb engines before `prepare` -/

theorem new_pushSampleChecked (M : Int) (ch : Nat) (x : ℚ) :
    (DelayLineWithSampleAccess.new M).pushSampleChecked ch x = none := by
  have h : (DelayLineWithSampleAccess.new M).writePosition = [] := rfl
  simp only [DelayLineWithSampleAccess.pushSampleChecked, h, List.getElem?_nil]

/-- C19 (refuted): on a Hall or Plate engine that was constructed and never prepared,
`processBlock` on any buffer with at least one channel and one sample does not complete
as a no-op: its first statement, `preDelayL.pushSample (0, dryL)`, indexes the empty
vector `writePosition`, an out-of-range access (`none` in the model). -/
theorem C19_unprepared_engine_faults (lib : DspLibrary)
    (parameters : ReverbProcessorParameters) (filter : FirstOrderTPTFilter)
    (shelf : IIRFilter) (lfo : LFO) (tapsLeft tapsRight : List ℚ) (buffer : AudioBuffer)
    (c n : Nat) (hb : buffer.HasShape c n) (hc : 0 < c) (hn : 0 < n) :
    (DatorroHall.new parameters filter lfo tapsLeft tapsRight).processBlock lib buffer = none ∧
    (HybridPlate.new parameters filter shelf lfo).processBlock lib buffer = none := by
  obtain ⟨dry, hd, hlen, _⟩ := dryPairs_spec buffer c n hb hc
  cases dry with
  | nil => simp at hlen; omega
  | cons d rest =>
    constructor
    · have e : (DatorroHall.new parameters filter lfo tapsLeft tapsRight).earlyStage d.1 d.2
          = none := by
        have h1 : (DatorroHall.new parameters filter lfo tapsLeft tapsRight).preDelayL
            = DelayLineWithSampleAccess.new 44100 := rfl
        simp only [DatorroHall.earlyStage, h1, new_pushSampleChecked]
      simp only [DatorroHall.processBlock, hd, DatorroHall.processSamples,
        DatorroHall.processSample, e]
    · have e : (HybridPlate.new parameters filter shelf lfo).earlyStage d.1 d.2 = none := by
        have h1 : (HybridPlate.new parameters filter shelf lfo).preDelayL
            = DelayLineWithSampleAccess.new 48000 := rfl
        simp only [HybridPlate.earlyStage, h1, new_pushSampleChecked]
      simp only [HybridPlate.processBlock, hd, HybridPlate.processSamples,
        HybridPlate.processSample, e]

/-- Freshly constructed engines and the mono block of the single sample 1. -/
theorem C19_unprepared_engine_faults_witness :
    (DatorroHall.new exampleParameters ⟨1000, 44100, 0⟩
      ⟨⟨generatorWaveform.triangle, 0, 1⟩, 0, 0, 0, 0⟩ [] []).processBlock exampleLibrary [[1]]
        = none ∧
    (HybridPlate.new exampleParameters ⟨1000, 44100, 0⟩ ⟨[], []⟩
      ⟨⟨generatorWaveform.triangle, 0, 1⟩, 0, 0, 0, 0⟩).processBlock exampleLibrary [[1]]
        = none :=
  C19_unprepared_engine_faults exampleLibrary exampleParameters ⟨1000, 44100, 0⟩ ⟨[], []⟩
    ⟨⟨generatorWaveform.triangle, 0, 1⟩, 0, 0, 0, 0⟩ [] [] [[1]] 1 1 (by decide) (by decide)
    (by decide)

/-! ## The Hall engine: the pre-delay read is not used -/

theorem hall_earlyStage_withPreDelay (s : DatorroHall) (k : Nat) (h : s.Prepared k)
    (dryL dryR pd : ℚ) (ci : List ℚ) (pp : ReverbProcessorParameters) (hci2 : ci.length = 2) :
    ∃ t ci1, s.earlyStage dryL dryR = some t ∧ ci1.length = 2 ∧
      (s.withPreDelay pd ci pp).earlyStage dryL dryR
        = some (t.1.withPreDelay pd ci1 pp, t.2) := by
  obtain ⟨hk, ⟨hpl, hpr, hel, her⟩, hT, ⟨heL, heR, hAL, hAR⟩, ⟨hci, hco⟩, hmix⟩ := h
  obtain ⟨pl, e1, wpl⟩ := pushSampleChecked_spec s.preDelayL k hpl hk dryL
  obtain ⟨pr, e2, wpr⟩ := pushSampleChecked_spec s.preDelayR k hpr hk dryR
  obtain ⟨inL, e3⟩ := readFractional_total pl k wpl hk s.preDelaySamples
  obtain ⟨inR, e4⟩ := readFractional_total pr k wpr hk s.preDelaySamples
  obtain ⟨inL1, e3b⟩ := readFractional_total pl k wpl hk pd
  obtain ⟨inR1, e4b⟩ := readFractional_total pr k wpr hk pd
  have e5 := vecSet?_spec s.channelInput 0 inL (by omega)
  have e6 := vecSet?_spec (s.channelInput.set 0 inL) 1 inR (by simp; omega)
  have e5b := vecSet?_spec ci 0 inL1 (by omega)
  have e6b := vecSet?_spec (ci.set 0 inL1) 1 inR1 (by simp; omega)
  obtain ⟨el, e7, wel⟩ := pushSampleChecked_spec s.erL k hel hk dryL
  obtain ⟨er, e8, wer⟩ := pushSampleChecked_spec s.erR k her hk dryR
  obtain ⟨erOutL, e9⟩ := earlyReflectionSum_total el k wel hk
    (DatorroHall.ER_gains.zip s.ER_tapSamplesLeft)
  obtain ⟨erOutR, e10⟩ := earlyReflectionSum_total er k wer hk
    (DatorroHall.ER_gains.zip s.ER_tapSamplesRight)
  obtain ⟨⟨aL, eL⟩, e11, waL⟩ := diffuse_spec s.earlyL k heL hk erOutL
  obtain ⟨⟨aR, eR⟩, e12, waR⟩ := diffuse_spec s.earlyR k heR hk erOutR
  simp only [DatorroHall.earlyStage, DatorroHall.withPreDelay, e1, e2, e3, e4, e5, e6, e7, e8,
    e9, e10, e11, e12, e3b, e4b, e5b, e6b]
  exact ⟨_, (ci.set 0 inL1).set 1 inR1, rfl, by simp [hci2], rfl⟩

theorem hall_tankStage_withPreDelay (lib : DspLibrary) (s : DatorroHall) (k : Nat)
    (h : s.Prepared k) (eL eR feedbackGain pd : ℚ) (ci : List ℚ)
    (pp : ReverbProcessorParameters) :
    ∃ t, s.tankStage lib eL eR feedbackGain = some t ∧
      (s.withPreDelay pd ci pp).tankStage lib eL eR feedbackGain
        = some (t.1.withPreDelay pd ci pp, t.2) := by
  obtain ⟨hk, hD, ⟨hTL, hTR⟩, ⟨heL, heR, hAL, hAR⟩, ⟨hci, hco⟩, hmix⟩ := h
  obtain ⟨tl, e1, wtl⟩ := sequence4_spec
    (fun i => (s.tankDelayL i).pushSampleChecked 0 ((8 / 10) * (eL + s.feedbackL i)))
    (fun _ t => t.WellFormed k) (fun i => pushSampleChecked_spec _ k (hTL i) hk _)
  obtain ⟨tr, e2, wtr⟩ := sequence4_spec
    (fun i => (s.tankDelayR i).pushSampleChecked 0 ((8 / 10) * (eR + s.feedbackR i)))
    (fun _ t => t.WellFormed k) (fun i => pushSampleChecked_spec _ k (hTR i) hk _)
  obtain ⟨rawL, e3, _⟩ := sequence4_spec
    (fun i => (tl i).readFractional 0 (s.currentDelayL_samps i)) (fun _ _ => True)
    (fun i => (readFractional_total _ k (wtl i) hk _).imp fun _ hv => ⟨hv, trivial⟩)
  obtain ⟨rawR, e4, _⟩ := sequence4_spec
    (fun i => (tr i).readFractional 0 (s.currentDelayR_samps i)) (fun _ _ => True)
    (fun i => (readFractional_total _ k (wtr i) hk _).imp fun _ hv => ⟨hv, trivial⟩)
  obtain ⟨apL, e5, wapL⟩ := sequence4_spec
    (fun i => (s.tankLAP i).processSample 0 ((s.extraDampingL i).process (rawL i)).2)
    (fun _ t => t.1.WellFormed k) (fun i => allpass_processSample_total _ k (hAL i) hk _)
  obtain ⟨apR, e6, wapR⟩ := sequence4_spec
    (fun i => (s.tankRAP i).processSample 0 ((s.extraDampingR i).process (rawR i)).2)
    (fun _ t => t.1.WellFormed k) (fun i => allpass_processSample_total _ k (hAR i) hk _)
  have e7 : ∀ x, vecSet? s.channelOutput 0 x = some (s.channelOutput.set 0 x) :=
    fun x => vecSet?_spec _ _ _ (by omega)
  have e8 : ∀ x y, vecSet? (s.channelOutput.set 0 x) 1 y
      = some ((s.channelOutput.set 0 x).set 1 y) :=
    fun x y => vecSet?_spec _ _ _ (by simp; omega)
  simp only [DatorroHall.tankStage, DatorroHall.withPreDelay, e1, e2, e3, e4, e5, e6, e7, e8]
  exact ⟨_, rfl, rfl⟩

theorem hall_prepared_withPreDelay (s : DatorroHall) (k : Nat) (h : s.Prepared k) (pd : ℚ)
    (ci : List ℚ) (pp : ReverbProcessorParameters) (hci : ci.length = 2)
    (hmix : 0 ≤ pp.mix ∧ pp.mix ≤ 1) : (s.withPreDelay pd ci pp).Prepared k := by
  obtain ⟨hk, hD, hT, hA, ⟨_, hco⟩, _⟩ := h
  exact ⟨hk, hD, hT, hA, ⟨hci, hco⟩, hmix⟩

theorem hall_processSample_withPreDelay (lib : DspLibrary) (s : DatorroHall) (k : Nat)
    (h : s.Prepared k) (decaySec roomSize modDepth feedbackGain dryL dryR pd : ℚ)
    (ci : List ℚ) (pp : ReverbProcessorParameters) (hci2 : ci.length = 2) :
    ∃ t ci1, s.processSample lib decaySec roomSize modDepth feedbackGain dryL dryR = some t ∧
      t.1.Prepared k ∧ ci1.length = 2 ∧
      (s.withPreDelay pd ci pp).processSample lib decaySec roomSize modDepth feedbackGain
        dryL dryR = some (t.1.withPreDelay pd ci1 pp, t.2) := by
  obtain ⟨⟨s1, eL, eR⟩, ci1, e1, l1, e1b⟩ :=
    hall_earlyStage_withPreDelay s k h dryL dryR pd ci pp hci2
  obtain ⟨_, e1c, w1, _⟩ := hall_earlyStage_spec s k h dryL dryR
  rw [e1] at e1c
  obtain rfl := Option.some.inj e1c
  obtain ⟨t, e2, e2b⟩ := hall_tankStage_withPreDelay lib
    (s1.modulate lib decaySec roomSize modDepth) k
    (hall_modulate_prepared lib s1 k w1 decaySec roomSize modDepth) eL eR feedbackGain pd ci1 pp
  obtain ⟨_, e2c, w2, _⟩ := hall_tankStage_spec lib _ k
    (hall_modulate_prepared lib s1 k w1 decaySec roomSize modDepth) eL eR feedbackGain
  rw [e2] at e2c
  obtain rfl := Option.some.inj e2c
  refine ⟨t, ci1, ?_, w2, l1, ?_⟩
  · simp only [DatorroHall.processSample, e1]
    exact e2
  · simp only [DatorroHall.processSample, e1b]
    exact e2b

theorem hall_processSamples_withPreDelay (lib : DspLibrary)
    (mix dryMix decaySec roomSize modDepth feedbackGain pd : ℚ)
    (pp : ReverbProcessorParameters) (k : Nat) (dry : List (ℚ × ℚ)) :
    ∀ (s : DatorroHall) (ci : List ℚ), s.Prepared k → ci.length = 2 →
    ∃ s1 wet outs ci1,
      DatorroHall.wetSamples lib decaySec roomSize modDepth feedbackGain s dry = some wet ∧
      DatorroHall.wetSamples lib decaySec roomSize modDepth feedbackGain
        (s.withPreDelay pd ci pp) dry = some wet ∧
      DatorroHall.processSamples lib mix dryMix decaySec roomSize modDepth feedbackGain s dry
        = some (s1, outs) ∧
      DatorroHall.processSamples lib mix dryMix decaySec roomSize modDepth feedbackGain
        (s.withPreDelay pd ci pp) dry = some (s1.withPreDelay pd ci1 pp, outs) ∧
      ci1.length = 2 ∧ s1.Prepared k := by
  induction dry with
  | nil =>
    intro s ci h hci
    exact ⟨s, [], [], ci, rfl, rfl, rfl, rfl, hci, h⟩
  | cons d rest ih =>
    intro s ci h hci
    obtain ⟨⟨s1, outL, outR⟩, ci1, e1, w1, l1, e1b⟩ := hall_processSample_withPreDelay lib s k h
      decaySec roomSize modDepth feedbackGain d.1 d.2 pd ci pp hci
    obtain ⟨s2, wet, outs, ci2, e2, e2b, e3, e3b, l2, w2⟩ := ih s1 ci1 w1 l1
    refine ⟨s2, (outL, outR) :: wet,
      (dryMix * d.1 + mix * outL, dryMix * d.2 + mix * outR) :: outs, ci2, ?_, ?_, ?_, ?_, l2, w2⟩
    · simp only [DatorroHall.wetSamples, e1, e2]
    · simp only [DatorroHall.wetSamples, e1b, e2b]
    · simp only [DatorroHall.processSamples, e1, e3]
    · simp only [DatorroHall.processSamples, e1b, e3b]

/-- C20 (refuted): the wet signal of the Hall engine does not depend on the pre-delay.
For a prepared engine in any state, any parameters and any two pre-delay values `a` and
`b` (ms) set through `setParameters`, the same block yields the same wet pairs, sample
by sample, and the same output buffer: the value read back from the pre-delay line is
stored in `channelInput` and never used, and the early-reflection and diffusion stages
are fed the undelayed input. -/
theorem C20_hall_wet_ignores_preDelay (lib : DspLibrary) (hall : DatorroHall) (k c n : Nat)
    (hh : hall.Prepared k) (params : ReverbProcessorParameters) (a b : ℚ)
    (buffer : AudioBuffer) (hb : buffer.HasShape c n) (hc : 0 < c) :
    ∃ dry hallA hallB out,
      dryPairs buffer = some dry ∧
      (∀ decaySec roomSize modDepth feedbackGain : ℚ, ∃ wet,
        DatorroHall.wetSamples lib decaySec roomSize modDepth feedbackGain
          (hall.setParameters lib { params with preDelay := a }) dry = some wet ∧
        DatorroHall.wetSamples lib decaySec roomSize modDepth feedbackGain
          (hall.setParameters lib { params with preDelay := b }) dry = some wet) ∧
      (hall.setParameters lib { params with preDelay := a }).processBlock lib buffer
        = some (hallA, out) ∧
      (hall.setParameters lib { params with preDelay := b }).processBlock lib buffer
        = some (hallB, out) ∧
      (hall.setParameters lib { params with preDelay := a }).preDelaySamples
        = jlimit 0 200 a * (1 / 1000) * (hall.sampleRate : ℚ) ∧
      (hall.setParameters lib { params with preDelay := b }).preDelaySamples
        = jlimit 0 200 b * (1 / 1000) * (hall.sampleRate : ℚ) := by
  obtain ⟨dry, hd, _, _⟩ := dryPairs_spec buffer c n hb hc
  have hA := hall_prepared_setParameters lib hall k hh { params with preDelay := a }
  have hB := hall_prepared_setParameters lib hall k hh { params with preDelay := b }
  have hrel : hall.setParameters lib { params with preDelay := b }
      = (hall.setParameters lib { params with preDelay := a }).withPreDelay
          (hall.setParameters lib { params with preDelay := b }).preDelaySamples
          (hall.setParameters lib { params with preDelay := a }).channelInput
          (hall.setParameters lib { params with preDelay := b }).parameters := rfl
  obtain ⟨s1, _, outs, ci1, _, _, e3, e3b, _, _⟩ := hall_processSamples_withPreDelay lib
    (hall.setParameters lib { params with preDelay := a }).parameters.mix
    (1 - (hall.setParameters lib { params with preDelay := a }).parameters.mix)
    (jlimit (1 / 10) 20 (hall.setParameters lib { params with preDelay := a }).parameters.decayTime)
    (jlimit (1 / 4) (7 / 4)
      (hall.setParameters lib { params with preDelay := a }).parameters.roomSize)
    (hall.setParameters lib { params with preDelay := a }).parameters.modDepth
    (DatorroHall.feedbackGain lib.exp
      (hall.setParameters lib { params with preDelay := a }).estimatedLoopTimeSeconds
      (hall.setParameters lib { params with preDelay := a }).parameters.decayTime)
    (hall.setParameters lib { params with preDelay := b }).preDelaySamples
    (hall.setParameters lib { params with preDelay := b }).parameters k dry
    (hall.setParameters lib { params with preDelay := a })
    (hall.setParameters lib { params with preDelay := a }).channelInput hA hA.2.2.2.2.1.1
  have e3c : DatorroHall.processSamples lib
      (hall.setParameters lib { params with preDelay := b }).parameters.mix
      (1 - (hall.setParameters lib { params with preDelay := b }).parameters.mix)
      (jlimit (1 / 10) 20
        (hall.setParameters lib { params with preDelay := b }).parameters.decayTime)
      (jlimit (1 / 4) (7 / 4)
        (hall.setParameters lib { params with preDelay := b }).parameters.roomSize)
      (hall.setParameters lib { params with preDelay := b }).parameters.modDepth
      (DatorroHall.feedbackGain lib.exp
        (hall.setParameters lib { params with preDelay := b }).estimatedLoopTimeSeconds
        (hall.setParameters lib { params with preDelay := b }).parameters.decayTime)
      (hall.setParameters lib { params with preDelay := b }) dry
      = some (s1.withPreDelay
          (hall.setParameters lib { params with preDelay := b }).preDelaySamples ci1
          (hall.setParameters lib { params with preDelay := b }).parameters, outs) := e3b
  refine ⟨dry, s1, s1.withPreDelay
    (hall.setParameters lib { params with preDelay := b }).preDelaySamples ci1
    (hall.setParameters lib { params with preDelay := b }).parameters,
    writeBack buffer outs, hd, ?_, ?_, ?_, rfl, rfl⟩
  · intro decaySec roomSize modDepth feedbackGain
    obtain ⟨_, wet, _, _, e2, e2b, _, _, _, _⟩ := hall_processSamples_withPreDelay lib 0 0
      decaySec roomSize modDepth feedbackGain
      (hall.setParameters lib { params with preDelay := b }).preDelaySamples
      (hall.setParameters lib { params with preDelay := b }).parameters k dry
      (hall.setParameters lib { params with preDelay := a })
      (hall.setParameters lib { params with preDelay := a }).channelInput hA hA.2.2.2.2.1.1
    refine ⟨wet, e2, ?_⟩
    rw [hrel]
    exact e2b
  · simp only [DatorroHall.processBlock, hd, e3]
  · simp only [DatorroHall.processBlock, hd, e3c]

/-- The example Hall engine with mix 1 and pre-delay 0 ms against pre-delay 200 ms, on the
stereo block 1, 2 / 3, 4: the same output buffer. -/
theorem C20_hall_wet_ignores_preDelay_witness :
    ∃ hallA hallB out,
      (exampleHall.setParameters exampleLibrary ⟨1, 1, 2, 8000, 1 / 2, 0, 0⟩).processBlock
        exampleLibrary [[1, 2], [3, 4]] = some (hallA, out) ∧
      (exampleHall.setParameters exampleLibrary ⟨1, 1, 2, 8000, 1 / 2, 0, 200⟩).processBlock
        exampleLibrary [[1, 2], [3, 4]] = some (hallB, out) ∧
      (exampleHall.setParameters exampleLibrary ⟨1, 1, 2, 8000, 1 / 2, 0, 0⟩).preDelaySamples
        = jlimit 0 200 0 * (1 / 1000) * (exampleHall.sampleRate : ℚ) ∧
      (exampleHall.setParameters exampleLibrary ⟨1, 1, 2, 8000, 1 / 2, 0, 200⟩).preDelaySamples
        = jlimit 0 200 200 * (1 / 1000) * (exampleHall.sampleRate : ℚ) :=
  match C20_hall_wet_ignores_preDelay exampleLibrary exampleHall 2 2 2 exampleHall_prepared
    ⟨1, 1, 2, 8000, 1 / 2, 0, 0⟩ 0 200 [[1, 2], [3, 4]] (by decide) (by decide) with
  | ⟨_, hallA, hallB, out, _, _, ha, hb, pa, pb⟩ => ⟨hallA, hallB, out, ha, hb, pa, pb⟩

/-! ## Tempo sync -/

/-- C21: for every tempo `bpm > 0` and every note-division index `i` in 0..13 the synced
delay time is `clamp ((60000 / bpm) * m[i], 1, 2000)` ms, where `m` is the list
4, 2, 1, 1/2, 1/4, 1/8, 3, 3/2, 3/4, 3/8, 4/3, 2/3, 1/3, 1/6, whose dotted entries are
1.5 times and whose triplet entries are 2/3 of the straight note of the same name; the
time lies in [1, 2000]; an index outside 0..13 uses multiplier 1; and 120 bpm with
index 2 gives 500 ms. -/
theorem C21_tempo_sync (bpm : ℚ) (hb : 0 < bpm) :
    (∀ i : Nat, i < 14 →
      DelayModule.syncedTime bpm (i : Int)
        = jlimit 1 2000 ((60000 / bpm) *
            ([4, 2, 1, 1 / 2, 1 / 4, 1 / 8, 3, 3 / 2, 3 / 4, 3 / 8, 4 / 3, 2 / 3, 1 / 3,
              1 / 6] : List ℚ).getD i 0) ∧
      ([4, 2, 1, 1 / 2, 1 / 4, 1 / 8, 3, 3 / 2, 3 / 4, 3 / 8, 4 / 3, 2 / 3, 1 / 3,
          1 / 6] : List ℚ).getD i 0 = specNoteMultiplier i ∧
      0 < bpm * specNoteMultiplier i) ∧
    (∀ noteDivision : Int, noteDivision < 0 ∨ 14 ≤ noteDivision →
      DelayModule.syncedTime bpm noteDivision = jlimit 1 2000 ((60000 / bpm) * 1)) ∧
    (∀ noteDivision : Int, 1 ≤ DelayModule.syncedTime bpm noteDivision ∧
      DelayModule.syncedTime bpm noteDivision ≤ 2000) ∧
    DelayModule.syncedTime 120 2 = 500 := by
  refine ⟨?_, ?_, ?_, ?_⟩
  · intro i hi
    have h1 : ((i : Int) ≥ 0 ∧ (i : Int) < 14) := ⟨by omega, by omega⟩
    refine ⟨?_, ?_, ?_⟩
    · simp only [DelayModule.syncedTime, h1, and_self, if_true, vecGet?_natCast,
        DelayModule.noteMultipliers, List.getD_eq_getElem?_getD]
    · interval_cases i <;> norm_num [specNoteMultiplier]
    · apply mul_pos hb
      interval_cases i <;> norm_num [specNoteMultiplier]
  · intro nd h
    have h1 : ¬ (nd ≥ 0 ∧ nd < 14) := by omega
    simp only [DelayModule.syncedTime, h1, if_false]
  · intro nd
    exact jlimit_bounds 1 2000 _ (by norm_num)
  · have h1 : ((2 : Int) ≥ 0 ∧ (2 : Int) < 14) := ⟨by norm_num, by norm_num⟩
    have e : vecGet? DelayModule.noteMultipliers 2 = some 1 := rfl
    simp only [DelayModule.syncedTime, h1, and_self, if_true, e, Option.getD_some]
    norm_num [jlimit]

/-- The tempo 120 bpm. -/
theorem C21_tempo_sync_witness :
    (∀ i : Nat, i < 14 →
      DelayModule.syncedTime 120 (i : Int)
        = jlimit 1 2000 ((60000 / 120) *
            ([4, 2, 1, 1 / 2, 1 / 4, 1 / 8, 3, 3 / 2, 3 / 4, 3 / 8, 4 / 3, 2 / 3, 1 / 3,
              1 / 6] : List ℚ).getD i 0) ∧
      ([4, 2, 1, 1 / 2, 1 / 4, 1 / 8, 3, 3 / 2, 3 / 4, 3 / 8, 4 / 3, 2 / 3, 1 / 3,
          1 / 6] : List ℚ).getD i 0 = specNoteMultiplier i ∧
      0 < (120 : ℚ) * specNoteMultiplier i) ∧
    (∀ noteDivision : Int, noteDivision < 0 ∨ 14 ≤ noteDivision →
      DelayModule.syncedTime 120 noteDivision = jlimit 1 2000 ((60000 / 120) * 1)) ∧
    (∀ noteDivision : Int, 1 ≤ DelayModule.syncedTime 120 noteDivision ∧
      DelayModule.syncedTime 120 noteDivision ≤ 2000) ∧
    DelayModule.syncedTime 120 2 = 500 :=
  C21_tempo_sync 120 (by norm_num)

/-! ## Assignment of oscillator parameters -/

/-- C27 (refuted): `operator=` of `OscillatorParameters` copies `waveform` and
`frequency_Hz` only; the destination keeps its own `depth`.  Assigning the parameters
(sin, 2 Hz, depth 0.3) to default-constructed ones (triangle, 0 Hz, depth 1) yields
(sin, 2 Hz, depth 1), which differs from the source. -/
theorem C27_assignment_drops_depth (this params : OscillatorParameters) :
    (this.assign params).waveform = params.waveform ∧
    (this.assign params).frequency_Hz = params.frequency_Hz ∧
    (this.assign params).depth = this.depth ∧
    OscillatorParameters.assign ⟨generatorWaveform.triangle, 0, 1⟩
        ⟨generatorWaveform.sin, 2, 3 / 10⟩ = ⟨generatorWaveform.sin, 2, 1⟩ ∧
    OscillatorParameters.assign ⟨generatorWaveform.triangle, 0, 1⟩
        ⟨generatorWaveform.sin, 2, 3 / 10⟩ ≠ ⟨generatorWaveform.sin, 2, 3 / 10⟩ := by
  refine ⟨rfl, rfl, rfl, rfl, ?_⟩
  intro h
  have := congrArg OscillatorParameters.depth h
  simp [OscillatorParameters.assign] at this
  norm_num at this

/-! ## The reverb engines on a single-channel buffer -/

theorem zip_self_eq_map (l : List ℚ) : l.zip l = l.map fun x => (x, x) := by
  induction l with
  | nil => rfl
  | cons a t ih => simp [ih]

/-- C22: for a prepared Hall engine and a prepared Plate engine in any state and every
block `left` of left-channel samples, `processBlock` on the single-channel buffer
completes, returns a single-channel buffer (only the left channel is written), and
yields the same left output and the same next engine state as `processBlock` on the
two-channel buffer whose right channel equals the left. -/
theorem C22_mono_safety (lib : DspLibrary) (hall : DatorroHall) (plate : HybridPlate)
    (k : Nat) (hh : hall.Prepared k) (hp : plate.Prepared k) (left : List ℚ) :
    (∃ hall1 outL outR,
      hall.processBlock lib [left] = some (hall1, [outL]) ∧
      hall.processBlock lib [left, left] = some (hall1, [outL, outR]) ∧
      outL.length = left.length ∧ hall1.Prepared k) ∧
    (∃ plate1 outL outR,
      plate.processBlock lib [left] = some (plate1, [outL]) ∧
      plate.processBlock lib [left, left] = some (plate1, [outL, outR]) ∧
      outL.length = left.length ∧ plate1.Prepared k) := by
  have hd1 : dryPairs [left] = some (left.map fun x => (x, x)) := rfl
  have hd2 : dryPairs [left, left] = some (left.map fun x => (x, x)) := by
    simp only [dryPairs, zip_self_eq_map]
  constructor
  · obtain ⟨s1, wet, _, l1, e2, w1, _⟩ := hall_processSamples_spec lib hall.parameters.mix
      (1 - hall.parameters.mix) (jlimit (1 / 10) 20 hall.parameters.decayTime)
      (jlimit (1 / 4) (7 / 4) hall.parameters.roomSize) hall.parameters.modDepth
      (DatorroHall.feedbackGain lib.exp hall.estimatedLoopTimeSeconds
        hall.parameters.decayTime) k (left.map fun x => (x, x)) hall hh
    simp only [DatorroHall.processBlock, hd1, hd2, e2, writeBack]
    exact ⟨s1, _, _, rfl, rfl, by simp [l1], w1⟩
  · obtain ⟨s1, wet, _, l1, e2, w1, _⟩ := plate_processSamples_spec lib plate.parameters.mix
      (1 - plate.parameters.mix) (jlimit (1 / 4) (7 / 4) plate.parameters.roomSize)
      plate.parameters.modDepth
      (HybridPlate.feedbackGain lib.exp plate.estimatedLoopTimeSeconds
        plate.parameters.decayTime plate.parameters.roomSize) k
      (left.map fun x => (x, x)) plate hp
    simp only [HybridPlate.processBlock, hd1, hd2, e2, writeBack]
    exact ⟨s1, _, _, rfl, rfl, by simp [l1], w1⟩

/-- The example engines on the block 1, 2, 3. -/
theorem C22_mono_safety_witness :
    (∃ hall1 outL outR,
      exampleHall.processBlock exampleLibrary [[1, 2, 3]] = some (hall1, [outL]) ∧
      exampleHall.processBlock exampleLibrary [[1, 2, 3], [1, 2, 3]]
        = some (hall1, [outL, outR]) ∧
      outL.length = [(1 : ℚ), 2, 3].length ∧ hall1.Prepared 2) ∧
    (∃ plate1 outL outR,
      examplePlate.processBlock exampleLibrary [[1, 2, 3]] = some (plate1, [outL]) ∧
      examplePlate.processBlock exampleLibrary [[1, 2, 3], [1, 2, 3]]
        = some (plate1, [outL, outR]) ∧
      outL.length = [(1 : ℚ), 2, 3].length ∧ plate1.Prepared 2) :=
  C22_mono_safety exampleLibrary exampleHall examplePlate 2 exampleHall_prepared
    examplePlate_prepared [1, 2, 3]

/-! ## The Plate engine: saturation of the decay control -/

theorem jlimitIn_eq_jlimit (lo hi v : ℚ) : jlimitIn lo hi v = jlimit lo hi v := by
  unfold jlimitIn jlimit
  split_ifs <;> rfl

theorem jlimitIn_mem {α : Type} [LinearOrder α] (lo hi v : α) (h : lo ≤ hi) :
    lo ≤ jlimitIn lo hi v ∧ jlimitIn lo hi v ≤ hi := by
  unfold jlimitIn
  split_ifs with h1 h2
  · exact ⟨le_refl _, h⟩
  · exact ⟨h, le_refl _⟩
  · exact ⟨not_lt.mp h1, not_lt.mp h2⟩

theorem jlimitIn_eq_max_min {α : Type} [LinearOrder α] (lo hi v : α) (h : lo ≤ hi) :
    jlimitIn lo hi v = max lo (min v hi) := by
  unfold jlimitIn
  split_ifs with h1 h2
  · rw [min_eq_left (le_trans (le_of_lt h1) h), max_eq_left (le_of_lt h1)]
  · rw [min_eq_right (le_of_lt h2), max_eq_right h]
  · rw [min_eq_left (not_lt.mp h2), max_eq_right (not_lt.mp h1)]

theorem jlimitIn_mono {α : Type} [LinearOrder α] (lo hi v w : α) (h : lo ≤ hi) (hvw : v ≤ w) :
    jlimitIn lo hi v ≤ jlimitIn lo hi w := by
  rw [jlimitIn_eq_max_min lo hi v h, jlimitIn_eq_max_min lo hi w h]
  exact max_le_max (le_refl _) (min_le_min hvw (le_refl _))

theorem jlimitIn_of_mem {α : Type} [LinearOrder α] (lo hi v : α) (h1 : lo ≤ v) (h2 : v ≤ hi) :
    jlimitIn lo hi v = v := by
  unfold jlimitIn
  rw [if_neg (not_lt.mpr h1), if_neg (not_lt.mpr h2)]

theorem getNumSamples_of_hasShape (b : AudioBuffer) (k n : Nat) (h : b.HasShape k n)
    (hk : 0 < k) : b.getNumSamples = n := by
  obtain ⟨h1, h2⟩ := h
  cases b with
  | nil => simp at h1; omega
  | cons c rest => exact h2 c (by simp)

theorem line_numSamples (M : Int) (spec : ProcessSpec) :
    (((DelayLineWithSampleAccess.new M).prepare spec).reset).numSamples = max (M + 1) 4 := by
  simp [DelayLineWithSampleAccess.prepare, DelayLineWithSampleAccess.reset,
    DelayLineWithSampleAccess.new, AudioBuffer.setSize, AudioBuffer.clear,
    AudioBuffer.getNumSamples]

theorem plate_loopTime (lib : DspLibrary) (parameters : ReverbProcessorParameters)
    (filter : FirstOrderTPTFilter) (shelf : IIRFilter) (lfo : LFO) (spec : ProcessSpec)
    (hc : 0 < spec.numChannels) (h1 : 32 ≤ truncToInt spec.sampleRate)
    (h2 : truncToInt spec.sampleRate ≤ 629985) :
    ((HybridPlate.new parameters filter shelf lfo).prepare lib spec).estimatedLoopTimeSeconds
      = 203 / 4000 := by
  have hN : ((((DelayLineWithSampleAccess.new 44100).prepare spec).reset).delayBuffer.getNumSamples
      : Int) = 44101 := by
    have hw := line_prepared 44100 spec
    have hn : (((DelayLineWithSampleAccess.new 44100).prepare spec).reset).numSamples = 44101 := by
      rw [line_numSamples]
      norm_num
    have := getNumSamples_of_hasShape _ _ _ hw.2.1 hc
    rw [this, hn]
    rfl
  have e : ((HybridPlate.new parameters filter shelf lfo).prepare lib
      spec).estimatedLoopTimeSeconds
      = ((((0 + jlimit 1 ((((44101 : Int) - 2 : Int)) : ℚ)
              (32 * (1 / 1000) * ((truncToInt spec.sampleRate : Int) : ℚ)))
            + jlimit 1 ((((44101 : Int) - 2 : Int)) : ℚ)
              (44 * (1 / 1000) * ((truncToInt spec.sampleRate : Int) : ℚ)))
            + jlimit 1 ((((44101 : Int) - 2 : Int)) : ℚ)
              (57 * (1 / 1000) * ((truncToInt spec.sampleRate : Int) : ℚ)))
            + jlimit 1 ((((44101 : Int) - 2 : Int)) : ℚ)
              (70 * (1 / 1000) * ((truncToInt spec.sampleRate : Int) : ℚ))) / 4
          / ((truncToInt spec.sampleRate : Int) : ℚ) := by
    rw [← hN]
    rfl
  rw [e]
  have q1 : (32 : ℚ) ≤ ((truncToInt spec.sampleRate : Int) : ℚ) := by exact_mod_cast h1
  have q2 : ((truncToInt spec.sampleRate : Int) : ℚ) ≤ 629985 := by exact_mod_cast h2
  have hm : ((((44101 : Int) - 2 : Int)) : ℚ) = 44099 := by norm_num
  rw [hm, jlimit_of_mem _ _ _ (by linarith) (by linarith),
    jlimit_of_mem _ _ _ (by linarith) (by linarith),
    jlimit_of_mem _ _ _ (by linarith) (by linarith),
    jlimit_of_mem _ _ _ (by linarith) (by linarith)]
  have hne : ((truncToInt spec.sampleRate : Int) : ℚ) ≠ 0 := by linarith
  field_simp
  ring

theorem plate_gain_eq (exp : ℚ → ℚ) (L T r : ℚ) :
    HybridPlate.feedbackGainIn exp L T r = HybridPlate.feedbackGain exp L T r := by
  simp only [HybridPlate.feedbackGainIn, HybridPlate.feedbackGain, jlimitIn_eq_jlimit]

theorem plate_gain_mono (L T1 T2 r : ℝ) (hL : 0 ≤ L) (hT : T1 ≤ T2) :
    HybridPlate.feedbackGainIn Real.exp L T1 r ≤ HybridPlate.feedbackGainIn Real.exp L T2 r := by
  simp only [HybridPlate.feedbackGainIn]
  apply jlimitIn_mono _ _ _ _ (by norm_num)
  apply mul_le_mul_of_nonneg_right _ (by norm_num)
  apply Real.exp_le_exp.mpr
  have hr := jlimitIn_mem (1 / 4 : ℝ) (7 / 4) r (by norm_num)
  have h1 := jlimitIn_mem (1 / 10 : ℝ) 20 T1 (by norm_num)
  have h2 := jlimitIn_mem (1 / 10 : ℝ) 20 T2 (by norm_num)
  have hm := jlimitIn_mono (1 / 10 : ℝ) 20 T1 T2 (by norm_num) hT
  generalize jlimitIn (1 / 4 : ℝ) (7 / 4) r = r1 at hr
  generalize jlimitIn (1 / 10 : ℝ) 20 T1 = t1 at h1 hm
  generalize jlimitIn (1 / 10 : ℝ) 20 T2 = t2 at h2 hm
  have ht1 : 0 < t1 := by linarith [h1.1]
  have ht2 : 0 < t2 := by linarith [h2.1]
  have hnum : 0 ≤ 3 * (L * r1) := by
    have : 0 ≤ L * r1 := mul_nonneg hL (by linarith [hr.1])
    linarith
  have e1 : -3 * (L * r1) / t1 = -(3 * (L * r1) / t1) := by ring
  have e2 : -3 * (L * r1) / t2 = -(3 * (L * r1) / t2) := by ring
  rw [e1, e2, neg_le_neg_iff]
  exact div_le_div_of_nonneg_left hnum ht1 hm

theorem plate_gain_saturated (T r : ℝ) (hr1 : 1 / 4 ≤ r) (hr2 : r ≤ 7 / 4) (hT : 3 * r ≤ T) :
    HybridPlate.feedbackGainIn Real.exp (203 / 4000) T r = 9 / 10 := by
  simp only [HybridPlate.feedbackGainIn]
  rw [jlimitIn_of_mem (1 / 4 : ℝ) (7 / 4) r hr1 hr2]
  have h1 := jlimitIn_mem (1 / 10 : ℝ) 20 T (by norm_num)
  have hm := jlimitIn_mono (1 / 10 : ℝ) 20 (3 * r) T (by norm_num) hT
  rw [jlimitIn_of_mem (1 / 10 : ℝ) 20 (3 * r) (by linarith) (by linarith)] at hm
  generalize jlimitIn (1 / 10 : ℝ) 20 T = t at h1 hm
  have ht : 0 < t := by linarith [h1.1]
  have hx : 3 * (203 / 4000 * r) / t ≤ 203 / 4000 := by
    rw [div_le_iff₀ ht]
    nlinarith
  have hexp : 1 - 203 / 4000 ≤ Real.exp (-3 * (203 / 4000 * r) / t) := by
    have e : -3 * (203 / 4000 * r) / t = -(3 * (203 / 4000 * r) / t) := by ring
    have := Real.add_one_le_exp (-(3 * (203 / 4000 * r) / t))
    rw [e]
    linarith
  have hge : (9 / 10 : ℝ) ≤ Real.exp (-3 * (203 / 4000 * r) / t) * (95 / 100) := by
    nlinarith
  unfold jlimitIn
  have hpos : ¬ (Real.exp (-3 * (203 / 4000 * r) / t) * (95 / 100) < 0) := by
    have := Real.exp_pos (-3 * (203 / 4000 * r) / t)
    intro hc
    nlinarith
  rw [if_neg hpos]
  split_ifs with h
  · rfl
  · exact le_antisymm (not_lt.mp h) hge

/-- C28: the Plate feedback gain, `0.95 * exp (-3 * L * roomSize / decayTime)` clamped to
[0, 0.90] (with the real exponential), is non-decreasing in the decay time for every
loop time L ≥ 0, and with L = 50.75 ms it equals exactly 0.90 for every room size in
[0.25, 1.75] and every decay time of at least 3 * roomSize seconds.  That L is the
loop time `prepare` stores, the mean of the base delays 32, 44, 57 and 70 ms, whenever
the integer sample rate lies in [32, 629985] so that no base delay is clamped; and
over the rationals the formula is the gain `processBlock` computes. -/
theorem C28_plate_gain_saturates :
    (∀ L T1 T2 r : ℝ, 0 ≤ L → T1 ≤ T2 →
      HybridPlate.feedbackGainIn Real.exp L T1 r
        ≤ HybridPlate.feedbackGainIn Real.exp L T2 r) ∧
    (∀ T r : ℝ, 1 / 4 ≤ r → r ≤ 7 / 4 → 3 * r ≤ T →
      HybridPlate.feedbackGainIn Real.exp (203 / 4000) T r = 9 / 10) ∧
    (∀ (exp : ℚ → ℚ) (L T r : ℚ),
      HybridPlate.feedbackGainIn exp L T r = HybridPlate.feedbackGain exp L T r) ∧
    (∀ (lib : DspLibrary) (parameters : ReverbProcessorParameters)
      (filter : FirstOrderTPTFilter) (shelf : IIRFilter) (lfo : LFO) (spec : ProcessSpec),
      0 < spec.numChannels → 32 ≤ truncToInt spec.sampleRate →
      truncToInt spec.sampleRate ≤ 629985 →
      ((HybridPlate.new parameters filter shelf lfo).prepare lib
        spec).estimatedLoopTimeSeconds = 203 / 4000) ∧
    examplePlate.estimatedLoopTimeSeconds = 203 / 4000 :=
  ⟨plate_gain_mono, plate_gain_saturated, plate_gain_eq, plate_loopTime,
    plate_loopTime _ _ _ _ _ _ (by decide) (by norm_num [truncToInt])
      (by norm_num [truncToInt])⟩

/-! ## The psychoacoustic damping map -/

theorem mapPsychoDamping_range (d minHz maxHz : ℝ) (h0 : 0 < minHz) (h1 : minHz ≤ maxHz) :
    minHz ≤ mapPsychoDampingIn (fun x y : ℝ => x ^ y) d minHz maxHz ∧
    mapPsychoDampingIn (fun x y : ℝ => x ^ y) d minHz maxHz ≤ maxHz := by
  simp only [mapPsychoDampingIn]
  obtain ⟨c0, c1⟩ := jlimitIn_mem (0 : ℝ) 1 d (by norm_num)
  generalize jlimitIn (0 : ℝ) 1 d = c at c0 c1
  have p0 : 0 ≤ c ^ (35 / 100 : ℝ) := Real.rpow_nonneg c0 _
  have p1 : c ^ (35 / 100 : ℝ) ≤ 1 := Real.rpow_le_one c0 c1 (by norm_num)
  have hr : 1 ≤ maxHz / minHz := by
    rw [le_div_iff₀ h0]; linarith
  have r0 : 1 ≤ (maxHz / minHz) ^ (1 - c ^ (35 / 100 : ℝ)) :=
    Real.one_le_rpow hr (by linarith)
  have r1 : (maxHz / minHz) ^ (1 - c ^ (35 / 100 : ℝ)) ≤ (maxHz / minHz) ^ (1 : ℝ) :=
    Real.rpow_le_rpow_of_exponent_le hr (by linarith)
  rw [Real.rpow_one] at r1
  constructor
  · nlinarith
  · calc minHz * (maxHz / minHz) ^ (1 - c ^ (35 / 100 : ℝ))
        ≤ minHz * (maxHz / minHz) := mul_le_mul_of_nonneg_left r1 (le_of_lt h0)
      _ = maxHz := by field_simp

theorem mapPsychoDamping_antitone (d1 d2 minHz maxHz : ℝ) (h0 : 0 < minHz)
    (h1 : minHz ≤ maxHz) (hd : d1 ≤ d2) :
    mapPsychoDampingIn (fun x y : ℝ => x ^ y) d2 minHz maxHz
      ≤ mapPsychoDampingIn (fun x y : ℝ => x ^ y) d1 minHz maxHz := by
  simp only [mapPsychoDampingIn]
  obtain ⟨c0, _⟩ := jlimitIn_mem (0 : ℝ) 1 d1 (by norm_num)
  have hm := jlimitIn_mono (0 : ℝ) 1 d1 d2 (by norm_num) hd
  generalize jlimitIn (0 : ℝ) 1 d1 = c1 at c0 hm
  generalize jlimitIn (0 : ℝ) 1 d2 = c2 at hm
  have hp : c1 ^ (35 / 100 : ℝ) ≤ c2 ^ (35 / 100 : ℝ) :=
    Real.rpow_le_rpow c0 hm (by norm_num)
  have hr : 1 ≤ maxHz / minHz := by
    rw [le_div_iff₀ h0]; linarith
  exact mul_le_mul_of_nonneg_left
    (Real.rpow_le_rpow_of_exponent_le hr (by linarith)) (le_of_lt h0)

theorem mapPsychoDamping_eq (lib : DspLibrary) (d minHz maxHz : ℚ) :
    mapPsychoDampingIn lib.pow d minHz maxHz = mapPsychoDamping lib d minHz maxHz := by
  simp only [mapPsychoDampingIn, mapPsychoDamping, jlimitIn_eq_jlimit]

/-- C29: with the real power function, `mapPsychoDamping` clamps its argument to [0, 1],
its result lies in [minHz, maxHz] (for 0 < minHz ≤ maxHz) and is non-increasing in the
argument, and it is `minHz` for every argument of at least 1.  In the engine model,
for every library whose `pow` returns 1 for base 1 and for exponent 0 (as `std::pow`
does), every damping value of at least 1, so every value of the parameter range
[500, 10000], is mapped to the cut-off 400 Hz: `PsychoOnePole::setDamping` stores
`exp (-2 pi 400 / sr)` whatever the damping, also when called by the Plate engine. -/
theorem C29_psycho_damping_constant (lib : DspLibrary) (hp1 : ∀ y, lib.pow 1 y = 1)
    (hp0 : ∀ x, lib.pow x 0 = 1) :
    (∀ d minHz maxHz : ℝ, 0 < minHz → minHz ≤ maxHz →
      minHz ≤ mapPsychoDampingIn (fun x y : ℝ => x ^ y) d minHz maxHz ∧
      mapPsychoDampingIn (fun x y : ℝ => x ^ y) d minHz maxHz ≤ maxHz) ∧
    (∀ d1 d2 minHz maxHz : ℝ, 0 < minHz → minHz ≤ maxHz → d1 ≤ d2 →
      mapPsychoDampingIn (fun x y : ℝ => x ^ y) d2 minHz maxHz
        ≤ mapPsychoDampingIn (fun x y : ℝ => x ^ y) d1 minHz maxHz) ∧
    (∀ d minHz maxHz : ℝ, 1 ≤ d →
      mapPsychoDampingIn (fun x y : ℝ => x ^ y) d minHz maxHz = minHz) ∧
    (∀ d minHz maxHz : ℚ,
      mapPsychoDampingIn lib.pow d minHz maxHz = mapPsychoDamping lib d minHz maxHz) ∧
    (∀ damping : ℚ, 1 ≤ damping → mapPsychoDamping lib damping 400 16000 = 400) ∧
    (∀ (f : PsychoOnePole) (damping : ℚ), 1 ≤ damping →
      (PsychoOnePole.setDamping lib f damping).g
        = lib.exp (-2 * (314159265359 / 100000000000) * 400 / f.sr)) ∧
    (∀ (plate : HybridPlate) (i : Fin 4), 500 ≤ plate.parameters.damping →
      plate.parameters.damping ≤ 10000 →
      ((plate.updateInternalParamsFromUserParams lib).extraDampL i).g
        = lib.exp (-2 * (314159265359 / 100000000000) * 400 / (plate.extraDampL i).sr)) := by
  have hlib : ∀ damping : ℚ, 1 ≤ damping → mapPsychoDamping lib damping 400 16000 = 400 := by
    intro damping hd
    have hc : jlimit 0 1 damping = 1 := by
      unfold jlimit
      rw [if_neg (by linarith)]
      split_ifs with h
      · rfl
      · linarith
    simp only [mapPsychoDamping, hc, hp1, sub_self, hp0, mul_one]
  refine ⟨fun d a b h0 h1 => mapPsychoDamping_range d a b h0 h1,
    fun d1 d2 a b h0 h1 hd => mapPsychoDamping_antitone d1 d2 a b h0 h1 hd, ?_,
    mapPsychoDamping_eq lib, hlib, ?_, ?_⟩
  · intro d minHz maxHz hd
    have hc : jlimitIn (0 : ℝ) 1 d = 1 := by
      unfold jlimitIn
      rw [if_neg (by linarith)]
      split_ifs with h
      · rfl
      · linarith
    simp only [mapPsychoDampingIn, hc, Real.one_rpow, sub_self, Real.rpow_zero, mul_one]
  · intro f damping hd
    simp only [PsychoOnePole.setDamping, hlib damping hd]
  · intro plate i h1 _
    simp only [HybridPlate.updateInternalParamsFromUserParams, PsychoOnePole.setDamping,
      hlib plate.parameters.damping (by linarith)]

/-- The example library whose `pow` is 1 for exponent 0 and the base otherwise. -/
theorem C29_psycho_damping_constant_witness :
    mapPsychoDamping exampleLibraryPow 500 400 16000 = 400 ∧
    mapPsychoDamping exampleLibraryPow 10000 400 16000 = 400 :=
  ⟨(C29_psycho_damping_constant exampleLibraryPow (by simp [exampleLibraryPow])
      (by simp [exampleLibraryPow])).2.2.2.2.1 500 (by norm_num),
   (C29_psycho_damping_constant exampleLibraryPow (by simp [exampleLibraryPow])
      (by simp [exampleLibraryPow])).2.2.2.2.1 10000 (by norm_num)⟩

/-! ## What `reset` leaves behind -/

theorem history_pulse (v : ℚ) (k j : Nat) :
    history (v :: List.replicate k 0) j = if j = k + 1 then v else 0 := by
  induction k using Nat.rec generalizing j with
  | zero =>
    unfold history
    rcases j with _ | _ | j <;> simp
  | succ k ih =>
    have e : v :: List.replicate (k + 1) (0 : ℚ) = (v :: List.replicate k 0) ++ [0] := by
      simp [List.replicate_succ']
    rw [e]
    rcases j with _ | _ | j
    · simp [history]
    · rw [history_snoc_one]; simp
    · rw [history_snoc_succ _ _ _ (by omega), ih]
      simp

theorem allpass_pulse_head (ap : Allpass) (numChannels ch N D : Nat) (x0 fb0 : ℚ)
    (hch : ch < numChannels) (hwf : ap.WellFormed numChannels)
    (hh : ap.delayLine.ChannelHolds ch N []) (hfb : ap.feedback[ch]? = some fb0)
    (hD : ap.delayInSamples = (D : Int)) (hD2 : D + 1 ≤ N) (k : Nat) (hk : k + 2 ≤ D) :
    ∃ a, ap.processAll ch (x0 :: List.replicate k 0) = some (a, -x0 :: List.replicate k 0) ∧
      a.WellFormed numChannels ∧
      a.delayLine.ChannelHolds ch N ((x0 + fb0) :: List.replicate k 0) ∧
      a.feedback[ch]? = some 0 ∧ a.gain = ap.gain ∧ a.delayInSamples = (D : Int) := by
  induction k using Nat.rec with
  | zero =>
    obtain ⟨a, h1, h2, h3, h4, h5, h6⟩ := allpass_processSample_spec ap numChannels ch N []
      fb0 x0 hch hwf hh hfb D hD (by omega) hD2
    have e : ([] : List ℚ) ++ [x0 + fb0] = (x0 + fb0) :: List.replicate 0 0 := by simp
    rw [e, history_pulse, if_neg (by omega)] at h1 h4
    rw [e] at h3
    refine ⟨a, ?_, h2, h3, by simpa using h4, h5, h6.trans hD⟩
    simp only [Allpass.processAll, List.replicate_zero, List.foldl_cons, List.foldl_nil, h1]
    simp
  | succ k ih =>
    obtain ⟨a0, g1, g2, g3, g4, g5, g6⟩ := ih (by omega)
    obtain ⟨a, h1, h2, h3, h4, h5, h6⟩ := allpass_processSample_spec a0 numChannels ch N
      ((x0 + fb0) :: List.replicate k 0) 0 0 hch g2 g3 g4 D g6 (by omega) hD2
    have e : ((x0 + fb0) :: List.replicate k 0) ++ [(0 : ℚ) + 0]
        = (x0 + fb0) :: List.replicate (k + 1) 0 := by
      simp [List.replicate_succ']
    rw [e, history_pulse, if_neg (by omega)] at h1 h4
    rw [e] at h3
    have e2 : x0 :: List.replicate (k + 1) (0 : ℚ) = (x0 :: List.replicate k 0) ++ [0] := by
      simp [List.replicate_succ']
    refine ⟨a, ?_, h2, h3, by simpa using h4, h5.trans g5, h6.trans g6⟩
    rw [e2, processAll_snoc, g1]
    simp only [h1]
    simp [List.replicate_succ']

theorem allpass_pulse_echo (ap : Allpass) (numChannels ch N D : Nat) (x0 fb0 : ℚ)
    (hch : ch < numChannels) (hwf : ap.WellFormed numChannels)
    (hh : ap.delayLine.ChannelHolds ch N []) (hfb : ap.feedback[ch]? = some fb0)
    (hD : ap.delayInSamples = (D : Int)) (hD1 : 2 ≤ D) (hD2 : D + 1 ≤ N) :
    ∃ a, ap.processAll ch (x0 :: List.replicate (D - 1) 0)
        = some (a, (-x0 :: List.replicate (D - 2) 0)
            ++ [(x0 + fb0) + (-0 - (x0 + fb0) * ap.gain)]) ∧
      a.WellFormed numChannels ∧ a.feedback[ch]? = some ((x0 + fb0) * ap.gain) ∧
      a.gain = ap.gain ∧ a.delayInSamples = (D : Int) ∧
      a.delayLine.numSamples = (N : Int) := by
  obtain ⟨a0, g1, g2, g3, g4, g5, g6⟩ := allpass_pulse_head ap numChannels ch N D x0 fb0 hch
    hwf hh hfb hD hD2 (D - 2) (by omega)
  obtain ⟨a, h1, h2, h3, h4, h5, h6⟩ := allpass_processSample_spec a0 numChannels ch N
    ((x0 + fb0) :: List.replicate (D - 2) 0) 0 0 hch g2 g3 g4 D g6 (by omega) hD2
  have e : ((x0 + fb0) :: List.replicate (D - 2) 0) ++ [(0 : ℚ) + 0]
      = (x0 + fb0) :: List.replicate (D - 2 + 1) 0 := by
    simp [List.replicate_succ']
  rw [e, history_pulse, if_pos (by omega)] at h1 h4
  rw [e] at h3
  have e2 : x0 :: List.replicate (D - 1) (0 : ℚ) = (x0 :: List.replicate (D - 2) 0) ++ [0] := by
    have : D - 1 = D - 2 + 1 := by omega
    rw [this]
    simp [List.replicate_succ']
  refine ⟨a, ?_, h2, by rw [h4, g5], h5.trans g5, h6.trans g6, h3.1⟩
  rw [e2, processAll_snoc, g1]
  simp only [h1, g5]

/-- C23 (refuted): `Allpass::reset` resets the delay line only, not the stored feedback.
An allpass configured as the engines do (maximum delay M, integer delay D with
2 ≤ D ≤ M, gain g with 0 < g < 1) that has processed a unit impulse and D - 1 zeros,
is reset and is then fed D zeros, returns D - 1 zeros followed by `g * (1 - g)`, which is
not zero.  The engines' `reset` also leave state behind: the Hall engine its
early-reflection and pre-delay lines, its one-pole and per-line damping filters and
the feedback of all sixteen allpasses, the Plate engine its one-pole and high-shelf
filters and the feedback of its eight allpasses. -/
theorem C23_reset_leaves_residue (M : Int) (D : Nat) (g : ℚ) (spec : ProcessSpec) (ch : Nat)
    (hg0 : 0 < g) (hg1 : g < 1) (hD : 2 ≤ D) (hM : (D : Int) ≤ M)
    (hch : ch < spec.numChannels) :
    (∃ a ys a2,
      (Allpass.configured M ((D : Int) : ℚ) g spec).processAll ch (unitImpulse (D - 1))
        = some (a, ys) ∧
      a.reset.processAll ch (List.replicate D 0)
        = some (a2, List.replicate (D - 1) 0 ++ [g * (1 - g)]) ∧
      g * (1 - g) ≠ 0) ∧
    (∀ (lib : DspLibrary) (hall : DatorroHall),
      (hall.reset lib).erL = hall.erL ∧ (hall.reset lib).erR = hall.erR ∧
      (hall.reset lib).preDelayL = hall.preDelayL ∧
      (hall.reset lib).preDelayR = hall.preDelayR ∧
      (hall.reset lib).extraDampingL = hall.extraDampingL ∧
      (hall.reset lib).extraDampingR = hall.extraDampingR ∧
      (hall.reset lib).dampingFiltersL = hall.dampingFiltersL ∧
      (hall.reset lib).dampingFiltersR = hall.dampingFiltersR ∧
      ∀ i, ((hall.reset lib).earlyL i).feedback = (hall.earlyL i).feedback ∧
        ((hall.reset lib).earlyR i).feedback = (hall.earlyR i).feedback ∧
        ((hall.reset lib).tankLAP i).feedback = (hall.tankLAP i).feedback ∧
        ((hall.reset lib).tankRAP i).feedback = (hall.tankRAP i).feedback) ∧
    (∀ (lib : DspLibrary) (plate : HybridPlate),
      (plate.reset lib).extraDampL = plate.extraDampL ∧
      (plate.reset lib).highShelfFilters = plate.highShelfFilters ∧
      ∀ i, ((plate.reset lib).earlyL i).feedback = (plate.earlyL i).feedback ∧
        ((plate.reset lib).earlyR i).feedback = (plate.earlyR i).feedback) := by
  refine ⟨?_, fun _ _ => ⟨rfl, rfl, rfl, rfl, rfl, rfl, rfl, rfl, fun _ => ⟨rfl, rfl, rfl, rfl⟩⟩,
    fun _ _ => ⟨rfl, rfl, fun _ => ⟨rfl, rfl⟩⟩⟩
  obtain ⟨hwf, hN, hdel, hgain, hfb, hhold⟩ := configured_spec M ((D : Int) : ℚ) g spec
  rw [truncToInt_natCast] at hdel
  have hNge : D + 1 ≤ (max (M + 1) 4).toNat := by
    have : (D : Int) + 1 ≤ max (M + 1) 4 := le_trans (by omega) (le_max_left _ _)
    omega
  have hfb0 : (Allpass.configured M ((D : Int) : ℚ) g spec).feedback[ch]? = some 0 := by
    rw [hfb]; simp [hch]
  have hgg : jlimit 0 1 g = g := jlimit_of_mem 0 1 g (le_of_lt hg0) (le_of_lt hg1)
  obtain ⟨a, e1, w1, f1, g1, d1, n1⟩ := allpass_pulse_echo _ spec.numChannels ch _ D 1 0 hch hwf
    (hhold ch hch) hfb0 hdel hD hNge
  rw [hgain, hgg] at f1 g1
  have w2 : a.reset.WellFormed spec.numChannels := allpass_wellFormed_reset _ _ w1
  have h2 := channelHolds_reset a.delayLine spec.numChannels w1.1 ch hch
  rw [n1, Int.toNat_natCast] at h2
  have f2 : a.reset.feedback[ch]? = some ((1 + 0) * g) := f1
  obtain ⟨a2, e2, _, _, _, _, _⟩ := allpass_pulse_echo a.reset spec.numChannels ch _ D 0
    ((1 + 0) * g) hch w2 h2 f2 d1 hD hNge
  have eg : a.reset.gain = g := g1
  rw [eg] at e2
  have hin : (0 : ℚ) :: List.replicate (D - 1) 0 = List.replicate D 0 := by
    have : D = D - 1 + 1 := by omega
    conv_rhs => rw [this, List.replicate_succ]
  have hout : ((-(0 : ℚ)) :: List.replicate (D - 2) 0)
      ++ [(0 + (1 + 0) * g) + (-0 - (0 + (1 + 0) * g) * g)]
      = List.replicate (D - 1) 0 ++ [g * (1 - g)] := by
    have : D - 1 = D - 2 + 1 := by omega
    rw [this, List.replicate_succ]
    simp
    ring
  rw [hin, hout] at e2
  refine ⟨a, _, a2, e1, e2, ?_⟩
  exact mul_ne_zero (ne_of_gt hg0) (by linarith)

/-- Gain 1/2 and delay 2 on a mono line of maximum delay 8. -/
theorem C23_reset_leaves_residue_witness :
    ∃ a ys a2,
      (Allpass.configured 8 ((2 : Int) : ℚ) (1 / 2) ⟨44100, 4, 1⟩).processAll 0
        (unitImpulse (2 - 1)) = some (a, ys) ∧
      a.reset.processAll 0 (List.replicate 2 0)
        = some (a2, List.replicate (2 - 1) 0 ++ [(1 / 2 : ℚ) * (1 - 1 / 2)]) ∧
      (1 / 2 : ℚ) * (1 - 1 / 2) ≠ 0 :=
  (C23_reset_leaves_residue 8 2 (1 / 2) ⟨44100, 4, 1⟩ 0 (by norm_num) (by norm_num)
    (by decide) (by decide) (by decide)).1

/-! ## Hot swap while the audio thread is inside `process` -/

/-- C24 (refuted): the slot keeps at most one displaced module alive.  When the audio
thread has loaded the observer pointer of the owned module A and, before it calls
through that pointer, the control thread performs two swaps (`setModule (B)` then
`setModule (C)`) or a `clearModule` followed by `setModule (B)`, as
`setStateInformation` does on every slot, the second call destroys A: the audio
thread's call goes through the address of a destroyed module. -/
theorem C24_swap_during_process_uses_destroyed_module (s : ModuleSlot) (A B C : EffectModule)
    (hown : s.ownedModule = some A) (hact : s.activeModule = some A.addr)
    (hB : B.addr ≠ A.addr) (hC : C.addr ≠ A.addr) :
    ((SlotRun.run ⟨s, none, []⟩
        [SlotEvent.audioLoad, SlotEvent.control (SlotOp.setModule (some B)),
          SlotEvent.control (SlotOp.setModule (some C)), SlotEvent.audioCall]).calls
        = [(A.addr, none)] ∧
      A.addr ∈ (SlotRun.run ⟨s, none, []⟩
        [SlotEvent.audioLoad, SlotEvent.control (SlotOp.setModule (some B)),
          SlotEvent.control (SlotOp.setModule (some C)), SlotEvent.audioCall]).slot.destroyed) ∧
    ((SlotRun.run ⟨s, none, []⟩
        [SlotEvent.audioLoad, SlotEvent.control SlotOp.clearModule,
          SlotEvent.control (SlotOp.setModule (some B)), SlotEvent.audioCall]).calls
        = [(A.addr, none)] ∧
      A.addr ∈ (SlotRun.run ⟨s, none, []⟩
        [SlotEvent.audioLoad, SlotEvent.control SlotOp.clearModule,
          SlotEvent.control (SlotOp.setModule (some B)), SlotEvent.audioCall]).slot.destroyed) := by
  have ha : ∀ (c : Prop) [Decidable c] (m : EffectModule) (sp : ProcessSpec) (id : String),
      ((if c then m.prepare sp else m).setID id).addr = m.addr := by
    intro c _ m sp id
    split_ifs <;> rfl
  constructor <;>
  simp [SlotRun.run, SlotRun.step, ModuleSlot.step, ModuleSlot.setModule, ModuleSlot.clearModule,
    ModuleSlot.initModule, ModuleSlot.deref, destroyedBy, hact, hown, ha, hB, hC]

theorem C24_swap_during_process_uses_destroyed_module_witness :
    (SlotRun.run ⟨(ModuleSlot.new "chain_0.slot_0").setModule (some (EffectModule.fresh 1 ModuleType.Delay)),
        none, []⟩
      [SlotEvent.audioLoad,
        SlotEvent.control (SlotOp.setModule (some (EffectModule.fresh 2 ModuleType.Delay))),
        SlotEvent.control (SlotOp.setModule (some (EffectModule.fresh 3 ModuleType.Delay))),
        SlotEvent.audioCall]).calls = [(1, none)] :=
  (C24_swap_during_process_uses_destroyed_module
    ((ModuleSlot.new "chain_0.slot_0").setModule (some (EffectModule.fresh 1 ModuleType.Delay)))
    ((EffectModule.fresh 1 ModuleType.Delay).setID "chain_0.slot_0")
    (EffectModule.fresh 2 ModuleType.Delay) (EffectModule.fresh 3 ModuleType.Delay)
    rfl rfl (by decide) (by decide)).1.1

/-! ## Parameter binding across save and restore -/

theorem chainState_congr (p q : ADSREchoAudioProcessor) (h : p.slots = q.slots) (j : Nat) :
    p.chainState j = q.chainState j := by
  simp only [ADSREchoAudioProcessor.chainState, ADSREchoAudioProcessor.slotRef, h]

theorem getStateInformation_modules_congr (p q : ADSREchoAudioProcessor) (h : p.slots = q.slots) :
    p.getStateInformation.modules = q.getStateInformation.modules := by
  simp only [ADSREchoAudioProcessor.getStateInformation, chainState_congr p q h]

theorem setStateInformation_slots (p : ADSREchoAudioProcessor) (st st2 : PluginState)
    (h : st.modules = st2.modules) :
    (p.setStateInformation (some st)).slots = (p.setStateInformation (some st2)).slots := by
  simp only [ADSREchoAudioProcessor.setStateInformation, h]

/-- C25 (refuted): after the Delay at position 0 of chain 0 is removed and the move is
applied, the Reverb stands at position 0 in the slot object named "chain_0.slot_1"
and reads its parameters under that prefix.  `getStateInformation` records the
module under its position, 0, and `setStateInformation` on a newly constructed
processor installs it in the slot at position 0, which is named "chain_0.slot_0":
the restored Reverb is bound to another parameter prefix than the one it had. -/
theorem C25_restore_rebinds_parameters (process : EffectModule → AudioBuffer → AudioBuffer)
    (decibelsToGain : ℚ → ℚ) (buffer : AudioBuffer) :
    (exampleReordered process decibelsToGain buffer).topology =
      [[some ModuleType.Reverb, none, none, none, none, none, none, none],
       [none, none, none, none, none, none, none, none]] ∧
    (exampleReordered process decibelsToGain buffer).moduleIDs =
      [[some "chain_0.slot_1", none, none, none, none, none, none, none],
       [none, none, none, none, none, none, none, none]] ∧
    (exampleReordered process decibelsToGain buffer).slotIDs.getD 0 [] =
      [some "chain_0.slot_1", some "chain_0.slot_2", some "chain_0.slot_3",
       some "chain_0.slot_4", some "chain_0.slot_5", some "chain_0.slot_6",
       some "chain_0.slot_7", some "chain_0.slot_0"] ∧
    ((ADSREchoAudioProcessor.new ⟨fun _ => 0, fun _ => 0⟩).setStateInformation
        (some (exampleReordered process decibelsToGain buffer).getStateInformation)).topology =
      [[some ModuleType.Reverb, none, none, none, none, none, none, none],
       [none, none, none, none, none, none, none, none]] ∧
    ((ADSREchoAudioProcessor.new ⟨fun _ => 0, fun _ => 0⟩).setStateInformation
        (some (exampleReordered process decibelsToGain buffer).getStateInformation)).moduleIDs =
      [[some "chain_0.slot_0", none, none, none, none, none, none, none],
       [none, none, none, none, none, none, none, none]] := by
  have hs : (exampleReordered process decibelsToGain buffer).slots
      = (exampleProcessor.removeModule 0 0).executeSlotMove.slots := by
    rw [exampleReordered, (processBlock_slots _ _ _ _ _ _).1]
    rfl
  have hr := setStateInformation_slots (ADSREchoAudioProcessor.new ⟨fun _ => 0, fun _ => 0⟩) _ _
    (getStateInformation_modules_congr _ _ hs)
  refine ⟨?_, ?_, ?_, ?_, ?_⟩
  · rw [ADSREchoAudioProcessor.topology, hs]; decide
  · rw [ADSREchoAudioProcessor.moduleIDs, hs]; decide
  · rw [ADSREchoAudioProcessor.slotIDs, hs]; decide
  · rw [ADSREchoAudioProcessor.topology, hr]; decide
  · rw [ADSREchoAudioProcessor.moduleIDs, hr]; decide

/-! ## Packed chains -/

theorem chainSlotEmpty_set (chain : List (Option ModuleSlot)) (i : Nat) (s : ModuleSlot)
    (hi : i < chain.length) (k : Nat) :
    chainSlotEmpty (chain.set i (some s)) k =
      if k = i then s.get.isNone else chainSlotEmpty chain k := by
  unfold chainSlotEmpty
  rw [List.getElem?_set]
  by_cases hk : k = i
  · subst hk
    simp [hi]
  · have : ¬ i = k := fun h => hk h.symm
    simp [hk, this]

theorem chainSlotEmpty_eraseIdx_append (chain : List (Option ModuleSlot)) (i : Nat)
    (e : ModuleSlot) (he : e.get = none) (hi : i < chain.length) (k : Nat) :
    chainSlotEmpty (chain.eraseIdx i ++ [some e]) k =
      if k < i then chainSlotEmpty chain k else chainSlotEmpty chain (k + 1) := by
  have hlen : (chain.eraseIdx i).length = chain.length - 1 := by
    rw [List.length_eraseIdx, if_pos hi]
  unfold chainSlotEmpty
  by_cases h1 : k < (chain.eraseIdx i).length
  · rw [List.getElem?_append_left h1, List.getElem?_eraseIdx]
    split_ifs <;> rfl
  · rw [List.getElem?_append_right (by omega)]
    have h2 : ¬ k < i := by omega
    have h3 : chain[k + 1]? = none := List.getElem?_eq_none (by omega)
    rw [if_neg h2, h3]
    by_cases h4 : k - (chain.eraseIdx i).length = 0
    · rw [h4]; simp [he]
    · have : [some e][k - (chain.eraseIdx i).length]? = none :=
        List.getElem?_eq_none (by simp; omega)
      rw [this]

theorem setModule_get_isNone (s : ModuleSlot) (m : EffectModule) :
    (s.setModule (some m)).get.isNone = false := by
  simp [ModuleSlot.setModule, ModuleSlot.get, ModuleSlot.initModule]

theorem chainSettled_set_occupied (chain : List (Option ModuleSlot)) (i : Nat) (s : ModuleSlot)
    (h : ChainSettled chain) (hi : i < chain.length) (hs : s.get.isNone = false)
    (hlow : ∀ j, j < i → chainSlotEmpty chain j = false) :
    ChainSettled (chain.set i (some s)) := by
  obtain ⟨hlen, hnn, hp⟩ := h
  refine ⟨by simpa using hlen, ?_, ?_⟩
  · intro slot hslot
    rcases List.mem_or_eq_of_mem_set hslot with h1 | h1
    · exact hnn slot h1
    · rw [h1]; simp
  · intro j hj a ha hea
    rw [List.length_set] at hj
    rw [chainSlotEmpty_set chain i s hi] at hea ⊢
    by_cases hai : a = i
    · rw [if_pos hai, hs] at hea
      cases hea
    · rw [if_neg hai] at hea
      have hia : i < a := by
        by_contra hcon
        have := hlow a (by omega)
        rw [this] at hea
        cases hea
      rw [if_neg (by omega)]
      exact hp j hj a ha hea

theorem chainSettled_eraseIdx_append (chain : List (Option ModuleSlot)) (i : Nat)
    (e : ModuleSlot) (he : e.get = none) (h : ChainSettled chain) (hi : i < chain.length) :
    ChainSettled (chain.eraseIdx i ++ [some e]) := by
  obtain ⟨hlen, hnn, hp⟩ := h
  have hlen2 : (chain.eraseIdx i ++ [some e]).length = chain.length := by
    rw [List.length_append, List.length_eraseIdx, if_pos hi]
    simp
    omega
  refine ⟨by rw [hlen2]; exact hlen, ?_, ?_⟩
  · intro slot hslot
    rcases List.mem_append.mp hslot with h1 | h1
    · exact hnn slot (List.mem_of_mem_eraseIdx h1)
    · simp at h1
      rw [h1]; simp
  · intro j hj a ha hea
    rw [hlen2] at hj
    rw [chainSlotEmpty_eraseIdx_append chain i e he hi] at hea ⊢
    by_cases hj1 : j + 1 < chain.length
    · by_cases ha1 : a < i
      · rw [if_pos ha1] at hea
        by_cases hj2 : j < i
        · rw [if_pos hj2]
          exact hp j (by omega) a ha hea
        · rw [if_neg hj2]
          exact hp (j + 1) hj1 a (by omega) hea
      · rw [if_neg ha1] at hea
        rw [if_neg (by omega)]
        exact hp (j + 1) hj1 (a + 1) (by omega) hea
    · have h3 : chain[j + 1]? = none := List.getElem?_eq_none (by omega)
      have h4 : ¬ j < i := by omega
      rw [if_neg h4]
      simp [chainSlotEmpty, h3]

theorem chainSettled_vecModify (v : List (List (Option ModuleSlot))) (c : Int)
    (f : List (Option ModuleSlot) → List (Option ModuleSlot))
    (hv : ∀ ch ∈ v, ChainSettled ch) (hf : ∀ ch, vecGet? v c = some ch → ChainSettled (f ch)) :
    (vecModify v c f).length = v.length ∧ ∀ ch ∈ vecModify v c f, ChainSettled ch := by
  unfold vecModify
  split_ifs with h0
  · refine ⟨by simp, ?_⟩
    intro ch hch
    obtain ⟨k, hk⟩ := List.mem_iff_getElem?.mp hch
    rw [List.getElem?_modify] at hk
    cases hvk : v[k]? with
    | none => rw [hvk] at hk; cases hk
    | some x =>
      rw [hvk] at hk
      simp only [Option.map_eq_map, Option.map_some', Option.some.injEq] at hk
      by_cases hck : c.toNat = k
      · rw [if_pos hck] at hk
        rw [← hk]
        apply hf
        rw [vecGet?, if_pos h0, hck, hvk]
      · rw [if_neg hck] at hk
        rw [← hk]
        exact hv x (List.mem_iff_getElem?.mpr ⟨k, hvk⟩)
  · exact ⟨rfl, hv⟩

theorem findEmptySlot_some (chain : List (Option ModuleSlot)) (n0 k : Nat) (slot : ModuleSlot)
    (hnn : ∀ s ∈ chain, s ≠ none) (h : findEmptySlot chain n0 = some (k, slot)) :
    ∃ i, k = n0 + i ∧ chain[i]? = some (some slot) ∧ slot.get = none ∧
      ∀ j, j < i → chainSlotEmpty chain j = false := by
  induction chain generalizing n0 with
  | nil => simp [findEmptySlot] at h
  | cons a rest ih =>
    cases a with
    | none => exact absurd rfl (hnn none (by simp))
    | some s =>
      cases hg : s.get with
      | none =>
        simp only [findEmptySlot, hg, Option.isNone_none, if_true, Option.some.injEq,
          Prod.mk.injEq] at h
        refine ⟨0, by omega, by simp [h.2], by rw [← h.2]; exact hg, ?_⟩
        intro j hj; omega
      | some m =>
        simp only [findEmptySlot, hg, Option.isNone_some, Bool.false_eq_true, if_false] at h
        obtain ⟨i, hk, hi, hs, hlow⟩ :=
          ih (n0 + 1) (fun x hx => hnn x (List.mem_cons_of_mem _ hx)) h
        refine ⟨i + 1, by omega, by simpa using hi, hs, ?_⟩
        intro j hj
        cases j with
        | zero => simp [chainSlotEmpty, hg]
        | succ j =>
          have := hlow j (by omega)
          simpa [chainSlotEmpty] using this

theorem settled_addModule (p : ADSREchoAudioProcessor) (c : Int) (t : ModuleType)
    (h : p.Settled) : (p.addModule c t).Settled := by
  obtain ⟨hlen, hch, hmr⟩ := h
  unfold ADSREchoAudioProcessor.addModule
  split_ifs with hfull
  · exact ⟨hlen, hch, hmr⟩
  · cases hfind : findEmptySlot ((vecGet? p.slots c).getD []) 0 with
    | none => exact ⟨hlen, hch, hmr⟩
    | some r =>
      obtain ⟨k, slot⟩ := r
      have hm := chainSettled_vecModify p.slots c
        (fun ch => vecModify ch (k : Int)
          (Option.map fun s => s.setModule (some (makeModule p.nextAddr t)))) hch (by
          intro ch hc
          rw [hc] at hfind
          obtain ⟨i, hk, hi, hs, hlow⟩ := findEmptySlot_some ch 0 k slot (hch ch (by
            unfold vecGet? at hc
            split_ifs at hc
            exact List.mem_iff_getElem?.mpr ⟨_, hc⟩)).2.1 hfind
          have hki : k = i := by omega
          subst hki
          have hilt : k < ch.length := by
            by_contra hcon
            rw [List.getElem?_eq_none (by omega)] at hi
            cases hi
          have hc2 : ChainSettled ch := hch ch (by
            unfold vecGet? at hc
            split_ifs at hc
            exact List.mem_iff_getElem?.mpr ⟨_, hc⟩)
          have := chainSettled_set_occupied ch k
            (slot.setModule (some (makeModule p.nextAddr t))) hc2 hilt
            (setModule_get_isNone _ _) hlow
          simpa [vecModify_natCast, List.modify_eq_set, hi] using this)
      refine ⟨?_, ?_, ?_⟩
      · simpa [ADSREchoAudioProcessor.installModule, ADSREchoAudioProcessor.updateSlot,
          ADSREchoAudioProcessor.setSlotDefaults, hlen] using hm.1
      · simpa [ADSREchoAudioProcessor.installModule, ADSREchoAudioProcessor.updateSlot,
          ADSREchoAudioProcessor.setSlotDefaults] using hm.2
      · simpa [ADSREchoAudioProcessor.installModule, ADSREchoAudioProcessor.updateSlot,
          ADSREchoAudioProcessor.setSlotDefaults] using hmr

theorem mem_of_vecGet? {α : Type} (v : List α) (c : Int) (x : α) (h : vecGet? v c = some x) :
    x ∈ v ∧ ∃ n : Nat, c = (n : Int) ∧ v[n]? = some x := by
  unfold vecGet? at h
  split_ifs at h with h0
  exact ⟨List.mem_iff_getElem?.mpr ⟨_, h⟩, c.toNat, by omega, h⟩

theorem slotRef_some (p : ADSREchoAudioProcessor) (c i : Int) (s : ModuleSlot)
    (h : p.slotRef c i = some s) :
    ∃ (cn k : Nat) (chain : List (Option ModuleSlot)), c = (cn : Int) ∧ i = (k : Int) ∧
      p.slots[cn]? = some chain ∧ chain[k]? = some (some s) := by
  unfold ADSREchoAudioProcessor.slotRef at h
  cases hc : vecGet? p.slots c with
  | none => rw [hc] at h; cases h
  | some chain =>
    simp only [hc] at h
    cases hs : vecGet? chain i with
    | none => simp only [hs] at h; cases h
    | some slot =>
      simp only [hs] at h
      cases slot with
      | none => cases h
      | some s2 =>
        simp only [Option.some.injEq] at h
        subst h
        obtain ⟨_, cn, hcn, hcc⟩ := mem_of_vecGet? _ _ _ hc
        obtain ⟨_, k, hk, hkk⟩ := mem_of_vecGet? _ _ _ hs
        exact ⟨cn, k, chain, hcn, hk, hcc, hkk⟩

theorem settled_changeModuleType (p : ADSREchoAudioProcessor) (c i : Int) (t : ModuleType)
    (h : p.Settled) : (p.changeModuleType c i t).Settled := by
  obtain ⟨hlen, hch, hmr⟩ := h
  unfold ADSREchoAudioProcessor.changeModuleType
  cases hr : p.slotRef c i with
  | none => exact ⟨hlen, hch, hmr⟩
  | some s =>
    simp only []
    split_ifs with hempty
    · exact ⟨hlen, hch, hmr⟩
    · obtain ⟨cn, k, chain, hc, hi, hcc, hkk⟩ := slotRef_some p c i s hr
      subst hc; subst hi
      have hklt : k < chain.length := by
        by_contra hcon
        rw [List.getElem?_eq_none (by omega)] at hkk
        cases hkk
      have hm := chainSettled_vecModify p.slots (cn : Int)
        (fun ch => vecModify ch (k : Int)
          (Option.map fun s => s.setModule (some (makeModule p.nextAddr t)))) hch (by
          intro ch hc
          rw [vecGet?_natCast, hcc] at hc
          simp only [Option.some.injEq] at hc
          subst hc
          have hc2 : ChainSettled chain := hch chain (List.mem_iff_getElem?.mpr ⟨_, hcc⟩)
          have hp := hc2.2.2
          have hne : chainSlotEmpty chain k = false := by
            simp only [chainSlotEmpty, hkk]
            cases hg : s.get with
            | none => simp [hg] at hempty
            | some m => rfl
          have := chainSettled_set_occupied chain k
            (s.setModule (some (makeModule p.nextAddr t))) hc2 hklt
            (setModule_get_isNone _ _) (by
              intro j hj
              by_contra hcon
              have hj2 : chainSlotEmpty chain j = true := by simpa using hcon
              have := hp k hklt j hj hj2
              rw [hne] at this
              cases this)
          simpa [vecModify_natCast, List.modify_eq_set, hkk] using this)
      refine ⟨?_, ?_, ?_⟩
      · simpa [ADSREchoAudioProcessor.installModule, ADSREchoAudioProcessor.updateSlot, hlen]
          using hm.1
      · simpa [ADSREchoAudioProcessor.installModule, ADSREchoAudioProcessor.updateSlot] using hm.2
      · simpa [ADSREchoAudioProcessor.installModule, ADSREchoAudioProcessor.updateSlot] using hmr

theorem processBlock_moveRequested (process : EffectModule → AudioBuffer → AudioBuffer)
    (decibelsToGain : ℚ → ℚ) (totalNumInputChannels totalNumOutputChannels : Nat)
    (p : ADSREchoAudioProcessor) (buffer : AudioBuffer) :
    (ADSREchoAudioProcessor.processBlock process decibelsToGain totalNumInputChannels
        totalNumOutputChannels p buffer).1.moveRequested = false := by
  unfold ADSREchoAudioProcessor.processBlock
  simp only []
  split_ifs with h1 h2 <;>
    simp [forRange, NUM_CHAINS, ADSREchoAudioProcessor.processChain, List.range_succ,
      ADSREchoAudioProcessor.executeSlotMove] <;> simpa using h1

theorem settled_processBlock (process : EffectModule → AudioBuffer → AudioBuffer)
    (decibelsToGain : ℚ → ℚ) (totalNumInputChannels totalNumOutputChannels : Nat)
    (p : ADSREchoAudioProcessor) (buffer : AudioBuffer) (h : p.Settled) :
    (ADSREchoAudioProcessor.processBlock process decibelsToGain totalNumInputChannels
        totalNumOutputChannels p buffer).1.Settled := by
  obtain ⟨hlen, hch, hmr⟩ := h
  have hs := (processBlock_slots process decibelsToGain totalNumInputChannels
    totalNumOutputChannels p buffer).1
  rw [hmr] at hs
  simp only [Bool.false_eq_true, if_false] at hs
  refine ⟨by rw [hs]; exact hlen, by rw [hs]; exact hch, processBlock_moveRequested _ _ _ _ _ _⟩

theorem moveChain_cleared_to_end (chain : List (Option ModuleSlot))
    (hlen : chain.length = MAX_SLOTS) (k : Nat) (hk : k < chain.length) (e : Option ModuleSlot) :
    moveChain (chain.set k e) (k : Int) ((MAX_SLOTS : Int) - 1) = chain.eraseIdx k ++ [e] := by
  obtain ⟨a0, a1, a2, a3, a4, a5, a6, a7, rfl⟩ := list_length_eight chain hlen
  have hk8 : k < 8 := by simpa using hk
  interval_cases k <;>
    simp [moveChain, isPositiveAndBelow, MAX_SLOTS, shiftLeft, shiftRight, moveAssign,
      List.eraseIdx]

theorem processBlock_removeModule_slots (process : EffectModule → AudioBuffer → AudioBuffer)
    (decibelsToGain : ℚ → ℚ) (totalNumInputChannels totalNumOutputChannels : Nat)
    (p : ADSREchoAudioProcessor) (buffer : AudioBuffer) (c k : Nat)
    (chain : List (Option ModuleSlot)) (s : ModuleSlot) (m : EffectModule)
    (hc : p.slots[c]? = some chain) (hlen : chain.length = MAX_SLOTS)
    (hk : chain[k]? = some (some s)) (hs : s.get = some m) :
    (ADSREchoAudioProcessor.processBlock process decibelsToGain totalNumInputChannels
        totalNumOutputChannels (p.removeModule (c : Int) (k : Int)) buffer).1.slots
      = p.slots.set c (chain.eraseIdx k ++ [some s.clearModule]) := by
  have hklt : k < chain.length := by
    by_contra hcon
    rw [List.getElem?_eq_none (by omega)] at hk
    cases hk
  have hr : p.slotRef (c : Int) (k : Int) = some s := by
    simp [ADSREchoAudioProcessor.slotRef, vecGet?_natCast, hc, hk]
  have hrm : p.removeModule (c : Int) (k : Int) =
      ADSREchoAudioProcessor.requestSlotMove
        { p.updateSlot (c : Int) (k : Int) ModuleSlot.clearModule with
          numModules := vecModify (p.updateSlot (c : Int) (k : Int)
            ModuleSlot.clearModule).numModules (c : Int) (· - 1) }
        (c : Int) (k : Int) ((MAX_SLOTS : Int) - 1) := by
    simp [ADSREchoAudioProcessor.removeModule, hr, hs]
  have hclt : c < p.slots.length := by
    by_contra hcon
    rw [List.getElem?_eq_none (by omega)] at hc
    cases hc
  have hmod : chain.modify (Option.map ModuleSlot.clearModule) k
      = chain.set k (some s.clearModule) := by
    apply List.ext_getElem?
    intro n
    rw [List.getElem?_modify, List.getElem?_set]
    by_cases hn : k = n
    · subst hn
      simp [hk, hklt]
    · simp [hn]
  rw [hrm, processBlock_after_request]
  apply List.ext_getElem?
  intro n
  simp only [ADSREchoAudioProcessor.updateSlot, vecModify_natCast, List.getElem?_modify,
    List.getElem?_set]
  by_cases hn : c = n
  · subst hn
    simp only [hc, hclt, if_true, Option.map_eq_map, Option.map_some', hmod]
    rw [moveChain_cleared_to_end chain hlen k hklt]
  · simp [hn]

theorem filterMap_eraseIdx {α β : Type} (g : α → Option β) (l : List α) (k : Nat)
    (h : ∀ j, j ≤ k → ∀ a, l[j]? = some a → (g a).isSome = true) :
    (l.eraseIdx k).filterMap g = (l.filterMap g).eraseIdx k := by
  induction l generalizing k with
  | nil => simp
  | cons a t ih =>
    have ha := h 0 (by omega) a (by simp)
    obtain ⟨b, hb⟩ := Option.isSome_iff_exists.mp ha
    cases k with
    | zero => simp [List.filterMap_cons, hb]
    | succ k =>
      have := ih k (fun j hj x hx => h (j + 1) (by omega) x (by simpa using hx))
      simp [List.filterMap_cons, hb, this]

theorem filterMap_getElem?_of_kept {α β : Type} (g : α → Option β) (l : List α) (k : Nat)
    (h : ∀ j, j ≤ k → ∀ a, l[j]? = some a → (g a).isSome = true) :
    (l.filterMap g)[k]? = (l[k]?).bind g := by
  induction l generalizing k with
  | nil => simp
  | cons a t ih =>
    have ha := h 0 (by omega) a (by simp)
    obtain ⟨b, hb⟩ := Option.isSome_iff_exists.mp ha
    cases k with
    | zero => simp [List.filterMap_cons, hb]
    | succ k =>
      have := ih k (fun j hj x hx => h (j + 1) (by omega) x (by simpa using hx))
      simp [List.filterMap_cons, hb, this]

theorem occupiedModules_eraseIdx_append (chain : List (Option ModuleSlot)) (k : Nat)
    (s e : ModuleSlot) (m : EffectModule) (hp : chainPacked chain)
    (hk : chain[k]? = some (some s)) (hs : s.get = some m) (he : e.get = none) :
    occupiedModules (chain.eraseIdx k ++ [some e]) = (occupiedModules chain).eraseIdx k ∧
    (occupiedModules chain)[k]? = some m := by
  have hklt : k < chain.length := by
    by_contra hcon
    rw [List.getElem?_eq_none (by omega)] at hk
    cases hk
  have hne : chainSlotEmpty chain k = false := by simp [chainSlotEmpty, hk, hs]
  have hemp : ∀ j, j ≤ k → chainSlotEmpty chain j = false := by
    intro j hj
    by_cases hjk : j = k
    · rw [hjk]; exact hne
    · by_contra hcon
      have h2 : chainSlotEmpty chain j = true := by simpa using hcon
      have := hp k hklt j (by omega) h2
      rw [hne] at this
      cases this
  constructor
  · unfold occupiedModules
    rw [List.filterMap_append, filterMap_eraseIdx]
    · simp [he]
    · intro j hj a ha
      have hje := hemp j hj
      simp only [chainSlotEmpty, ha] at hje
      cases a with
      | none => cases hje
      | some s2 =>
        simp only at hje ⊢
        cases hg : s2.get with
        | none => rw [hg] at hje; cases hje
        | some _ => rfl
  · unfold occupiedModules
    rw [filterMap_getElem?_of_kept, hk]
    · simp [hs]
    · intro j hj a ha
      have hje := hemp j hj
      simp only [chainSlotEmpty, ha] at hje
      cases a with
      | none => cases hje
      | some s2 =>
        simp only at hje ⊢
        cases hg : s2.get with
        | none => rw [hg] at hje; cases hje
        | some _ => rfl

theorem settled_removeModule_processBlock (process : EffectModule → AudioBuffer → AudioBuffer)
    (decibelsToGain : ℚ → ℚ) (totalNumInputChannels totalNumOutputChannels : Nat)
    (p : ADSREchoAudioProcessor) (c i : Int) (buffer : AudioBuffer) (h : p.Settled) :
    (ADSREchoAudioProcessor.processBlock process decibelsToGain totalNumInputChannels
        totalNumOutputChannels (p.removeModule c i) buffer).1.Settled := by
  cases hr : p.slotRef c i with
  | none =>
    have : p.removeModule c i = p := by simp [ADSREchoAudioProcessor.removeModule, hr]
    rw [this]
    exact settled_processBlock _ _ _ _ _ _ h
  | some s =>
    cases hg : s.get with
    | none =>
      have : p.removeModule c i = p := by simp [ADSREchoAudioProcessor.removeModule, hr, hg]
      rw [this]
      exact settled_processBlock _ _ _ _ _ _ h
    | some m =>
      obtain ⟨cn, k, chain, hc, hi, hcc, hkk⟩ := slotRef_some p c i s hr
      subst hc; subst hi
      obtain ⟨hlen, hch, hmr⟩ := h
      have hc2 : ChainSettled chain := hch chain (List.mem_iff_getElem?.mpr ⟨_, hcc⟩)
      have hklt : k < chain.length := by
        by_contra hcon
        rw [List.getElem?_eq_none (by omega)] at hkk
        cases hkk
      have hs := processBlock_removeModule_slots process decibelsToGain totalNumInputChannels
        totalNumOutputChannels p buffer cn k chain s m hcc hc2.1 hkk hg
      refine ⟨?_, ?_, processBlock_moveRequested _ _ _ _ _ _⟩
      · rw [hs, List.length_set]; exact hlen
      · intro ch hmem
        rw [hs] at hmem
        rcases List.mem_or_eq_of_mem_set hmem with h1 | h1
        · exact hch ch h1
        · rw [h1]
          exact chainSettled_eraseIdx_append chain k s.clearModule rfl hc2 hklt

theorem settled_new (params : ParameterState) : (ADSREchoAudioProcessor.new params).Settled := by
  refine ⟨by simp [ADSREchoAudioProcessor.new], ?_, rfl⟩
  intro chain hchain
  simp only [ADSREchoAudioProcessor.new, NUM_CHAINS, MAX_SLOTS, List.mem_map, List.mem_range] at hchain
  obtain ⟨j, _, rfl⟩ := hchain
  refine ⟨by simp [MAX_SLOTS], by simp, ?_⟩
  intro b hb a ha hea
  simp only [List.length_map, List.length_range] at hb
  simp [chainSlotEmpty, List.getElem?_map, List.getElem?_range hb, ModuleSlot.new, ModuleSlot.get]

theorem settled_edits (process : EffectModule → AudioBuffer → AudioBuffer)
    (decibelsToGain : ℚ → ℚ) (totalNumInputChannels totalNumOutputChannels : Nat) :
    ∀ (ops : List EditOp) (p : ADSREchoAudioProcessor), p.Settled →
      processedAfterRemove ops = true →
      (p.edits process decibelsToGain totalNumInputChannels totalNumOutputChannels ops).Settled
  | [], _, hp, _ => hp
  | EditOp.addModule c t :: rest, p, hp, h =>
      settled_edits process decibelsToGain totalNumInputChannels totalNumOutputChannels rest _
        (settled_addModule p c t hp) (by simpa [processedAfterRemove] using h)
  | EditOp.changeModuleType c i t :: rest, p, hp, h =>
      settled_edits process decibelsToGain totalNumInputChannels totalNumOutputChannels rest _
        (settled_changeModuleType p c i t hp) (by simpa [processedAfterRemove] using h)
  | EditOp.process b :: rest, p, hp, h =>
      settled_edits process decibelsToGain totalNumInputChannels totalNumOutputChannels rest _
        (settled_processBlock process decibelsToGain totalNumInputChannels
          totalNumOutputChannels p b hp) (by simpa [processedAfterRemove] using h)
  | EditOp.removeModule c i :: EditOp.process b :: rest, p, hp, h =>
      settled_edits process decibelsToGain totalNumInputChannels totalNumOutputChannels rest _
        (settled_removeModule_processBlock process decibelsToGain totalNumInputChannels
          totalNumOutputChannels p c i b hp) (by simpa [processedAfterRemove] using h)
  | [EditOp.removeModule _ _], _, _, h => by simp [processedAfterRemove] at h
  | EditOp.removeModule _ _ :: EditOp.addModule _ _ :: _, _, _, h => by
      simp [processedAfterRemove] at h
  | EditOp.removeModule _ _ :: EditOp.removeModule _ _ :: _, _, _, h => by
      simp [processedAfterRemove] at h
  | EditOp.removeModule _ _ :: EditOp.changeModuleType _ _ _ :: _, _, _, h => by
      simp [processedAfterRemove] at h


/-! ## The delay effect: pop before push -/

theorem popSample_of_channelHolds (dl : DelayLineWithSampleAccess) (N : Nat) (xs : List ℚ)
    (D : Nat) (hD1 : 1 ≤ D) (hDN : D ≤ N) (h : dl.ChannelHolds 0 N xs)
    (hd : dl.delayInSamples = (D : Int)) :
    dl.popSample 0 =
      ({ dl with readPosition :=
            dl.readPosition.set 0 (((xs.length + N - D) % N : Nat) : Int) },
        some (history xs D)) := by
  obtain ⟨hn, chan, hb, hl, hw, hcell⟩ := h
  have e1 : ((xs.length % N : Nat) : Int) - (D : Int) + (N : Int)
      = ((xs.length % N + (N - D) : Nat) : Int) := by omega
  have i1 : (xs.length % N + (N - D)) % N = (xs.length + N - D) % N := by
    rw [Nat.mod_add_mod]
    congr 1
    omega
  simp only [DelayLineWithSampleAccess.popSample, DelayLineWithSampleAccess.popIndex, hw, hd, hn,
    e1, tmod_natCast, i1, AudioBuffer.getSample?, hb, vecGet?_natCast]
  rw [hcell D hD1 hDN]

theorem pushSample_delayInSamples (dl : DelayLineWithSampleAccess) (ch : Nat) (x : ℚ) :
    (dl.pushSample ch x).delayInSamples = dl.delayInSamples := by
  unfold DelayLineWithSampleAccess.pushSample
  cases dl.writePosition[ch]? <;> rfl

theorem holdsAt_step (dl : DelayLineWithSampleAccess) (D N : Nat) (xs : List ℚ)
    (hD1 : 1 ≤ D) (hDN : D ≤ N) (h : dl.HoldsAt D N xs) :
    ∃ dl1, dl.popSample 0 = (dl1, some (history xs D)) ∧
      ∀ x, dl1.pushSampleChecked 0 x = some (dl1.pushSample 0 x) ∧
        (dl1.pushSample 0 x).HoldsAt D N (xs ++ [x]) := by
  obtain ⟨hwf, hch, hd⟩ := h
  refine ⟨_, popSample_of_channelHolds dl N xs D hD1 hDN hch hd, ?_⟩
  intro x
  have hwf1 : DelayLineWithSampleAccess.WellFormed
      { dl with readPosition :=
          dl.readPosition.set 0 (((xs.length + N - D) % N : Nat) : Int) } 1 := hwf
  have hch1 : DelayLineWithSampleAccess.ChannelHolds
      { dl with readPosition :=
          dl.readPosition.set 0 (((xs.length + N - D) % N : Nat) : Int) } 0 N xs := hch
  refine ⟨pushSampleChecked_of_wellFormed _ 1 hwf1 0 (by omega) x,
    wellFormed_pushSample _ 1 hwf1 0 x, channelHolds_push _ 0 N xs x (by omega) hch1, ?_⟩
  rw [pushSample_delayInSamples]
  exact hd

theorem history_take (ps : List ℚ) (n D : Nat) (hn : n ≤ ps.length) (hD : 1 ≤ D) :
    history (ps.take n) D = if D ≤ n then ps.getD (n - D) 0 else 0 := by
  unfold history
  rw [if_neg (by omega)]
  have hlen : (ps.take n).length = n := by rw [List.length_take]; omega
  rw [List.getD_eq_getElem?_getD, List.getD_eq_getElem?_getD]
  by_cases h : D ≤ n
  · rw [if_pos h, List.getElem?_reverse (by rw [hlen]; omega), hlen, List.getElem?_take]
    have e : n - 1 - (D - 1) = n - D := by omega
    rw [e, if_pos (by omega)]
  · rw [if_neg h, List.getElem?_eq_none (by rw [List.length_reverse, hlen]; omega)]
    rfl

theorem delayedBy_of_delayedFrom (D : Nat) (hD : 1 ≤ D) (taps : List DelayTap)
    (h : DelayedFrom D [] taps) : DelayedBy D taps := by
  intro n hn
  rw [h n hn, List.nil_append, List.map_take,
    history_take _ n D (by rw [List.length_map]; omega) hD]

theorem delayedFrom_cons (D : Nat) (xs : List ℚ) (t : DelayTap) (taps : List DelayTap)
    (h0 : t.delayed = history xs D) (h : DelayedFrom D (xs ++ [t.pushed]) taps) :
    DelayedFrom D xs (t :: taps) := by
  intro n hn
  cases n with
  | zero => simpa using h0
  | succ n =>
    have := h n (by simpa using hn)
    simpa [List.append_assoc] using this

theorem delayedFrom_append (D : Nat) (xs : List ℚ) (taps1 taps2 : List DelayTap)
    (h1 : DelayedFrom D xs taps1)
    (h2 : DelayedFrom D (xs ++ taps1.map DelayTap.pushed) taps2) :
    DelayedFrom D xs (taps1 ++ taps2) := by
  induction taps1 generalizing xs with
  | nil => simpa using h2
  | cons t rest ih =>
    apply delayedFrom_cons
    · simpa using h1 0 (by simp)
    · apply ih
      · intro n hn
        have := h1 (n + 1) (by simpa using hn)
        simpa [List.append_assoc] using this
      · simpa [List.append_assoc] using h2


/-! ## Binary32 rounding -/

theorem roundHalfEven_eq (x : ℚ) (m : Int) (h1 : (m : ℚ) - 1 / 2 < x)
    (h2 : x < (m : ℚ) + 1 / 2) : roundHalfEven x = m := by
  unfold roundHalfEven
  have hf1 := Int.floor_le x
  have hf2 := Int.lt_floor_add_one x
  by_cases hxm : (m : ℚ) ≤ x
  · have hfl : ⌊x⌋ = m := by
      rw [Int.floor_eq_iff]
      exact ⟨hxm, by linarith⟩
    rw [hfl, if_pos (by linarith)]
  · have hfl : ⌊x⌋ = m - 1 := by
      rw [Int.floor_eq_iff]
      push_cast
      exact ⟨by linarith, by linarith⟩
    rw [hfl]
    push_cast
    rw [if_neg (by linarith), if_pos (by linarith)]
    ring

theorem roundHalfEven_intCast (n : Int) : roundHalfEven (n : ℚ) = n :=
  roundHalfEven_eq _ n (by linarith) (by linarith)

theorem roundHalfEven_bounds (x : ℚ) :
    x - 1 / 2 ≤ (roundHalfEven x : ℚ) ∧ (roundHalfEven x : ℚ) ≤ x + 1 / 2 := by
  unfold roundHalfEven
  have hf1 := Int.floor_le x
  have hf2 := Int.lt_floor_add_one x
  split_ifs <;> push_cast <;> constructor <;> linarith

theorem log_two_eq (x : ℚ) (e : Int) (h1 : (2 : ℚ) ^ e ≤ x) (h2 : x < (2 : ℚ) ^ (e + 1)) :
    Int.log 2 x = e := by
  have hx : 0 < x := lt_of_lt_of_le (zpow_pos (by norm_num) e) h1
  have a : e ≤ Int.log 2 x := (Int.zpow_le_iff_le_log (by norm_num) hx).mp (by exact_mod_cast h1)
  have b : Int.log 2 x < e + 1 :=
    (Int.lt_zpow_iff_log_lt (by norm_num) hx).mp (by exact_mod_cast h2)
  omega

theorem roundF32_eq (x : ℚ) (e m : Int) (he : -126 ≤ e) (h1 : (2 : ℚ) ^ e ≤ |x|)
    (h2 : |x| < (2 : ℚ) ^ (e + 1))
    (hm1 : (m : ℚ) - 1 / 2 < x / 2 ^ (e - 23)) (hm2 : x / 2 ^ (e - 23) < (m : ℚ) + 1 / 2) :
    roundF32 x = (m : ℚ) * 2 ^ (e - 23) := by
  have hx : x ≠ 0 := by
    intro h
    rw [h, abs_zero] at h1
    exact absurd h1 (not_le.mpr (zpow_pos (by norm_num) e))
  unfold roundF32
  rw [if_neg hx, log_two_eq |x| e h1 h2, max_eq_left he, roundHalfEven_eq _ m hm1 hm2]

theorem roundF32_example_ms : roundF32 (530 / 1000) = 8891924 / 16777216 := by
  have := roundF32_eq (530 / 1000) (-1) 8891924 (by norm_num)
    (by rw [abs_of_pos (by norm_num)]; norm_num)
    (by rw [abs_of_pos (by norm_num)]; norm_num) (by norm_num) (by norm_num)
  rw [this]
  norm_num

theorem roundF32_example_sr : roundF32 44100 = 44100 := by
  have := roundF32_eq 44100 15 11289600 (by norm_num)
    (by rw [abs_of_pos (by norm_num)]; norm_num)
    (by rw [abs_of_pos (by norm_num)]; norm_num) (by norm_num) (by norm_num)
  rw [this]
  norm_num

theorem delayTimeSamplesF32_example :
    delayTimeSamplesF32 530 44100 = 11966975 / 512 := by
  unfold delayTimeSamplesF32
  rw [roundF32_example_ms]
  have := roundF32_eq (8891924 / 16777216 * 44100) 14 11966975 (by norm_num)
    (by rw [abs_of_pos (by norm_num)]; norm_num)
    (by rw [abs_of_pos (by norm_num)]; norm_num) (by norm_num) (by norm_num)
  rw [this]
  norm_num

/-! ## The sample loop follows the history -/

theorem represents_processSample
    (tpt : FirstOrderTPTFilterType → FirstOrderTPTFilter → ℚ → FirstOrderTPTFilter × ℚ)
    (k : BlockConstants) (D N : Nat) (hD1 : 1 ≤ D) (hDN : D ≤ N)
    (s : DelayHistory) (st : BasicDelay × ℚ × ℚ) (input : ℚ × ℚ)
    (h : s.Represents D N st) :
    ∃ st1, BasicDelay.processSample tpt k st input
        = some (st1, (s.processSample tpt k D input).2) ∧
      (s.processSample tpt k D input).1.Represents D N st1 ∧
      (∀ b, st1.1.blockConstants b = st.1.blockConstants b) := by
  obtain ⟨d, fbL, fbR⟩ := st
  obtain ⟨hL, hR, e1, e2, f1, f2, f3, f4⟩ := h
  simp only at hL hR e1 e2 f1 f2 f3 f4
  subst e1 e2
  obtain ⟨l1, hpopL, hpushL⟩ := holdsAt_step _ D N s.pushedL hD1 hDN hL
  obtain ⟨r1, hpopR, hpushR⟩ := holdsAt_step _ D N s.pushedR hD1 hDN hR
  by_cases hs : k.stereo = true
  · simp only [BasicDelay.processSample, DelayHistory.processSample, hpopL, hs, if_true, hpopR,
      (hpushL _).1, (hpushR _).1, f1, f2, f3, f4]
    exact ⟨_, rfl, ⟨(hpushL _).2, (hpushR _).2, rfl, rfl, rfl, rfl, rfl, rfl⟩, fun _ => rfl⟩
  · simp only [BasicDelay.processSample, DelayHistory.processSample, hpopL, hs, if_false,
      (hpushL _).1, f1, f3, Bool.false_eq_true]
    exact ⟨_, rfl, ⟨(hpushL _).2, hR, rfl, rfl, rfl, f2, rfl, f4⟩, fun _ => rfl⟩

theorem represents_processSamples
    (tpt : FirstOrderTPTFilterType → FirstOrderTPTFilter → ℚ → FirstOrderTPTFilter × ℚ)
    (k : BlockConstants) (D N : Nat) (hD1 : 1 ≤ D) (hDN : D ≤ N) :
    ∀ (inputs : List (ℚ × ℚ)) (s : DelayHistory) (st : BasicDelay × ℚ × ℚ),
      s.Represents D N st →
      ∃ st2, BasicDelay.processSamples tpt k st inputs
          = some (st2, (DelayHistory.processSamples tpt k D s inputs).2) ∧
        (DelayHistory.processSamples tpt k D s inputs).1.Represents D N st2 ∧
        (∀ b, st2.1.blockConstants b = st.1.blockConstants b) := by
  intro inputs
  induction inputs with
  | nil =>
    intro s st h
    exact ⟨st, rfl, h, fun _ => rfl⟩
  | cons input rest ih =>
    intro s st h
    obtain ⟨st1, e1, h1, c1⟩ := represents_processSample tpt k D N hD1 hDN s st input h
    obtain ⟨st2, e2, h2, c2⟩ := ih _ st1 h1
    simp only [BasicDelay.processSamples, DelayHistory.processSamples, e1, e2]
    exact ⟨st2, rfl, h2, fun b => (c2 b).trans (c1 b)⟩

theorem history_processSample
    (tpt : FirstOrderTPTFilterType → FirstOrderTPTFilter → ℚ → FirstOrderTPTFilter × ℚ)
    (k : BlockConstants) (D : Nat) (s : DelayHistory) (input : ℚ × ℚ) :
    (s.processSample tpt k D input).2.1.delayed = history s.pushedL D ∧
    (s.processSample tpt k D input).1.pushedL
      = s.pushedL ++ [(s.processSample tpt k D input).2.1.pushed] ∧
    (s.processSample tpt k D input).1.pushedR
      = s.pushedR ++ (s.processSample tpt k D input).2.2.toList.map DelayTap.pushed ∧
    (∀ r, (s.processSample tpt k D input).2.2 = some r → r.delayed = history s.pushedR D) ∧
    (s.processSample tpt k D input).2.1.output
      = input.1 * k.dry + (s.processSample tpt k D input).2.1.delayed * k.phaseSign * k.wet
          * (if k.stereo then k.panGainL else 1) ∧
    (∀ r, (s.processSample tpt k D input).2.2 = some r →
      r.output = input.2 * k.dry + r.delayed * k.phaseSign * k.wet * k.panGainR) ∧
    (k.fb = 0 → (s.processSample tpt k D input).2.1.pushed = input.1 ∧
      ∀ r, (s.processSample tpt k D input).2.2 = some r → r.pushed = input.2) ∧
    ((s.processSample tpt k D input).2.2.isSome = k.stereo) := by
  by_cases hs : k.stereo = true
  · refine ⟨?_, ?_, ?_, ?_, ?_, ?_, ?_, ?_⟩ <;>
      simp +contextual [DelayHistory.processSample, hs]
  · have hs2 : k.stereo = false := by simpa using hs
    refine ⟨?_, ?_, ?_, ?_, ?_, ?_, ?_, ?_⟩ <;>
      simp +contextual [DelayHistory.processSample, hs2]

theorem history_processSamples
    (tpt : FirstOrderTPTFilterType → FirstOrderTPTFilter → ℚ → FirstOrderTPTFilter × ℚ)
    (k : BlockConstants) (D : Nat) :
    ∀ (inputs : List (ℚ × ℚ)) (s : DelayHistory),
      (DelayHistory.processSamples tpt k D s inputs).2.length = inputs.length ∧
      (DelayHistory.processSamples tpt k D s inputs).1.pushedL
        = s.pushedL ++ ((DelayHistory.processSamples tpt k D s inputs).2.map Prod.fst).map
            DelayTap.pushed ∧
      (DelayHistory.processSamples tpt k D s inputs).1.pushedR
        = s.pushedR ++ ((DelayHistory.processSamples tpt k D s inputs).2.filterMap Prod.snd).map
            DelayTap.pushed ∧
      DelayedFrom D s.pushedL ((DelayHistory.processSamples tpt k D s inputs).2.map Prod.fst) ∧
      DelayedFrom D s.pushedR
        ((DelayHistory.processSamples tpt k D s inputs).2.filterMap Prod.snd) ∧
      ∀ (i : Nat) (input : ℚ × ℚ), inputs[i]? = some input →
        ∃ t : DelayTap × Option DelayTap,
          (DelayHistory.processSamples tpt k D s inputs).2[i]? = some t ∧
          t.1.output = input.1 * k.dry + t.1.delayed * k.phaseSign * k.wet
            * (if k.stereo then k.panGainL else 1) ∧
          (∀ r, t.2 = some r →
            r.output = input.2 * k.dry + r.delayed * k.phaseSign * k.wet * k.panGainR) ∧
          (k.fb = 0 → t.1.pushed = input.1 ∧ ∀ r, t.2 = some r → r.pushed = input.2) ∧
          t.2.isSome = k.stereo := by
  intro inputs
  induction inputs with
  | nil =>
    intro s
    refine ⟨rfl, by simp [DelayHistory.processSamples], by simp [DelayHistory.processSamples],
      ?_, ?_, ?_⟩
    · intro n hn; simp [DelayHistory.processSamples] at hn
    · intro n hn; simp [DelayHistory.processSamples] at hn
    · intro i input hi; simp at hi
  | cons input rest ih =>
    intro s
    obtain ⟨a1, a2, a3, a4, a5, a6, a7, a8⟩ := history_processSample tpt k D s input
    obtain ⟨b1, b2, b3, b4, b5, b6⟩ := ih (s.processSample tpt k D input).1
    simp only [DelayHistory.processSamples]
    refine ⟨by simp [b1], ?_, ?_, ?_, ?_, ?_⟩
    · rw [b2, a2]
      simp [List.append_assoc]
    · rw [b3, a3]
      cases h : (s.processSample tpt k D input).2.2 <;> simp [h, List.append_assoc]
    · rw [List.map_cons]
      apply delayedFrom_cons D s.pushedL _ _ a1
      rw [← a2]
      exact b4
    · cases h : (s.processSample tpt k D input).2.2 with
      | none =>
        rw [h] at a3
        simp only [Option.toList_none, List.map_nil, List.append_nil] at a3
        rw [List.filterMap_cons, h]
        rw [a3] at b5
        exact b5
      | some r =>
        rw [h] at a3
        simp only [Option.toList_some, List.map_cons, List.map_nil] at a3
        rw [List.filterMap_cons, h]
        apply delayedFrom_cons D s.pushedR r _ (a4 r h)
        rw [← a3]
        exact b5
    · intro i inp hi
      cases i with
      | zero =>
        simp only [List.getElem?_cons_zero, Option.some.injEq] at hi
        subst hi
        exact ⟨_, by simp, a5, a6, a7, a8⟩
      | succ i =>
        simp only [List.getElem?_cons_succ] at hi
        obtain ⟨t, ht, hrest⟩ := b6 i inp hi
        exact ⟨t, by simpa using ht, hrest⟩

theorem represents_blocks
    (tpt : FirstOrderTPTFilterType → FirstOrderTPTFilter → ℚ → FirstOrderTPTFilter × ℚ)
    (D N : Nat) (hD1 : 1 ≤ D) (hDN : D ≤ N) (settings : BasicDelay) :
    ∀ (buffers : List AudioBuffer) (s : DelayHistory) (d : BasicDelay),
      (∀ b ∈ buffers, ∃ c n, b.HasShape c n ∧ 0 < c) →
      s.Represents D N (d, d.feedbackL, d.feedbackR) →
      (∀ b, d.blockConstants b = settings.blockConstants b) →
      ∃ d1 s1 taps, BasicDelay.blocksTaps tpt d buffers = some (d1, taps) ∧
        DelayHistory.processBlocks tpt settings D s buffers = some (s1, taps) ∧
        taps.length = (buffers.map AudioBuffer.getNumSamples).sum ∧
        DelayedFrom D s.pushedL (taps.map Prod.fst) ∧
        DelayedFrom D s.pushedR (taps.filterMap Prod.snd) := by
  intro buffers
  induction buffers with
  | nil =>
    intro s d _ _ _
    refine ⟨d, s, [], rfl, rfl, rfl, ?_, ?_⟩ <;>
      · intro n hn
        simp at hn
  | cons b rest ih =>
    intro s d hb hrep hk
    obtain ⟨c, n, hshape, hc⟩ := hb b (by simp)
    obtain ⟨inputs, hin, hlen, _⟩ := dryPairs_spec b c n hshape hc
    obtain ⟨st2, e2, h2, c2⟩ := represents_processSamples tpt
      (d.blockConstants (decide (1 < b.getNumChannels))) D N hD1 hDN inputs s _ hrep
    rw [hk] at e2 h2
    obtain ⟨a1, a2, a3, a4, a5, _⟩ := history_processSamples tpt
      (settings.blockConstants (decide (1 < b.getNumChannels))) D inputs s
    obtain ⟨g1, g2, g3, g4, g5, g6, g7, g8⟩ := h2
    obtain ⟨d2, s2, taps2, e3, e4, hl3, hd3, hd4⟩ :=
      ih _ { st2.1 with feedbackL := st2.2.1, feedbackR := st2.2.2 }
        (fun x hx => hb x (List.mem_cons_of_mem _ hx))
        ⟨g1, g2, g3, g4, g5, g6, g7, g8⟩
        (fun x => (c2 x).trans (hk x))
    simp only [BasicDelay.blocksTaps, BasicDelay.blockTaps, DelayHistory.processBlocks, hin, hk,
      e2, e3, e4]
    refine ⟨_, _, _, rfl, rfl, ?_, ?_, ?_⟩
    · rw [List.length_append, a1, hlen, hl3, List.map_cons, List.sum_cons,
        getNumSamples_of_hasShape b c n hshape hc]
    · rw [List.map_append]
      apply delayedFrom_append D s.pushedL _ _ a4
      rw [← a2]
      exact hd3
    · rw [List.filterMap_append]
      apply delayedFrom_append D s.pushedR _ _ a5
      rw [← a3]
      exact hd4

theorem setDelayFloat_delayInSamples (dl : DelayLineWithSampleAccess) (h : 2 ≤ dl.numSamples)
    (x : ℚ) :
    (dl.setDelayFloat x).delayInSamples = ⌊jlimit 1 ((dl.numSamples - 1 : Int) : ℚ) x⌋ := by
  have hN : (1 : ℚ) ≤ ((dl.numSamples - 1 : Int) : ℚ) := by
    have : (1 : Int) ≤ dl.numSamples - 1 := by omega
    exact_mod_cast this
  simp only [DelayLineWithSampleAccess.setDelayFloat, jlimit, gt_iff_lt]
  split_ifs <;> first | rfl | (exfalso; linarith)

theorem specDelaySamples_spec (sr ms : ℚ) :
    ((specDelaySamples sr ms : Nat) : Int) = ⌊jlimit 1 88200 (ms * sr / 1000)⌋ ∧
    1 ≤ specDelaySamples sr ms ∧ specDelaySamples sr ms ≤ 88200 ∧
    ((specDelaySamples sr ms : Nat) : ℚ) ≤ jlimit 1 88200 (ms * sr / 1000) ∧
    jlimit 1 88200 (ms * sr / 1000) < ((specDelaySamples sr ms : Nat) : ℚ) + 1 := by
  obtain ⟨j1, j2⟩ := jlimit_mem 88200 (ms * sr / 1000) (by norm_num)
  have f1 : (1 : Int) ≤ ⌊jlimit 1 88200 (ms * sr / 1000)⌋ := Int.le_floor.mpr (by exact_mod_cast j1)
  have f2 : ⌊jlimit 1 88200 (ms * sr / 1000)⌋ ≤ 88200 := by
    have := Int.floor_le_floor j2
    have e : ⌊(88200 : ℚ)⌋ = 88200 := by simp
    rwa [e] at this
  have hc : ((specDelaySamples sr ms : Nat) : Int) = ⌊jlimit 1 88200 (ms * sr / 1000)⌋ := by
    unfold specDelaySamples
    exact Int.toNat_of_nonneg (by omega)
  have hq : ((specDelaySamples sr ms : Nat) : ℚ)
      = ((⌊jlimit 1 88200 (ms * sr / 1000)⌋ : Int) : ℚ) := by
    rw [← hc]; simp
  refine ⟨hc, by omega, by omega, ?_, ?_⟩
  · rw [hq]; exact Int.floor_le _
  · rw [hq]; exact Int.lt_floor_add_one _

theorem line_ready_of (l : DelayLineWithSampleAccess) (hw : l.WellFormed 1)
    (hn : l.numSamples = 88201) (x0 : ℚ) :
    ((l.setDelayFloat x0).reset).WellFormed 1 ∧
    ((l.setDelayFloat x0).reset).ChannelHolds 0 88201 [] ∧
    ((l.setDelayFloat x0).reset).numSamples = 88201 ∧
    ((l.setDelayFloat x0).reset).delayInSamples = ⌊jlimit 1 88200 x0⌋ := by
  have hwf1 : (l.setDelayFloat x0).WellFormed 1 := hw
  have hn1 : (l.setDelayFloat x0).numSamples = 88201 := hn
  have hch := channelHolds_reset _ 1 hwf1 0 (by omega)
  rw [hn1] at hch
  refine ⟨wellFormed_reset _ 1 hwf1, hch, hn, ?_⟩
  have h1 := setDelayFloat_delayInSamples l (by rw [hn]; norm_num) x0
  rw [hn] at h1
  have e : (((88201 : Int) - 1 : Int) : ℚ) = 88200 := by norm_num
  rw [e] at h1
  exact h1

theorem reset_numSamples (dl : DelayLineWithSampleAccess) :
    dl.reset.numSamples = dl.numSamples := rfl

theorem basicDelay_line_ready (spec : ProcessSpec) (x0 : ℚ) :
    ((((DelayLineWithSampleAccess.new 88200).prepare { spec with numChannels := 1 }).setDelayFloat
        x0).reset).WellFormed 1 ∧
    ((((DelayLineWithSampleAccess.new 88200).prepare { spec with numChannels := 1 }).setDelayFloat
        x0).reset).ChannelHolds 0 88201 [] ∧
    ((((DelayLineWithSampleAccess.new 88200).prepare { spec with numChannels := 1 }).setDelayFloat
        x0).reset).numSamples = 88201 ∧
    ((((DelayLineWithSampleAccess.new 88200).prepare { spec with numChannels := 1 }).setDelayFloat
        x0).reset).delayInSamples = ⌊jlimit 1 88200 x0⌋ := by
  have hwf0 := wellFormed_prepare 88200 { spec with numChannels := 1 }
  have hn0 := line_numSamples 88200 { spec with numChannels := 1 }
  rw [reset_numSamples] at hn0
  have e : max ((88200 : Int) + 1) 4 = 88201 := by norm_num
  rw [e] at hn0
  exact line_ready_of _ hwf0 hn0 x0

theorem wellFormed_setDelayFloat (dl : DelayLineWithSampleAccess) (k : Nat) (x : ℚ)
    (h : dl.WellFormed k) : (dl.setDelayFloat x).WellFormed k := h

theorem channelHolds_setDelayFloat (dl : DelayLineWithSampleAccess) (ch N : Nat)
    (xs : List ℚ) (x : ℚ) (h : dl.ChannelHolds ch N xs) :
    (dl.setDelayFloat x).ChannelHolds ch N xs := h


theorem roundHalfEven_ge (x : ℚ) (t : Int) (h : (t : ℚ) ≤ x) : t ≤ roundHalfEven x := by
  have hb := (roundHalfEven_bounds x).1
  have h1 : (t : ℚ) - 1 < (roundHalfEven x : ℚ) := by linarith
  have h2 : t - 1 < roundHalfEven x := by exact_mod_cast h1
  omega

theorem roundF32_ge (x T : ℚ) (e0 t : Int) (he0 : -126 ≤ e0)
    (hT : T = (t : ℚ) * 2 ^ (e0 - 23)) (hT1 : (2 : ℚ) ^ e0 ≤ T) (hT2 : T ≤ (2 : ℚ) ^ (e0 + 1))
    (hx : T ≤ x) : T ≤ roundF32 x := by
  have hTpos : 0 < T := lt_of_lt_of_le (zpow_pos (by norm_num) e0) hT1
  have hxpos : 0 < x := lt_of_lt_of_le hTpos hx
  have hxne : x ≠ 0 := ne_of_gt hxpos
  have habs : |x| = x := abs_of_pos hxpos
  have he : e0 ≤ Int.log 2 x :=
    (Int.zpow_le_iff_le_log (by norm_num) hxpos).mp (by exact_mod_cast le_trans hT1 hx)
  unfold roundF32
  rw [if_neg hxne, habs, max_eq_left (by omega)]
  have hulp : (0 : ℚ) < 2 ^ (Int.log 2 x - 23) := zpow_pos (by norm_num) _
  by_cases hcase : Int.log 2 x = e0
  · rw [hcase] at hulp ⊢
    have h1 : (t : ℚ) ≤ x / 2 ^ (e0 - 23) := by
      rw [le_div_iff₀ hulp, ← hT]
      exact hx
    have h2 : ((t : Int) : ℚ) ≤ (roundHalfEven (x / 2 ^ (e0 - 23)) : ℚ) := by
      exact_mod_cast roundHalfEven_ge _ t h1
    rw [hT]
    exact mul_le_mul_of_nonneg_right h2 (le_of_lt hulp)
  · have hlog : (2 : ℚ) ^ Int.log 2 x ≤ x := by
      have := Int.zpow_log_le_self (b := 2) (by norm_num) hxpos
      exact_mod_cast this
    have hsplit : (2 : ℚ) ^ Int.log 2 x
        = ((8388608 : Int) : ℚ) * 2 ^ (Int.log 2 x - 23) := by
      have : ((8388608 : Int) : ℚ) = (2 : ℚ) ^ (23 : Int) := by norm_num
      rw [this, ← zpow_add₀ (by norm_num : (2 : ℚ) ≠ 0)]
      congr 1
      omega
    have h1 : ((8388608 : Int) : ℚ) ≤ x / 2 ^ (Int.log 2 x - 23) := by
      rw [le_div_iff₀ hulp, ← hsplit]
      exact hlog
    have h2 : ((8388608 : Int) : ℚ) ≤ (roundHalfEven (x / 2 ^ (Int.log 2 x - 23)) : ℚ) := by
      exact_mod_cast roundHalfEven_ge _ 8388608 h1
    have h3 : (2 : ℚ) ^ (e0 + 1) ≤ (2 : ℚ) ^ Int.log 2 x :=
      zpow_le_zpow_right₀ (by norm_num) (by omega)
    calc T ≤ (2 : ℚ) ^ (e0 + 1) := hT2
      _ ≤ (2 : ℚ) ^ Int.log 2 x := h3
      _ = ((8388608 : Int) : ℚ) * 2 ^ (Int.log 2 x - 23) := hsplit
      _ ≤ _ := mul_le_mul_of_nonneg_right h2 (le_of_lt hulp)

theorem roundF32_natCast (n : Nat) (h1 : 1 ≤ n) (h2 : n < 2 ^ 24) :
    roundF32 (n : ℚ) = (n : ℚ) := by
  have hpos : (0 : ℚ) < (n : ℚ) := by exact_mod_cast h1
  have hne : (n : ℚ) ≠ 0 := ne_of_gt hpos
  have habs : |(n : ℚ)| = (n : ℚ) := abs_of_pos hpos
  have he0 : 0 ≤ Int.log 2 (n : ℚ) :=
    (Int.zpow_le_iff_le_log (by norm_num) hpos).mp (by
      simp only [zpow_zero]
      exact_mod_cast h1)
  have he1 : Int.log 2 (n : ℚ) < 24 :=
    (Int.lt_zpow_iff_log_lt (by norm_num) hpos).mp (by
      have h3 : ((n : ℚ)) < (2 : ℚ) ^ (24 : Nat) := by exact_mod_cast h2
      rw [← zpow_natCast] at h3
      exact_mod_cast h3)
  unfold roundF32
  rw [if_neg hne, habs, max_eq_left (by omega)]
  obtain ⟨j, hj⟩ : ∃ j : Nat, Int.log 2 (n : ℚ) - 23 = -(j : Int) :=
    ⟨(23 - Int.log 2 (n : ℚ)).toNat, by omega⟩
  rw [hj, zpow_neg, zpow_natCast]
  have hp : (0 : ℚ) < 2 ^ j := pow_pos (by norm_num) j
  have e : (n : ℚ) / (2 ^ j)⁻¹ = (((n * 2 ^ j : Nat) : Int) : ℚ) := by
    rw [div_inv_eq_mul]
    push_cast
    ring
  rw [e, roundHalfEven_intCast]
  push_cast
  field_simp

theorem roundF32_two : roundF32 2 = 2 := by
  have := roundF32_natCast 2 (by norm_num) (by norm_num)
  simpa using this

theorem floatDelaySamples_spec (sr ms : ℚ) :
    ((floatDelaySamples sr ms : Nat) : Int)
      = ⌊jlimit 1 88200 (delayTimeSamplesF32 ms (roundF32 sr))⌋ ∧
    1 ≤ floatDelaySamples sr ms ∧ floatDelaySamples sr ms ≤ 88200 := by
  obtain ⟨j1, j2⟩ := jlimit_mem 88200 (delayTimeSamplesF32 ms (roundF32 sr)) (by norm_num)
  have f1 : (1 : Int) ≤ ⌊jlimit 1 88200 (delayTimeSamplesF32 ms (roundF32 sr))⌋ :=
    Int.le_floor.mpr (by exact_mod_cast j1)
  have f2 : ⌊jlimit 1 88200 (delayTimeSamplesF32 ms (roundF32 sr))⌋ ≤ 88200 := by
    have := Int.floor_le_floor j2
    have e : ⌊(88200 : ℚ)⌋ = 88200 := by simp
    rwa [e] at this
  have hc : ((floatDelaySamples sr ms : Nat) : Int)
      = ⌊jlimit 1 88200 (delayTimeSamplesF32 ms (roundF32 sr))⌋ := by
    unfold floatDelaySamples
    exact Int.toNat_of_nonneg (by omega)
  exact ⟨hc, by omega, by omega⟩

theorem floatDelaySamples_two_seconds (sr : ℚ) :
    (((floatDelaySamples sr 2000 : Nat) : ℚ) = 2 * sr → sr ≤ 44100) ∧
    (44100 ≤ sr → floatDelaySamples sr 2000 = 88200) ∧
    (∀ k : Nat, 1 ≤ k → k ≤ 44100 → sr = (k : ℚ) → floatDelaySamples sr 2000 = 2 * k) := by
  have hd : ∀ s : ℚ, delayTimeSamplesF32 2000 s = roundF32 (2 * s) := by
    intro s
    unfold delayTimeSamplesF32
    have : (2000 : ℚ) / 1000 = 2 := by norm_num
    rw [this, roundF32_two]
  refine ⟨?_, ?_, ?_⟩
  · intro h
    have h2 : floatDelaySamples sr 2000 ≤ 88200 := (floatDelaySamples_spec sr 2000).2.2
    have h3 : ((floatDelaySamples sr 2000 : Nat) : ℚ) ≤ 88200 := by exact_mod_cast h2
    linarith
  · intro h
    have h1 : (44100 : ℚ) ≤ roundF32 sr :=
      roundF32_ge sr 44100 15 11289600 (by norm_num) (by norm_num) (by norm_num)
        (by norm_num) h
    have h2 : (88200 : ℚ) ≤ roundF32 (2 * roundF32 sr) :=
      roundF32_ge (2 * roundF32 sr) 88200 16 11289600 (by norm_num) (by norm_num)
        (by norm_num) (by norm_num) (by linarith)
    have e : jlimit 1 88200 (delayTimeSamplesF32 2000 (roundF32 sr)) = 88200 := by
      rw [hd]
      unfold jlimit
      split_ifs <;> linarith
    unfold floatDelaySamples
    rw [e]
    simp
  · intro k hk1 hk2 hsr
    have hkq1 : (1 : ℚ) ≤ (k : ℚ) := by exact_mod_cast hk1
    have hkq2 : (k : ℚ) ≤ 44100 := by exact_mod_cast hk2
    have r1 : roundF32 sr = (k : ℚ) := by
      rw [hsr]
      exact roundF32_natCast k hk1 (by omega)
    have r2 : roundF32 (2 * (k : ℚ)) = ((2 * k : Nat) : ℚ) := by
      have := roundF32_natCast (2 * k) (by omega) (by omega)
      rw [← this]
      push_cast
      rfl
    have e : jlimit 1 88200 (delayTimeSamplesF32 2000 (roundF32 sr)) = ((2 * k : Nat) : ℚ) := by
      rw [hd, r1, r2]
      unfold jlimit
      push_cast
      split_ifs <;> linarith
    unfold floatDelaySamples
    rw [e, Int.floor_natCast, Int.toNat_natCast]

theorem basicDelay_ready (d0 : BasicDelay) (spec : ProcessSpec) (ms : ℚ)
    (hL : d0.delayLineL = DelayLineWithSampleAccess.new 88200)
    (hR : d0.delayLineR = DelayLineWithSampleAccess.new 88200) :
    ((d0.prepare spec).setDelayTime ms).delayLineL.HoldsAt
      (floatDelaySamples spec.sampleRate ms) 88201 [] ∧
    ((d0.prepare spec).setDelayTime ms).delayLineR.HoldsAt
      (floatDelaySamples spec.sampleRate ms) 88201 [] := by
  obtain ⟨hc, _, _⟩ := floatDelaySamples_spec spec.sampleRate ms
  obtain ⟨w0, c0, n0, i0⟩ := basicDelay_line_ready spec
    (delayTimeSamplesF32 d0.delayTimeMs (roundF32 spec.sampleRate))
  have eL : (d0.prepare spec).delayLineL =
      ((((DelayLineWithSampleAccess.new 88200).prepare
        { spec with numChannels := 1 }).setDelayFloat
          (delayTimeSamplesF32 d0.delayTimeMs (roundF32 spec.sampleRate))).reset) := by
    rw [← hL]; rfl
  have eR : (d0.prepare spec).delayLineR =
      ((((DelayLineWithSampleAccess.new 88200).prepare
        { spec with numChannels := 1 }).setDelayFloat
          (delayTimeSamplesF32 d0.delayTimeMs (roundF32 spec.sampleRate))).reset) := by
    rw [← hR]; rfl
  have hms : (d0.prepare spec).delayTimeMs = d0.delayTimeMs := rfl
  have hsr : (d0.prepare spec).sampleRate = roundF32 spec.sampleRate := rfl
  unfold BasicDelay.setDelayTime
  rw [hms]
  split_ifs with h
  · rw [eL, eR]
    have hd : ((((DelayLineWithSampleAccess.new 88200).prepare
        { spec with numChannels := 1 }).setDelayFloat
          (delayTimeSamplesF32 d0.delayTimeMs (roundF32 spec.sampleRate))).reset).delayInSamples
        = ((floatDelaySamples spec.sampleRate ms : Nat) : Int) := by
      rw [i0, hc, h]
    exact ⟨⟨w0, c0, hd⟩, ⟨w0, c0, hd⟩⟩
  · simp only [hsr, eL, eR]
    have hd : ((((((DelayLineWithSampleAccess.new 88200).prepare
        { spec with numChannels := 1 }).setDelayFloat
          (delayTimeSamplesF32 d0.delayTimeMs (roundF32 spec.sampleRate))).reset).setDelayFloat
            (delayTimeSamplesF32 ms (roundF32 spec.sampleRate)))).delayInSamples
        = ((floatDelaySamples spec.sampleRate ms : Nat) : Int) := by
      have := setDelayFloat_delayInSamples ((((DelayLineWithSampleAccess.new 88200).prepare
        { spec with numChannels := 1 }).setDelayFloat
          (delayTimeSamplesF32 d0.delayTimeMs (roundF32 spec.sampleRate))).reset)
          (by rw [n0]; norm_num) (delayTimeSamplesF32 ms (roundF32 spec.sampleRate))
      rw [n0] at this
      have e : (((88201 : Int) - 1 : Int) : ℚ) = 88200 := by norm_num
      rw [e] at this
      rw [this, hc]
    exact ⟨⟨wellFormed_setDelayFloat _ 1 _ w0, channelHolds_setDelayFloat _ 0 88201 [] _ c0, hd⟩,
      ⟨wellFormed_setDelayFloat _ 1 _ w0, channelHolds_setDelayFloat _ 0 88201 [] _ c0, hd⟩⟩

theorem setDelayTime_blockConstants (d : BasicDelay) (ms : ℚ) (b : Bool) :
    (d.setDelayTime ms).blockConstants b = d.blockConstants b := by
  unfold BasicDelay.setDelayTime
  split_ifs <;> rfl

theorem floatDelaySamples_example :
    floatDelaySamples 44100 530 = 23372 ∧ specDelaySamples 44100 530 = 23373 := by
  constructor
  · unfold floatDelaySamples
    rw [roundF32_example_sr, delayTimeSamplesF32_example]
    have e : jlimit 1 88200 (11966975 / 512) = 11966975 / 512 := by
      unfold jlimit
      norm_num
    have f : ⌊(11966975 / 512 : ℚ)⌋ = 23372 := by
      rw [Int.floor_eq_iff]
      norm_num
    rw [e, f]
    rfl
  · unfold specDelaySamples
    have e : jlimit 1 88200 (530 * 44100 / 1000) = ((23373 : Int) : ℚ) := by
      unfold jlimit
      norm_num
    rw [e, Int.floor_intCast]
    rfl

theorem zero_feedback_outputs
    (tpt : FirstOrderTPTFilterType → FirstOrderTPTFilter → ℚ → FirstOrderTPTFilter × ℚ)
    (k : BlockConstants) (hfb : k.fb = 0) (D : Nat) (hD : 1 ≤ D) (inputs : List (ℚ × ℚ))
    (s : DelayHistory) (hsL : s.pushedL = []) (hsR : s.pushedR = []) :
    tapOutputs (DelayHistory.processSamples tpt k D s inputs).2 =
      inputs.mapIdx fun n x =>
        (x.1 * k.dry
            + (if D ≤ n then (inputs.map Prod.fst).getD (n - D) 0 else 0) * k.phaseSign * k.wet
              * (if k.stereo then k.panGainL else 1),
          if k.stereo then
            x.2 * k.dry
              + (if D ≤ n then (inputs.map Prod.snd).getD (n - D) 0 else 0) * k.phaseSign * k.wet
                * k.panGainR
          else 0) := by
  obtain ⟨a1, _, _, a4, a5, a6⟩ := history_processSamples tpt k D inputs s
  rw [hsL] at a4
  rw [hsR] at a5
  have dL := delayedBy_of_delayedFrom D hD _ a4
  have dR := delayedBy_of_delayedFrom D hD _ a5
  generalize (DelayHistory.processSamples tpt k D s inputs).2 = taps at a1 a6 dL dR ⊢
  -- the samples pushed on the left are the left inputs
  have pL : (taps.map Prod.fst).map DelayTap.pushed = inputs.map Prod.fst := by
    apply List.ext_getElem?
    intro i
    cases hi : inputs[i]? with
    | none =>
      have : taps[i]? = none := by
        rw [List.getElem?_eq_none_iff] at hi ⊢
        omega
      simp [List.getElem?_map, hi, this]
    | some inp =>
      obtain ⟨t, ht, _, _, h3, _⟩ := a6 i inp hi
      simp [List.getElem?_map, hi, ht, (h3 hfb).1]
  have kept : k.stereo = true →
      ∀ i : Nat, (taps.filterMap Prod.snd)[i]? = (taps[i]?).bind Prod.snd := by
    intro hs i
    apply filterMap_getElem?_of_kept
    intro j _ a ha
    have hj : j < inputs.length := by
      rw [← a1]
      by_contra hcon
      rw [List.getElem?_eq_none (by omega)] at ha
      cases ha
    obtain ⟨t, ht, _, _, _, h4⟩ := a6 j inputs[j] (List.getElem?_eq_getElem hj)
    rw [ha] at ht
    simp only [Option.some.injEq] at ht
    rw [ht, h4, hs]
  have pR : k.stereo = true →
      (taps.filterMap Prod.snd).map DelayTap.pushed = inputs.map Prod.snd := by
    intro hs
    apply List.ext_getElem?
    intro i
    rw [List.getElem?_map, kept hs i]
    cases hi : inputs[i]? with
    | none =>
      have : taps[i]? = none := by
        rw [List.getElem?_eq_none_iff] at hi ⊢
        omega
      simp [List.getElem?_map, hi, this]
    | some inp =>
      obtain ⟨t, ht, _, _, h3, h4⟩ := a6 i inp hi
      rw [hs] at h4
      obtain ⟨r, hr⟩ := Option.isSome_iff_exists.mp h4
      simp [List.getElem?_map, hi, ht, hr, (h3 hfb).2 r hr]
  apply List.ext_getElem?
  intro i
  rw [List.getElem?_mapIdx]
  cases hi : inputs[i]? with
  | none =>
    have : taps[i]? = none := by
      rw [List.getElem?_eq_none_iff] at hi ⊢
      omega
    simp [tapOutputs, List.getElem?_map, this]
  | some inp =>
    obtain ⟨t, ht, h1, h2, _, h4⟩ := a6 i inp hi
    have hilt : i < taps.length := by
      by_contra hcon
      rw [List.getElem?_eq_none (by omega)] at ht
      cases ht
    have hdel : t.1.delayed
        = if D ≤ i then (inputs.map Prod.fst).getD (i - D) 0 else 0 := by
      have := dL i (by simpa using hilt)
      rw [pL] at this
      rw [← this, List.getD_eq_getElem?_getD]
      simp [List.getElem?_map, ht]
    simp only [tapOutputs, List.getElem?_map, ht, Option.map_some', Option.some.injEq,
      Prod.mk.injEq]
    constructor
    · rw [h1, hdel]
    · by_cases hs : k.stereo = true
      · rw [hs] at h4
        obtain ⟨r, hr⟩ := Option.isSome_iff_exists.mp h4
        have hRi : (taps.filterMap Prod.snd)[i]? = some r := by
          rw [kept hs i, ht]
          exact hr
        have hRlt : i < (taps.filterMap Prod.snd).length := by
          by_contra hcon
          rw [List.getElem?_eq_none (by omega)] at hRi
          cases hRi
        have hdelR : r.delayed
            = if D ≤ i then (inputs.map Prod.snd).getD (i - D) 0 else 0 := by
          have := dR i hRlt
          rw [pR hs] at this
          rw [← this, List.getD_eq_getElem?_getD]
          simp [List.getElem?_map, hRi]
        simp only [hr, hs, if_true]
        rw [h2 r hr, hdelR]
      · have hs2 : k.stereo = false := by simpa using hs
        rw [hs2] at h4
        have : t.2 = none := by
          cases h : t.2 with
          | none => rfl
          | some r => rw [h] at h4; cases h4
        simp [this, hs2]

theorem basicDelay_zero_feedback_block
    (tpt : FirstOrderTPTFilterType → FirstOrderTPTFilter → ℚ → FirstOrderTPTFilter × ℚ)
    (d : BasicDelay) (D N : Nat) (hD1 : 1 ≤ D) (hDN : D ≤ N)
    (hL : d.delayLineL.HoldsAt D N []) (hR : d.delayLineR.HoldsAt D N [])
    (hfb : d.feedbackAmount = 0) (b : AudioBuffer) (inputs : List (ℚ × ℚ))
    (hin : dryPairs b = some inputs) :
    ∃ d1, d.processBlock tpt b = some (d1, writeBack b
      (inputs.mapIdx fun n x =>
        (x.1 * (d.blockConstants (decide (1 < b.getNumChannels))).dry
            + (if D ≤ n then (inputs.map Prod.fst).getD (n - D) 0 else 0)
              * (d.blockConstants (decide (1 < b.getNumChannels))).phaseSign
              * (d.blockConstants (decide (1 < b.getNumChannels))).wet
              * (if (d.blockConstants (decide (1 < b.getNumChannels))).stereo then
                  (d.blockConstants (decide (1 < b.getNumChannels))).panGainL else 1),
          if (d.blockConstants (decide (1 < b.getNumChannels))).stereo then
            x.2 * (d.blockConstants (decide (1 < b.getNumChannels))).dry
              + (if D ≤ n then (inputs.map Prod.snd).getD (n - D) 0 else 0)
                * (d.blockConstants (decide (1 < b.getNumChannels))).phaseSign
                * (d.blockConstants (decide (1 < b.getNumChannels))).wet
                * (d.blockConstants (decide (1 < b.getNumChannels))).panGainR
          else 0))) := by
  have hrep : d.initialHistory.Represents D N (d, d.feedbackL, d.feedbackR) :=
    ⟨hL, hR, rfl, rfl, rfl, rfl, rfl, rfl⟩
  obtain ⟨st2, e2, _, _⟩ := represents_processSamples tpt
    (d.blockConstants (decide (1 < b.getNumChannels))) D N hD1 hDN inputs _ _ hrep
  have hz := zero_feedback_outputs tpt (d.blockConstants (decide (1 < b.getNumChannels)))
    hfb D hD1 inputs d.initialHistory rfl rfl
  simp only [BasicDelay.processBlock, BasicDelay.blockTaps, hin, e2, hz]
  exact ⟨_, rfl⟩

theorem mapIdx_congr_getElem? {α β γ : Type} (l : List α) (m : List β) (f : Nat → α → γ)
    (g : Nat → β → γ) (h : ∀ i, (l[i]?).map (f i) = (m[i]?).map (g i)) :
    l.mapIdx f = m.mapIdx g := by
  apply List.ext_getElem?
  intro i
  rw [List.getElem?_mapIdx, List.getElem?_mapIdx]
  exact h i

theorem map_mapIdx_getElem? {α β γ : Type} (l : List α) (f : Nat → α → β) (g : β → γ) :
    (l.mapIdx f).map g = l.mapIdx fun n x => g (f n x) := by
  apply List.ext_getElem?
  intro i
  rw [List.getElem?_map, List.getElem?_mapIdx, List.getElem?_mapIdx]
  cases l[i]? <;> rfl

theorem basicDelay_zero_feedback_mono
    (tpt : FirstOrderTPTFilterType → FirstOrderTPTFilter → ℚ → FirstOrderTPTFilter × ℚ)
    (d : BasicDelay) (D N : Nat) (hD1 : 1 ≤ D) (hDN : D ≤ N)
    (hL : d.delayLineL.HoldsAt D N []) (hR : d.delayLineR.HoldsAt D N [])
    (hfb : d.feedbackAmount = 0) (left : List ℚ) :
    ∃ d1, d.processBlock tpt [left] = some (d1,
      [left.mapIdx fun n x =>
        x * (1 - d.mixAmount)
          + (if D ≤ n then left.getD (n - D) 0 else 0)
            * (if d.delayMode = DelayMode.Inverted then -1 else 1) * d.mixAmount]) := by
  obtain ⟨d1, h⟩ := basicDelay_zero_feedback_block tpt d D N hD1 hDN hL hR hfb [left] _ rfl
  refine ⟨d1, ?_⟩
  rw [h]
  have e0 : ((left.map fun x => (x, x)).map Prod.fst) = left := by
    rw [List.map_map]
    exact List.map_id' left
  simp only [writeBack, AudioBuffer.getNumChannels, List.length_singleton, lt_self_iff_false,
    decide_False, BasicDelay.blockConstants, Bool.and_false, Bool.false_eq_true, if_false,
    mul_one, e0, map_mapIdx_getElem?]
  congr 3
  apply mapIdx_congr_getElem?
  intro i
  rw [List.getElem?_map]
  cases left[i]? <;> rfl

theorem basicDelay_zero_feedback_stereo
    (tpt : FirstOrderTPTFilterType → FirstOrderTPTFilter → ℚ → FirstOrderTPTFilter × ℚ)
    (d : BasicDelay) (D N : Nat) (hD1 : 1 ≤ D) (hDN : D ≤ N)
    (hL : d.delayLineL.HoldsAt D N []) (hR : d.delayLineR.HoldsAt D N [])
    (hfb : d.feedbackAmount = 0) (left right : List ℚ) (hlen : left.length = right.length) :
    ∃ d1, d.processBlock tpt [left, right] = some (d1,
      [left.mapIdx fun n x =>
          x * (1 - d.mixAmount)
            + (if D ≤ n then left.getD (n - D) 0 else 0)
              * (if d.delayMode = DelayMode.Inverted then -1 else 1) * d.mixAmount
              * (1 - max 0 d.panValue),
        right.mapIdx fun n x =>
          x * (1 - d.mixAmount)
            + (if D ≤ n then right.getD (n - D) 0 else 0)
              * (if d.delayMode = DelayMode.Inverted then -1 else 1) * d.mixAmount
              * (1 + min 0 d.panValue)]) := by
  obtain ⟨d1, h⟩ := basicDelay_zero_feedback_block tpt d D N hD1 hDN hL hR hfb [left, right] _ rfl
  refine ⟨d1, ?_⟩
  rw [h]
  have e0 : ((left.zip right).map Prod.fst) = left := List.map_fst_zip _ _ (by omega)
  have e1 : ((left.zip right).map Prod.snd) = right := List.map_snd_zip _ _ (by omega)
  have hz1 : ∀ (i : Nat) (hi : i < left.length),
      (left.zip right)[i]? = some (left[i], right.get ⟨i, by omega⟩) := by
    intro i hi
    rw [List.getElem?_eq_getElem (by rw [List.length_zip]; omega)]
    simp
  have hz2 : ∀ i : Nat, left.length ≤ i → (left.zip right)[i]? = none := by
    intro i hi
    exact List.getElem?_eq_none (by rw [List.length_zip]; omega)
  simp only [writeBack, AudioBuffer.getNumChannels, List.length_cons, List.length_singleton,
    List.length_nil, BasicDelay.blockConstants, e0, e1, map_mapIdx_getElem?]
  simp only [show decide (1 < 0 + 1 + 1) = true by decide, Bool.and_true, if_true]
  congr 3
  · apply mapIdx_congr_getElem?
    intro i
    by_cases hi : i < left.length
    · rw [hz1 i hi, List.getElem?_eq_getElem hi]
      rfl
    · rw [hz2 i (by omega), List.getElem?_eq_none (by omega)]
      rfl
  · congr 1
    apply mapIdx_congr_getElem?
    intro i
    by_cases hi : i < left.length
    · rw [hz1 i hi, List.getElem?_eq_getElem (by omega : i < right.length)]
      rfl
    · rw [hz2 i (by omega), List.getElem?_eq_none (by omega : right.length ≤ i)]
      rfl

theorem setDelayTime_settings (d : BasicDelay) (ms : ℚ) :
    (d.setDelayTime ms).feedbackAmount = d.feedbackAmount ∧
    (d.setDelayTime ms).mixAmount = d.mixAmount ∧
    (d.setDelayTime ms).delayMode = d.delayMode ∧
    (d.setDelayTime ms).panValue = d.panValue ∧
    (d.setDelayTime ms).feedbackL = d.feedbackL ∧
    (d.setDelayTime ms).feedbackR = d.feedbackR := by
  unfold BasicDelay.setDelayTime
  split_ifs <;> exact ⟨rfl, rfl, rfl, rfl, rfl, rfl⟩

/-- C30, as stated, fails: the delay length is computed in `float`.  For 530 ms at
44100 Hz the quotient 530 / 1000 rounds to 8891924 / 2^24, just below 0.53, the
product with 44100 rounds to 11966975 / 512 = 23372.998..., and `setDelay` stores its
floor 23372, while floor (530 * 44100 / 1000) is 23373. -/
theorem C30_counterexample :
    roundF32 (530 / 1000) = 8891924 / 16777216 ∧
    delayTimeSamplesF32 530 44100 = 11966975 / 512 ∧
    (((BasicDelay.new ⟨1000, 44100, 0⟩).prepare ⟨44100, 512, 2⟩).setDelayTime
      530).delayLineL.delayInSamples = 23372 ∧
    (((BasicDelay.new ⟨1000, 44100, 0⟩).prepare ⟨44100, 512, 2⟩).setDelayTime
      530).delayLineR.delayInSamples = 23372 ∧
    specDelaySamples 44100 530 = 23373 := by
  obtain ⟨hL, hR⟩ := basicDelay_ready (BasicDelay.new ⟨1000, 44100, 0⟩) ⟨44100, 512, 2⟩ 530
    rfl rfl
  have e := floatDelaySamples_example
  refine ⟨roundF32_example_ms, delayTimeSamplesF32_example, ?_, ?_, e.2⟩
  · rw [hL.2.2]
    show ((floatDelaySamples 44100 530 : Nat) : Int) = 23372
    rw [e.1]
    rfl
  · rw [hR.2.2]
    show ((floatDelaySamples 44100 530 : Nat) : Int) = 23372
    rw [e.1]
    rfl

/-- C30, amended: a `BasicDelay` whose lines are the ones its constructor builds
(capacity 88200 samples), prepared at sample rate sr and then set to a delay time of
ms milliseconds, has both lines set to D = floor (clamp (fl (fl (ms / 1000) * fl (sr)),
1, 88200)) samples, where fl rounds to binary32, and 1 ≤ D ≤ 88200; its feedback
samples are 0.  On every sequence of buffers with at least one channel `processBlock`
completes with one iteration per sample, and the samples it pops, pushes and writes
are those of the delay described with a list of pushed samples per channel: in each
channel the sample popped at iteration n is the sample pushed at iteration n - D, and
0 for n < D.  With the feedback amount 0 the pushed samples are the inputs, so a mono
block `left` becomes `left[n] * (1 - mix) + left[n - D] * sign * mix` (the delayed
term 0 for n < D), and a stereo block likewise with the pan gains.  For a requested
2000 ms, D equals 2 * sr only if sr ≤ 44100 (it does for every whole sr from 1 to
44100), and D is 88200 for every sr ≥ 44100. -/
theorem C30_effective_delay
    (tpt : FirstOrderTPTFilterType → FirstOrderTPTFilter → ℚ → FirstOrderTPTFilter × ℚ)
    (d0 : BasicDelay) (spec : ProcessSpec) (ms : ℚ) (buffers : List AudioBuffer)
    (hL : d0.delayLineL = DelayLineWithSampleAccess.new 88200)
    (hR : d0.delayLineR = DelayLineWithSampleAccess.new 88200)
    (hb : ∀ b ∈ buffers, ∃ c n, b.HasShape c n ∧ 0 < c) :
    (((floatDelaySamples spec.sampleRate ms : Nat) : Int)
        = ⌊jlimit 1 88200 (roundF32 (roundF32 (ms / 1000) * roundF32 spec.sampleRate))⌋ ∧
      1 ≤ floatDelaySamples spec.sampleRate ms ∧
      floatDelaySamples spec.sampleRate ms ≤ 88200) ∧
    (((d0.prepare spec).setDelayTime ms).delayLineL.delayInSamples
        = ((floatDelaySamples spec.sampleRate ms : Nat) : Int) ∧
      ((d0.prepare spec).setDelayTime ms).delayLineR.delayInSamples
        = ((floatDelaySamples spec.sampleRate ms : Nat) : Int) ∧
      ((d0.prepare spec).setDelayTime ms).feedbackL = 0 ∧
      ((d0.prepare spec).setDelayTime ms).feedbackR = 0) ∧
    (∃ d1 s1 taps,
      BasicDelay.blocksTaps tpt ((d0.prepare spec).setDelayTime ms) buffers = some (d1, taps) ∧
      DelayHistory.processBlocks tpt d0 (floatDelaySamples spec.sampleRate ms)
        ((d0.prepare spec).setDelayTime ms).initialHistory buffers = some (s1, taps) ∧
      taps.length = (buffers.map AudioBuffer.getNumSamples).sum ∧
      DelayedBy (floatDelaySamples spec.sampleRate ms) (taps.map Prod.fst) ∧
      DelayedBy (floatDelaySamples spec.sampleRate ms) (taps.filterMap Prod.snd)) ∧
    (d0.feedbackAmount = 0 →
      (∀ left : List ℚ, ∃ d1,
        ((d0.prepare spec).setDelayTime ms).processBlock tpt [left] = some (d1,
          [left.mapIdx fun n x =>
            x * (1 - d0.mixAmount)
              + (if floatDelaySamples spec.sampleRate ms ≤ n then
                  left.getD (n - floatDelaySamples spec.sampleRate ms) 0 else 0)
                * (if d0.delayMode = DelayMode.Inverted then -1 else 1) * d0.mixAmount])) ∧
      (∀ left right : List ℚ, left.length = right.length → ∃ d1,
        ((d0.prepare spec).setDelayTime ms).processBlock tpt [left, right] = some (d1,
          [left.mapIdx fun n x =>
              x * (1 - d0.mixAmount)
                + (if floatDelaySamples spec.sampleRate ms ≤ n then
                    left.getD (n - floatDelaySamples spec.sampleRate ms) 0 else 0)
                  * (if d0.delayMode = DelayMode.Inverted then -1 else 1) * d0.mixAmount
                  * (1 - max 0 d0.panValue),
            right.mapIdx fun n x =>
              x * (1 - d0.mixAmount)
                + (if floatDelaySamples spec.sampleRate ms ≤ n then
                    right.getD (n - floatDelaySamples spec.sampleRate ms) 0 else 0)
                  * (if d0.delayMode = DelayMode.Inverted then -1 else 1) * d0.mixAmount
                  * (1 + min 0 d0.panValue)]))) ∧
    ((((floatDelaySamples spec.sampleRate 2000 : Nat) : ℚ) = 2 * spec.sampleRate →
        spec.sampleRate ≤ 44100) ∧
      (44100 ≤ spec.sampleRate → floatDelaySamples spec.sampleRate 2000 = 88200) ∧
      (∀ k : Nat, 1 ≤ k → k ≤ 44100 → spec.sampleRate = (k : ℚ) →
        floatDelaySamples spec.sampleRate 2000 = 2 * k)) := by
  obtain ⟨hLr, hRr⟩ := basicDelay_ready d0 spec ms hL hR
  have hs := floatDelaySamples_spec spec.sampleRate ms
  obtain ⟨s1, s2, s3, s4, s5, s6⟩ := setDelayTime_settings (d0.prepare spec) ms
  have hk : ∀ b, ((d0.prepare spec).setDelayTime ms).blockConstants b = d0.blockConstants b :=
    fun b => setDelayTime_blockConstants (d0.prepare spec) ms b
  have hDN : floatDelaySamples spec.sampleRate ms ≤ 88201 := by
    have := hs.2.2
    omega
  obtain ⟨d1, t1, taps, e1, e2, hlen, hdL, hdR⟩ :=
    represents_blocks tpt (floatDelaySamples spec.sampleRate ms) 88201 hs.2.1 hDN d0 buffers
      ((d0.prepare spec).setDelayTime ms).initialHistory ((d0.prepare spec).setDelayTime ms) hb
      ⟨hLr, hRr, rfl, rfl, rfl, rfl, rfl, rfl⟩ hk
  refine ⟨hs, ⟨hLr.2.2, hRr.2.2, s5.trans rfl, s6.trans rfl⟩,
    ⟨d1, t1, taps, e1, e2, hlen, delayedBy_of_delayedFrom _ hs.2.1 _ hdL,
      delayedBy_of_delayedFrom _ hs.2.1 _ hdR⟩,
    ?_, floatDelaySamples_two_seconds spec.sampleRate⟩
  intro hfb
  have hfb2 : ((d0.prepare spec).setDelayTime ms).feedbackAmount = 0 := by
    rw [s1]
    exact hfb
  have hmix : ((d0.prepare spec).setDelayTime ms).mixAmount = d0.mixAmount := s2.trans rfl
  have hmode : ((d0.prepare spec).setDelayTime ms).delayMode = d0.delayMode := s3.trans rfl
  have hpan : ((d0.prepare spec).setDelayTime ms).panValue = d0.panValue := s4.trans rfl
  constructor
  · intro left
    obtain ⟨d2, h⟩ := basicDelay_zero_feedback_mono tpt ((d0.prepare spec).setDelayTime ms)
      (floatDelaySamples spec.sampleRate ms) 88201 hs.2.1 hDN hLr hRr hfb2 left
    rw [hmix, hmode] at h
    exact ⟨d2, h⟩
  · intro left right hlen2
    obtain ⟨d2, h⟩ := basicDelay_zero_feedback_stereo tpt ((d0.prepare spec).setDelayTime ms)
      (floatDelaySamples spec.sampleRate ms) 88201 hs.2.1 hDN hLr hRr hfb2 left right hlen2
    rw [hmix, hmode, hpan] at h
    exact ⟨d2, h⟩

theorem C30_effective_delay_witness :
    (∀ b ∈ ([[[1, 0, 0, 0, 0, 0], [0, 2, 0, 0, 0, 0]]] : List AudioBuffer),
      ∃ c n, AudioBuffer.HasShape b c n ∧ 0 < c) ∧
    ∃ d1 s1 taps,
      BasicDelay.blocksTaps (fun _ f x => (f, x))
        (((BasicDelay.new ⟨1000, 44100, 0⟩).prepare ⟨44100, 6, 2⟩).setDelayTime (1 / 10))
        [[[1, 0, 0, 0, 0, 0], [0, 2, 0, 0, 0, 0]]] = some (d1, taps) ∧
      DelayHistory.processBlocks (fun _ f x => (f, x)) (BasicDelay.new ⟨1000, 44100, 0⟩)
        (floatDelaySamples 44100 (1 / 10))
        (((BasicDelay.new ⟨1000, 44100, 0⟩).prepare ⟨44100, 6, 2⟩).setDelayTime
          (1 / 10)).initialHistory
        [[[1, 0, 0, 0, 0, 0], [0, 2, 0, 0, 0, 0]]] = some (s1, taps) ∧
      taps.length
        = ([([[1, 0, 0, 0, 0, 0], [0, 2, 0, 0, 0, 0]] : AudioBuffer)].map
            AudioBuffer.getNumSamples).sum ∧
      DelayedBy (floatDelaySamples 44100 (1 / 10)) (taps.map Prod.fst) ∧
      DelayedBy (floatDelaySamples 44100 (1 / 10)) (taps.filterMap Prod.snd) :=
  ⟨fun b hb => ⟨2, 6, by
      rw [List.mem_singleton] at hb
      subst hb
      decide, by decide⟩,
   (C30_effective_delay (fun _ f x => (f, x)) (BasicDelay.new ⟨1000, 44100, 0⟩) ⟨44100, 6, 2⟩
      (1 / 10) [[[1, 0, 0, 0, 0, 0], [0, 2, 0, 0, 0, 0]]] rfl rfl
      (fun b hb => ⟨2, 6, by
        rw [List.mem_singleton] at hb
        subst hb
        decide, by decide⟩)).2.2.1⟩

/-! ## The module counters in reachable states -/

theorem wf_pointwise (p : ADSREchoAudioProcessor) (hwf : p.WellFormed) (hcs : p.CountersInSync) :
    p.slots.length = 2 ∧
    ∀ c, c < 2 → ∃ chain, p.slots[c]? = some chain ∧ chain.length = 8 ∧
      (∀ s ∈ chain, s ≠ none) ∧
      p.numModules[c]? = some ((occupiedCount chain : Nat) : Int) := by
  refine ⟨hwf.1, ?_⟩
  intro c hc
  have hlt : c < p.slots.length := by rw [hwf.1]; exact hc
  obtain ⟨h1, h2⟩ := hwf.2 _ (List.getElem_mem hlt)
  refine ⟨p.slots[c], List.getElem?_eq_getElem hlt, h1, h2, ?_⟩
  have := hcs c hc
  rwa [List.getD_eq_getElem?_getD, List.getElem?_eq_getElem hlt] at this

theorem counters_of_pointwise (p : ADSREchoAudioProcessor) (h2 : p.slots.length = 2)
    (h : ∀ c, c < 2 → ∃ chain, p.slots[c]? = some chain ∧ chain.length = 8 ∧
      (∀ s ∈ chain, s ≠ none) ∧
      p.numModules[c]? = some ((occupiedCount chain : Nat) : Int)) :
    p.WellFormed ∧ p.CountersInSync := by
  constructor
  · refine ⟨h2, ?_⟩
    intro chain hchain
    obtain ⟨c, hc⟩ := List.mem_iff_getElem?.mp hchain
    have hlt : c < 2 := by
      by_contra hcon
      rw [List.getElem?_eq_none (by omega)] at hc
      cases hc
    obtain ⟨ch, e, l, n, _⟩ := h c hlt
    rw [hc] at e
    simp only [Option.some.injEq] at e
    rw [e]
    exact ⟨l, n⟩
  · intro c hc
    obtain ⟨ch, e, _, _, m⟩ := h c hc
    rw [List.getD_eq_getElem?_getD, e]
    exact m

theorem vecModify_length {α : Type} (v : List α) (c : Int) (f : α → α) :
    (vecModify v c f).length = v.length := by
  unfold vecModify
  split_ifs <;> simp

theorem vecModify_getElem? {α : Type} (v : List α) (c : Int) (f : α → α) (k : Nat) :
    (vecModify v c f)[k]? = if (k : Int) = c then (v[k]?).map f else v[k]? := by
  split_ifs with h
  · rw [← h]
    exact vecModify_getElem?_self v k f
  · exact vecModify_getElem?_ne v c f k h

theorem counters_modify (p q : ADSREchoAudioProcessor) (c0 : Int)
    (f : List (Option ModuleSlot) → List (Option ModuleSlot)) (g : Int → Int) (δ : Int)
    (hs : q.slots = vecModify p.slots c0 f) (hn : q.numModules = vecModify p.numModules c0 g)
    (hg : ∀ x, g x = x + δ)
    (hf : ∀ (c : Nat) chain, (c : Int) = c0 → p.slots[c]? = some chain → chain.length = 8 →
      (∀ s ∈ chain, s ≠ none) →
      (f chain).length = 8 ∧ (∀ s ∈ f chain, s ≠ none) ∧
      ((occupiedCount (f chain) : Nat) : Int) = ((occupiedCount chain : Nat) : Int) + δ)
    (hwf : p.WellFormed) (hcs : p.CountersInSync) :
    q.WellFormed ∧ q.CountersInSync := by
  obtain ⟨h2, hp⟩ := wf_pointwise p hwf hcs
  apply counters_of_pointwise
  · rw [hs, vecModify_length]; exact h2
  · intro c hc
    obtain ⟨chain, e, l, n, m⟩ := hp c hc
    rw [hs, hn, vecModify_getElem?, vecModify_getElem?]
    by_cases h : (c : Int) = c0
    · obtain ⟨a1, a2, a3⟩ := hf c chain h e l n
      rw [if_pos h, if_pos h, e, m]
      refine ⟨f chain, rfl, a1, a2, ?_⟩
      simp only [Option.map_some', hg, a3]
    · rw [if_neg h, if_neg h]
      exact ⟨chain, e, l, n, m⟩

theorem chainTypes_map (chain : List (Option ModuleSlot)) (h : ModuleSlot → ModuleSlot)
    (hh : ∀ s, (h s).get.map EffectModule.kind = s.get.map EffectModule.kind) :
    chainTypes (chain.map (Option.map h)) = chainTypes chain := by
  unfold chainTypes
  rw [List.map_map]
  apply List.map_congr_left
  intro a _
  cases a with
  | none => rfl
  | some s => exact hh s

theorem counters_map (p q : ADSREchoAudioProcessor) (h : ModuleSlot → ModuleSlot)
    (hs : q.slots = p.slots.map fun chain => chain.map (Option.map h))
    (hn : q.numModules = p.numModules)
    (hh : ∀ s, (h s).get.map EffectModule.kind = s.get.map EffectModule.kind)
    (hwf : p.WellFormed) (hcs : p.CountersInSync) :
    q.WellFormed ∧ q.CountersInSync := by
  obtain ⟨h2, hp⟩ := wf_pointwise p hwf hcs
  apply counters_of_pointwise
  · rw [hs, List.length_map]; exact h2
  · intro c hc
    obtain ⟨chain, e, l, n, m⟩ := hp c hc
    refine ⟨chain.map (Option.map h), by rw [hs, List.getElem?_map, e]; rfl,
      by rw [List.length_map]; exact l, ?_, ?_⟩
    · intro s hs'
      obtain ⟨a, ha, rfl⟩ := List.mem_map.mp hs'
      have := n a ha
      cases a with
      | none => exact absurd rfl this
      | some x => simp
    · rw [hn, m, occupiedCount, occupiedCount, chainTypes_map chain h hh]

theorem prepare_kind (s : ModuleSlot) (spec : ProcessSpec) :
    (s.prepare spec).get.map EffectModule.kind = s.get.map EffectModule.kind := by
  unfold ModuleSlot.prepare
  simp only []
  cases ha : s.activeModule with
  | none => rfl
  | some a =>
    simp only [ModuleSlot.prepareAt, ModuleSlot.get]
    cases ho : s.ownedModule with
    | none =>
      simp only []
      cases hp : s.pendingDeletion with
      | none => simp [ho]
      | some q => simp only []; split_ifs <;> simp [ho]
    | some m =>
      simp only []
      split_ifs
      · simp [EffectModule.prepare]
      · cases hp : s.pendingDeletion with
        | none => simp [ho]
        | some q => simp only []; split_ifs <;> simp [ho]

theorem occupiedCount_set (chain : List (Option ModuleSlot)) (i : Nat) (s t : ModuleSlot)
    (hi : chain[i]? = some (some s)) :
    ((occupiedCount (chain.set i (some t)) : Nat) : Int)
      = ((occupiedCount chain : Nat) : Int) - (if s.get.isSome then 1 else 0)
          + (if t.get.isSome then 1 else 0) := by
  have hilt : i < chain.length := by
    by_contra hcon
    rw [List.getElem?_eq_none (by omega)] at hi
    cases hi
  have hb : i < (chainTypes chain).length := by simpa [chainTypes] using hilt
  have hty : (chainTypes chain)[i] = s.get.map EffectModule.kind := by
    have := chainTypes_getElem? chain i
    rw [hi, List.getElem?_eq_getElem hb] at this
    simpa using this
  have hset : chainTypes (chain.set i (some t))
      = (chainTypes chain).set i (t.get.map EffectModule.kind) := by
    simp only [chainTypes, List.map_set]
  have hpos : (if s.get.isSome then 1 else 0) ≤ (chainTypes chain).countP Option.isSome := by
    split_ifs with h
    · apply List.countP_pos_iff.mpr
      exact ⟨_, List.getElem_mem hb, by rw [hty]; simpa using h⟩
    · omega
  rw [occupiedCount, hset, List.countP_set _ _ _ _ hb, hty, occupiedCount]
  simp only [Option.isSome_map']
  split_ifs at hpos ⊢ <;> omega

theorem vecModify_id {α : Type} (v : List α) (c : Int) : vecModify v c (fun x => x) = v := by
  apply List.ext_getElem?
  intro k
  rw [vecModify_getElem?]
  split_ifs <;> simp

theorem modify_slot_eq_set (chain : List (Option ModuleSlot)) (i : Nat) (s : ModuleSlot)
    (h : ModuleSlot → ModuleSlot) (hi : chain[i]? = some (some s)) :
    vecModify chain (i : Int) (Option.map h) = chain.set i (some (h s)) := by
  rw [vecModify_natCast, List.modify_eq_set, hi]
  rfl

theorem set_slot_wf (chain : List (Option ModuleSlot)) (i : Nat) (t : ModuleSlot)
    (hl : chain.length = 8) (hn : ∀ s ∈ chain, s ≠ none) :
    (chain.set i (some t)).length = 8 ∧ ∀ s ∈ chain.set i (some t), s ≠ none := by
  refine ⟨by simpa using hl, ?_⟩
  intro s hs
  rcases List.mem_or_eq_of_mem_set hs with h1 | h1
  · exact hn s h1
  · rw [h1]; simp

theorem counters_addModule (p : ADSREchoAudioProcessor) (c : Nat) (t : ModuleType)
    (hwf : p.WellFormed) (hcs : p.CountersInSync) :
    (p.addModule (c : Int) t).WellFormed ∧ (p.addModule (c : Int) t).CountersInSync := by
  unfold ADSREchoAudioProcessor.addModule
  split_ifs with hfull
  · exact ⟨hwf, hcs⟩
  · cases hfind : findEmptySlot ((vecGet? p.slots (c : Int)).getD []) 0 with
    | none => exact ⟨hwf, hcs⟩
    | some r =>
      obtain ⟨k, slot⟩ := r
      simp only []
      apply counters_modify p _ (c : Int)
        (fun ch => vecModify ch (k : Int)
          (Option.map fun s => s.setModule (some (makeModule p.nextAddr t))))
        (· + 1) 1 _ _ (fun _ => rfl) _ hwf hcs
      · simp [ADSREchoAudioProcessor.installModule, ADSREchoAudioProcessor.updateSlot,
          ADSREchoAudioProcessor.setSlotDefaults]
      · simp [ADSREchoAudioProcessor.installModule, ADSREchoAudioProcessor.updateSlot,
          ADSREchoAudioProcessor.setSlotDefaults]
      · intro c1 chain hc1 hch hl hn
        have hcc : c1 = c := by omega
        subst hcc
        rw [vecGet?_natCast, hch] at hfind
        obtain ⟨i, hk, hi, hs, _⟩ := findEmptySlot_some chain 0 k slot hn hfind
        have hki : k = i := by omega
        subst hki
        beta_reduce
        rw [modify_slot_eq_set chain k slot _ hi]
        obtain ⟨w1, w2⟩ := set_slot_wf chain k
          (slot.setModule (some (makeModule p.nextAddr t))) hl hn
        refine ⟨w1, w2, ?_⟩
        rw [occupiedCount_set chain k slot _ hi, hs]
        have := setModule_get_isNone slot (makeModule p.nextAddr t)
        cases hg : (slot.setModule (some (makeModule p.nextAddr t))).get with
        | none => rw [hg] at this; cases this
        | some m => simp

theorem counters_removeModule (p : ADSREchoAudioProcessor) (c i : Int)
    (hwf : p.WellFormed) (hcs : p.CountersInSync) :
    (p.removeModule c i).WellFormed ∧ (p.removeModule c i).CountersInSync := by
  unfold ADSREchoAudioProcessor.removeModule
  cases hr : p.slotRef c i with
  | none => exact ⟨hwf, hcs⟩
  | some s =>
    simp only []
    split_ifs with hempty
    · exact ⟨hwf, hcs⟩
    · obtain ⟨cn, k, chain, hc, hi, hcc, hkk⟩ := slotRef_some p c i s hr
      subst hc; subst hi
      apply counters_modify p _ (cn : Int)
        (fun ch => vecModify ch (k : Int) (Option.map ModuleSlot.clearModule))
        (· - 1) (-1) _ _ (fun x => by ring) _ hwf hcs
      · simp [ADSREchoAudioProcessor.requestSlotMove, ADSREchoAudioProcessor.updateSlot]
      · simp [ADSREchoAudioProcessor.requestSlotMove, ADSREchoAudioProcessor.updateSlot]
      · intro c1 chain1 hc1 hch hl hn
        have hcc1 : c1 = cn := by omega
        subst hcc1
        rw [hcc] at hch
        simp only [Option.some.injEq] at hch
        subst hch
        beta_reduce
        rw [modify_slot_eq_set chain k s _ hkk]
        obtain ⟨w1, w2⟩ := set_slot_wf chain k s.clearModule hl hn
        refine ⟨w1, w2, ?_⟩
        rw [occupiedCount_set chain k s _ hkk]
        have h1 : s.get.isSome = true := by
          cases hg : s.get with
          | none => simp [hg] at hempty
          | some m => rfl
        have h2 : s.clearModule.get = none := rfl
        simp [h1, h2]
        ring

theorem counters_changeModuleType (p : ADSREchoAudioProcessor) (c i : Int) (t : ModuleType)
    (hwf : p.WellFormed) (hcs : p.CountersInSync) :
    (p.changeModuleType c i t).WellFormed ∧ (p.changeModuleType c i t).CountersInSync := by
  unfold ADSREchoAudioProcessor.changeModuleType
  cases hr : p.slotRef c i with
  | none => exact ⟨hwf, hcs⟩
  | some s =>
    simp only []
    split_ifs with hempty
    · exact ⟨hwf, hcs⟩
    · obtain ⟨cn, k, chain, hc, hi, hcc, hkk⟩ := slotRef_some p c i s hr
      subst hc; subst hi
      apply counters_modify p _ (cn : Int)
        (fun ch => vecModify ch (k : Int)
          (Option.map fun s => s.setModule (some (makeModule p.nextAddr t))))
        (fun x => x) 0 _ _ (fun x => by ring) _ hwf hcs
      · simp [ADSREchoAudioProcessor.installModule, ADSREchoAudioProcessor.updateSlot]
      · rw [vecModify_id]
        simp [ADSREchoAudioProcessor.installModule, ADSREchoAudioProcessor.updateSlot]
      · intro c1 chain1 hc1 hch hl hn
        have hcc1 : c1 = cn := by omega
        subst hcc1
        rw [hcc] at hch
        simp only [Option.some.injEq] at hch
        subst hch
        beta_reduce
        rw [modify_slot_eq_set chain k s _ hkk]
        obtain ⟨w1, w2⟩ := set_slot_wf chain k
          (s.setModule (some (makeModule p.nextAddr t))) hl hn
        refine ⟨w1, w2, ?_⟩
        rw [occupiedCount_set chain k s _ hkk]
        have h1 : s.get.isSome = true := by
          cases hg : s.get with
          | none => simp [hg] at hempty
          | some m => rfl
        have := setModule_get_isNone s (makeModule p.nextAddr t)
        cases hg : (s.setModule (some (makeModule p.nextAddr t))).get with
        | none => rw [hg] at this; cases this
        | some m => simp [h1]

theorem moveChain_perm (chain : List (Option ModuleSlot)) (hlen : chain.length = 8)
    (from_ to_ : Int) : (moveChain chain from_ to_).Perm chain := by
  by_cases h : from_ = to_ ∨ from_ < 0 ∨ 8 ≤ from_ ∨ to_ < 0 ∨ 8 ≤ to_
  · rw [moveChain_unchanged chain _ _ h]
  · have hf0 : 0 ≤ from_ := by omega
    have hf8 : from_ < 8 := by omega
    have ht0 : 0 ≤ to_ := by omega
    have ht8 : to_ < 8 := by omega
    have hne : from_ ≠ to_ := by omega
    rw [moveChain_eq_erase_insert chain hlen from_ to_ hf0 hf8 ht0 ht8 hne]
    have hfn : from_.toNat < chain.length := by omega
    have htn : to_.toNat ≤ (chain.eraseIdx from_.toNat).length := by
      rw [List.length_eraseIdx, if_pos hfn]; omega
    exact (List.perm_insertIdx _ _ htn).trans (perm_getD_cons_eraseIdx none chain from_.toNat hfn)

theorem counters_executeSlotMove (p : ADSREchoAudioProcessor)
    (hwf : p.WellFormed) (hcs : p.CountersInSync) :
    p.executeSlotMove.WellFormed ∧ p.executeSlotMove.CountersInSync := by
  apply counters_modify p _ p.pendingMove.chainIndex
    (fun ch => moveChain ch p.pendingMove.from_ p.pendingMove.to_) (fun x => x) 0 rfl
    (by rw [vecModify_id]; rfl) (fun x => by ring) _ hwf hcs
  intro c chain _ _ hl hn
  have hperm := moveChain_perm chain hl p.pendingMove.from_ p.pendingMove.to_
  refine ⟨by rw [hperm.length_eq]; exact hl, fun s hs => hn s (hperm.mem_iff.mp hs), ?_⟩
  rw [occupiedCount, occupiedCount, add_zero]
  congr 1
  exact List.Perm.countP_eq _ (List.Perm.map _ hperm)

theorem counters_congr (p q : ADSREchoAudioProcessor) (hs : q.slots = p.slots)
    (hn : q.numModules = p.numModules) (hwf : p.WellFormed) (hcs : p.CountersInSync) :
    q.WellFormed ∧ q.CountersInSync := by
  constructor
  · unfold ADSREchoAudioProcessor.WellFormed
    rw [hs]
    exact hwf
  · unfold ADSREchoAudioProcessor.CountersInSync
    rw [hs, hn]
    exact hcs

theorem counters_processBlock (process : EffectModule → AudioBuffer → AudioBuffer)
    (decibelsToGain : ℚ → ℚ) (totalNumInputChannels totalNumOutputChannels : Nat)
    (p : ADSREchoAudioProcessor) (buffer : AudioBuffer)
    (hwf : p.WellFormed) (hcs : p.CountersInSync) :
    (ADSREchoAudioProcessor.processBlock process decibelsToGain totalNumInputChannels
        totalNumOutputChannels p buffer).1.WellFormed ∧
    (ADSREchoAudioProcessor.processBlock process decibelsToGain totalNumInputChannels
        totalNumOutputChannels p buffer).1.CountersInSync := by
  obtain ⟨h1, h2⟩ := processBlock_slots process decibelsToGain totalNumInputChannels
    totalNumOutputChannels p buffer
  by_cases hm : p.moveRequested = true
  · rw [if_pos hm] at h1
    obtain ⟨w, c⟩ := counters_executeSlotMove p hwf hcs
    exact counters_congr p.executeSlotMove _ h1 (h2.trans rfl) w c
  · rw [if_neg hm] at h1
    exact counters_congr p _ h1 h2 hwf hcs

theorem counters_new (params : ParameterState) :
    (ADSREchoAudioProcessor.new params).WellFormed ∧
    (ADSREchoAudioProcessor.new params).CountersInSync := by
  constructor
  · refine ⟨by simp [ADSREchoAudioProcessor.new], ?_⟩
    intro chain hchain
    simp only [ADSREchoAudioProcessor.new, List.mem_map, List.mem_range] at hchain
    obtain ⟨j, _, rfl⟩ := hchain
    exact ⟨by simp, by simp⟩
  · intro c hc
    have hc2 : c < 2 := hc
    interval_cases c <;>
      simp [ADSREchoAudioProcessor.new, NUM_CHAINS, MAX_SLOTS, occupiedCount, chainTypes,
        List.range_succ, ModuleSlot.new, ModuleSlot.get, List.replicate]

theorem reachable_inv (process : EffectModule → AudioBuffer → AudioBuffer)
    (decibelsToGain : ℚ → ℚ) (p : ADSREchoAudioProcessor)
    (h : p.Reachable process decibelsToGain) : p.WellFormed ∧ p.CountersInSync := by
  induction h with
  | new params => exact counters_new params
  | prepareToPlay p sr n ch _ ih =>
    exact counters_map p _ (fun s => s.prepare ⟨sr, n, ch⟩) rfl rfl (fun s => prepare_kind s _)
      ih.1 ih.2
  | releaseResources p _ ih =>
    exact counters_map p _ ModuleSlot.destroyPending rfl rfl (fun _ => rfl) ih.1 ih.2
  | addModule p c t _ _ ih => exact counters_addModule p c t ih.1 ih.2
  | removeModule p c i _ _ _ ih => exact counters_removeModule p c i ih.1 ih.2
  | changeModuleType p c i t _ _ _ ih => exact counters_changeModuleType p c i t ih.1 ih.2
  | requestSlotMove p c f t _ _ ih => exact counters_congr p _ rfl rfl ih.1 ih.2
  | processBlock p k n b _ _ _ _ ih => exact counters_processBlock _ _ _ _ p b ih.1 ih.2
  | setStateInformation p q _ _ ihp ihq =>
    obtain ⟨_, h2, h3⟩ := setStateInformation_round_trip q p ihq.1 ihp.1
    exact ⟨h3, h2⟩

theorem chainSlotEmpty_map (chain : List (Option ModuleSlot)) (h : ModuleSlot → ModuleSlot)
    (hh : ∀ s, (h s).get.map EffectModule.kind = s.get.map EffectModule.kind) (i : Nat) :
    chainSlotEmpty (chain.map (Option.map h)) i = chainSlotEmpty chain i := by
  unfold chainSlotEmpty
  rw [List.getElem?_map]
  cases chain[i]? with
  | none => rfl
  | some o =>
    cases o with
    | none => rfl
    | some s =>
      simp only [Option.map_some']
      have := hh s
      cases h1 : (h s).get <;> cases h2 : s.get <;> simp [h1, h2] at this ⊢

theorem settled_prepareToPlay (p : ADSREchoAudioProcessor) (sampleRate : ℚ)
    (samplesPerBlock totalNumOutputChannels : Nat) (hp : p.Settled) :
    (p.prepareToPlay sampleRate samplesPerBlock totalNumOutputChannels).Settled := by
  obtain ⟨h1, h2, h3⟩ := hp
  refine ⟨by simpa [ADSREchoAudioProcessor.prepareToPlay] using h1, ?_, h3⟩
  intro chain hchain
  simp only [ADSREchoAudioProcessor.prepareToPlay, List.mem_map] at hchain
  obtain ⟨orig, horig, rfl⟩ := hchain
  obtain ⟨hl, hn, hpk⟩ := h2 orig horig
  refine ⟨by rw [List.length_map]; exact hl, ?_, ?_⟩
  · intro slot hslot
    simp only [List.mem_map] at hslot
    obtain ⟨o, ho, rfl⟩ := hslot
    cases o with
    | none => exact absurd rfl (hn none ho)
    | some s => simp
  · intro j hj i hi he
    rw [List.length_map] at hj
    rw [chainSlotEmpty_map _ _ (fun s => prepare_kind s _)] at he ⊢
    exact hpk j hj i hi he

theorem forRange_invariant {σ : Type} (P : σ → Prop) (lo hi : Nat) (f : Nat → σ → σ)
    (hf : ∀ i s, P s → P (f i s)) (s : σ) (hs : P s) : P (forRange lo hi f s) := by
  unfold forRange
  generalize (List.range (hi - lo)).map (fun k => lo + k) = l
  induction l generalizing s with
  | nil => exact hs
  | cons a rest ih => exact ih _ (hf a s hs)

theorem slot_process_length (process : EffectModule → AudioBuffer → AudioBuffer)
    (hlen : ∀ m b, (process m b).length = b.length) (s : ModuleSlot) (b : AudioBuffer) :
    (s.process process b).length = b.length := by
  unfold ModuleSlot.process
  cases s.activeModule with
  | none => rfl
  | some a =>
    simp only []
    cases s.deref a with
    | none => rfl
    | some m => exact hlen m b

theorem processSlots_length (process : EffectModule → AudioBuffer → AudioBuffer)
    (hlen : ∀ m b, (process m b).length = b.length) (chain : List (Option ModuleSlot))
    (b : AudioBuffer) : (processSlots process chain b).length = b.length := by
  unfold processSlots
  induction chain generalizing b with
  | nil => rfl
  | cons a rest ih =>
    rw [List.foldl_cons, ih]
    cases a with
    | none => rfl
    | some s => exact slot_process_length process hlen s b

theorem processChain_buffers (process : EffectModule → AudioBuffer → AudioBuffer)
    (decibelsToGain : ℚ → ℚ) (hlen : ∀ m b, (process m b).length = b.length)
    (k n c : Nat) (st : ADSREchoAudioProcessor × AudioBuffer) :
    (ADSREchoAudioProcessor.processChain process decibelsToGain k n c st).1.masterDryBuffer
      = st.1.masterDryBuffer ∧
    (ADSREchoAudioProcessor.processChain process decibelsToGain k n c
      st).1.chainTempBuffer.length = st.1.chainTempBuffer.length := by
  refine ⟨rfl, ?_⟩
  simp only [ADSREchoAudioProcessor.processChain, AudioBuffer.applyGain, List.length_map,
    chainMix]
  rw [forRange_invariant (fun b : AudioBuffer => b.length =
      (processSlots process (st.1.slots.getD c [])
        (forRange 0 k (fun ch t => t.copyFrom ch st.1.masterDryBuffer ch n)
          st.1.chainTempBuffer.clear)).length) 0 k _
    (fun i s hs => by simpa using hs) _ rfl,
    processSlots_length process hlen,
    forRange_invariant (fun b : AudioBuffer => b.length = st.1.chainTempBuffer.length) 0 k _
      (fun i s hs => by simpa [AudioBuffer.copyFrom] using hs) _
      (by simp [AudioBuffer.clear])]

theorem processBlock_buffers (process : EffectModule → AudioBuffer → AudioBuffer)
    (decibelsToGain : ℚ → ℚ) (hlen : ∀ m b, (process m b).length = b.length)
    (totalNumInputChannels totalNumOutputChannels : Nat)
    (p : ADSREchoAudioProcessor) (buffer : AudioBuffer) :
    (ADSREchoAudioProcessor.processBlock process decibelsToGain totalNumInputChannels
        totalNumOutputChannels p buffer).1.masterDryBuffer.length = p.masterDryBuffer.length ∧
    (ADSREchoAudioProcessor.processBlock process decibelsToGain totalNumInputChannels
        totalNumOutputChannels p buffer).1.chainTempBuffer.length
      = p.chainTempBuffer.length := by
  unfold ADSREchoAudioProcessor.processBlock
  simp only []
  apply forRange_invariant
    (fun st : ADSREchoAudioProcessor × AudioBuffer =>
      st.1.masterDryBuffer.length = p.masterDryBuffer.length ∧
      st.1.chainTempBuffer.length = p.chainTempBuffer.length)
  · intro i st hst
    obtain ⟨h1, h2⟩ := processChain_buffers process decibelsToGain hlen
      totalNumInputChannels buffer.getNumSamples i st
    exact ⟨by rw [h1]; exact hst.1, by rw [h2]; exact hst.2⟩
  · constructor
    · simp only []
      rw [forRange_invariant (fun b : AudioBuffer => b.length = p.masterDryBuffer.length)
        0 totalNumInputChannels _
        (fun i s hs => by simpa [AudioBuffer.copyFrom] using hs) _ ?_]
      split_ifs <;>
        simp [AudioBuffer.clear, AudioBuffer.setSize, AudioBuffer.getNumChannels,
          ADSREchoAudioProcessor.executeSlotMove]
    · simp only []
      split_ifs <;>
        simp [AudioBuffer.clear, AudioBuffer.setSize, AudioBuffer.getNumChannels,
          ADSREchoAudioProcessor.executeSlotMove]

theorem edit_buffers (process : EffectModule → AudioBuffer → AudioBuffer)
    (decibelsToGain : ℚ → ℚ) (hlen : ∀ m b, (process m b).length = b.length)
    (totalNumInputChannels totalNumOutputChannels : Nat)
    (p : ADSREchoAudioProcessor) (op : EditOp) :
    (p.edit process decibelsToGain totalNumInputChannels totalNumOutputChannels
      op).masterDryBuffer.length = p.masterDryBuffer.length ∧
    (p.edit process decibelsToGain totalNumInputChannels totalNumOutputChannels
      op).chainTempBuffer.length = p.chainTempBuffer.length := by
  cases op with
  | addModule c t =>
    simp only [ADSREchoAudioProcessor.edit, ADSREchoAudioProcessor.addModule]
    split_ifs
    · exact ⟨rfl, rfl⟩
    · cases findEmptySlot ((vecGet? p.slots c).getD []) 0 with
      | none => exact ⟨rfl, rfl⟩
      | some r => exact ⟨rfl, rfl⟩
  | removeModule c i =>
    simp only [ADSREchoAudioProcessor.edit, ADSREchoAudioProcessor.removeModule]
    cases p.slotRef c i with
    | none => exact ⟨rfl, rfl⟩
    | some s =>
      simp only []
      split_ifs <;> exact ⟨rfl, rfl⟩
  | changeModuleType c i t =>
    simp only [ADSREchoAudioProcessor.edit, ADSREchoAudioProcessor.changeModuleType]
    cases p.slotRef c i with
    | none => exact ⟨rfl, rfl⟩
    | some s =>
      simp only []
      split_ifs <;> exact ⟨rfl, rfl⟩
  | process b =>
    exact processBlock_buffers process decibelsToGain hlen _ _ p b

theorem edits_buffers (process : EffectModule → AudioBuffer → AudioBuffer)
    (decibelsToGain : ℚ → ℚ) (hlen : ∀ m b, (process m b).length = b.length)
    (totalNumInputChannels totalNumOutputChannels : Nat) (ops : List EditOp)
    (p : ADSREchoAudioProcessor) :
    (p.edits process decibelsToGain totalNumInputChannels totalNumOutputChannels
      ops).masterDryBuffer.length = p.masterDryBuffer.length ∧
    (p.edits process decibelsToGain totalNumInputChannels totalNumOutputChannels
      ops).chainTempBuffer.length = p.chainTempBuffer.length := by
  induction ops generalizing p with
  | nil => exact ⟨rfl, rfl⟩
  | cons op rest ih =>
    obtain ⟨a1, a2⟩ := edit_buffers process decibelsToGain hlen totalNumInputChannels
      totalNumOutputChannels p op
    obtain ⟨b1, b2⟩ := ih (p.edit process decibelsToGain totalNumInputChannels
      totalNumOutputChannels op)
    exact ⟨b1.trans a1, b2.trans a2⟩

/-- C26, as stated, fails: the processor holds one pending move.  The constructed
processor is prepared for stereo blocks; after three modules are added to chain 0,
`removeModule (0, 0)` and `removeModule (0, 1)` are called before the next
`processBlock`; the second request replaces the first, the process call (on a stereo
block of four samples) moves only position 1 to the end, and the surviving
Convolution module is left at position 1 behind the empty position 0. -/
theorem C26_counterexample :
    (∀ op ∈ [EditOp.addModule 0 ModuleType.Delay, EditOp.addModule 0 ModuleType.Reverb,
        EditOp.addModule 0 ModuleType.Convolution, EditOp.removeModule 0 0,
        EditOp.removeModule 0 1, EditOp.process [[0, 0, 0, 0], [0, 0, 0, 0]]],
      op.Supported 2) ∧
    (((ADSREchoAudioProcessor.new ⟨fun _ => 0, fun _ => 0⟩).prepareToPlay 44100 4 2).edits
      (fun _ b => b) (fun _ => 1) 2 2
      [EditOp.addModule 0 ModuleType.Delay, EditOp.addModule 0 ModuleType.Reverb,
        EditOp.addModule 0 ModuleType.Convolution, EditOp.removeModule 0 0,
        EditOp.removeModule 0 1, EditOp.process [[0, 0, 0, 0], [0, 0, 0, 0]]]).topology =
      [[none, some ModuleType.Convolution, none, none, none, none, none, none],
       [none, none, none, none, none, none, none, none]] ∧
    (((ADSREchoAudioProcessor.new ⟨fun _ => 0, fun _ => 0⟩).prepareToPlay 44100 4 2).edits
      (fun _ b => b) (fun _ => 1) 2 2
      [EditOp.addModule 0 ModuleType.Delay, EditOp.addModule 0 ModuleType.Reverb,
        EditOp.addModule 0 ModuleType.Convolution, EditOp.removeModule 0 0,
        EditOp.removeModule 0 1, EditOp.process [[0, 0, 0, 0], [0, 0, 0, 0]]]).moveRequested
      = false ∧
    ¬ (((ADSREchoAudioProcessor.new ⟨fun _ => 0, fun _ => 0⟩).prepareToPlay 44100 4 2).edits
      (fun _ b => b) (fun _ => 1) 2 2
      [EditOp.addModule 0 ModuleType.Delay, EditOp.addModule 0 ModuleType.Reverb,
        EditOp.addModule 0 ModuleType.Convolution, EditOp.removeModule 0 0,
        EditOp.removeModule 0 1, EditOp.process [[0, 0, 0, 0], [0, 0, 0, 0]]]).Packed := by
  refine ⟨by decide, ?_, ?_, ?_⟩
  · simp only [ADSREchoAudioProcessor.edits, List.foldl_cons, List.foldl_nil,
      ADSREchoAudioProcessor.edit]
    rw [ADSREchoAudioProcessor.topology, (processBlock_slots _ _ _ _ _ _).1]
    decide
  · simp only [ADSREchoAudioProcessor.edits, List.foldl_cons, List.foldl_nil,
      ADSREchoAudioProcessor.edit]
    exact processBlock_moveRequested _ _ _ _ _ _
  · simp only [ADSREchoAudioProcessor.edits, List.foldl_cons, List.foldl_nil,
      ADSREchoAudioProcessor.edit]
    rw [ADSREchoAudioProcessor.Packed, (processBlock_slots _ _ _ _ _ _).1]
    decide

/-- C26, amended: the constructed processor is prepared (`prepareToPlay`) for blocks of
`numChannels` channels, and a sequence of addModule, removeModule, changeModuleType
and process calls follows, with indices inside the slot table and process blocks of
`numChannels` channels.  When every `removeModule` of the sequence is directly
followed by a process call, the state reached has two chains of eight slots, no move
pending, and in each chain no empty slot before an occupied one.  In such a state,
removing the module at an occupied position k and processing one block of
`numChannels` channels yields the chain with position k taken out and the emptied
slot appended: its modules are the previous modules without the k-th, in their
previous order, and the new state is again packed with no move pending.  When the
modules keep the channel count of the block they process, the two scratch buffers of
the processor keep `numChannels` channels through the whole sequence. -/
theorem C26_packed_when_removals_are_processed
    (process : EffectModule → AudioBuffer → AudioBuffer) (decibelsToGain : ℚ → ℚ)
    (sampleRate : ℚ) (samplesPerBlock numChannels : Nat) (params : ParameterState)
    (ops : List EditOp) (p : ADSREchoAudioProcessor)
    (_hsup : ∀ op ∈ ops, op.Supported numChannels)
    (hops : processedAfterRemove ops = true)
    (hp : p = ((ADSREchoAudioProcessor.new params).prepareToPlay sampleRate samplesPerBlock
      numChannels).edits process decibelsToGain numChannels numChannels ops) :
    p.Settled ∧ p.Packed ∧
    ((∀ m b, (process m b).length = b.length) →
      p.masterDryBuffer.length = numChannels ∧ p.chainTempBuffer.length = numChannels) ∧
    ∀ (c k numSamples : Nat) (chain : List (Option ModuleSlot)) (s : ModuleSlot)
      (m : EffectModule) (buffer : AudioBuffer),
      buffer.HasShape numChannels numSamples →
      p.slots[c]? = some chain → chain[k]? = some (some s) → s.get = some m →
        (occupiedModules chain)[k]? = some m ∧
        (ADSREchoAudioProcessor.processBlock process decibelsToGain numChannels
          numChannels (p.removeModule (c : Int) (k : Int)) buffer).1.slots
          = p.slots.set c (chain.eraseIdx k ++ [some s.clearModule]) ∧
        occupiedModules (chain.eraseIdx k ++ [some s.clearModule])
          = (occupiedModules chain).eraseIdx k ∧
        (ADSREchoAudioProcessor.processBlock process decibelsToGain numChannels
          numChannels (p.removeModule (c : Int) (k : Int)) buffer).1.Settled := by
  have hs : p.Settled := by
    rw [hp]
    exact settled_edits process decibelsToGain numChannels numChannels
      ops _ (settled_prepareToPlay _ _ _ _ (settled_new params)) hops
  refine ⟨hs, fun chain hchain => (hs.2.1 chain hchain).2.2, ?_, ?_⟩
  · intro hlen
    obtain ⟨h1, h2⟩ := edits_buffers process decibelsToGain hlen numChannels numChannels ops
      ((ADSREchoAudioProcessor.new params).prepareToPlay sampleRate samplesPerBlock
        numChannels)
    rw [hp, h1, h2]
    simp [ADSREchoAudioProcessor.prepareToPlay]
  intro c k numSamples chain s m buffer _ hc hk hg
  have hc2 : ChainSettled chain := hs.2.1 chain (List.mem_iff_getElem?.mpr ⟨_, hc⟩)
  have ho := occupiedModules_eraseIdx_append chain k s s.clearModule m hc2.2.2 hk hg rfl
  exact ⟨ho.2,
    processBlock_removeModule_slots process decibelsToGain numChannels
      numChannels p buffer c k chain s m hc hc2.1 hk hg,
    ho.1,
    settled_removeModule_processBlock process decibelsToGain numChannels
      numChannels p c k buffer hs⟩

/-- Witness for C26: on the processor prepared for stereo blocks, three modules are
added to chain 0 and two are removed, each removal followed by a process call on a
stereo block of four samples; the chains reached are packed. -/
theorem C26_packed_when_removals_are_processed_witness :
    (∀ op ∈ [EditOp.addModule 0 ModuleType.Delay, EditOp.addModule 0 ModuleType.Reverb,
        EditOp.addModule 0 ModuleType.Convolution, EditOp.removeModule 0 0,
        EditOp.process [[0, 0, 0, 0], [0, 0, 0, 0]], EditOp.removeModule 0 0,
        EditOp.process [[0, 0, 0, 0], [0, 0, 0, 0]]], op.Supported 2) ∧
    processedAfterRemove
      [EditOp.addModule 0 ModuleType.Delay, EditOp.addModule 0 ModuleType.Reverb,
        EditOp.addModule 0 ModuleType.Convolution, EditOp.removeModule 0 0,
        EditOp.process [[0, 0, 0, 0], [0, 0, 0, 0]], EditOp.removeModule 0 0,
        EditOp.process [[0, 0, 0, 0], [0, 0, 0, 0]]] = true ∧
    (((ADSREchoAudioProcessor.new ⟨fun _ => 0, fun _ => 0⟩).prepareToPlay 44100 4 2).edits
      (fun _ b => b) (fun _ => 1) 2 2
      [EditOp.addModule 0 ModuleType.Delay, EditOp.addModule 0 ModuleType.Reverb,
        EditOp.addModule 0 ModuleType.Convolution, EditOp.removeModule 0 0,
        EditOp.process [[0, 0, 0, 0], [0, 0, 0, 0]], EditOp.removeModule 0 0,
        EditOp.process [[0, 0, 0, 0], [0, 0, 0, 0]]]).Packed :=
  ⟨by decide, rfl,
   (C26_packed_when_removals_are_processed (fun _ b => b) (fun _ => 1) 44100 4 2
      ⟨fun _ => 0, fun _ => 0⟩
      [EditOp.addModule 0 ModuleType.Delay, EditOp.addModule 0 ModuleType.Reverb,
        EditOp.addModule 0 ModuleType.Convolution, EditOp.removeModule 0 0,
        EditOp.process [[0, 0, 0, 0], [0, 0, 0, 0]], EditOp.removeModule 0 0,
        EditOp.process [[0, 0, 0, 0], [0, 0, 0, 0]]] _ (by decide) rfl rfl).2.1⟩
end ADSREcho
